import Mathlib

/-!
# mget: a shallow embedding of `libmget/http.c`, `libmget/buffer_printf.c`, `libmget/mem.c` and `src/options.c`

The header parsers, the request builder and the credentials of `http.c`, the
formatter of `buffer_printf.c` over a model of the byte buffer, `mget_strdup`
of `mem.c`, and the options table, the command line and the configuration
file of `options.c`.

Bytes are natural numbers below 256.  A C string (`const char *`) is the list
of the bytes it points to; the end of the list stands for the terminating NUL,
so `*s` is `cur s`.  A NUL byte inside a list also ends the C string, exactly as
it does for the C library functions.  A pointer that may be `NULL` is an
`Option`.
-/

namespace Mget

/-! ## Bytes and `<ctype.h>` (C locale) -/

/-- The bytes of a string literal. -/
def bytes (s : String) : List Nat := s.toList.map Char.toNat

/-- The byte `*s` a C string points to, NUL at its end. -/
def cur (s : List Nat) : Nat := s.headD 0

/-- The C string stored at `s`: the bytes up to the first NUL. -/
def cstr (s : List Nat) : List Nat := s.takeWhile (fun c => c != 0)

/-- Model of `isblank`: space or horizontal tab. -/
def isblank (c : Nat) : Bool := c == 32 || c == 9

/-- Model of `isspace`: space, `\t`, `\n`, `\v`, `\f`, `\r`. -/
def isspace (c : Nat) : Bool := c == 32 || (9 ≤ c && c ≤ 13)

/-- Model of `isdigit`. -/
def isdigit (c : Nat) : Bool := 48 ≤ c && c ≤ 57

/-- Model of `isalpha` for the scan set `[a-zA-Z]`. -/
def isalpha (c : Nat) : Bool := (65 ≤ c && c ≤ 90) || (97 ≤ c && c ≤ 122)

/-- Model of `tolower`. -/
def tolower (c : Nat) : Nat := if 65 ≤ c ∧ c ≤ 90 then c + 32 else c

/-- The test `strcasecmp(a, b) == 0`. -/
def strcaseeq (a b : List Nat) : Bool := (cstr a).map tolower == (cstr b).map tolower

/-- The test `mget_strcasecmp(a, b) == 0`, the NULL-tolerant comparison of libmget: two
NULL pointers are equal, a NULL pointer differs from every string. -/
def mget_strcaseeq (a b : Option (List Nat)) : Bool :=
  match a, b with
  | none, none => true
  | some x, some y => strcaseeq x y
  | _, _ => false

/-- Model of `strchr(s, c)` for `c != 0`: the suffix starting at the first `c` of the C
string, `none` for `NULL`. -/
def strchr : List Nat → Nat → Option (List Nat)
  | [], _ => none
  | x :: xs, c => if x = c then some (x :: xs) else if x = 0 then none else strchr xs c

/-- Model of `strstr(s, needle)`: the offset of the first occurrence of `needle` in the
C string at `s`. -/
def strstr : List Nat → List Nat → Option Nat
  | [], needle => if needle = [] then some 0 else none
  | x :: xs, needle =>
    if needle.isPrefixOf (x :: xs) then some 0
    else if x = 0 then none
    else (strstr xs needle).map (· + 1)

/-! ## Number conversions of the C library -/

/-- Value of a decimal digit string, most significant digit first. -/
def decval (ds : List Nat) : Nat := ds.foldl (fun a d => 10 * a + (d - 48)) 0

/-- Value of a hexadecimal digit, `none` for any other byte. -/
def hexdigit (c : Nat) : Option Nat :=
  if 48 ≤ c ∧ c ≤ 57 then some (c - 48)
  else if 97 ≤ c ∧ c ≤ 102 then some (c - 87)
  else if 65 ≤ c ∧ c ≤ 70 then some (c - 55)
  else none

/-- Accumulate the leading hexadecimal digits of `s`. -/
def hexval : Nat → List Nat → Nat
  | a, [] => a
  | a, c :: cs =>
    match hexdigit c with
    | some d => hexval (16 * a + d) cs
    | none => a

/-- Saturation of `strtol`/`strtoll` on a 64-bit `long`. -/
def clamp64 (sign : Bool) (mag : Nat) : Int :=
  if sign then (if mag ≤ 2 ^ 63 then -(mag : Int) else -(2 ^ 63 : Int))
  else (if mag < 2 ^ 63 then (mag : Int) else (2 ^ 63 - 1 : Int))

/-- Model of `strtoll(s, NULL, 10)`: blanks, an optional sign, decimal digits. -/
def strtoll10 (s : List Nat) : Int :=
  let s := s.dropWhile isspace
  let neg := cur s == 45
  let s := if cur s == 45 || cur s == 43 then s.tail else s
  clamp64 neg (decval (s.takeWhile isdigit))

/-- Model of `atoll(s)`. -/
def atoll (s : List Nat) : Int := strtoll10 s

/-- Model of `atol(s)` (a 64-bit `long`). -/
def atol (s : List Nat) : Int := strtoll10 s

/-- Model of `atoi(s)`: `(int) strtol(s, NULL, 10)`, the conversion to `int` keeps the low
32 bits. -/
def atoi (s : List Nat) : Int := (strtoll10 s + 2 ^ 31) % 2 ^ 32 - 2 ^ 31

/-- Model of `strtoll(s, NULL, 16)`: blanks, an optional sign, an optional `0x`, then
hexadecimal digits. -/
def strtoll16 (s : List Nat) : Int :=
  let s := s.dropWhile isspace
  let neg := cur s == 45
  let s := if cur s == 45 || cur s == 43 then s.tail else s
  let s := if cur s == 48 && (cur s.tail == 120 || cur s.tail == 88) then s.tail.tail else s
  clamp64 neg (hexval 0 s)

/-- A `(size_t)` cast of a 64-bit signed value. -/
def to_size_t (v : Int) : Nat := (v % 2 ^ 64).toNat

/-! ## `sscanf` directives -/

/-- The directive `%Nd`: skip white space, then convert at most `width` bytes
made of an optional sign and decimal digits.  `none` is a matching failure. -/
def scan_int (width : Nat) (s : List Nat) : Option (Int × List Nat) :=
  let s := s.dropWhile isspace
  let signed := cur s == 45 || cur s == 43
  let neg := cur s == 45
  let body := if signed then s.tail else s
  let room := if signed then width - 1 else width
  let ds := (body.takeWhile isdigit).take room
  if ds = [] then none
  else some ((if neg then -(decval ds : Int) else (decval ds : Int)), body.drop ds.length)

/-- A literal byte of a `sscanf` format. -/
def scan_lit (c : Nat) (s : List Nat) : Option (List Nat) :=
  match s with
  | [] => none
  | x :: xs => if x = c then some xs else none

/-- A run of literal bytes of a `sscanf` format. -/
def scan_lits : List Nat → List Nat → Option (List Nat)
  | [], s => some s
  | c :: cs, s => (scan_lit c s).bind (scan_lits cs)

/-- White space in a `sscanf` format: any amount of input white space. -/
def scan_ws (s : List Nat) : List Nat := s.dropWhile isspace

/-- The directives `%N[...]` and `%Ns` without the leading white space: at
least one and at most `width` bytes of the C string that satisfy `p`. -/
def scan_set (width : Nat) (p : Nat → Bool) (s : List Nat) : Option (List Nat × List Nat) :=
  let run := ((cstr s).takeWhile p).take width
  if run = [] then none else some (run, s.drop run.length)

/-- The directive `%*[a-zA-Z]`: at least one letter, nothing stored. -/
def scan_alpha (s : List Nat) : Option (List Nat) :=
  if isalpha (cur s) then some (s.dropWhile isalpha) else none

/-- The directive `%3s`: skip white space, then one to three bytes of the C
string that are not white space. -/
def scan_s3 (s : List Nat) : Option (List Nat × List Nat) :=
  scan_set 3 (fun c => !isspace c) (s.dropWhile isspace)

/-! ## Header-value parsers -/

/-- Model of `_http_isseperator`: membership in the table `http_ctype`. -/
def http_isseperator (c : Nat) : Bool :=
  c == 40 || c == 41 || c == 60 || c == 62 || c == 64 || c == 44 || c == 59 || c == 58 ||
  c == 92 || c == 34 || c == 47 || c == 91 || c == 93 || c == 63 || c == 61 || c == 123 ||
  c == 125 || c == 32 || c == 9

/-- Model of `http_istoken`. -/
def http_istoken (c : Nat) : Bool := 32 < c && c ≤ 126 && !http_isseperator c

/-- Model of `http_parse_token`: returns the new position and the token. -/
def http_parse_token (s : List Nat) : List Nat × List Nat :=
  (s.dropWhile http_istoken, s.takeWhile http_istoken)

/-- The relaxed scanning loop of `http_parse_quoted_string`, started after the
opening quote: the interior and the position where the loop stops. -/
def quoted_scan : List Nat → List Nat × List Nat
  | [] => ([], [])
  | [c] => if c = 0 ∨ c = 34 then ([], [c]) else ([c], [])
  | c :: d :: ds =>
    if c = 0 ∨ c = 34 then ([], c :: d :: ds)
    else if c = 92 ∧ d ≠ 0 then
      let r := quoted_scan ds
      (c :: d :: r.1, r.2)
    else
      let r := quoted_scan (d :: ds)
      (c :: r.1, r.2)

/-- Model of `http_parse_quoted_string`: returns the new position and the string, `none`
when `s` does not start with a double quote. -/
def http_parse_quoted_string (s : List Nat) : List Nat × Option (List Nat) :=
  if cur s = 34 then
    let r := quoted_scan s.tail
    (if cur r.2 = 34 then r.2.tail else r.2, some r.1)
  else (s, none)

/-- Model of `http_parse_param`: returns the new position, the parameter name and its
value. -/
def http_parse_param (s : List Nat) : List Nat × Option (List Nat) × Option (List Nat) :=
  let s := s.dropWhile isblank
  let s := if cur s = 59 then s.tail.dropWhile isblank else s
  let param := s.takeWhile http_istoken
  let s := (s.dropWhile http_istoken).dropWhile isblank
  if cur s = 61 then
    let s := s.tail.dropWhile isblank
    if cur s = 34 then
      let r := http_parse_quoted_string s
      (r.1, some param, r.2)
    else
      let r := http_parse_token s
      (r.1, some param, some r.2)
  else (s, some param, none)

/-- Model of `http_parse_name_fixed`: returns the position after the colon and the
name copied into a buffer of `name_size` bytes. -/
def http_parse_name_fixed (s : List Nat) (name_size : Nat) : List Nat × List Nat :=
  let s := s.dropWhile isblank
  let name := (s.takeWhile http_istoken).take (name_size - 1)
  let s := (s.drop name.length).dropWhile (fun c => c != 0 && c != 58)
  (if cur s = 58 then s.tail else s, name)

/-- The `enum` of the `rel` attribute of a `Link` header. -/
inductive LinkRel where
  | link_rel_none
  | link_rel_describedby
  | link_rel_duplicate
  deriving DecidableEq, Repr

/-- Model of `MGET_HTTP_LINK`. -/
structure MGET_HTTP_LINK where
  uri : Option (List Nat) := none
  type : Option (List Nat) := none
  pri : Int := 0
  rel : LinkRel := LinkRel.link_rel_none
  deriving DecidableEq, Repr

/-- Model of `MGET_HTTP_DIGEST`. -/
structure MGET_HTTP_DIGEST where
  algorithm : Option (List Nat) := none
  encoded_digest : Option (List Nat) := none
  deriving DecidableEq, Repr

/-- Modelled from the spec: the string map of `stringmap.c`, which is not part
of these sources; a case-insensitive mapping from parameter name to parameter
value, kept as the list of its bindings in insertion order. -/
abbrev StringMap := List (List Nat × Option (List Nat))

/-- Modelled from the spec: `mget_stringmap_put_noalloc` on a map created by
`mget_stringmap_create_nocase`; a binding whose key equals `key` up to letter
case is replaced. -/
def mget_stringmap_put_noalloc (m : StringMap) (key : List Nat) (value : Option (List Nat)) :
    StringMap :=
  m.filter (fun kv => !strcaseeq kv.1 key) ++ [(key, value)]

/-- Model of `MGET_HTTP_CHALLENGE`. -/
structure MGET_HTTP_CHALLENGE where
  auth_scheme : Option (List Nat) := none
  params : Option StringMap := none
  deriving DecidableEq, Repr

/-- Model of `MGET_COOKIE`, with the fields the parser writes. -/
structure MGET_COOKIE where
  name : Option (List Nat) := none
  value : Option (List Nat) := none
  domain : Option (List Nat) := none
  path : Option (List Nat) := none
  expires : Int := 0
  maxage : Int := 0
  domain_dot : Bool := false
  secure_only : Bool := false
  http_only : Bool := false
  deriving DecidableEq, Repr

/-- What `http_parse_link` does with one parameter `name=value`. -/
def link_param (link : MGET_HTTP_LINK) (name value : List Nat) : MGET_HTTP_LINK :=
  if strcaseeq name (bytes "rel") then
    if strcaseeq value (bytes "describedby") then { link with rel := LinkRel.link_rel_describedby }
    else if strcaseeq value (bytes "duplicate") then { link with rel := LinkRel.link_rel_duplicate }
    else link
  else if strcaseeq name (bytes "pri") then { link with pri := atoi value }
  else if strcaseeq name (bytes "type") then { link with type := some value }
  else link

/-- The loop `while (*s == ';')` of `http_parse_link`; every round consumes the
semicolon, `fuel` bounds the number of rounds by the length of the input. -/
def link_params : Nat → MGET_HTTP_LINK → List Nat → MGET_HTTP_LINK × List Nat
  | 0, link, s => (link, s)
  | fuel + 1, link, s =>
    if cur s = 59 then
      let r := http_parse_param s
      match r.2.1, r.2.2 with
      | some name, some value => link_params fuel (link_param link name value) (r.1.dropWhile isblank)
      | _, _ => link_params fuel link r.1
    else (link, s)

/-- Model of `http_parse_link`: the returned position is `none` when the function
returns `NULL` (a `<` without `>`). -/
def http_parse_link (s : List Nat) : Option (List Nat) × MGET_HTTP_LINK :=
  let s := s.dropWhile isblank
  if cur s = 60 then
    match strchr s.tail 62 with
    | none => (none, {})
    | some e =>
      let uri := s.tail.take (s.tail.length - e.length)
      let r := link_params e.length { uri := some uri } (e.tail.dropWhile isblank)
      (some (r.2.dropWhile (fun c => c != 0 && !isblank c)), r.1)
  else (some s, {})

/-- Model of `http_parse_digest`. -/
def http_parse_digest (s : List Nat) : List Nat × MGET_HTTP_DIGEST :=
  let t := http_parse_token (s.dropWhile isblank)
  let s := t.1.dropWhile isblank
  if cur s = 61 then
    let s := s.tail.dropWhile isblank
    if cur s = 34 then
      let q := http_parse_quoted_string s
      (q.1.dropWhile (fun c => c != 0 && !isblank c),
        { algorithm := some t.2, encoded_digest := q.2 })
    else
      let stop := fun c => c != 0 && !isblank c && c != 44 && c != 59
      ((s.dropWhile stop).dropWhile (fun c => c != 0 && !isblank c),
        { algorithm := some t.2, encoded_digest := some (s.takeWhile stop) })
  else (s.dropWhile (fun c => c != 0 && !isblank c), { algorithm := some t.2 })

/-- The `do ... while (*s)` loop of `http_parse_challenge`; every round that
continues consumes a comma. -/
def challenge_params : Nat → Option StringMap → List Nat → Option StringMap × List Nat
  | 0, m, s => (m, s)
  | fuel + 1, m, s =>
    let r := http_parse_param s
    let m := match r.2.1 with
      | some name => some (mget_stringmap_put_noalloc (m.getD []) name r.2.2)
      | none => m
    let s := r.1.dropWhile isblank
    if cur s ≠ 44 then (m, s)
    else if cur s.tail ≠ 0 then challenge_params fuel m s.tail
    else (m, s.tail)

/-- Model of `http_parse_challenge`. -/
def http_parse_challenge (s : List Nat) : List Nat × MGET_HTTP_CHALLENGE :=
  let t := http_parse_token (s.dropWhile isblank)
  let r := challenge_params (t.1.length + 1) none t.1
  (r.2, { auth_scheme := some t.2, params := r.1 })

/-- Model of `http_parse_location`. -/
def http_parse_location (s : List Nat) : List Nat × List Nat :=
  let s := s.dropWhile isblank
  (s.dropWhile (fun c => c != 0 && !isblank c), s.takeWhile (fun c => c != 0 && !isblank c))

/-- The values of `transfer_encoding`. -/
inductive TransferEncoding where
  | transfer_encoding_identity
  | transfer_encoding_chunked
  deriving DecidableEq, Repr

/-- The values of `content_encoding`. -/
inductive ContentEncoding where
  | mget_content_encoding_identity
  | mget_content_encoding_gzip
  | mget_content_encoding_deflate
  deriving DecidableEq, Repr

/-- Model of `http_parse_transfer_encoding`. -/
def http_parse_transfer_encoding (s : List Nat) : List Nat × TransferEncoding :=
  let s := s.dropWhile isblank
  (s.dropWhile http_istoken,
    if strcaseeq s (bytes "identity") then TransferEncoding.transfer_encoding_identity
    else TransferEncoding.transfer_encoding_chunked)

/-- Model of `http_parse_content_encoding`. -/
def http_parse_content_encoding (s : List Nat) : List Nat × ContentEncoding :=
  let s := s.dropWhile isblank
  (s.dropWhile http_istoken,
    if strcaseeq s (bytes "gzip") || strcaseeq s (bytes "x-gzip") then
      ContentEncoding.mget_content_encoding_gzip
    else if strcaseeq s (bytes "deflate") then ContentEncoding.mget_content_encoding_deflate
    else ContentEncoding.mget_content_encoding_identity)

/-- Model of `http_parse_connection`. -/
def http_parse_connection (s : List Nat) : List Nat × Bool :=
  let s := s.dropWhile isblank
  (s.dropWhile http_istoken, strcaseeq s (bytes "keep-alive"))

/-- The loop `while (*s)` of `http_parse_content_type` that looks for the
`charset` parameter.  `http_parse_param` may return its argument unchanged (at
a separator that is neither blank nor `;`); the loop has no other state, so it
then runs for ever, which is the result `none`. -/
def content_type_charset : Nat → List Nat → Option (List Nat × Option (List Nat))
  | 0, _ => none
  | fuel + 1, s =>
    if cur s = 0 then some (s, none)
    else
      let r := http_parse_param s
      if mget_strcaseeq (some (bytes "charset")) r.2.1 then some (r.1, r.2.2)
      else if r.1.length < s.length then content_type_charset fuel r.1
      else none

/-- Model of `http_parse_content_type` called with both out-parameters: the position,
the media type and the charset; `none` when the function does not return. -/
def http_parse_content_type (s : List Nat) :
    Option (List Nat × List Nat × Option (List Nat)) :=
  let s := s.dropWhile isblank
  let p := fun c => c != 0 && (http_istoken c || c == 47)
  (content_type_charset ((s.dropWhile p).length + 1) (s.dropWhile p)).map
    (fun r => (r.1, s.takeWhile p, r.2))

/-! ## Dates -/

/-- C integer division (truncation towards zero). -/
def cdiv (a b : Int) : Int := Int.tdiv a b

/-- C remainder. -/
def cmod (a b : Int) : Int := Int.tmod a b

/-- Model of `leap_days`. -/
def leap_days (y1 y2 : Int) : Int :=
  let y1 := y1 - 1
  let y2 := y2 - 1
  (cdiv y2 4 - cdiv y1 4) - (cdiv y2 100 - cdiv y1 100) + (cdiv y2 400 - cdiv y1 400)

/-- The table `mnames`. -/
def mnames : List (List Nat) :=
  [bytes "Jan", bytes "Feb", bytes "Mar", bytes "Apr", bytes "May", bytes "Jun",
   bytes "Jul", bytes "Aug", bytes "Sep", bytes "Oct", bytes "Nov", bytes "Dec"]

/-- The table `days_per_month`. -/
def days_per_month : List Int := [31, 28, 31, 30, 31, 30, 31, 31, 30, 31, 30, 31]

/-- The table `sum_of_days`. -/
def sum_of_days : List Int := [0, 31, 59, 90, 120, 151, 181, 212, 243, 273, 304, 334]

/-- The fields a date `sscanf` stores. -/
structure DateFields where
  day : Int
  mname : List Nat
  year : Int
  hour : Int
  min : Int
  sec : Int
  deriving DecidableEq, Repr

/-- The tail `%2d:%2d:%2d` shared by the three date formats. -/
def scan_hms (s : List Nat) : Option (Int × Int × Int × List Nat) := do
  let h ← scan_int 2 s
  let s ← scan_lit 58 h.2
  let m ← scan_int 2 s
  let s ← scan_lit 58 m.2
  let x ← scan_int 2 s
  pure (h.1, m.1, x.1, x.2)

/-- All six conversions of `" %*[a-zA-Z], %02d %3s %4d %2d:%2d:%2d"`. -/
def scan_rfc1123 (s : List Nat) : Option DateFields := do
  let s ← scan_alpha (scan_ws s)
  let s ← scan_lit 44 s
  let d ← scan_int 2 (scan_ws s)
  let m ← scan_s3 (scan_ws d.2)
  let y ← scan_int 4 (scan_ws m.2)
  let t ← scan_hms (scan_ws y.2)
  pure { day := d.1, mname := m.1, year := y.1, hour := t.1, min := t.2.1, sec := t.2.2.1 }

/-- All six conversions of `" %*[a-zA-Z], %2d-%3s-%4d %2d:%2d:%2d"`. -/
def scan_rfc850 (s : List Nat) : Option DateFields := do
  let s ← scan_alpha (scan_ws s)
  let s ← scan_lit 44 s
  let d ← scan_int 2 (scan_ws s)
  let s ← scan_lit 45 d.2
  let m ← scan_s3 s
  let s ← scan_lit 45 m.2
  let y ← scan_int 4 s
  let t ← scan_hms (scan_ws y.2)
  pure { day := d.1, mname := m.1, year := y.1, hour := t.1, min := t.2.1, sec := t.2.2.1 }

/-- All six conversions of `" %*[a-zA-Z] %3s %2d %2d:%2d:%2d %4d"`. -/
def scan_asctime (s : List Nat) : Option DateFields := do
  let s ← scan_alpha (scan_ws s)
  let m ← scan_s3 (scan_ws s)
  let d ← scan_int 2 (scan_ws m.2)
  let t ← scan_hms (scan_ws d.2)
  let y ← scan_int 4 (scan_ws t.2.2.2)
  pure { day := d.1, mname := m.1, year := y.1, hour := t.1, min := t.2.1, sec := t.2.2.1 }

/-- The loop over `mnames`: the number of the first month whose name equals
`mname` up to letter case, 0 when there is none. -/
def month_of (mname : List Nat) : Int :=
  match mnames.findIdx? (fun m => strcaseeq mname m) with
  | some it => (it : Int) + 1
  | none => 0

/-- Model of `parse_rfc1123_date`, after the `sscanf` that succeeded. -/
def date_to_time (f : DateFields) : Int :=
  let mon := month_of f.mname
  let year := if f.year < 70 ∧ f.year ≥ 0 then f.year + 2000
    else if f.year ≥ 70 ∧ f.year ≤ 99 then f.year + 1900 else f.year
  let year := if year < 1970 then 1970 else year
  let leap_year : Bool := cmod year 4 == 0 && (cmod year 100 != 0 || cmod year 400 == 0)
  let leap_month : Int := if mon == 2 && leap_year then 1 else 0
  if mon < 1 ∨ mon > 12 ∨ f.day < 1 ∨ f.day > days_per_month.getD (mon - 1).toNat 0 + leap_month ∨
      f.hour < 0 ∨ f.hour > 23 ∨ f.min < 0 ∨ f.min > 60 ∨ f.sec < 0 ∨ f.sec > 60 then 0
  else
    let days := 365 * (year - 1970) + leap_days 1970 year
    let days := days + sum_of_days.getD (mon - 1).toNat 0 + (if mon > 2 ∧ leap_year then 1 else 0)
    let days := days + f.day - 1
    ((days * 24 + f.hour) * 60 + f.min) * 60 + f.sec

/-- Model of `parse_rfc1123_date`: the three formats are tried in order, 0 is returned
when none of them converts all six fields. -/
def parse_rfc1123_date (s : List Nat) : Int :=
  match scan_rfc1123 s with
  | some f => date_to_time f
  | none =>
    match scan_rfc850 s with
    | some f => date_to_time f
    | none =>
      match scan_asctime s with
      | some f => date_to_time f
      | none => 0

/-! ## Cookies -/

/-- The byte test of the cookie value loop:
`*s > 32 && *s <= 126 && *s != '\\' && *s != ',' && *s != ';' && *s != '"'`. -/
def cookie_octet (c : Nat) : Bool :=
  32 < c && c ≤ 126 && c != 92 && c != 44 && c != 59 && c != 34

/-- The byte test of the attribute value loop: `*s > 32 && *s <= 126 && *s != ';'`. -/
def cookie_av_octet (c : Nat) : Bool := 32 < c && c ≤ 126 && c != 59

/-- One cookie attribute with a value; `p` is the start of the value and `v`
the bytes up to the end of the value. -/
def cookie_av_value (now : Int) (cookie : MGET_COOKIE) (name p v : List Nat) : MGET_COOKIE :=
  if strcaseeq name (bytes "expires") then { cookie with expires := parse_rfc1123_date p }
  else if strcaseeq name (bytes "max-age") then
    let offset := atol p
    { cookie with maxage := if offset > 0 then now + offset else 0 }
  else if strcaseeq name (bytes "domain") then
    if v ≠ [] then
      if cur v = 46 then
        { cookie with domain_dot := true, domain := some (v.tail.dropWhile (fun c => c == 46)) }
      else { cookie with domain_dot := false, domain := some v }
    else cookie
  else if strcaseeq name (bytes "path") then { cookie with path := some v }
  else cookie

/-- One cookie attribute without a value. -/
def cookie_av_flag (cookie : MGET_COOKIE) (name : List Nat) : MGET_COOKIE :=
  if strcaseeq name (bytes "secure") then { cookie with secure_only := true }
  else if strcaseeq name (bytes "httponly") then { cookie with http_only := true }
  else cookie

/-- The `do ... while (*s)` loop of `http_parse_setcookie` over the cookie
attributes; every round that continues consumes a semicolon. -/
def cookie_avs : Nat → Int → MGET_COOKIE → List Nat → MGET_COOKIE × List Nat
  | 0, _, cookie, s => (cookie, s)
  | fuel + 1, now, cookie, s =>
    let s := s.dropWhile (fun c => c != 0 && c != 59)
    if cur s = 0 then (cookie, s)
    else
      let t := http_parse_token (s.tail.dropWhile isspace)
      let s := t.1.dropWhile (fun c => c != 0 && c != 61 && c != 59)
      if cur s = 61 then
        let p := s.tail
        let cookie := cookie_av_value now cookie t.2 p (p.takeWhile cookie_av_octet)
        let s := p.dropWhile cookie_av_octet
        if cur s ≠ 0 then cookie_avs fuel now cookie s else (cookie, s)
      else
        let cookie := cookie_av_flag cookie t.2
        if cur s ≠ 0 then cookie_avs fuel now cookie s else (cookie, s)

/-- Model of `http_parse_setcookie`; `now` is the value of `time(NULL)`.
`mget_cookie_init_cookie` and `mget_cookie_free_cookie` (cookie.c) leave a
cookie whose fields are all zero. -/
def http_parse_setcookie (now : Int) (s : List Nat) : List Nat × MGET_COOKIE :=
  let t := http_parse_token (s.dropWhile isspace)
  let s := t.1.dropWhile isspace
  if t.2 ≠ [] ∧ cur s = 61 then
    let s := s.tail.dropWhile isspace
    let s := if cur s = 34 then s.tail else s
    let cookie : MGET_COOKIE := { name := some t.2, value := some (s.takeWhile cookie_octet) }
    let r := cookie_avs ((s.dropWhile cookie_octet).length + 1) now cookie (s.dropWhile cookie_octet)
    (r.2, r.1)
  else (s, {})

/-! ## The response parser -/

/-- Modelled from the spec: `mget_vector_add` of `vector.c`, which is not part
of these sources; on a vector without a comparison function the element is
appended, so that a sequence keeps its entries in first-seen order.  A `NULL`
vector is the empty list. -/
def mget_vector_add {α : Type} (v : List α) (x : α) : List α := v ++ [x]

/-- Model of `MGET_HTTP_RESPONSE`. -/
structure MGET_HTTP_RESPONSE where
  major : Int := 0
  minor : Int := 0
  code : Int := 0
  reason : List Nat := []
  location : Option (List Nat) := none
  links : List MGET_HTTP_LINK := []
  digests : List MGET_HTTP_DIGEST := []
  cookies : List MGET_COOKIE := []
  challenges : List MGET_HTTP_CHALLENGE := []
  content_type : Option (List Nat) := none
  content_type_encoding : Option (List Nat) := none
  content_length : Nat := 0
  last_modified : Int := 0
  content_length_valid : Bool := false
  transfer_encoding : TransferEncoding := TransferEncoding.transfer_encoding_identity
  content_encoding : ContentEncoding := ContentEncoding.mget_content_encoding_identity
  keep_alive : Bool := false
  header : Option (List Nat) := none
  deriving DecidableEq, Repr

/-- How a call of `http_parse_response` ends. -/
inductive ParseResult where
  /-- The response is returned. -/
  | resp (r : MGET_HTTP_RESPONSE)
  /-- The pointer `NULL` is returned: no status line. -/
  | null
  /-- The call does not return (the charset loop of `http_parse_content_type`). -/
  | hang
  /-- The function `strcasecmp` is called with the `NULL` pointer `resp->content_type`. -/
  | fault
  deriving DecidableEq, Repr

/-- The status-line `sscanf(buf, " HTTP/%3hd.%3hd %3hd %31[^\r\n] ", ...)`:
`none` when fewer than three fields are converted; the reason stays empty when
its conversion fails. -/
def scan_status (buf : List Nat) : Option (Int × Int × Int × List Nat) := do
  let s ← scan_lits (bytes "HTTP/") (scan_ws buf)
  let major ← scan_int 3 s
  let s ← scan_lit 46 major.2
  let minor ← scan_int 3 s
  let code ← scan_int 3 (scan_ws minor.2)
  match scan_set 31 (fun c => c != 13 && c != 10) (scan_ws code.2) with
  | some r => pure (major.1, minor.1, code.1, r.1)
  | none => pure (major.1, minor.1, code.1, [])

/-- The search for the end of the header line in the `for` loop of
`http_parse_response`: `eol = strchr(line + 1, '\n')`, the loop that joins
continuation lines by `*eol = eol[-1] = ' '`, and `eol[-1] = 0`.
`acc` holds the bytes of the line passed so far, the last one first, with the
writes applied.  The result is the C string that is left at `line` and, unless
`eol` is `NULL`, the position `eol + 1`. -/
def line_end : List Nat → List Nat → List Nat × Option (List Nat)
  | acc, [] => (acc.reverse, none)
  | acc, c :: cs =>
    if c = 0 then (acc.reverse, none)
    else if c = 10 then
      if isblank (cur cs) then line_end (32 :: 32 :: acc.tail) cs
      else (acc.tail.reverse, some cs)
    else line_end (c :: acc) cs

/-- The chain of `strcasecmp` tests in the `for` loop of `http_parse_response`:
`name` is the header name and `s` points directly after the colon.  `none`
when `http_parse_content_type` does not return. -/
def http_header_dispatch (now : Int) (resp : MGET_HTTP_RESPONSE) (s name : List Nat) :
    Option MGET_HTTP_RESPONSE :=
  if cdiv resp.code 100 = 3 ∧ strcaseeq name (bytes "Location") then
    some { resp with location := some (http_parse_location s).2 }
  else if cdiv resp.code 100 = 3 ∧ strcaseeq name (bytes "Link") then
    some { resp with links := mget_vector_add resp.links (http_parse_link s).2 }
  else if strcaseeq name (bytes "Digest") then
    some { resp with digests := mget_vector_add resp.digests (http_parse_digest s).2 }
  else if strcaseeq name (bytes "Transfer-Encoding") then
    some { resp with transfer_encoding := (http_parse_transfer_encoding s).2 }
  else if strcaseeq name (bytes "Content-Encoding") then
    some { resp with content_encoding := (http_parse_content_encoding s).2 }
  else if strcaseeq name (bytes "Content-Type") then
    (http_parse_content_type s).map
      (fun t => { resp with content_type := some t.2.1, content_type_encoding := t.2.2 })
  else if strcaseeq name (bytes "Content-Length") then
    some { resp with content_length := to_size_t (atoll s), content_length_valid := true }
  else if strcaseeq name (bytes "Connection") then
    some { resp with keep_alive := (http_parse_connection s).2 }
  else if strcaseeq name (bytes "Last-Modified") then
    some { resp with last_modified := parse_rfc1123_date s }
  else if strcaseeq name (bytes "Set-Cookie") then
    some { resp with cookies := mget_vector_add resp.cookies (http_parse_setcookie now s).2 }
  else if strcaseeq name (bytes "WWW-Authenticate") then
    some { resp with challenges := mget_vector_add resp.challenges (http_parse_challenge s).2 }
  else some resp

/-- The body of the `for` loop of `http_parse_response` after the line has been
cut out: `http_parse_name_fixed(line, name, sizeof(name))` with `char name[32]`,
then the dispatch on the name. -/
def http_parse_header_line (now : Int) (resp : MGET_HTTP_RESPONSE) (line : List Nat) :
    Option MGET_HTTP_RESPONSE :=
  http_header_dispatch now resp (http_parse_name_fixed line 32).1 (http_parse_name_fixed line 32).2

/-- The `for` loop of `http_parse_response`.  The last argument is `eol + 1`,
`none` when `eol` is `NULL`.  Every round moves `line` forward, so `fuel`, the
length of the buffer, is never used up. -/
def http_parse_lines : Nat → Int → MGET_HTTP_RESPONSE → Option (List Nat) →
    Option MGET_HTTP_RESPONSE
  | 0, _, resp, _ => some resp
  | _ + 1, _, resp, none => some resp
  | _ + 1, _, resp, some [] => some resp
  | fuel + 1, now, resp, some (c :: cs) =>
    if c = 0 ∨ c = 13 then some resp
    else
      let r := line_end [c] cs
      match http_parse_header_line now resp r.1 with
      | none => none
      | some resp => http_parse_lines fuel now resp r.2

/-- The workaround at the end of `http_parse_response`. -/
def gzip_workaround (resp : MGET_HTTP_RESPONSE) : ParseResult :=
  if resp.content_encoding = ContentEncoding.mget_content_encoding_gzip then
    match resp.content_type with
    | none => ParseResult.fault
    | some ct =>
      if strcaseeq ct (bytes "application/x-gzip") then
        ParseResult.resp
          { resp with content_encoding := ContentEncoding.mget_content_encoding_identity }
      else ParseResult.resp resp
  else ParseResult.resp resp

/-- Model of `http_parse_response(buf)`; `now` is the value of `time(NULL)` while the
cookies are parsed.  `buf` is read as a C string. -/
def http_parse_response (now : Int) (buf : List Nat) : ParseResult :=
  let buf := cstr buf
  match scan_status buf with
  | none => ParseResult.null
  | some st =>
    match strchr (buf.drop 10) 10 with
    | none => ParseResult.null
    | some eol =>
      let resp : MGET_HTTP_RESPONSE :=
        { major := st.1, minor := st.2.1, code := st.2.2.1, reason := st.2.2.2 }
      match http_parse_lines buf.length now resp (some eol.tail) with
      | none => ParseResult.hang
      | some resp => gzip_workaround resp

/-! ## The response reader -/

/-- The schemes of an IRI. -/
inductive IriScheme where
  | IRI_SCHEME_HTTP
  | IRI_SCHEME_HTTPS
  deriving DecidableEq, Repr

/-- Model of `MGET_HTTP_REQUEST`. -/
structure MGET_HTTP_REQUEST where
  method : List Nat
  scheme : IriScheme := IriScheme.IRI_SCHEME_HTTP
  esc_host : List Nat := []
  esc_resource : List Nat := []
  lines : List (List Nat) := []
  deriving DecidableEq, Repr

/-- Modelled from the spec: the byte stream of the TCP collaborator (net.c is
not part of these sources).  The stream is the list of the segments that are
still to arrive; `mget_tcp_read(tcp, buf, count)` hands over the next segment,
or its first `count` bytes when it is longer.  A read that returns no byte
(the stream is used up, an empty segment, or `count = 0`) stands for a return
value `<= 0`: the peer closed the connection or the read failed. -/
def mget_tcp_read (tcp : List (List Nat)) (count : Nat) : List Nat × List (List Nat) :=
  match tcp with
  | [] => ([], [])
  | seg :: rest =>
    if seg.length ≤ count then (seg, rest) else (seg.take count, seg.drop count :: rest)

/-- Model of `MGET_HTTP_CONNECTION`: the stream and the size of the connection buffer
(`conn->buf->size`, 102400 after `http_open`). -/
structure MGET_HTTP_CONNECTION where
  tcp : List (List Nat)
  bufsize : Nat := 102400
  deriving DecidableEq, Repr

/-- What a call of `http_get_response_cb` leaves behind: the response it
returns (`none` for `NULL`), the content encoding the decompressor was opened
for (`none` when `mget_decompress_open` was not reached), the data of the
successive `mget_decompress` calls, and the rest of the stream. -/
structure Exchange where
  resp : Option MGET_HTTP_RESPONSE
  dc : Option ContentEncoding := none
  fed : List (List Nat) := []
  tcp : List (List Nat)
  deriving DecidableEq, Repr

/-- How a call of `http_get_response_cb` ends. -/
inductive ReadResult where
  /-- The call returns. -/
  | done (x : Exchange)
  /-- The call does not return. -/
  | hang
  /-- Undefined behaviour: `strcasecmp` on a `NULL` content type, a search that
  starts below the buffer, or pointer arithmetic with a negative chunk size. -/
  | fault
  deriving DecidableEq, Repr

/-- Modelled from the spec: the decompressor of decompress.c, which is not part
of these sources, opened for identity coding passes the bytes it is fed to the
sink unchanged. -/
def identity_sink (fed : List (List Nat)) : List Nat := fed.flatten

/-- The four bytes `\r\n\r\n`. -/
def CRLFCRLF : List Nat := [13, 10, 13, 10]

/-- Number of bytes that are still to arrive. -/
def pending (tcp : List (List Nat)) : Nat := tcp.flatten.length

/-- The end of the header search. -/
inductive HeaderResult where
  /-- The stream ended first: `nread`, the buffer is not used again. -/
  | closed (tcp : List (List Nat))
  /-- The search started below `buf`. -/
  | below
  /-- End of header found: the header block, the body bytes read with it,
  the buffer size and the stream. -/
  | found (header body : List Nat) (bufsize : Nat) (tcp : List (List Nat))
  deriving DecidableEq, Repr

/-- The first loop of `http_get_response_cb`, up to the `strstr` that finds the
end of the header.  `buf` holds the `nread` bytes read so far; the buffer grows
by 1024 bytes (`mget_buffer_ensure_capacity`, modelled from the spec: the
content is kept) when fewer than 1024 bytes are free. -/
def read_header : Nat → List (List Nat) → List Nat → Nat → HeaderResult
  | 0, tcp, _, _ => HeaderResult.closed tcp
  | fuel + 1, tcp, buf, bufsize =>
    let r := mget_tcp_read tcp (bufsize - buf.length)
    if r.1 = [] then HeaderResult.closed r.2
    else
      let nread := buf.length + r.1.length
      let buf1 := buf ++ r.1
      if nread < 4 then read_header fuel r.2 buf1 bufsize
      else if buf.length ≠ 0 ∧ buf.length < 3 then HeaderResult.below
      else
        let p := if buf.length = 0 then 0 else buf.length - 3
        match strstr (buf1.drop p) CRLFCRLF with
        | some k => HeaderResult.found (buf1.take (p + k)) (buf1.drop (p + k + 4)) bufsize r.2
        | none =>
          read_header fuel r.2 buf1 (if nread + 1024 > bufsize then bufsize + 1024 else bufsize)

/-- The test `(end = strchr(p, '\r')) && end[1] == '\n'` of the chunk loop:
the offset of the first CR of the C string at `p`, when an LF follows it. -/
def crlf_at : List Nat → Option Nat
  | [] => none
  | c :: cs =>
    if c = 13 then (if cur cs = 10 then some 0 else none)
    else if c = 0 then none
    else (crlf_at cs).map (· + 1)

/-- The loop that reads until the chunk-size line at `p` is complete.  Returns
`end` (after `end += 2`), `none` after a failed read. -/
def chunk_line : Nat → Nat → List (List Nat) → List Nat → Nat →
    Option Nat × List Nat × List (List Nat)
  | 0, _, tcp, buf, _ => (none, buf, tcp)
  | fuel + 1, bufsize, tcp, buf, p =>
    match crlf_at (buf.drop p) with
    | some k => (some (p + k + 2), buf, tcp)
    | none =>
      let r := mget_tcp_read tcp (bufsize - buf.length)
      if r.1 = [] then (none, buf, r.2) else chunk_line fuel bufsize r.2 (buf ++ r.1) p

/-- The loop that reads the trailer after the last chunk, until `\r\n\r\n`
shows up; only the last three bytes of the buffer are kept between reads.
Returns the rest of the stream. -/
def chunk_trailer : Nat → Nat → List (List Nat) → List Nat → Nat → List (List Nat)
  | 0, _, tcp, _, _ => tcp
  | fuel + 1, bufsize, tcp, buf, e =>
    match strstr (buf.drop e) CRLFCRLF with
    | some _ => tcp
    | none =>
      let buf := if buf.length > 3 then buf.drop (buf.length - 3) else buf
      let r := mget_tcp_read tcp (bufsize - buf.length)
      if r.1 = [] then r.2 else chunk_trailer fuel bufsize r.2 (buf ++ r.1) 0

/-- The loop `while (chunk_size > 0)` that reads the part of a chunk that was
not in the buffer; `need` is the local `chunk_size`, the number of bytes
missing up to the end of the CRLF after the chunk.  Returns the data fed, the
stream, and the new buffer when the chunk was completed (`none` after
`goto cleanup`). -/
def chunk_rest : Nat → Nat → List (List Nat) → Nat → List (List Nat) →
    List (List Nat) × List (List Nat) × Option (List Nat)
  | 0, _, tcp, _, fed => (fed, tcp, none)
  | fuel + 1, bufsize, tcp, need, fed =>
    let r := mget_tcp_read tcp bufsize
    if r.1 = [] then (fed, r.2, none)
    else if need ≤ r.1.length then
      if need = 1 ∨ (r.1.drop (need - 2)).take 2 = [13, 10] then
        (if need > 2 then fed ++ [r.1.take (need - 2)] else fed, r.2, some (r.1.drop need))
      else (fed, r.2, none)
    else if need - r.1.length ≥ 2 then
      chunk_rest fuel bufsize r.2 (need - r.1.length) (fed ++ [r.1])
    else chunk_rest fuel bufsize r.2 (need - r.1.length) (fed ++ [r.1.take (r.1.length - 1)])

/-- The end of the chunk loop. -/
inductive ChunkResult where
  /-- The jump `goto cleanup`: the data fed and the rest of the stream. -/
  | cleanup (fed : List (List Nat)) (tcp : List (List Nat))
  /-- A negative chunk size: `end + chunk_size + 2` is not a pointer into `buf`. -/
  | overflow
  deriving DecidableEq, Repr

/-- The loop `for (;;)` over the chunks of a chunked body.  `buf` holds the
`body_len` bytes of the buffer, `p` is the offset of the next chunk-size line,
`fed` the data passed to `mget_decompress` so far.  Every round either moves
`p` forward or takes bytes from the stream. -/
def chunk_loop : Nat → Nat → List (List Nat) → List Nat → Nat → List (List Nat) → ChunkResult
  | 0, _, tcp, _, _, fed => ChunkResult.cleanup fed tcp
  | fuel + 1, bufsize, tcp, buf, p, fed =>
    let l := chunk_line (pending tcp + 1) bufsize tcp buf p
    match l.1 with
    | none => ChunkResult.cleanup fed l.2.2
    | some e =>
      let buf := l.2.1
      let tcp := l.2.2
      let chunk_size := strtoll16 (buf.drop p)
      if chunk_size < 0 then ChunkResult.overflow
      else if chunk_size = 0 then
        if cur (buf.drop e) = 13 ∧ cur (buf.drop (e + 1)) = 10 then ChunkResult.cleanup fed tcp
        else ChunkResult.cleanup fed (chunk_trailer (pending tcp + 1) bufsize tcp buf e)
      else
        let n := chunk_size.toNat
        if e + n + 2 ≤ buf.length then
          chunk_loop fuel bufsize tcp buf (e + n + 2) (fed ++ [(buf.drop e).take n])
        else
          let r := chunk_rest (pending tcp + 1) bufsize tcp (e + n + 2 - buf.length)
            (fed ++ [buf.drop e])
          match r.2.2 with
          | none => ChunkResult.cleanup r.1 r.2.1
          | some buf => chunk_loop fuel bufsize r.2.1 buf 0 r.1

/-- The read loops of the two identity modes: with `limit = some n` the loop
`while (body_len < n && read(...) > 0)`, with `limit = none` the loop
`while (read(...) > 0)`.  Returns `body_len`, the data fed and the stream. -/
def read_body : Nat → Nat → List (List Nat) → Option Nat → Nat → List (List Nat) →
    Nat × List (List Nat) × List (List Nat)
  | 0, _, tcp, _, body_len, fed => (body_len, fed, tcp)
  | fuel + 1, bufsize, tcp, limit, body_len, fed =>
    if limit.all (fun n => body_len < n) then
      let r := mget_tcp_read tcp bufsize
      if r.1 = [] then (body_len, fed, r.2)
      else read_body fuel bufsize r.2 limit (body_len + r.1.length) (fed ++ [r.1])
    else (body_len, fed, tcp)

/-- The test before `mget_decompress_open`: no body is read. -/
def no_body (resp : MGET_HTTP_RESPONSE) : Bool :=
  cdiv resp.code 100 == 1 || resp.code == 204 || resp.code == 304 ||
  (resp.transfer_encoding == TransferEncoding.transfer_encoding_identity &&
    resp.content_length == 0 && resp.content_length_valid)

/-- The part of `http_get_response_cb` after the header has been parsed and
the body bytes read so far have been moved to the start of the buffer. -/
def read_response_body (resp : MGET_HTTP_RESPONSE) (body : List Nat) (bufsize : Nat)
    (tcp : List (List Nat)) : ReadResult :=
  let dc := some resp.content_encoding
  if resp.transfer_encoding ≠ TransferEncoding.transfer_encoding_identity then
    match chunk_loop (2 * pending tcp + body.length + 1) bufsize tcp body 0 [] with
    | ChunkResult.overflow => ReadResult.fault
    | ChunkResult.cleanup fed tcp =>
      ReadResult.done { resp := some resp, dc := dc, fed := fed, tcp := tcp }
  else
    let fed := if body.length ≠ 0 then [body] else []
    let limit := if resp.content_length_valid then some resp.content_length else none
    let r := read_body (pending tcp + 1) bufsize tcp limit body.length fed
    ReadResult.done
      { resp := some { resp with content_length := r.1 }, dc := dc, fed := r.2.1, tcp := r.2.2 }

/-- Model of `http_get_response_cb(conn, req, flags, parse_body, context)`; `keepheader`
is the flag `MGET_HTTP_RESPONSE_KEEPHEADER`, `now` the value of `time(NULL)`
while the header is parsed. -/
def http_get_response_cb (now : Int) (conn : MGET_HTTP_CONNECTION)
    (req : Option MGET_HTTP_REQUEST) (keepheader : Bool) : ReadResult :=
  match read_header (pending conn.tcp + 1) conn.tcp [] conn.bufsize with
  | HeaderResult.closed tcp => ReadResult.done { resp := none, tcp := tcp }
  | HeaderResult.below => ReadResult.fault
  | HeaderResult.found header body bufsize tcp =>
    match http_parse_response now header with
    | ParseResult.null => ReadResult.done { resp := none, tcp := tcp }
    | ParseResult.hang => ReadResult.hang
    | ParseResult.fault => ReadResult.fault
    | ParseResult.resp r =>
      let resp := if req.isSome ∧ keepheader then { r with header := some (header ++ CRLFCRLF) }
        else r
      if req.any (fun q => strcaseeq q.method (bytes "HEAD")) then
        ReadResult.done { resp := some resp, tcp := tcp }
      else if no_body resp then ReadResult.done { resp := some resp, tcp := tcp }
      else read_response_body resp body bufsize tcp

/-! ## The byte buffer -/

/-- Modelled from the spec: the byte buffer of buffer.c, which is not part of
these sources.  `content` holds the `length` bytes `data[0 .. length)` and
`slack` the bytes of the array from `data[length]` on, so that the buffer is
NUL-terminated at its logical end when `slack` starts with 0. -/
structure mget_buffer_t where
  content : List Nat := []
  slack : List Nat := []
  deriving DecidableEq, Repr

/-- Modelled from the spec: the assignment `buf->length = 0`; the bytes of the
array stay as they are. -/
def mget_buffer_reset (buf : mget_buffer_t) : mget_buffer_t :=
  { content := [], slack := buf.content ++ buf.slack }

/-- Modelled from the spec: `mget_buffer_memcat(buf, data, length)` of buffer.c
(`append_bytes`); the bytes are appended and a NUL is written after them. -/
def mget_buffer_memcat (buf : mget_buffer_t) (data : List Nat) (length : Nat) : mget_buffer_t :=
  { content := buf.content ++ data.take length, slack := 0 :: buf.slack.drop (length + 1) }

/-- Modelled from the spec: `mget_buffer_strcat(buf, s)` of buffer.c
(`append_str`) for a string `s` that is not `NULL`. -/
def mget_buffer_strcat (buf : mget_buffer_t) (s : List Nat) : mget_buffer_t :=
  mget_buffer_memcat buf (cstr s) (cstr s).length

/-- Modelled from the spec: `mget_buffer_strcpy(buf, s)` of buffer.c, which
overwrites the buffer with the string. -/
def mget_buffer_strcpy (buf : mget_buffer_t) (s : List Nat) : mget_buffer_t :=
  mget_buffer_strcat (mget_buffer_reset buf) s

/-- Modelled from the spec: `mget_buffer_bufcat(buf, src)` of buffer.c
(`append_other_buffer`). -/
def mget_buffer_bufcat (buf src : mget_buffer_t) : mget_buffer_t :=
  mget_buffer_memcat buf src.content src.content.length

/-- Modelled from the spec: `mget_buffer_memset_append(buf, c, length)` of
buffer.c (`append_byte_repeated`). -/
def mget_buffer_memset_append (buf : mget_buffer_t) (c : Nat) (length : Nat) : mget_buffer_t :=
  { content := buf.content ++ List.replicate length c, slack := 0 :: buf.slack.drop (length + 1) }

/-! ## The request builder -/

/-- Modelled from the spec: the strings behind the constants `IRI_SCHEME_HTTP`
and `IRI_SCHEME_HTTPS` of iri.c, which is not part of these sources. -/
def iri_scheme_name : IriScheme → List Nat
  | IriScheme.IRI_SCHEME_HTTP => bytes "http"
  | IriScheme.IRI_SCHEME_HTTPS => bytes "https"

/-- The `for` loop of `http_request_to_buffer` over `req->lines`: each line is
appended, then CRLF unless the last byte of the buffer is a line feed. -/
def request_lines : List (List Nat) → mget_buffer_t → mget_buffer_t
  | [], buf => buf
  | line :: lines, buf =>
    let buf := mget_buffer_strcat buf line
    request_lines lines
      (if buf.content.getLast? ≠ some 10 then mget_buffer_memcat buf (bytes "\r\n") 2 else buf)

/-- The test of `http_request_to_buffer` that sets `use_proxy`; `http_proxy`
and `https_proxy` tell whether the global pointers of these names are set. -/
def use_proxy (http_proxy https_proxy : Bool) (req : MGET_HTTP_REQUEST) : Bool :=
  (http_proxy && decide (req.scheme = IriScheme.IRI_SCHEME_HTTP)) ||
    (https_proxy && decide (req.scheme = IriScheme.IRI_SCHEME_HTTPS))

/-- Model of `http_request_to_buffer(req, buf)`: the buffer it leaves and the length
it returns.  `req->method` is a C string; `req->esc_host` and
`req->esc_resource` are buffers, given by their bytes. -/
def http_request_to_buffer (http_proxy https_proxy : Bool) (req : MGET_HTTP_REQUEST)
    (buf : mget_buffer_t) : mget_buffer_t × Int :=
  let buf := mget_buffer_strcpy buf req.method
  let buf := mget_buffer_memcat buf (bytes " ") 1
  let buf :=
    if use_proxy http_proxy https_proxy req then
      let buf := mget_buffer_strcat buf (iri_scheme_name req.scheme)
      let buf := mget_buffer_memcat buf (bytes "://") 3
      mget_buffer_bufcat buf { content := req.esc_host }
    else buf
  let buf := mget_buffer_memcat buf (bytes "/") 1
  let buf := mget_buffer_bufcat buf { content := req.esc_resource }
  let buf := mget_buffer_memcat buf (bytes " HTTP/1.1\r\n") 11
  let buf := mget_buffer_memcat buf (bytes "Host: ") 6
  let buf := mget_buffer_bufcat buf { content := req.esc_host }
  let buf := mget_buffer_memcat buf (bytes "\r\n") 2
  let buf := request_lines req.lines buf
  let buf :=
    if use_proxy http_proxy https_proxy req then
      mget_buffer_strcat buf (bytes "Proxy-Connection: keep-alive\r\n")
    else buf
  let buf := mget_buffer_memcat buf (bytes "\r\n") 2
  (buf, buf.content.length)

/-! ## The formatted append of buffer_printf.c -/

/-- The value of an `int` expression, reduced to 32 bits. -/
def to_int (v : Int) : Int := (v + 2 ^ 31) % 2 ^ 32 - 2 ^ 31

/-- The value of a `long long` (or `long`, `ssize_t`) expression, reduced to 64
bits. -/
def to_long_long (v : Int) : Int := (v + 2 ^ 63) % 2 ^ 64 - 2 ^ 63

/-- The conversion to `unsigned int`. -/
def to_unsigned (v : Int) : Nat := (v % 2 ^ 32).toNat

/-- The flag bits `FLAG_ZERO_PADDED` ... `FLAG_HEXUP`, one field per bit:
`flags | FLAG_X` sets the field and `flags & FLAG_X` reads it. -/
structure Flags where
  zero_padded : Bool := false
  left_adjust : Bool := false
  alternate : Bool := false
  signed : Bool := false
  decimal : Bool := false
  octal : Bool := false
  hexlo : Bool := false
  hexup : Bool := false
  deriving DecidableEq, Repr

/-- Model of `_copy_string`; `arg` is `none` for the `NULL` pointer. -/
def copy_string (buf : mget_buffer_t) (flags : Flags) (field_width precision : Int)
    (arg : Option (List Nat)) : mget_buffer_t :=
  match arg with
  | none => mget_buffer_strcat buf (bytes "(null)")
  | some arg =>
    let length := (cstr arg).length
    let length :=
      if 0 ≤ precision ∧ to_size_t precision < length then to_size_t precision else length
    if field_width ≠ 0 then
      if length < to_unsigned field_width then
        if flags.left_adjust then
          mget_buffer_memset_append (mget_buffer_memcat buf arg length) 32
            (to_size_t (field_width - length))
        else
          mget_buffer_memcat
            (mget_buffer_memset_append buf 32 (to_size_t (field_width - length))) arg length
      else mget_buffer_memcat buf arg length
    else mget_buffer_memcat buf arg length

/-- The loop `while (arg >= 10)` of `_convert_dec_fast`, with the digit written
after it; the digits are collected in front of `acc`, and a byte is the value
`(arg % 10) + '0'` stored in a `char`. -/
def fast_digits : Nat → Int → List Nat → List Nat
  | 0, _, acc => acc
  | fuel + 1, arg, acc =>
    if 10 ≤ arg then fast_digits fuel (cdiv arg 10) (((cmod arg 10 + 48) % 256).toNat :: acc)
    else ((cmod arg 10 + 48) % 256).toNat :: acc

/-- Model of `_convert_dec_fast`.  The negation `arg = -arg` is reduced to 32 bits,
so that it leaves the least `int` as it is. -/
def convert_dec_fast (buf : mget_buffer_t) (arg : Int) : mget_buffer_t :=
  let minus := decide (arg < 0)
  let arg := if arg < 0 then to_int (-arg) else arg
  let dst := fast_digits 32 arg []
  let dst := if minus then 45 :: dst else dst
  mget_buffer_memcat buf dst dst.length

/-- The loops `while (argu) { *dst-- = digit; argu /= base; }` of `_convert_dec`;
`fuel` is the size of the array `str`. -/
def convert_digits (base : Nat) (digit : Nat → Nat) : Nat → Nat → List Nat → List Nat
  | 0, _, acc => acc
  | fuel + 1, argu, acc =>
    if argu = 0 then acc
    else convert_digits base digit fuel (argu / base) (digit (argu % base) :: acc)

/-- The second half of `_convert_dec`, from `if (precision < 0)` on: the sign (for
`minus`), the digits `dst` and the padding are appended.  `plain` is the text
of the last two branches, which are the same: the sign, the zeros up to the
precision and the digits. -/
def convert_dec_pad (buf : mget_buffer_t) (flags : Flags) (field_width precision : Int)
    (minus : Bool) (dst : List Nat) : mget_buffer_t :=
  let length := dst.length
  let flags := if precision < 0 then flags else { flags with zero_padded := false }
  let precision := if precision < 0 then 1 else precision
  let m : Nat := if minus then 1 else 0
  let sign := fun (b : mget_buffer_t) => if minus then mget_buffer_memset_append b 45 1 else b
  let plain :=
    let buf := sign buf
    let buf :=
      if length < to_unsigned precision then
        mget_buffer_memset_append buf 48 (to_size_t (precision - length))
      else buf
    mget_buffer_memcat buf dst length
  if field_width ≠ 0 then
    if length + m < to_unsigned field_width then
      if flags.left_adjust then
        let buf := sign buf
        if length < to_unsigned precision then
          let buf := mget_buffer_memset_append buf 48 (to_size_t (precision - length))
          let buf := mget_buffer_memcat buf dst length
          if to_int (precision + m) < field_width then
            mget_buffer_memset_append buf 32 (to_size_t (field_width - precision - m))
          else buf
        else
          mget_buffer_memset_append (mget_buffer_memcat buf dst length) 32
            (to_size_t (field_width - length - m))
      else
        let buf :=
          if length < to_unsigned precision then
            let buf :=
              if to_int (precision + m) < field_width then
                if flags.zero_padded then
                  mget_buffer_memset_append (sign buf) 48 (to_size_t (field_width - precision - m))
                else
                  sign (mget_buffer_memset_append buf 32 (to_size_t (field_width - precision - m)))
              else sign buf
            mget_buffer_memset_append buf 48 (to_size_t (precision - length))
          else if flags.zero_padded then
            mget_buffer_memset_append (sign buf) 48 (to_size_t (field_width - length - m))
          else sign (mget_buffer_memset_append buf 32 (to_size_t (field_width - length - m)))
        mget_buffer_memcat buf dst length
    else plain
  else plain

/-- Model of `_convert_dec`: the digits of the argument are written into `str`, from
its end backwards, then `convert_dec_pad` appends them. -/
def convert_dec (buf : mget_buffer_t) (flags : Flags) (field_width precision : Int) (arg : Int) :
    mget_buffer_t :=
  let minus : Bool := flags.decimal && flags.signed && decide (arg < 0)
  let argu : Nat := if minus then to_size_t (-arg) else to_size_t arg
  let dst : List Nat :=
    if flags.decimal then convert_digits 10 (fun c => c + 48) 32 argu []
    else if flags.hexlo then
      convert_digits 16 (fun c => if 10 ≤ c then c + 97 - 10 else c + 48) 32 argu []
    else if flags.hexup then
      convert_digits 16 (fun c => if 10 ≤ c then c + 65 - 10 else c + 48) 32 argu []
    else if flags.octal then convert_digits 8 (fun c => c + 48) 32 argu []
    else []
  convert_dec_pad buf flags field_width precision minus dst

/-- The loop `do { *--dst = HEX[arg & 0xF]; arg >>= 4; } while (arg)` of
`_convert_pointer`. -/
def pointer_digits : Nat → Nat → List Nat → List Nat
  | 0, _, acc => acc
  | fuel + 1, arg, acc =>
    let acc := (bytes "0123456789abcdef").getD (arg % 16) 0 :: acc
    if arg / 16 = 0 then acc else pointer_digits fuel (arg / 16) acc

/-- Model of `_convert_pointer`; `pointer` is the integer value of the pointer. -/
def convert_pointer (buf : mget_buffer_t) (pointer : Nat) : mget_buffer_t :=
  if pointer = 0 then mget_buffer_memcat buf (bytes "0x0") 3
  else
    let buf := mget_buffer_memcat buf (bytes "0x") 2
    let dst := pointer_digits 32 pointer []
    mget_buffer_memcat buf dst dst.length

/-- An argument of a variadic call: an integer, a string (`none` for `NULL`)
or a pointer, given by its integer value. -/
inductive Arg where
  | int (v : Int)
  | str (s : Option (List Nat))
  | ptr (p : Nat)
  deriving DecidableEq, Repr

/-- The macro `va_arg(args, T)` for an integer type `T`: the next argument and
the rest.  The value is `none` when there is no argument left or the next one
is no integer; that matters only when the value is used. -/
def va_arg_int : List Arg → Option Int × List Arg
  | Arg.int v :: rest => (some v, rest)
  | _ :: rest => (none, rest)
  | [] => (none, [])

/-- The macro `va_arg(args, const char *)`. -/
def va_arg_str : List Arg → Option (Option (List Nat)) × List Arg
  | Arg.str s :: rest => (some s, rest)
  | _ :: rest => (none, rest)
  | [] => (none, [])

/-- The macro `va_arg(args, void *)`. -/
def va_arg_ptr : List Arg → Option Nat × List Arg
  | Arg.ptr p :: rest => (some p, rest)
  | _ :: rest => (none, rest)
  | [] => (none, [])

/-- The loop of `mget_buffer_vprintf_append2` that reads the flag characters. -/
def read_flags : Flags → List Nat → Flags × List Nat
  | flags, [] => (flags, [])
  | flags, c :: cs =>
    if c = 48 then read_flags { flags with zero_padded := true } cs
    else if c = 45 then read_flags { flags with left_adjust := true } cs
    else if c = 35 then read_flags { flags with alternate := true } cs
    else (flags, c :: cs)

/-- The loops of `mget_buffer_vprintf_append2` that read a decimal number (field
width or precision) into an `int`. -/
def read_number : Int → List Nat → Int × List Nat
  | n, [] => (n, [])
  | n, c :: cs =>
    if isdigit c then read_number (to_int (n * 10 + ((c : Int) - 48))) cs else (n, c :: cs)

/-- What `mget_buffer_vprintf_append2` has read of a conversion specification when
it reaches the length modifier. -/
structure Conversion where
  flags : Flags
  field_width : Option Int
  precision : Option Int
  p : List Nat
  args : List Arg
  deriving DecidableEq, Repr

/-- The part of `mget_buffer_vprintf_append2` that reads the flags, the field width
and the precision; a field width or precision taken from a missing argument
is `none`. -/
def read_conversion (p : List Nat) (args : List Arg) : Conversion :=
  let f := read_flags {} p
  let flags := f.1
  let p := f.2
  let w : Flags × Option Int × List Nat × List Arg :=
    if cur p = 42 then
      let a := va_arg_int args
      match a.1 with
      | none => (flags, none, p.tail, a.2)
      | some v =>
        let v := to_int v
        if v < 0 then ({ flags with left_adjust := true }, some (to_int (-v)), p.tail, a.2)
        else (flags, some v, p.tail, a.2)
    else
      let n := read_number 0 p
      (flags, some n.1, n.2, args)
  let flags := w.1
  let p := w.2.2.1
  let args := w.2.2.2
  let r : Option Int × List Nat × List Arg :=
    if cur p = 46 then
      let p := p.tail
      if cur p = 42 then
        let a := va_arg_int args
        (a.1.map (fun v => if to_int v < 0 then 0 else to_int v), p.tail, a.2)
      else if isdigit (cur p) then
        let n := read_number 0 p
        (some n.1, n.2, args)
      else (some (-1), p, args)
    else (some (-1), p, args)
  { flags := flags, field_width := w.2.1, precision := r.1, p := r.2.1, args := r.2.2 }

/-- What the `switch` on the length modifier of `mget_buffer_vprintf_append2`
leaves: a string or a pointer to convert at once, or the integer argument as
`arg` and `argu`. -/
inductive Operand where
  | string (s : Option (Option (List Nat)))
  | pointer (v : Option Nat)
  | number (arg : Option Int) (argu : Option Nat)
  deriving DecidableEq, Repr

/-- The `switch (*p)` of `mget_buffer_vprintf_append2` on the length modifier: the
operand, the position after the modifier and the arguments that are left.
`long` and `size_t` have 64 bits, `char` is signed. -/
def read_modifier (p : List Nat) (args : List Arg) : Operand × List Nat × List Arg :=
  let wide := fun (a : Option Int × List Arg) (p : List Nat) =>
    (Operand.number (a.1.map to_long_long) (a.1.map to_size_t), p, a.2)
  if cur p = 122 then wide (va_arg_int args) p.tail
  else if cur p = 108 then
    if cur p.tail = 108 then wide (va_arg_int args) p.tail.tail
    else wide (va_arg_int args) p.tail
  else if cur p = 76 then wide (va_arg_int args) p.tail
  else if cur p = 104 then
    let a := va_arg_int args
    if cur p.tail = 104 then
      let arg := a.1.map (fun v => (v + 2 ^ 7) % 2 ^ 8 - 2 ^ 7)
      (Operand.number arg (arg.map (fun v => (v % 2 ^ 8).toNat)), p.tail.tail, a.2)
    else
      let arg := a.1.map (fun v => (v + 2 ^ 15) % 2 ^ 16 - 2 ^ 15)
      (Operand.number arg (arg.map (fun v => (v % 2 ^ 16).toNat)), p.tail, a.2)
  else if cur p = 115 then
    let a := va_arg_str args
    (Operand.string a.1, p.tail, a.2)
  else if cur p = 112 then
    let a := va_arg_ptr args
    (Operand.pointer a.1, p.tail, a.2)
  else
    let a := va_arg_int args
    (Operand.number (a.1.map to_int) (a.1.map to_unsigned), p, a.2)

/-- The `for (;*p;)` loop of `mget_buffer_vprintf_append2`.  `none` stands for a
call whose result these sources do not determine: the value of a missing or
mistyped argument is used, or the plain `%s` is given the `NULL` pointer, which
goes to `mget_buffer_strcat` of buffer.c.  Every round moves `p` forward by at
least one byte, so `fuel`, the length of the format and one, is never used up. -/
def vprintf_loop : Nat → mget_buffer_t → List Nat → List Arg → Option mget_buffer_t
  | 0, _, _, _ => none
  | fuel + 1, buf, p, args =>
    if cur p = 0 then some buf
    else
      let begin := p
      let plain := p.takeWhile (fun c => c != 0 && c != 37)
      let p := p.dropWhile (fun c => c != 0 && c != 37)
      let buf := if plain ≠ [] then mget_buffer_memcat buf plain plain.length else buf
      if cur p = 0 then some buf
      else
        let p := p.tail
        if cur p = 115 then
          match va_arg_str args with
          | (some (some s), args) => vprintf_loop fuel (mget_buffer_strcat buf s) p.tail args
          | _ => none
        else if cur p = 100 then
          match va_arg_int args with
          | (some v, args) => vprintf_loop fuel (convert_dec_fast buf (to_int v)) p.tail args
          | _ => none
        else if cur p = 112 then
          match va_arg_ptr args with
          | (some v, args) => vprintf_loop fuel (convert_pointer buf v) p.tail args
          | _ => none
        else if cur p = 37 then vprintf_loop fuel (mget_buffer_memset_append buf 37 1) p.tail args
        else
          let c := read_conversion p args
          let m := read_modifier c.p c.args
          let p := m.2.1
          let args := m.2.2
          match m.1 with
          | Operand.string s =>
            match c.field_width, c.precision, s with
            | some field_width, some precision, some s =>
              vprintf_loop fuel (copy_string buf c.flags field_width precision s) p args
            | _, _, _ => none
          | Operand.pointer v =>
            match c.field_width, c.precision, v with
            | some field_width, some precision, some v =>
              vprintf_loop fuel
                (convert_dec buf { c.flags with hexlo := true, alternate := true }
                  field_width precision (to_long_long v)) p args
            | _, _, _ => none
          | Operand.number arg argu =>
            if cur p = 100 ∨ cur p = 105 then
              match c.field_width, c.precision, arg with
              | some field_width, some precision, some arg =>
                vprintf_loop fuel
                  (convert_dec buf { c.flags with signed := true, decimal := true }
                    field_width precision arg) p.tail args
              | _, _, _ => none
            else if cur p = 117 then
              match c.field_width, c.precision, argu with
              | some field_width, some precision, some argu =>
                vprintf_loop fuel
                  (convert_dec buf { c.flags with decimal := true }
                    field_width precision (to_long_long argu)) p.tail args
              | _, _, _ => none
            else if cur p = 120 then
              match c.field_width, c.precision, argu with
              | some field_width, some precision, some argu =>
                vprintf_loop fuel
                  (convert_dec buf { c.flags with hexlo := true }
                    field_width precision (to_long_long argu)) p.tail args
              | _, _, _ => none
            else if cur p = 88 then
              match c.field_width, c.precision, argu with
              | some field_width, some precision, some argu =>
                vprintf_loop fuel
                  (convert_dec buf { c.flags with hexup := true }
                    field_width precision (to_long_long argu)) p.tail args
              | _, _, _ => none
            else if cur p = 111 then
              match c.field_width, c.precision, argu with
              | some field_width, some precision, some argu =>
                vprintf_loop fuel
                  (convert_dec buf { c.flags with octal := true }
                    field_width precision (to_long_long argu)) p.tail args
              | _, _, _ => none
            else vprintf_loop fuel (mget_buffer_memset_append buf 37 1) begin.tail args

/-- Model of `mget_buffer_vprintf_append2(buf, fmt, args)`: the buffer it leaves and the
length it returns. -/
def mget_buffer_vprintf_append2 (buf : mget_buffer_t) (fmt : List Nat) (args : List Arg) :
    Option (mget_buffer_t × Nat) :=
  (vprintf_loop (fmt.length + 1) buf fmt args).map (fun b => (b, b.content.length))

/-- Model of `mget_buffer_vprintf2(buf, fmt, args)`. -/
def mget_buffer_vprintf2 (buf : mget_buffer_t) (fmt : List Nat) (args : List Arg) :
    Option (mget_buffer_t × Nat) :=
  mget_buffer_vprintf_append2 (mget_buffer_reset buf) fmt args

/-- Model of `mget_buffer_printf_append2(buf, fmt, ...)`. -/
def mget_buffer_printf_append2 (buf : mget_buffer_t) (fmt : List Nat) (args : List Arg) :
    Option (mget_buffer_t × Nat) :=
  mget_buffer_vprintf_append2 buf fmt args

/-- Model of `mget_buffer_printf2(buf, fmt, ...)`. -/
def mget_buffer_printf2 (buf : mget_buffer_t) (fmt : List Nat) (args : List Arg) :
    Option (mget_buffer_t × Nat) :=
  mget_buffer_vprintf2 buf fmt args

/-! ## Credentials -/

/-- Modelled from the spec: `mget_stringmap_get` of stringmap.c on a map whose
keys are compared without regard to letter case; `NULL` for a `NULL` map and
for a key that is not bound. -/
def mget_stringmap_get (m : Option StringMap) (key : List Nat) : Option (List Nat) :=
  match m with
  | none => none
  | some m =>
    match m.find? (fun kv => strcaseeq kv.1 key) with
    | none => none
    | some kv => kv.2

/-- The test `!mget_strcmp(a, b)`.  Modelled from the spec: `mget_strcmp` of
utils.c, which is not part of these sources, is `strcmp` for pointers that may
be `NULL`; a `NULL` pointer equals only a `NULL` pointer (the tests of
`http_add_credentials` that tell an absent qop from `auth` rely on it). -/
def mget_streq (a b : Option (List Nat)) : Bool :=
  match a, b with
  | none, none => true
  | some a, some b => cstr a == cstr b
  | _, _ => false

/-- The text `snprintf(cnonce, sizeof(cnonce), "%08lx", v)` of the C library
leaves in `char cnonce[16]`: the lowercase hexadecimal digits of `v`, preceded
by zeros up to eight digits. -/
def hex08 (v : Nat) : List Nat :=
  let d := convert_digits 16 (fun c => if 10 ≤ c then c + 97 - 10 else c + 48) 32 v []
  (List.replicate (8 - d.length) 48 ++ d).take 15

/-- Model of `http_add_credentials(req, challenge, username, password)`: the request
it leaves, `none` when `strcasecmp` is given the `NULL` pointer
`challenge->auth_scheme`.  `md5_hex` is the MD5 hash in hexadecimal digits that
`mget_md5_printf_hex` gets from the hash library, `base64` the encoding of
base64.c (not part of these sources), `lrand48` the value the call of
`lrand48()` returns. -/
def http_add_credentials (md5_hex base64 : List Nat → List Nat) (lrand48 : Nat)
    (req : MGET_HTTP_REQUEST) (challenge : Option MGET_HTTP_CHALLENGE)
    (username password : Option (List Nat)) : Option MGET_HTTP_REQUEST :=
  match challenge with
  | none => some req
  | some challenge =>
    let username := username.getD []
    let password := password.getD []
    match challenge.auth_scheme with
    | none => none
    | some auth_scheme =>
      if strcaseeq auth_scheme (bytes "basic") then
        let encoded := base64 (cstr username ++ bytes ":" ++ cstr password)
        some { req with
          lines := mget_vector_add req.lines (bytes "Authorization: Basic " ++ cstr encoded) }
      else if strcaseeq auth_scheme (bytes "digest") then
        let realm := mget_stringmap_get challenge.params (bytes "realm")
        let opq := mget_stringmap_get challenge.params (bytes "opaque")
        let nonce := mget_stringmap_get challenge.params (bytes "nonce")
        let qop := mget_stringmap_get challenge.params (bytes "qop")
        let algorithm := mget_stringmap_get challenge.params (bytes "algorithm")
        if !mget_streq qop (some (bytes "auth")) then some req
        else if !mget_streq algorithm (some (bytes "MD5")) &&
            !mget_streq algorithm (some (bytes "MD5-sess")) then some req
        else
          match realm, nonce with
          | some realm, some nonce =>
            let a1buf := md5_hex (cstr username ++ bytes ":" ++ cstr realm ++ bytes ":" ++
              cstr password)
            let sess := mget_streq algorithm (some (bytes "MD5-sess"))
            let cnonce := if sess then hex08 lrand48 else []
            let a1buf :=
              if sess then md5_hex (cstr a1buf ++ bytes ":" ++ cstr nonce ++ bytes ":" ++ cnonce)
              else a1buf
            let a2buf := md5_hex (cstr req.method ++ bytes ":/" ++ cstr req.esc_resource)
            let rfc2617 := mget_streq qop (some (bytes "auth")) ||
              mget_streq qop (some (bytes "auth-int"))
            let cnonce := if rfc2617 ∧ cnonce = [] then hex08 lrand48 else cnonce
            let response_digest :=
              if rfc2617 then
                md5_hex (cstr a1buf ++ bytes ":" ++ cstr nonce ++ bytes ":00000001:" ++
                  cstr cnonce ++ bytes ":" ++ cstr (qop.getD []) ++ bytes ":" ++ cstr a2buf)
              else md5_hex (cstr a1buf ++ bytes ":" ++ cstr nonce ++ bytes ":" ++ cstr a2buf)
            let buf : Option (mget_buffer_t × Nat) :=
              mget_buffer_printf2 {}
                (bytes ("Authorization: Digest " ++
                  "username=\"%s\", realm=\"%s\", nonce=\"%s\", uri=\"/%s\", response=\"%s\""))
                [Arg.str (some username), Arg.str (some realm), Arg.str (some nonce),
                  Arg.str (some req.esc_resource), Arg.str (some response_digest)]
            let buf :=
              if mget_streq qop (some (bytes "auth")) then
                buf.bind (fun b => mget_buffer_printf_append2 b.1
                  (bytes ", qop=auth, nc=00000001, cnonce=\"%s\"") [Arg.str (some cnonce)])
              else buf
            let buf :=
              match opq with
              | some opq =>
                buf.bind (fun b => mget_buffer_printf_append2 b.1 (bytes ", opaque=\"%s\"")
                  [Arg.str (some opq)])
              | none => buf
            let buf :=
              match algorithm with
              | some algorithm =>
                buf.bind (fun b => mget_buffer_printf_append2 b.1 (bytes ", algorithm=%s")
                  [Arg.str (some algorithm)])
              | none => buf
            buf.map (fun b => { req with lines := mget_vector_add req.lines (cstr b.1.content) })
          | _, _ => some req
      else some req

/-! ## The start of the header search -/

/-- The pointer `p` of `http_get_response_cb` at which `strstr` looks for the
end of the header, as an offset from `buf`: `nread` bytes have been read in
all, `nbytes` of them by the last read, and `nread >= 4`.  The buffer starts at
offset 0. -/
def header_search_offset (nread nbytes : Int) : Int :=
  if nread = nbytes then 0 else nread - nbytes - 3

/-! ## `mem.c` -/

/-- A block of heap memory: the number of bytes the allocator was asked for and
the bytes that were written to the block, from its start. -/
structure Block where
  size : Nat
  data : List Nat := []
  deriving DecidableEq, Repr

/-- Model of `strlen`. -/
def strlen (s : List Nat) : Nat := (cstr s).length

/-- Modelled from the spec: the allocation `xmalloc(size)`; the macro comes
from private.h, which is not part of these sources, and stands for
`mget_malloc` of xalloc.c, which returns a block of `size` bytes or ends the
program. -/
def xmalloc (size : Nat) : Block := { size := size }

/-- Model of `strcpy(dest, src)`: the bytes of `src` up to and including the
terminating NUL are written to `dest`. -/
def strcpy (dest : Block) (src : List Nat) : Block := { dest with data := cstr src ++ [0] }

/-- Model of `mget_strdup(s)`. -/
def mget_strdup (s : Option (List Nat)) : Option Block :=
  match s with
  | some s => some (strcpy (xmalloc (strlen s)) s)
  | none => none

/-! ## Floating point: the type `double` and `strtod` -/

/-- A value of the type `double` (IEEE 754 binary64): the finite number
`m * 2 ^ e`, negated when `neg` is set, an infinity, or a NaN.  A finite value
may have several representations; zero is `m = 0`. -/
inductive Double where
  | finite (neg : Bool) (m : Nat) (e : Int)
  | inf (neg : Bool)
  | nan
  deriving DecidableEq, Repr

/-- The loop behind `bit_length`. -/
def bit_length_loop : Nat → Nat → Nat → Nat
  | 0, _, acc => acc
  | fuel + 1, n, acc => if n = 0 then acc else bit_length_loop fuel (n / 2) (acc + 1)

/-- The number of binary digits of `n`: the least `k` with `n < 2 ^ k`. -/
def bit_length (n : Nat) : Nat := bit_length_loop n n 0

/-- The `double` nearest to the positive rational `num / den` (round to
nearest, ties to even; an infinity from `2 ^ 1024` on), with the sign `neg`.
The exponent `e` is chosen so that the quotient by `2 ^ e` has 53 binary
digits, and is not less than -1074 (subnormal numbers). -/
def round_ratio (neg : Bool) (num den : Nat) : Double :=
  if num = 0 then Double.finite neg 0 0
  else
    let k : Int := (bit_length num : Int) - (bit_length den : Int)
    let e1 : Int := max (k - 53) (-1074)
    let q1 := if 0 ≤ e1 then num / (den * 2 ^ e1.toNat) else num * 2 ^ (-e1).toNat / den
    let e : Int := if 2 ^ 53 ≤ q1 then e1 + 1 else e1
    let n := if 0 ≤ e then num else num * 2 ^ (-e).toNat
    let d := if 0 ≤ e then den * 2 ^ e.toNat else den
    let q := n / d
    let r := n % d
    let m := if d < 2 * r ∨ (2 * r = d ∧ q % 2 = 1) then q + 1 else q
    if 971 < e ∨ (e = 971 ∧ m = 2 ^ 53) then Double.inf neg else Double.finite neg m e

/-- The `double` nearest to `m * 2 ^ e`. -/
def round_dyadic (neg : Bool) (m : Nat) (e : Int) : Double :=
  if 0 ≤ e then round_ratio neg (m * 2 ^ e.toNat) 1 else round_ratio neg m (2 ^ (-e).toNat)

/-- The product of two values of type `double`. -/
def Double.mul : Double → Double → Double
  | Double.finite n1 m1 e1, Double.finite n2 m2 e2 => round_dyadic (n1 != n2) (m1 * m2) (e1 + e2)
  | Double.finite n1 m1 _, Double.inf n2 => if m1 = 0 then Double.nan else Double.inf (n1 != n2)
  | Double.inf n1, Double.finite n2 m2 _ => if m2 = 0 then Double.nan else Double.inf (n1 != n2)
  | Double.inf n1, Double.inf n2 => Double.inf (n1 != n2)
  | _, _ => Double.nan

/-- The conversion of an `int` constant to `double` (exact). -/
def Double.ofInt (v : Int) : Double := Double.finite (decide (v < 0)) v.natAbs 0

/-- The comparison `x == 0`. -/
def Double.is_zero : Double → Bool
  | Double.finite _ m _ => m == 0
  | _ => false

/-- The comparison `x < 0`. -/
def Double.is_negative : Double → Bool
  | Double.finite neg m _ => neg && m != 0
  | Double.inf neg => neg
  | Double.nan => false

/-- The conversion of a `double` to a signed integer type of `bits` bits: the
fraction is dropped; `none` (undefined behaviour) when the integral part is
not a value of the type, and for an infinity or a NaN. -/
def Double.to_signed (bits : Nat) : Double → Option Int
  | Double.finite neg m e =>
    let t : Nat := if 0 ≤ e then m * 2 ^ e.toNat else m / 2 ^ (-e).toNat
    let v : Int := if neg then -(t : Int) else (t : Int)
    if -(2 : Int) ^ (bits - 1) ≤ v ∧ v < (2 : Int) ^ (bits - 1) then some v else none
  | _ => none

/-- The bytes `[0-9A-Fa-f]`. -/
def isxdigit (c : Nat) : Bool := (hexdigit c).isSome

/-- Model of `strtod(s, &end)` in the C locale: white space, an optional sign,
then `inf` or `infinity`, `nan` with an optional `(...)`, a hexadecimal
constant `0x h.h p±d`, or a decimal constant `d.d e±d`; the value is rounded
to the nearest `double`.  Without a number the value is 0 and `end` is `s`. -/
def strtod (s : List Nat) : Double × List Nat :=
  let t0 := (cstr s).dropWhile isspace
  let neg := cur t0 == 45
  let t := if cur t0 == 45 || cur t0 == 43 then t0.tail else t0
  if (t.take 3).map tolower = [105, 110, 102] then
    if ((t.drop 3).take 5).map tolower = [105, 110, 105, 116, 121] then (Double.inf neg, t.drop 8)
    else (Double.inf neg, t.drop 3)
  else if (t.take 3).map tolower = [110, 97, 110] then
    let r := t.drop 3
    let body := r.tail.takeWhile (fun c => isalpha c || isdigit c || c == 95)
    if cur r = 40 ∧ cur (r.tail.drop body.length) = 41 then
      (Double.nan, r.tail.drop (body.length + 1))
    else (Double.nan, r)
  else if cur t = 48 ∧ (cur t.tail = 120 ∨ cur t.tail = 88) ∧
      (isxdigit (cur (t.drop 2)) ∨ (cur (t.drop 2) = 46 ∧ isxdigit (cur (t.drop 3)))) then
    let t := t.drop 2
    let ip := t.takeWhile isxdigit
    let r1 := t.drop ip.length
    let fp := if cur r1 = 46 then r1.tail.takeWhile isxdigit else []
    let r2 := if cur r1 = 46 then r1.tail.drop fp.length else r1
    let u := if cur r2.tail = 45 ∨ cur r2.tail = 43 then r2.tail.tail else r2.tail
    let ed := u.takeWhile isdigit
    let hasexp := (cur r2 = 112 ∨ cur r2 = 80) ∧ ed ≠ []
    let x : Int := if hasexp then (if cur r2.tail = 45 then -(decval ed : Int) else decval ed) else 0
    (round_dyadic neg (hexval 0 (ip ++ fp)) (x - 4 * fp.length),
      if hasexp then u.drop ed.length else r2)
  else
    let ip := t.takeWhile isdigit
    let r1 := t.drop ip.length
    let fp := if cur r1 = 46 then r1.tail.takeWhile isdigit else []
    let r2 := if cur r1 = 46 then r1.tail.drop fp.length else r1
    if ip = [] ∧ fp = [] then (Double.finite false 0 0, s)
    else
      let u := if cur r2.tail = 45 ∨ cur r2.tail = 43 then r2.tail.tail else r2.tail
      let ed := u.takeWhile isdigit
      let hasexp := (cur r2 = 101 ∨ cur r2 = 69) ∧ ed ≠ []
      let x : Int :=
        (if hasexp then (if cur r2.tail = 45 then -(decval ed : Int) else decval ed) else 0) -
          fp.length
      (if 0 ≤ x then round_ratio neg (decval (ip ++ fp) * 10 ^ x.toNat) 1
        else round_ratio neg (decval (ip ++ fp)) (10 ^ (-x).toNat),
        if hasexp then u.drop ed.length else r2)

/-- Model of `atof(s)`: `strtod(s, NULL)`. -/
def atof (s : List Nat) : Double := (strtod s).1

/-! ## `src/options.c`: the options and their parse functions -/

/-- How a function of options.c ends: it returns, the program exits
(`exit`, `error_printf_exit`), or the behaviour is undefined. -/
inductive Run (α : Type) where
  | done (a : α)
  | exit (status : Int)
  | undefined
  deriving DecidableEq, Repr

/-- Sequencing: the rest runs when the first part returns. -/
def Run.bind {α β : Type} (r : Run α) (f : α → Run β) : Run β :=
  match r with
  | Run.done a => f a
  | Run.exit s => Run.exit s
  | Run.undefined => Run.undefined

/-- The result of a function applied to what is returned. -/
def Run.map {α β : Type} (f : α → β) (r : Run α) : Run β := r.bind (fun a => Run.done (f a))

/-- The members of `struct config` the options table points to. -/
inductive Var where
  | adjust_extension
  | logfile_append
  | base_url
  | bind_address
  | ca_cert
  | ca_directory
  | cache
  | cert_file
  | cert_type
  | check_certificate
  | clobber
  | connect_timeout
  | continue_download
  | cookie_suffixes
  | cookies
  | cut_directories
  | debug
  | default_page
  | delete_after
  | directories
  | directory_prefix
  | dns_caching
  | dns_timeout
  | domains
  | egd_file
  | exclude_domains
  | force_css
  | force_directories
  | force_html
  | host_directories
  | keep_alive
  | http_password
  | http_proxy
  | http_username
  | https_proxy
  | inet4_only
  | inet6_only
  | input_file
  | keep_session_cookies
  | load_cookies
  | local_encoding
  | max_redirect
  | num_threads
  | output_document
  | logfile
  | password
  | preferred_family
  | private_key
  | private_key_type
  | protocol_directories
  | quiet
  | quota
  | random_file
  | read_timeout
  | recursive
  | referer
  | remote_encoding
  | save_cookies
  | save_headers
  | secure_protocol
  | server_response
  | span_hosts
  | spider
  | strict_comments
  | timestamping
  | use_server_timestamps
  | username
  | user_agent
  | verbose
  | print_version
  deriving DecidableEq, Repr

/-- The named constants of libmget.h that options.c stores. -/
inductive Constant where
  | MGET_SSL_X509_FMT_PEM
  | MGET_SSL_X509_FMT_DER
  | MGET_NET_FAMILY_ANY
  | MGET_NET_FAMILY_IPV4
  | MGET_NET_FAMILY_IPV6
  deriving DecidableEq, Repr

/-- The value of a member of `struct config`: a number (`char`, `int`,
`long long`), a string (`none` is `NULL`), the keys of a string map, or a
named constant. -/
inductive Value where
  | num (v : Int)
  | str (s : Option (List Nat))
  | map (keys : List (List Nat))
  | const (c : Constant)
  deriving DecidableEq, Repr

/-- The state of the global `config`. -/
abbrev Config := Var → Value

/-- The assignment `config.v = x`. -/
def Config.set (c : Config) (v : Var) (x : Value) : Config := fun w => if w = v then x else c w

/-- The store `*opt->var = x`; `opt->var` is `NULL` for some options. -/
def store (c : Config) (var : Option Var) (x : Value) : Run Config :=
  match var with
  | some v => Run.done (c.set v x)
  | none => Run.undefined

/-- The initial value of `config`: the members that are not listed are zero or
`NULL`.  `PACKAGE_VERSION` comes from config.h, which is not part of these
sources. -/
def config (PACKAGE_VERSION : List Nat) : Config := fun v =>
  match v with
  | Var.connect_timeout => Value.num (-1)
  | Var.dns_timeout => Value.num (-1)
  | Var.read_timeout => Value.num (-1)
  | Var.max_redirect => Value.num 20
  | Var.num_threads => Value.num 5
  | Var.dns_caching => Value.num 1
  | Var.user_agent => Value.str (some (bytes "Mget/" ++ PACKAGE_VERSION))
  | Var.verbose => Value.num 1
  | Var.check_certificate => Value.num 1
  | Var.cert_type => Value.const Constant.MGET_SSL_X509_FMT_PEM
  | Var.private_key_type => Value.const Constant.MGET_SSL_X509_FMT_PEM
  | Var.secure_protocol => Value.str (some (bytes "AUTO"))
  | Var.ca_directory => Value.str (some (bytes "system"))
  | Var.cookies => Value.num 1
  | Var.keep_alive => Value.num 1
  | Var.use_server_timestamps => Value.num 1
  | Var.directories => Value.num 1
  | Var.host_directories => Value.num 1
  | Var.cache => Value.num 1
  | Var.clobber => Value.num 1
  | Var.default_page => Value.str (some (bytes "index.html"))
  | Var.logfile_append | Var.base_url | Var.bind_address | Var.ca_cert | Var.cert_file
  | Var.cookie_suffixes | Var.directory_prefix | Var.egd_file | Var.http_password
  | Var.http_proxy | Var.http_username | Var.https_proxy | Var.input_file | Var.load_cookies
  | Var.local_encoding | Var.output_document | Var.logfile | Var.password | Var.private_key
  | Var.random_file | Var.referer | Var.remote_encoding | Var.save_cookies | Var.username =>
    Value.str none
  | Var.domains | Var.exclude_domains => Value.map []
  | _ => Value.num 0

/-- The parse functions of the options table. -/
inductive ParseFn where
  | print_help
  | parse_integer
  | parse_numbytes
  | parse_string
  | parse_stringset
  | parse_bool
  | parse_timeout
  | parse_cert_type
  | parse_n_option
  | parse_prefer_family
  deriving DecidableEq, Repr

/-- Model of `struct option`: the long name, the variable (`none` for `NULL`),
the parse function, the number of arguments and the short name (0 for
none). -/
structure option where
  long_name : List Nat
  var : Option Var
  parser : ParseFn
  args : Nat
  short_name : Nat
  deriving DecidableEq, Repr

/-- Model of `strcmp`: the sign of the comparison of two C strings, byte by
byte as unsigned values. -/
def strcmp : List Nat → List Nat → Int
  | [], [] => 0
  | [], b :: _ => if b = 0 then 0 else -1
  | a :: _, [] => if a = 0 then 0 else 1
  | a :: as, b :: bs =>
    if a = 0 ∧ b = 0 then 0 else if a < b then -1 else if b < a then 1 else strcmp as bs

/-- Model of `strncmp(a, b, n)`. -/
def strncmp (a b : List Nat) (n : Nat) : Int := strcmp ((cstr a).take n) ((cstr b).take n)

/-- Model of `isalnum`. -/
def isalnum (c : Nat) : Bool := isalpha c || isdigit c

/-- Model of `print_help`: the text is printed and the program exits with
status 0. -/
def print_help : Run Config := Run.exit 0

/-- Modelled from the spec: `error_printf_exit` of log.h, which is not part of
these sources: the message is printed and the program exits with
`EXIT_FAILURE`. -/
def error_printf_exit {α : Type} : Run α := Run.exit 1

/-- Model of `parse_integer`. -/
def parse_integer (c : Config) (opt : option) (val : Option (List Nat)) : Run Config :=
  store c opt.var (Value.num (match val with | some v => atoi v | none => 0))

/-- The conversions `%lf%c` of `sscanf(val, " %lf%c", &num, &modifier)`: the
number and the byte after it (0 when the string ends there); `none` when no
number is read.  The number is read as `strtod` reads it. -/
def scan_lf_c (val : List Nat) : Option (Double × Nat) :=
  let r := strtod ((cstr val).dropWhile isspace)
  if r.2.length = ((cstr val).dropWhile isspace).length then none else some (r.1, cur r.2)

/-- Model of `parse_numbytes`. -/
def parse_numbytes (c : Config) (opt : option) (val : Option (List Nat)) : Run Config :=
  match val with
  | none => Run.done c
  | some val =>
    if strcaseeq val (bytes "INF") || strcaseeq val (bytes "INFINITY") then
      store c opt.var (Value.num 0)
    else
      match scan_lf_c val with
      | none => error_printf_exit
      | some (num, modifier) =>
        let scaled : Option Double :=
          if modifier = 0 then some num
          else if tolower modifier = 107 then some (num.mul (Double.ofInt 1024))
          else if tolower modifier = 109 then some (num.mul (Double.ofInt (1024 * 1024)))
          else if tolower modifier = 103 then some (num.mul (Double.ofInt (1024 * 1024 * 1024)))
          else if tolower modifier = 116 then
            some (num.mul (Double.ofInt (1024 * 1024 * 1024 * 1024)))
          else none
        match scaled with
        | none => error_printf_exit
        | some num =>
          match num.to_signed 64 with
          | some v => store c opt.var (Value.num v)
          | none => Run.undefined

/-- Model of `parse_string`. -/
def parse_string (c : Config) (opt : option) (val : Option (List Nat)) : Run Config :=
  store c opt.var (Value.str (val.map cstr))

/-- Modelled from the spec: `mget_stringmap_put_ident_noalloc` of
stringmap.c, which is not part of these sources: the key is added unless the
map has it. -/
def mget_stringmap_put_ident_noalloc (keys : List (List Nat)) (key : List Nat) :
    List (List Nat) :=
  if key ∈ keys then keys else keys ++ [key]

/-- The loop of `parse_stringset` over the pieces of `val` between commas;
`piece` collects the bytes since the last comma. -/
def stringset_loop : List Nat → List Nat → List (List Nat) → List (List Nat)
  | [], piece, keys => if piece = [] then keys else mget_stringmap_put_ident_noalloc keys piece
  | x :: xs, piece, keys =>
    if x = 44 then
      stringset_loop xs [] (if piece = [] then keys else mget_stringmap_put_ident_noalloc keys piece)
    else stringset_loop xs (piece ++ [x]) keys

/-- Model of `parse_stringset`; without a value the map is cleared. -/
def parse_stringset (c : Config) (opt : option) (val : Option (List Nat)) : Run Config :=
  match opt.var with
  | none => Run.undefined
  | some v =>
    match val with
    | some val =>
      Run.done (c.set v (Value.map (stringset_loop (cstr val) []
        (match c v with | Value.map keys => keys | _ => []))))
    | none => Run.done (c.set v (Value.map []))

/-- Model of `parse_bool`; a value that is not recognised is reported by
`error_printf` and changes nothing. -/
def parse_bool (c : Config) (opt : option) (val : Option (List Nat)) : Run Config :=
  match val with
  | none => store c opt.var (Value.num 1)
  | some val =>
    if strcmp val (bytes "1") = 0 || strcaseeq val (bytes "y") || strcaseeq val (bytes "yes") ||
        strcaseeq val (bytes "on") then
      store c opt.var (Value.num 1)
    else if strcmp val (bytes "0") = 0 || strcaseeq val (bytes "n") ||
        strcaseeq val (bytes "no") || strcaseeq val (bytes "off") then
      store c opt.var (Value.num 0)
    else Run.done c

/-- The value `fval` of `parse_timeout` before it is stored. -/
def timeout_value (val : List Nat) : Double :=
  let fval :=
    if strcaseeq val (bytes "INF") || strcaseeq val (bytes "INFINITY") then Double.ofInt (-1)
    else
      let fval := (atof val).mul (Double.ofInt 1000)
      if fval.is_zero then Double.ofInt (-1) else fval
  if fval.is_negative then Double.ofInt (-1) else fval

/-- Model of `parse_timeout`: the value is converted to `int` when it is
stored; with `opt->var == NULL` (the option `timeout`) the three timeouts are
set. -/
def parse_timeout (c : Config) (opt : option) (val : Option (List Nat)) : Run Config :=
  match val with
  | none => Run.undefined
  | some val =>
    match (timeout_value val).to_signed 32 with
    | none => Run.undefined
    | some fval =>
      match opt.var with
      | some v => Run.done (c.set v (Value.num fval))
      | none =>
        Run.done (((c.set Var.read_timeout (Value.num fval)).set Var.dns_timeout
          (Value.num fval)).set Var.connect_timeout (Value.num fval))

/-- Model of `parse_cert_type`. -/
def parse_cert_type (c : Config) (opt : option) (val : Option (List Nat)) : Run Config :=
  match val with
  | none => store c opt.var (Value.const Constant.MGET_SSL_X509_FMT_PEM)
  | some val =>
    if strcaseeq val (bytes "PEM") then
      store c opt.var (Value.const Constant.MGET_SSL_X509_FMT_PEM)
    else if strcaseeq val (bytes "DER") || strcaseeq val (bytes "ASN1") then
      store c opt.var (Value.const Constant.MGET_SSL_X509_FMT_DER)
    else error_printf_exit

/-- The loop of `parse_n_option` over the letters of the value. -/
def n_option_loop : List Nat → Config → Run Config
  | [], c => Run.done c
  | x :: xs, c =>
    if x = 0 then Run.done c
    else if x = 118 then n_option_loop xs (c.set Var.verbose (Value.num 0))
    else if x = 99 then n_option_loop xs (c.set Var.clobber (Value.num 0))
    else if x = 100 then n_option_loop xs (c.set Var.directories (Value.num 0))
    else if x = 72 then n_option_loop xs (c.set Var.host_directories (Value.num 0))
    else if x = 112 then n_option_loop xs c
    else error_printf_exit

/-- Model of `parse_n_option`. -/
def parse_n_option (c : Config) (val : Option (List Nat)) : Run Config :=
  match val with
  | some val => n_option_loop val c
  | none => Run.done c

/-- Model of `parse_prefer_family`. -/
def parse_prefer_family (c : Config) (opt : option) (val : Option (List Nat)) : Run Config :=
  match val with
  | none => store c opt.var (Value.const Constant.MGET_NET_FAMILY_ANY)
  | some val =>
    if strcaseeq val (bytes "none") then store c opt.var (Value.const Constant.MGET_NET_FAMILY_ANY)
    else if strcaseeq val (bytes "ipv4") then
      store c opt.var (Value.const Constant.MGET_NET_FAMILY_IPV4)
    else if strcaseeq val (bytes "ipv6") then
      store c opt.var (Value.const Constant.MGET_NET_FAMILY_IPV6)
    else error_printf_exit

/-- The call `opt->parser(opt, argv, val)`; every parse function returns 0. -/
def call_parse_function (c : Config) (opt : option) (val : Option (List Nat)) : Run Config :=
  match opt.parser with
  | ParseFn.print_help => print_help
  | ParseFn.parse_integer => parse_integer c opt val
  | ParseFn.parse_numbytes => parse_numbytes c opt val
  | ParseFn.parse_string => parse_string c opt val
  | ParseFn.parse_stringset => parse_stringset c opt val
  | ParseFn.parse_bool => parse_bool c opt val
  | ParseFn.parse_timeout => parse_timeout c opt val
  | ParseFn.parse_cert_type => parse_cert_type c opt val
  | ParseFn.parse_n_option => parse_n_option c val
  | ParseFn.parse_prefer_family => parse_prefer_family c opt val

/-- The table `options`. -/
def options : List option :=
  [⟨bytes "adjust-extension", some Var.adjust_extension, ParseFn.parse_bool, 0, 'E'.toNat⟩,
   ⟨bytes "append-output", some Var.logfile_append, ParseFn.parse_string, 1, 'a'.toNat⟩,
   ⟨bytes "base-url", some Var.base_url, ParseFn.parse_string, 1, 'B'.toNat⟩,
   ⟨bytes "bind-address", some Var.bind_address, ParseFn.parse_string, 1, 0⟩,
   ⟨bytes "ca-certificate", some Var.ca_cert, ParseFn.parse_string, 1, 0⟩,
   ⟨bytes "ca-directory", some Var.ca_directory, ParseFn.parse_string, 1, 0⟩,
   ⟨bytes "cache", some Var.cache, ParseFn.parse_bool, 0, 0⟩,
   ⟨bytes "certificate", some Var.cert_file, ParseFn.parse_string, 1, 0⟩,
   ⟨bytes "certificate-type", some Var.cert_type, ParseFn.parse_cert_type, 1, 0⟩,
   ⟨bytes "check-certificate", some Var.check_certificate, ParseFn.parse_bool, 0, 0⟩,
   ⟨bytes "clobber", some Var.clobber, ParseFn.parse_bool, 0, 0⟩,
   ⟨bytes "connect-timeout", some Var.connect_timeout, ParseFn.parse_timeout, 1, 0⟩,
   ⟨bytes "continue-download", some Var.continue_download, ParseFn.parse_bool, 0, 'c'.toNat⟩,
   ⟨bytes "cookie-suffixes", some Var.cookie_suffixes, ParseFn.parse_string, 1, 0⟩,
   ⟨bytes "cookies", some Var.cookies, ParseFn.parse_bool, 0, 0⟩,
   ⟨bytes "cut-dirs", some Var.cut_directories, ParseFn.parse_integer, 1, 0⟩,
   ⟨bytes "debug", some Var.debug, ParseFn.parse_bool, 0, 'd'.toNat⟩,
   ⟨bytes "default-page", some Var.default_page, ParseFn.parse_string, 1, 0⟩,
   ⟨bytes "delete-after", some Var.delete_after, ParseFn.parse_bool, 0, 0⟩,
   ⟨bytes "directories", some Var.directories, ParseFn.parse_bool, 0, 0⟩,
   ⟨bytes "directory-prefix", some Var.directory_prefix, ParseFn.parse_string, 1, 'P'.toNat⟩,
   ⟨bytes "dns-cache", some Var.dns_caching, ParseFn.parse_bool, 0, 0⟩,
   ⟨bytes "dns-timeout", some Var.dns_timeout, ParseFn.parse_timeout, 1, 0⟩,
   ⟨bytes "domains", some Var.domains, ParseFn.parse_stringset, 1, 'D'.toNat⟩,
   ⟨bytes "egd-file", some Var.egd_file, ParseFn.parse_string, 1, 0⟩,
   ⟨bytes "exclude-domains", some Var.exclude_domains, ParseFn.parse_stringset, 1, 0⟩,
   ⟨bytes "force-css", some Var.force_css, ParseFn.parse_bool, 0, 0⟩,
   ⟨bytes "force-directories", some Var.force_directories, ParseFn.parse_bool, 0, 'x'.toNat⟩,
   ⟨bytes "force-html", some Var.force_html, ParseFn.parse_bool, 0, 'F'.toNat⟩,
   ⟨bytes "help", none, ParseFn.print_help, 0, 'h'.toNat⟩,
   ⟨bytes "host-directories", some Var.host_directories, ParseFn.parse_bool, 0, 0⟩,
   ⟨bytes "html-extension", some Var.adjust_extension, ParseFn.parse_bool, 0, 0⟩,
   ⟨bytes "http-keep-alive", some Var.keep_alive, ParseFn.parse_bool, 0, 0⟩,
   ⟨bytes "http-password", some Var.http_password, ParseFn.parse_string, 1, 0⟩,
   ⟨bytes "http-proxy", some Var.http_proxy, ParseFn.parse_string, 1, 0⟩,
   ⟨bytes "http-user", some Var.http_username, ParseFn.parse_string, 1, 0⟩,
   ⟨bytes "https-proxy", some Var.https_proxy, ParseFn.parse_string, 1, 0⟩,
   ⟨bytes "inet4-only", some Var.inet4_only, ParseFn.parse_bool, 0, '4'.toNat⟩,
   ⟨bytes "inet6-only", some Var.inet6_only, ParseFn.parse_bool, 0, '6'.toNat⟩,
   ⟨bytes "input-file", some Var.input_file, ParseFn.parse_string, 1, 'i'.toNat⟩,
   ⟨bytes "keep-session-cookies", some Var.keep_session_cookies, ParseFn.parse_bool, 0, 0⟩,
   ⟨bytes "load-cookies", some Var.load_cookies, ParseFn.parse_string, 1, 0⟩,
   ⟨bytes "local-encoding", some Var.local_encoding, ParseFn.parse_string, 1, 0⟩,
   ⟨bytes "max-redirect", some Var.max_redirect, ParseFn.parse_integer, 1, 0⟩,
   ⟨bytes "n", none, ParseFn.parse_n_option, 1, 'n'.toNat⟩,
   ⟨bytes "num-threads", some Var.num_threads, ParseFn.parse_integer, 1, 0⟩,
   ⟨bytes "output-document", some Var.output_document, ParseFn.parse_string, 1, 'O'.toNat⟩,
   ⟨bytes "output-file", some Var.logfile, ParseFn.parse_string, 1, 'o'.toNat⟩,
   ⟨bytes "password", some Var.password, ParseFn.parse_string, 1, 0⟩,
   ⟨bytes "prefer-family", some Var.preferred_family, ParseFn.parse_prefer_family, 1, 0⟩,
   ⟨bytes "private-key", some Var.private_key, ParseFn.parse_string, 1, 0⟩,
   ⟨bytes "private-key-type", some Var.private_key_type, ParseFn.parse_cert_type, 1, 0⟩,
   ⟨bytes "protocol-directories", some Var.protocol_directories, ParseFn.parse_bool, 0, 0⟩,
   ⟨bytes "quiet", some Var.quiet, ParseFn.parse_bool, 0, 'q'.toNat⟩,
   ⟨bytes "quota", some Var.quota, ParseFn.parse_numbytes, 1, 'Q'.toNat⟩,
   ⟨bytes "random-file", some Var.random_file, ParseFn.parse_string, 1, 0⟩,
   ⟨bytes "read-timeout", some Var.read_timeout, ParseFn.parse_timeout, 1, 0⟩,
   ⟨bytes "recursive", some Var.recursive, ParseFn.parse_bool, 0, 'r'.toNat⟩,
   ⟨bytes "referer", some Var.referer, ParseFn.parse_string, 1, 0⟩,
   ⟨bytes "remote-encoding", some Var.remote_encoding, ParseFn.parse_string, 1, 0⟩,
   ⟨bytes "save-cookies", some Var.save_cookies, ParseFn.parse_string, 1, 0⟩,
   ⟨bytes "save-headers", some Var.save_headers, ParseFn.parse_bool, 0, 0⟩,
   ⟨bytes "secure-protocol", some Var.secure_protocol, ParseFn.parse_string, 1, 0⟩,
   ⟨bytes "server-response", some Var.server_response, ParseFn.parse_bool, 0, 'S'.toNat⟩,
   ⟨bytes "span-hosts", some Var.span_hosts, ParseFn.parse_bool, 0, 'H'.toNat⟩,
   ⟨bytes "spider", some Var.spider, ParseFn.parse_bool, 0, 0⟩,
   ⟨bytes "strict-comments", some Var.strict_comments, ParseFn.parse_bool, 0, 0⟩,
   ⟨bytes "timeout", none, ParseFn.parse_timeout, 1, 'T'.toNat⟩,
   ⟨bytes "timestamping", some Var.timestamping, ParseFn.parse_bool, 0, 'N'.toNat⟩,
   ⟨bytes "use-server-timestamp", some Var.use_server_timestamps, ParseFn.parse_bool, 0, 0⟩,
   ⟨bytes "user", some Var.username, ParseFn.parse_string, 1, 0⟩,
   ⟨bytes "user-agent", some Var.user_agent, ParseFn.parse_string, 1, 'U'.toNat⟩,
   ⟨bytes "verbose", some Var.verbose, ParseFn.parse_bool, 0, 'v'.toNat⟩,
   ⟨bytes "version", some Var.print_version, ParseFn.parse_bool, 0, 'V'.toNat⟩]

/-- Model of `opt_compare`. -/
def opt_compare (key : List Nat) (opt : option) : Int := strcmp key opt.long_name

/-- The loop of the C library function `bsearch` on the interval `[l, u)` of
the table; every round halves the interval. -/
def bsearch_loop (key : List Nat) (base : List option) : Nat → Nat → Nat → Option option
  | 0, _, _ => none
  | fuel + 1, l, u =>
    if l < u then
      match base.get? ((l + u) / 2) with
      | none => none
      | some p =>
        if opt_compare key p < 0 then bsearch_loop key base fuel l ((l + u) / 2)
        else if 0 < opt_compare key p then bsearch_loop key base fuel ((l + u) / 2 + 1) u
        else some p
    else none

/-- Model of `bsearch(key, base, nmemb, size, opt_compare)`. -/
def bsearch (key : List Nat) (base : List option) : Option option :=
  bsearch_loop key base (base.length + 1) 0 base.length

/-- Modelled from the spec: `strlcpy(dst, src, size)`, which is not part of
these sources: at most `size - 1` bytes of `src` are copied and a NUL is
written after them; the result is the string at `dst`. -/
def strlcpy (src : List Nat) (size : Nat) : List Nat := (cstr src).take (size - 1)

/-- The assignment `*var = !*var` on a `char`. -/
def invert_bool (c : Config) (var : Option Var) : Run Config :=
  match var with
  | some v =>
    Run.done (c.set v (Value.num (match c v with | Value.num 0 => 1 | Value.num _ => 0 | _ => 0)))
  | none => Run.undefined

/-- Model of `set_long_option(name, value)`: the new `config` and the number
of following arguments that were used.  `namebuf` is `some` when the name
carries a value after `=`, which is when `name == namebuf` holds. -/
def set_long_option (c : Config) (name : List Nat) (value : Option (List Nat)) :
    Run (Config × Nat) :=
  let invert := strncmp name (bytes "no-") 3 = 0
  let name := if invert then (cstr name).drop 3 else cstr name
  let p := strchr name 61
  let namebuf := p.map (fun p => strlcpy name (name.length - p.length + 1))
  let value := match p with
    | some p => some p.tail
    | none => value
  match bsearch (namebuf.getD name) options with
  | none => error_printf_exit
  | some opt =>
    let value := if namebuf = none ∧ opt.parser = ParseFn.parse_bool then none else value
    if opt.parser = ParseFn.parse_string ∧ invert then
      if value ≠ none ∧ namebuf ≠ none then error_printf_exit
      else (parse_string c opt none).map (fun c => (c, 0))
    else if opt.parser = ParseFn.parse_stringset ∧ invert then
      if value ≠ none ∧ namebuf ≠ none then error_printf_exit
      else (parse_stringset c opt none).map (fun c => (c, 0))
    else if value ≠ none ∧ opt.args = 0 ∧ opt.parser ≠ ParseFn.parse_bool then error_printf_exit
    else if opt.args ≠ 0 then
      if value = none then error_printf_exit
      else (call_parse_function c opt value).map (fun c => (c, if namebuf = none then opt.args else 0))
    else if opt.parser = ParseFn.parse_bool then
      (call_parse_function c opt value).bind (fun c =>
        if invert then (invert_bool c opt.var).map (fun c => (c, 0)) else Run.done (c, 0))
    else (call_parse_function c opt none).map (fun c => (c, 0))

/-- The table `shortcut_to_option` after its initialisation: the index plus 1
of the last option of the table with the short name `ch`, 0 when there is
none. -/
def shortcut_to_option (ch : Nat) : Nat :=
  (List.range options.length).foldl
    (fun idx it => if 0 < (options.getD it ⟨[], none, ParseFn.print_help, 0, 0⟩).short_name ∧
      (options.getD it ⟨[], none, ParseFn.print_help, 0, 0⟩).short_name = ch then it + 1 else idx) 0

/-- The loop `for (pos = 1; argp[pos]; pos++)` of `parse_command_line` over
the short options of one argument; `s` is the argument from `argp[pos]` on.
Returns the new `config` and the new value of `n`. -/
def short_options (argc : Nat) (argv : List (List Nat)) :
    List Nat → Nat → Config → Run (Config × Nat)
  | [], n, c => Run.done (c, n)
  | ch :: s, n, c =>
    if ch = 0 then Run.done (c, n)
    else if isalnum ch ∧ shortcut_to_option ch ≠ 0 then
      match options.get? (shortcut_to_option ch - 1) with
      | none => Run.undefined
      | some opt =>
        if opt.args ≠ 0 then
          if cur s = 0 ∧ argc ≤ n + opt.args then error_printf_exit
          else if cur s ≠ 0 then (call_parse_function c opt (some s)).map (fun c => (c, n))
          else (call_parse_function c opt (argv.get? (n + 1))).map (fun c => (c, n + 1))
        else (call_parse_function c opt none).bind (fun c => short_options argc argv s n c)
    else error_printf_exit

/-- The loop `for (n = 1; n < argc; n++)` of `parse_command_line`, from the
index `n` on. -/
def parse_arguments (argc : Nat) (argv : List (List Nat)) :
    Nat → Nat → Config → Run (Config × Nat)
  | 0, n, c => Run.done (c, n)
  | fuel + 1, n, c =>
    if n < argc then
      let argp := cstr (argv.getD n [])
      if cur argp ≠ 45 then Run.done (c, n)
      else if cur argp.tail = 45 then
        if cur (argp.drop 2) = 0 then Run.done (c, n + 1)
        else
          (set_long_option c (argp.drop 2) (if n + 1 < argc then argv.get? (n + 1) else none)).bind
            (fun r => parse_arguments argc argv fuel (n + r.2 + 1) r.1)
      else if cur argp.tail ≠ 0 then
        (short_options argc argv argp.tail n c).bind
          (fun r => parse_arguments argc argv fuel (r.2 + 1) r.1)
      else parse_arguments argc argv fuel (n + 1) c
    else Run.done (c, n)

/-- Model of `parse_command_line(argc, argv)`: the new `config` and the index
of the first argument that is not an option.  Every round of the loop moves
`n` forward, so `argc` rounds are enough. -/
def parse_command_line (argc : Nat) (argv : List (List Nat)) (c : Config) : Run (Config × Nat) :=
  parse_arguments argc argv argc 1 c

/-! ## `src/options.c`: the configuration file -/

/-- Modelled from the spec: `mget_buffer_memcpy(buf, data, length)` of
buffer.c, which overwrites the buffer with the bytes. -/
def mget_buffer_memcpy (buf : mget_buffer_t) (data : List Nat) (length : Nat) : mget_buffer_t :=
  mget_buffer_memcat (mget_buffer_reset buf) data length

/-- What the line loop of `_read_config` carries from one line to the next:
the flag `append`, the buffer `linebuf` and the variable `linelen`. -/
structure ReadState where
  append : Bool := false
  linebuf : mget_buffer_t := {}
  linelen : Nat := 0
  deriving DecidableEq, Repr

/-- The call `sscanf(linep, " %63[A-Za-z0-9-] %n", name, &pos)`: the name and
`pos`, the number of bytes read up to the end of the white space after the
name; `none` when the result is less than 1. -/
def scan_name (linep : List Nat) : Option (List Nat × Nat) :=
  match scan_set 63 (fun c => isalpha c || isdigit c || c == 45) (scan_ws (cstr linep)) with
  | none => none
  | some r => some (r.1, (cstr linep).length - (scan_ws r.2).length)

/-- The loop `while ((c = *src) != quote && c)` that removes the quotes and
the backslashes of a quoted value; `dst` collects the bytes written.  `none`
when a backslash is the last byte of the string and `src += 2` steps over the
terminating NUL. -/
def unquote_loop (quote : Nat) : List Nat → List Nat → Option (List Nat)
  | [], dst => some dst
  | [c], dst =>
    if c = quote ∨ c = 0 then some dst else if c = 92 then none else some (dst ++ [c])
  | c :: d :: src, dst =>
    if c = quote ∨ c = 0 then some dst
    else if c = 92 then (if d = 0 then none else unquote_loop quote src (dst ++ [d]))
    else unquote_loop quote (d :: src) (dst ++ [c])

/-- The removal of trailing white space: `while (len > 0 && isspace(linep[len - 1])) len--`. -/
def trim_end (linep : List Nat) : List Nat := (linep.reverse.dropWhile isspace).reverse

/-- One round of the line loop of `_read_config`, on the line `buf` that
`mget_getline` has returned.  `incl` stands for the handling of an `include`
statement (the recursion guard and the call `_read_config(val, 1)`). -/
def read_config_line (incl : List Nat → Config → Run Config) (st : ReadState) (c : Config)
    (buf : List Nat) : Run (ReadState × Config) :=
  let buf := cstr buf
  if buf.length = 0 ∨ cur buf = 13 ∨ cur buf = 10 then Run.done (st, c)
  else
    let linep := if st.append then buf else buf.dropWhile isspace
    if cur linep = 35 then Run.done (st, c)
    else
      let linep := trim_end linep
      if linep = [] ∧ st.append then Run.undefined
      else if linep.getLast? = some 92 then
        Run.done ({ st with append := true, linebuf := if st.append then mget_buffer_memcat st.linebuf linep (linep.length - 1) else mget_buffer_memcpy st.linebuf linep (linep.length - 1) }, c)
      else
        let linebuf := if st.append then mget_buffer_strcat st.linebuf linep else st.linebuf
        let linelen := if st.append then linebuf.content.length else st.linelen
        let linep := if st.append then linebuf.content else linep
        match scan_name linep with
        | none => Run.done ({ append := false, linebuf := linebuf, linelen := linelen }, c)
        | some (name, pos0) =>
          let found1 := cur (linep.drop pos0) = 61
          let pos := if found1 then pos0 + 1 else pos0
          let val := linep.drop pos
          let vallen := to_int ((linelen : Int) - (pos : Int))
          let unquoted :=
            if 2 ≤ vallen ∧ (cur val = 34 ∨ cur val = 39) then unquote_loop (cur val) val.tail []
            else some val
          match unquoted with
          | none => Run.undefined
          | some val =>
            (if found1 then (set_long_option c name (some val)).map (fun r => r.1)
              else if strcmp name (bytes "include") = 0 then incl val c
              else (set_long_option c name none).map (fun r => r.1)).map
              (fun c => ({ append := false, linebuf := linebuf, linelen := 0 }, c))

/-- The line loop of `_read_config`. -/
def read_config_lines (incl : List Nat → Config → Run Config) :
    List (List Nat) → ReadState → Config → Run Config
  | [], _, c => Run.done c
  | buf :: lines, st, c =>
    (read_config_line incl st c buf).bind (fun r => read_config_lines incl lines r.1 r.2)

/-- Model of `_read_config(cfgfile, 0)` on a file that can be opened and whose
lines are `lines`. -/
def read_config (incl : List Nat → Config → Run Config) (lines : List (List Nat)) (c : Config) :
    Run Config :=
  read_config_lines incl lines {} c

/-! ## Inputs and renderings used to state the properties -/

/-- A stream whose first read ends with the CR of the CRLF that closes the
chunk `hello`. -/
def straddle_stream : List (List Nat) :=
  [bytes "HTTP/1.1 200 OK\r\nTransfer-Encoding: chunked\r\n\r\n5\r\nhello\r", bytes "\n0\r\n\r\n"]

/-- One chunk of a chunked body as it travels: the chunk-size line, the data
and the closing CRLF.  A chunk is the pair of its size digits and its data. -/
def chunk_encode (c : List Nat × List Nat) : List Nat := c.1 ++ [13, 10] ++ c.2 ++ [13, 10]

/-- A chunked body: the chunks, the zero-size chunk and the final blank line. -/
def chunked_body (chunks : List (List Nat × List Nat)) : List Nat :=
  (chunks.map chunk_encode).flatten ++ bytes "0\r\n\r\n"

/-- A chunk is well formed when its size line is a hexadecimal numeral (either
letter case, leading zeros allowed) whose value is the length of the data, and
the data are not empty. -/
def chunk_ok (c : List Nat × List Nat) : Prop :=
  c.1 ≠ [] ∧ (∀ d ∈ c.1, (hexdigit d).isSome = true) ∧ hexval 0 c.1 = c.2.length ∧
    0 < c.2.length ∧ c.2.length < 2 ^ 63

instance chunk_ok_decidable : DecidablePred chunk_ok := fun c => by
  unfold chunk_ok
  infer_instance

/-- The `for` loop of `http_parse_response` read one byte at a time, the form
in which the loop is reasoned about (`header_run_eq` relates it to
`http_parse_lines`).  The first argument is `none` at the start of a line and
`some acc` inside a line, `acc` being the accumulator of `line_end`. -/
def header_run (now : Int) : Option (List Nat) → MGET_HTTP_RESPONSE → List Nat →
    Option MGET_HTTP_RESPONSE
  | none, resp, [] => some resp
  | none, resp, c :: cs => if c = 0 ∨ c = 13 then some resp else header_run now (some [c]) resp cs
  | some acc, resp, [] => http_parse_header_line now resp acc.reverse
  | some acc, resp, c :: cs =>
    if c = 0 then http_parse_header_line now resp acc.reverse
    else if c = 10 then
      if isblank (cur cs) then header_run now (some (32 :: 32 :: acc.tail)) resp cs
      else
        match http_parse_header_line now resp acc.tail.reverse with
        | none => none
        | some r => header_run now none r cs
    else header_run now (some (c :: acc)) resp cs

/-- A number of a status line: one to three decimal digits. -/
def is_number (ds : List Nat) : Prop := ds ≠ [] ∧ ds.length ≤ 3 ∧ ∀ d ∈ ds, isdigit d = true

instance is_number_decidable : DecidablePred is_number := fun ds => by
  unfold is_number
  infer_instance

/-- A reason phrase that is not empty, starts with a byte that is not white
space and contains no CR, LF or NUL. -/
def is_reason (reason : List Nat) : Prop :=
  reason ≠ [] ∧ isspace (cur reason) = false ∧ ∀ c ∈ reason, c ≠ 13 ∧ c ≠ 10 ∧ c ≠ 0

instance is_reason_decidable : DecidablePred is_reason := fun r => by
  unfold is_reason
  infer_instance

/-- The status line `HTTP/<major>.<minor> <code> <reason>`, without its line
end; the numbers are given by their digits. -/
def status_line (major minor code reason : List Nat) : List Nat :=
  bytes "HTTP/" ++ major ++ [46] ++ minor ++ [32] ++ code ++ [32] ++ reason

/-- A status line as `status_line` renders it. -/
def is_status_line (s : List Nat) : Prop :=
  ∃ major minor code reason, is_number major ∧ is_number minor ∧ is_number code ∧
    is_reason reason ∧ s = status_line major minor code reason

/-- One round of the `for` loop of `http_parse_response` once `line_end` has
cut the line out: the dispatch on the line, then the rest of the loop. -/
def after_line (now : Int) (fuel : Nat) (resp : MGET_HTTP_RESPONSE)
    (cut : List Nat × Option (List Nat)) : Option MGET_HTTP_RESPONSE :=
  match http_parse_header_line now resp cut.1 with
  | none => none
  | some r => http_parse_lines fuel now r cut.2

/-- A run of token bytes, such as a header field name. -/
def is_token_run (name : List Nat) : Prop := ∀ x ∈ name, http_istoken x = true

instance is_token_run_decidable : DecidablePred is_token_run := fun n => by
  unfold is_token_run
  infer_instance

/-- A header line as it stands in a header block, without its line end: not
empty, free of NUL and LF, and not starting with a blank (that would make it a
continuation line) or with CR (that would be the blank line that ends the
header). -/
def is_header_line (l : List Nat) : Prop :=
  l ≠ [] ∧ (∀ x ∈ l, x ≠ 0 ∧ x ≠ 10) ∧ cur l ≠ 13 ∧ isblank (cur l) = false

instance is_header_line_decidable : DecidablePred is_header_line := fun l => by
  unfold is_header_line
  infer_instance

/-- Header lines joined by CRLF; the last line has no line end, as in the block
the response reader hands over. -/
def join_lines : List (List Nat) → List Nat
  | [] => []
  | [l] => l
  | l :: k :: ls => l ++ [13, 10] ++ join_lines (k :: ls)

/-- The header block made of a status line and header lines. -/
def header_block (status : List Nat) (lines : List (List Nat)) : List Nat :=
  status ++ [13, 10] ++ join_lines lines

/-- The field name of a header line, as `http_parse_name_fixed` hands it to the
comparison. -/
def header_name (l : List Nat) : List Nat := (http_parse_name_fixed l 32).2

/-- The value of a header line: what follows the colon. -/
def header_value (l : List Nat) : List Nat := (http_parse_name_fixed l 32).1

/-- The header line `l` carries the field name `name`, up to letter case. -/
def is_named (name : String) (l : List Nat) : Bool := strcaseeq (header_name l) (bytes name)

/-- The response as it is when the header loop starts: the fields of the
status line are set, everything else is zero. -/
def status_response (a b c reason : List Nat) : MGET_HTTP_RESPONSE :=
  { major := (decval a : Int), minor := (decval b : Int), code := (decval c : Int),
    reason := reason.take 31 }

/-- What the dispatch on one header line, with `name` the field name and `s`
the value, does to the status code, to the four sequences of the response and
to its location: `r` is the response after the line, `resp` the one before. -/
def dispatch_effect (now : Int) (resp r : MGET_HTTP_RESPONSE) (s name : List Nat) : Prop :=
  r.code = resp.code ∧
  r.cookies = resp.cookies ++
    (if strcaseeq name (bytes "Set-Cookie") = true then [(http_parse_setcookie now s).2]
      else []) ∧
  r.digests = resp.digests ++
    (if strcaseeq name (bytes "Digest") = true then [(http_parse_digest s).2] else []) ∧
  r.challenges = resp.challenges ++
    (if strcaseeq name (bytes "WWW-Authenticate") = true then [(http_parse_challenge s).2]
      else []) ∧
  r.links = resp.links ++
    (if cdiv resp.code 100 = 3 ∧ strcaseeq name (bytes "Link") = true then
      [(http_parse_link s).2] else []) ∧
  r.location =
    (if cdiv resp.code 100 = 3 ∧ strcaseeq name (bytes "Location") = true then
      some (http_parse_location s).2 else resp.location)

/-- The cookies of the `Set-Cookie` lines, in the order of the lines. -/
def cookies_of (now : Int) (lines : List (List Nat)) : List MGET_COOKIE :=
  (lines.filter (is_named "Set-Cookie")).map (fun l => (http_parse_setcookie now (header_value l)).2)

/-- The digests of the `Digest` lines, in the order of the lines. -/
def digests_of (lines : List (List Nat)) : List MGET_HTTP_DIGEST :=
  (lines.filter (is_named "Digest")).map (fun l => (http_parse_digest (header_value l)).2)

/-- The challenges of the `WWW-Authenticate` lines, in the order of the lines. -/
def challenges_of (lines : List (List Nat)) : List MGET_HTTP_CHALLENGE :=
  (lines.filter (is_named "WWW-Authenticate")).map
    (fun l => (http_parse_challenge (header_value l)).2)

/-- The links of the `Link` lines, in the order of the lines. -/
def links_of (lines : List (List Nat)) : List MGET_HTTP_LINK :=
  (lines.filter (is_named "Link")).map (fun l => (http_parse_link (header_value l)).2)

/-- The location of the last `Location` line, `none` when there is no such
line. -/
def location_of (lines : List (List Nat)) : Option (List Nat) :=
  ((lines.filter (is_named "Location")).map
    (fun l => (http_parse_location (header_value l)).2)).getLast?

/-- The header lines of the block used to illustrate the repeatable headers:
two cookies, a digest, a link, two challenges and a content length. -/
def sample_lines : List (List Nat) :=
  [bytes "Set-Cookie: a=1", bytes "Digest: md5=abc", bytes "Link: <http://a/b>; rel=duplicate; pri=2",
   bytes "set-cookie: b=2", bytes "WWW-Authenticate: Basic realm=x", bytes "Content-Length: 5",
   bytes "WWW-Authenticate: Digest realm=y"]

/-- The header lines of scenario 3 of the specification. -/
def redirect_lines : List (List Nat) :=
  [bytes "Location: /next", bytes "Link: <http://a/b>; rel=duplicate; pri=2"]

/-- The data of the first `k` calls `mget_tcp_read(tcp, buf, bufsize)` on a
stream. -/
def read_trace (bufsize : Nat) : List (List Nat) → Nat → List (List Nat)
  | _, 0 => []
  | tcp, k + 1 =>
    (mget_tcp_read tcp bufsize).1 :: read_trace bufsize (mget_tcp_read tcp bufsize).2 k

/-- The stream after `k` calls `mget_tcp_read(tcp, buf, bufsize)`. -/
def after_reads (bufsize : Nat) : List (List Nat) → Nat → List (List Nat)
  | tcp, 0 => tcp
  | tcp, k + 1 => after_reads bufsize (mget_tcp_read tcp bufsize).2 k

/-- The media type of a `Content-Type` value: the run of token bytes and `/`
after the leading blanks, which `http_parse_content_type` stores in
`content_type`. -/
def media_type (s : List Nat) : List Nat :=
  (s.dropWhile isblank).takeWhile (fun c => c != 0 && (http_istoken c || c == 47))

/-- The content codings the `Content-Encoding` lines select, in the order of
the lines. -/
def encodings_of (lines : List (List Nat)) : List ContentEncoding :=
  (lines.filter (is_named "Content-Encoding")).map
    (fun l => (http_parse_content_encoding (header_value l)).2)

/-- The content coding the header lines declare: the one the last
`Content-Encoding` line selects, identity when there is no such line. -/
def encoding_of (lines : List (List Nat)) : ContentEncoding :=
  (encodings_of lines).getLast?.getD ContentEncoding.mget_content_encoding_identity

/-- The media types of the `Content-Type` lines, in the order of the lines. -/
def media_types_of (lines : List (List Nat)) : List (List Nat) :=
  (lines.filter (is_named "Content-Type")).map (fun l => media_type (header_value l))

/-- The media type the header lines declare: the one of the last `Content-Type`
line, `none` when there is no such line. -/
def content_type_of (lines : List (List Nat)) : Option (List Nat) :=
  (media_types_of lines).getLast?

/-- Header lines of a response whose body is a gzip file that the server also
labels as gzip-encoded. -/
def gzip_file_lines : List (List Nat) :=
  [bytes "Content-Type: Application/X-Gzip", bytes "Content-Length: 5",
   bytes "Content-Encoding: x-gzip"]

/-- A caller-supplied header line as the request text is said to carry it:
followed by CRLF unless the line itself already ends with a line feed. -/
def line_with_crlf (line : List Nat) : List Nat :=
  cstr line ++ (if (cstr line).getLast? = some 10 then [] else bytes "\r\n")

/-- A caller-supplied header line as the request text carries it: followed by
CRLF unless the line is empty or already ends with a line feed. -/
def line_as_rendered (line : List Nat) : List Nat :=
  cstr line ++ (if cstr line = [] ∨ (cstr line).getLast? = some 10 then [] else bytes "\r\n")

/-- The request text up to and including the line `Host:`. -/
def request_head (http_proxy https_proxy : Bool) (req : MGET_HTTP_REQUEST) : List Nat :=
  cstr req.method ++ bytes " " ++
    (if use_proxy http_proxy https_proxy req then
      iri_scheme_name req.scheme ++ bytes "://" ++ req.esc_host else []) ++
    bytes "/" ++ req.esc_resource ++ bytes " HTTP/1.1\r\n" ++
    bytes "Host: " ++ req.esc_host ++ bytes "\r\n"

/-- The end of the request text: the line `Proxy-Connection:` when the proxy
is used, and the empty line. -/
def request_tail (http_proxy https_proxy : Bool) (req : MGET_HTTP_REQUEST) : List Nat :=
  (if use_proxy http_proxy https_proxy req then bytes "Proxy-Connection: keep-alive\r\n" else [])
    ++ bytes "\r\n"

/-- The request text, given the way a caller-supplied line is carried. -/
def request_text (line_text : List Nat → List Nat) (http_proxy https_proxy : Bool)
    (req : MGET_HTTP_REQUEST) : List Nat :=
  request_head http_proxy https_proxy req ++ (req.lines.map line_text).flatten ++
    request_tail http_proxy https_proxy req

/-- The last caller-supplied header line that is not empty, `none` when there
is no such line. -/
def last_line (lines : List (List Nat)) : Option (List Nat) :=
  ((lines.map cstr).filter (fun l => !l.isEmpty)).getLast?

/-- The line ends with a line feed that no carriage return precedes. -/
def bare_lf (l : List Nat) : Bool := l.getLast? == some 10 && l.dropLast.getLast? != some 13

/-- The text ends with CRLF. -/
def ends_crlf (s : List Nat) : Prop := ∃ pre, s = pre ++ [13, 10]

/-- A request for `/x` on the host `h`, with the header lines given. -/
def sample_request (lines : List (List Nat)) : MGET_HTTP_REQUEST :=
  { method := bytes "GET", esc_host := bytes "h", esc_resource := bytes "x", lines := lines }

/-- The lines of a text: the pieces between its line feeds. -/
def lines_of : List Nat → List (List Nat)
  | [] => [[]]
  | c :: cs =>
    if c = 10 then [] :: lines_of cs
    else
      match lines_of cs with
      | [] => [[c]]
      | l :: ls => (c :: l) :: ls

/-- The line starts with `Host:`. -/
def starts_with_host (l : List Nat) : Bool := l.take 5 == bytes "Host:"

/-- The number of lines of a text that start with `Host:`. -/
def host_lines (s : List Nat) : Nat := (lines_of s).countP starts_with_host

/-- A format made of plain texts with a `%s` after each of them, and a last
plain text. -/
def s_format : List (List Nat) → List Nat → List Nat
  | [], last => last
  | plain :: plains, last => plain ++ 37 :: 115 :: s_format plains last

/-- A plain text of a format: free of NUL and of `%`. -/
def is_plain (s : List Nat) : Prop := ∀ c ∈ s, c ≠ 0 ∧ c ≠ 37

instance is_plain_decidable : DecidablePred is_plain := fun s => by
  unfold is_plain
  infer_instance

/-- The header line `Authorization: Digest ...` for the quality of protection
`auth` and the algorithm `MD5`, with the fields given; `O` is the value of
`opaque`, when the challenge has one. -/
def digest_auth_line (U R N RES H C : List Nat) (O : Option (List Nat)) : List Nat :=
  bytes "Authorization: Digest username=\"" ++ U ++ bytes "\", realm=\"" ++ R ++
    bytes "\", nonce=\"" ++ N ++ bytes "\", uri=\"/" ++ RES ++ bytes "\", response=\"" ++ H ++
    bytes "\", qop=auth, nc=00000001, cnonce=\"" ++ C ++ bytes "\"" ++
    (match O with
      | some o => bytes ", opaque=\"" ++ o ++ bytes "\""
      | none => []) ++
    bytes ", algorithm=MD5"

/-- The response digest of RFC 2617 for the quality of protection `auth`:
`md5_hex(md5_hex(U:R:P) : N : 00000001 : C : auth : md5_hex(METHOD:/RES))`. -/
def digest_auth_response (md5_hex : List Nat → List Nat) (U R P N C METHOD RES : List Nat) :
    List Nat :=
  md5_hex (md5_hex (U ++ bytes ":" ++ R ++ bytes ":" ++ P) ++ bytes ":" ++ N ++
    bytes ":00000001:" ++ C ++ bytes ":auth:" ++ md5_hex (METHOD ++ bytes ":/" ++ RES))

/-- A stand-in for the hash function in examples: 32 digits that depend on the
length of the text only. -/
def sample_digest (x : List Nat) : List Nat :=
  List.replicate 30 48 ++ [48 + x.length / 10 % 10, 48 + x.length % 10]

/-- The challenge of scenario 5 of the specification, as `http_parse_challenge`
gives it. -/
def sample_challenge : MGET_HTTP_CHALLENGE :=
  (http_parse_challenge (bytes "Digest realm=\"r\", nonce=\"n\", qop=\"auth\", algorithm=MD5")).2

/-- The cases in which no credentials are to be attached: no challenge, an
authentication scheme other than Basic and Digest, and a Digest challenge whose
qop is present and different from `auth` or whose algorithm is present and
neither `MD5` nor `MD5-sess`. -/
def unsupported_challenge (challenge : Option MGET_HTTP_CHALLENGE) : Bool :=
  match challenge with
  | none => true
  | some c =>
    match c.auth_scheme with
    | none => false
    | some s =>
      if strcaseeq s (bytes "basic") then false
      else if strcaseeq s (bytes "digest") then
        (mget_stringmap_get c.params (bytes "qop")).any (fun q => cstr q != bytes "auth") ||
          (mget_stringmap_get c.params (bytes "algorithm")).any
            (fun a => cstr a != bytes "MD5" && cstr a != bytes "MD5-sess")
      else true

/-- The request `GET /x` of scenario 5 of the specification. -/
def sample_get : MGET_HTTP_REQUEST := { method := bytes "GET", esc_resource := bytes "x" }

/-- The character of the digit value `d`: `0` .. `9`, then the letters, capital
ones for `upper`. -/
def digit_char (upper : Bool) (d : Nat) : Nat :=
  if d < 10 then 48 + d else (if upper then 65 else 97) + (d - 10)

/-- The numeral of `n` in the base given, most significant digit first and
without leading zero; the number 0 has no digit. -/
def numeral (base : Nat) (upper : Bool) (n : Nat) : List Nat :=
  (Nat.digits base n).reverse.map (digit_char upper)

/-- The text of an integer conversion according to the C library function
`printf`, for the flags `0` (`zero`) and `-` (`left`): `-` for a negative
value, the digits preceded by zeros up to `precision` digits (1 when no
precision is given), and padding up to `width` bytes: spaces on the right
with `-`, zeros after the sign with `0` when no precision is given, spaces
before the sign otherwise. -/
def printf_integer (zero left : Bool) (width : Nat) (precision : Option Nat) (negative : Bool)
    (digits : List Nat) : List Nat :=
  let sign := if negative then [45] else []
  let body := List.replicate (precision.getD 1 - digits.length) 48 ++ digits
  let pad := width - (sign.length + body.length)
  if left then sign ++ body ++ List.replicate pad 32
  else if zero ∧ precision = none then sign ++ List.replicate pad 48 ++ body
  else List.replicate pad 32 ++ sign ++ body

/-- The integer conversions: `d` stands for `%d` and `%i`. -/
inductive IntConv where
  | d
  | u
  | x
  | X
  | o
  deriving DecidableEq, Repr

/-- The flags `mget_buffer_vprintf_append2` hands to `_convert_dec` for a conversion. -/
def conv_flags (flags : Flags) : IntConv → Flags
  | IntConv.d => { flags with signed := true, decimal := true }
  | IntConv.u => { flags with decimal := true }
  | IntConv.x => { flags with hexlo := true }
  | IntConv.X => { flags with hexup := true }
  | IntConv.o => { flags with octal := true }

/-- The base of a conversion. -/
def conv_base : IntConv → Nat
  | IntConv.d => 10
  | IntConv.u => 10
  | IntConv.x => 16
  | IntConv.X => 16
  | IntConv.o => 8

/-- The precision as `mget_buffer_vprintf_append2` holds it: -1 when none is given. -/
def precision_int (precision : Option Nat) : Int :=
  match precision with
  | none => -1
  | some p => (p : Int)

/-- The characters of the integer conversions. -/
def conv_chars : IntConv → List Nat
  | IntConv.d => [100, 105]
  | IntConv.u => [117]
  | IntConv.x => [120]
  | IntConv.X => [88]
  | IntConv.o => [111]

/-- The precision of a conversion specification as it is written: a period
and the digits, or nothing. -/
def precision_part : Option (List Nat) → List Nat
  | some ds => 46 :: ds
  | none => []

/-- The conversion specification `%[flags][width][.precision]c`: the flag
characters `fl`, the digits `wd` of the field width, the digits `pd` of the
precision when there is one, and the conversion character `c`. -/
def conversion_format (fl wd : List Nat) (pd : Option (List Nat)) (c : Nat) : List Nat :=
  37 :: (fl ++ (wd ++ (precision_part pd ++ [c])))

/-- The magnitude an integer conversion writes for the `int` argument `v`: its
absolute value for the signed conversions, its value as `unsigned int`
otherwise. -/
def conv_magnitude (conv : IntConv) (v : Int) : Nat :=
  match conv with
  | IntConv.d => v.natAbs
  | _ => to_unsigned v

/-- The separator set of the HTTP grammar:
`( ) < > @ , ; : \ " / [ ] ? = { }`, space and horizontal tab. -/
def http_separators : List Nat := bytes "()<>@,;:\\\"/[]?=\x7b\x7d \t"

/-- A token byte: a visible ASCII byte (33..126) outside the separator set. -/
def is_token_byte (c : Nat) : Prop := 33 ≤ c ∧ c ≤ 126 ∧ c ∉ http_separators

instance is_token_byte_decidable : DecidablePred is_token_byte := fun c => by
  unfold is_token_byte
  infer_instance

/-- The buffer is NUL-terminated at its logical end: `buf.data[buf.length] == 0`. -/
def nul_terminated (buf : mget_buffer_t) : Prop := buf.slack.head? = some 0

instance nul_terminated_decidable : DecidablePred nul_terminated := fun b => by
  unfold nul_terminated
  infer_instance

/-- The Gregorian leap rule. -/
def gregorian_leap (y : Nat) : Bool := y % 4 == 0 && (y % 100 != 0 || y % 400 == 0)

/-- The number of days of the year `y`. -/
def days_in_year (y : Nat) : Nat := if gregorian_leap y then 366 else 365

/-- The number of days of the month `m` (1 for January) of the year `y`; 0
when `m` is no month. -/
def days_in_month (y m : Nat) : Nat :=
  if m = 2 then (if gregorian_leap y then 29 else 28)
  else if m = 4 ∨ m = 6 ∨ m = 9 ∨ m = 11 then 30
  else if 1 ≤ m ∧ m ≤ 12 then 31
  else 0

/-- The number of days from 1970-01-01 to the day `d` of the month `m` of the
year `y`: the days of the years and of the months that lie before it, and the
days of the month before it. -/
def days_since_epoch (y m d : Nat) : Nat :=
  ((List.range (y - 1970)).map (fun k => days_in_year (1970 + k))).sum +
    ((List.range (m - 1)).map (fun k => days_in_month y (k + 1))).sum + (d - 1)

/-- The number of seconds from 1970-01-01 00:00:00 UTC to a date and time. -/
def seconds_since_epoch (y m d hour min sec : Nat) : Nat :=
  days_since_epoch y m d * 86400 + hour * 3600 + min * 60 + sec

/-- A number below 100 written with two decimal digits. -/
def two_digits (n : Nat) : List Nat := [48 + n / 10 % 10, 48 + n % 10]

/-- A number below 10000 written with four decimal digits. -/
def four_digits (n : Nat) : List Nat :=
  [48 + n / 1000 % 10, 48 + n / 100 % 10, 48 + n / 10 % 10, 48 + n % 10]

/-- The RFC 1123 text of a date and time, such as
`Wed, 09 Jun 2021 10:18:14 GMT`, with the names of the day and of the month
as they are given. -/
def rfc1123_text (dname mname : List Nat) (y d hour min sec : Nat) : List Nat :=
  dname ++ (bytes ", " ++ (two_digits d ++ (32 :: (mname ++ (32 :: (four_digits y ++
    (32 :: (two_digits hour ++ (58 :: (two_digits min ++ (58 :: (two_digits sec ++
      bytes " GMT"))))))))))))

/-- The name `mname` is the name of the month `m` (1 for January) up to
letter case. -/
def is_month_name (mname : List Nat) (m : Nat) : Prop :=
  1 ≤ m ∧ mname.map tolower = (mnames.getD (m - 1) []).map tolower

instance is_month_name_decidable (mname : List Nat) (m : Nat) :
    Decidable (is_month_name mname m) := by
  unfold is_month_name
  infer_instance

/-- A name of a day as the date formats take it: letters, at least one. -/
def is_day_name (dname : List Nat) : Prop := dname ≠ [] ∧ ∀ c ∈ dname, isalpha c = true

instance is_day_name_decidable : DecidablePred is_day_name := fun d => by
  unfold is_day_name
  infer_instance

/-! ## The date renderer -/

/-- The table `dnames` of `http_print_date`. -/
def dnames : List (List Nat) :=
  [bytes "Sun", bytes "Mon", bytes "Tue", bytes "Wed", bytes "Thu", bytes "Fri", bytes "Sat"]

/-- Model of `struct tm`, with the fields `http_print_date` reads. -/
structure tm where
  tm_sec : Nat
  tm_min : Nat
  tm_hour : Nat
  tm_mday : Nat
  tm_mon : Nat
  tm_year : Nat
  tm_wday : Nat
  deriving DecidableEq, Repr

/-- The year of the day number `d`, counted from the first day of the year `y`,
and the day within that year; every round takes one year off. -/
def gmtime_years : Nat → Nat → Nat → Nat × Nat
  | 0, y, d => (y, d)
  | fuel + 1, y, d =>
    if days_in_year y ≤ d then gmtime_years fuel (y + 1) (d - days_in_year y) else (y, d)

/-- The month of the day number `d` of the year `y`, counted from the first day
of the month `m`, and the day within that month. -/
def gmtime_months : Nat → Nat → Nat → Nat → Nat × Nat
  | 0, _, m, d => (m, d)
  | fuel + 1, y, m, d =>
    if days_in_month y m ≤ d then gmtime_months fuel y (m + 1) (d - days_in_month y m)
    else (m, d)

/-- Model of `gmtime_r` of the C library for a time `t` from the epoch on: the
broken-down UTC time, `none` (the call returns `NULL`) when the year does not
fit an `int`. -/
def gmtime_r (t : Nat) : Option tm :=
  let days := t / 86400
  let rem := t % 86400
  let yd := gmtime_years (days / 365 + 1) 1970 days
  let md := gmtime_months 12 yd.1 1 yd.2
  if yd.1 - 1900 < 2 ^ 31 then
    some { tm_sec := rem % 60, tm_min := rem / 60 % 60, tm_hour := rem / 3600,
           tm_mday := md.2 + 1, tm_mon := md.1 - 1, tm_year := yd.1 - 1900,
           tm_wday := (days + 4) % 7 }
  else none

/-- The conversions `%d` and `%02d` of `snprintf` for a number that is not
negative. -/
def snprintf_d (zero : Bool) (width : Nat) (n : Nat) : List Nat :=
  printf_integer zero false width none false (numeral 10 false n)

/-- Model of `http_print_date(t, buf, bufsize)` for a time `t` from the epoch
on: the C string that `buf` holds after the call.  `snprintf` writes at most
`bufsize - 1` bytes of the text and a NUL. -/
def http_print_date (t : Nat) (buf : List Nat) (bufsize : Nat) : List Nat :=
  if bufsize = 0 then buf
  else
    match gmtime_r t with
    | some tm =>
      (dnames.getD tm.tm_wday [] ++ (bytes ", " ++ (snprintf_d true 2 tm.tm_mday ++
        (32 :: (mnames.getD tm.tm_mon [] ++ (32 :: (snprintf_d false 0 (tm.tm_year + 1900) ++
          (32 :: (snprintf_d true 2 tm.tm_hour ++ (58 :: (snprintf_d true 2 tm.tm_min ++
            (58 :: (snprintf_d true 2 tm.tm_sec ++ bytes " GMT"))))))))))))).take (bufsize - 1)
    | none => []

/-- The year a scanned year stands for: a year 0..69 is 2000 + y, a year
70..99 is 1900 + y, and a year below 1970 is replaced by 1970. -/
def mapped_year (y : Int) : Int :=
  let y := if 0 ≤ y ∧ y < 70 then 2000 + y else if 70 ≤ y ∧ y ≤ 99 then 1900 + y else y
  if y < 1970 then 1970 else y

/-- The fields of a date that `parse_rfc1123_date` takes as valid: a month, a
day of that month in the year `y`, an hour 0..23, and a minute and a second
0..60. -/
def valid_date (y m d hour min sec : Int) : Prop :=
  1 ≤ m ∧ m ≤ 12 ∧ 1 ≤ d ∧ d ≤ (days_in_month y.toNat m.toNat : Int) ∧
    0 ≤ hour ∧ hour ≤ 23 ∧ 0 ≤ min ∧ min ≤ 60 ∧ 0 ≤ sec ∧ sec ≤ 60

instance valid_date_decidable (y m d hour min sec : Int) :
    Decidable (valid_date y m d hour min sec) := by
  unfold valid_date
  infer_instance

/-- The byte at index `i` of `t` is escaped: it follows a backslash that is not
escaped itself. -/
def escaped (t : List Nat) : Nat → Bool
  | 0 => false
  | i + 1 => t.getD i 0 == 92 && !escaped t i

/-- The byte at index `i` of `t` is a closing quote: a `"` that is not
preceded by an escaping backslash. -/
def closing_quote (t : List Nat) (i : Nat) : Prop := t.getD i 0 = 34 ∧ escaped t i = false

instance closing_quote_decidable (t : List Nat) (i : Nat) : Decidable (closing_quote t i) := by
  unfold closing_quote
  infer_instance

/-- A cookie-octet of RFC 6265:
`%x21 / %x23-2B / %x2D-3A / %x3C-5B / %x5D-7E`. -/
def is_cookie_octet (c : Nat) : Prop :=
  c = 0x21 ∨ (0x23 ≤ c ∧ c ≤ 0x2B) ∨ (0x2D ≤ c ∧ c ≤ 0x3A) ∨ (0x3C ≤ c ∧ c ≤ 0x5B) ∨
    (0x5D ≤ c ∧ c ≤ 0x7E)

instance is_cookie_octet_decidable : DecidablePred is_cookie_octet := fun c => by
  unfold is_cookie_octet
  infer_instance

/-- The value of a cookie in the text `v` that follows the `=`: the longest run
of cookie-octets after optional white space and one optional opening double
quote. -/
def cookie_value_of (v : List Nat) : List Nat :=
  let v := v.dropWhile isspace
  let v := if v.head? = some 34 then v.tail else v
  v.takeWhile (fun c => decide (is_cookie_octet c))

/-- A cookie attribute as it is written after a `;`: spaces, a name and, for an
attribute with a value, `=` and the value. -/
structure CookieAv where
  blanks : Nat
  name : List Nat
  value : Option (List Nat)
  deriving DecidableEq, Repr

/-- The text of the value of a cookie attribute, with its `=`. -/
def cookie_av_value_text : Option (List Nat) → List Nat
  | some v => 61 :: v
  | none => []

/-- The text of a cookie attribute, from its `;` on. -/
def cookie_av_text (av : CookieAv) : List Nat :=
  59 :: (List.replicate av.blanks 32 ++ (av.name ++ cookie_av_value_text av.value))

/-- The text of a sequence of cookie attributes. -/
def cookie_avs_text : List CookieAv → List Nat
  | [] => []
  | av :: avs => cookie_av_text av ++ cookie_avs_text avs

/-- A cookie attribute whose name is a run of token bytes and whose value is a
run of visible ASCII bytes other than `;`. -/
def is_cookie_av (av : CookieAv) : Prop :=
  is_token_run av.name ∧ ∀ c ∈ av.value.getD [], 33 ≤ c ∧ c ≤ 126 ∧ c ≠ 59

instance is_cookie_av_decidable : DecidablePred is_cookie_av := fun av => by
  unfold is_cookie_av
  infer_instance

/-- What a cookie attribute does to the cookie, names taken without regard to
letter case: `Domain=D` with a `D` that is not empty stores `D` without its
leading dots and records whether `D` starts with a dot, `Path=P` stores `P`,
`Secure` and `HttpOnly` set their flags; the times (`Expires`, `Max-Age`) are
left out here, and every other attribute changes nothing. -/
def cookie_attribute (c : MGET_COOKIE) (av : CookieAv) : MGET_COOKIE :=
  match av.value with
  | some v =>
    if av.name.map tolower = bytes "domain" then
      if v = [] then c
      else { c with domain := some (v.dropWhile (fun x => x == 46)), domain_dot := decide (v.head? = some 46) }
    else if av.name.map tolower = bytes "path" then { c with path := some v }
    else c
  | none =>
    if av.name.map tolower = bytes "secure" then { c with secure_only := true }
    else if av.name.map tolower = bytes "httponly" then { c with http_only := true }
    else c

/-- The attribute sets one of the times of the cookie: `Expires=...` or
`Max-Age=...`. -/
def sets_time (av : CookieAv) : Prop :=
  av.value ≠ none ∧ (av.name.map tolower = bytes "expires" ∨ av.name.map tolower = bytes "max-age")

instance sets_time_decidable : DecidablePred sets_time := fun av => by
  unfold sets_time
  infer_instance

/-- The cookie without its times `expires` and `maxage`. -/
def without_times (c : MGET_COOKIE) : MGET_COOKIE := { c with expires := 0, maxage := 0 }

/-- The attributes of the cookie
`sid=abc; Domain=.example.com; Path=/; Max-Age=60; Secure; HttpOnly`. -/
def sample_cookie_avs : List CookieAv :=
  [⟨1, bytes "Domain", some (bytes ".example.com")⟩, ⟨1, bytes "Path", some (bytes "/")⟩,
   ⟨1, bytes "Max-Age", some (bytes "60")⟩, ⟨1, bytes "Secure", none⟩,
   ⟨1, bytes "HttpOnly", none⟩]

/-- The interior of a quoted string that ends at its closing quote: no NUL,
no `"` that is not escaped, and no escaping backslash at its end. -/
def is_quoted_interior (v : List Nat) : Prop :=
  (∀ c ∈ v, c ≠ 0) ∧ (∀ i, i < v.length → ¬ closing_quote v i) ∧ escaped v v.length = false

instance is_quoted_interior_decidable : DecidablePred is_quoted_interior := fun v => by
  unfold is_quoted_interior
  infer_instance

/-- A parameter of a `Link` value as it is written after a `;`: a name, `=`,
and a value that is a token or a quoted string (then `value` is its interior),
with the numbers of spaces after the `;`, before the `=`, after the `=` and
after the value. -/
structure LinkParam where
  blanks : Nat
  name : List Nat
  blanks_eq : Nat
  blanks_value : Nat
  quoted : Bool
  value : List Nat
  blanks_end : Nat
  deriving DecidableEq, Repr

/-- The text of the value of a parameter. -/
def link_value_text (quoted : Bool) (value : List Nat) : List Nat :=
  if quoted then 34 :: (value ++ [34]) else value

/-- The text of a parameter, from its `;` on. -/
def link_param_text (p : LinkParam) : List Nat :=
  59 :: (List.replicate p.blanks 32 ++ (p.name ++ (List.replicate p.blanks_eq 32 ++
    61 :: (List.replicate p.blanks_value 32 ++ (link_value_text p.quoted p.value ++
      List.replicate p.blanks_end 32)))))

/-- The text of a sequence of parameters. -/
def link_params_text : List LinkParam → List Nat
  | [] => []
  | p :: ps => link_param_text p ++ link_params_text ps

/-- The `Link` value `<U>` followed by spaces and parameters. -/
def link_text (uri : List Nat) (blanks : Nat) (ps : List LinkParam) : List Nat :=
  60 :: (uri ++ 62 :: (List.replicate blanks 32 ++ link_params_text ps))

/-- A parameter whose name is a token and whose value is a token or a quoted
string. -/
def is_link_param (p : LinkParam) : Prop :=
  is_token_run p.name ∧ p.name ≠ [] ∧
    (if p.quoted then is_quoted_interior p.value else is_token_run p.value)

instance is_link_param_decidable : DecidablePred is_link_param := fun p => by
  unfold is_link_param
  infer_instance

/-- What a parameter of a `Link` value sets, names and values of `rel` taken
without regard to letter case: `rel=describedby` and `rel=duplicate` set
`rel`, `pri` sets `pri` to the integer of its value, `type` sets `type` to its
value, and every other parameter sets nothing. -/
def link_attribute (l : MGET_HTTP_LINK) (p : LinkParam) : MGET_HTTP_LINK :=
  if p.name.map tolower = bytes "rel" then
    if p.value.map tolower = bytes "describedby" then { l with rel := LinkRel.link_rel_describedby }
    else if p.value.map tolower = bytes "duplicate" then { l with rel := LinkRel.link_rel_duplicate }
    else l
  else if p.name.map tolower = bytes "pri" then { l with pri := atoi p.value }
  else if p.name.map tolower = bytes "type" then { l with type := some p.value }
  else l

/-- The parameters of the link `<http://a/b>; rel=duplicate; pri=2`. -/
def sample_link_params : List LinkParam :=
  [⟨1, bytes "rel", 0, 0, false, bytes "duplicate", 0⟩, ⟨1, bytes "pri", 0, 0, false, bytes "2", 0⟩]

/-- The content coding of the response `http_parse_response` returns, `none`
when it returns no response. -/
def returned_encoding : ParseResult → Option ContentEncoding
  | ParseResult.resp r => some r.content_encoding
  | _ => none

/-- The decimal representation of an integer: `-` for a negative number,
followed by the digits of its absolute value without leading zeros (the one
digit `0` for zero). -/
def decimal_text (n : Int) : List Nat :=
  (if n < 0 then [45] else []) ++ (if n = 0 then [48] else numeral 10 false n.natAbs)

/-- A decimal number as it is written: an optional sign and at least one
digit. -/
def is_decimal (v : List Nat) : Prop :=
  (if cur v = 45 ∨ cur v = 43 then v.tail else v) ≠ [] ∧
    ∀ c ∈ (if cur v = 45 ∨ cur v = 43 then v.tail else v), isdigit c = true

instance is_decimal_decidable : DecidablePred is_decimal := fun v => by
  unfold is_decimal
  infer_instance

/-- The number a decimal text stands for. -/
def decimal_number (v : List Nat) : Int :=
  if cur v = 45 then -(decval v.tail : Int)
  else if cur v = 43 then (decval v.tail : Int)
  else (decval v : Int)

/-- A text that is not a number from its start on: it is empty or starts,
after an optional sign, with a byte that is not a digit. -/
def not_a_number (v : List Nat) : Prop :=
  isdigit (cur (if cur v = 45 ∨ cur v = 43 then v.tail else v)) = false

instance not_a_number_decidable : DecidablePred not_a_number := fun v => by
  unfold not_a_number
  infer_instance

/-- The number `N` of an attribute `Max-Age=N`: 0 when the value is not a
number. -/
def max_age_number (v : List Nat) : Int := if is_decimal v then decimal_number v else 0

/-- The end of the life of a cookie with `Max-Age=N`, set at the time `now`:
`now + N` for a positive `N`, and 0 otherwise. -/
def max_age (now N : Int) : Int := if 0 < N then now + N else 0

/-- The attribute is `Max-Age=...`, the name taken without regard to letter
case. -/
def is_max_age (av : CookieAv) : Prop :=
  av.value ≠ none ∧ av.name.map tolower = bytes "max-age"

instance is_max_age_decidable : DecidablePred is_max_age := fun av => by
  unfold is_max_age
  infer_instance

/-- The attribute is `Expires=...`. -/
def is_expires (av : CookieAv) : Prop :=
  av.value ≠ none ∧ av.name.map tolower = bytes "expires"

instance is_expires_decidable : DecidablePred is_expires := fun av => by
  unfold is_expires
  infer_instance

/-- The value of a `Max-Age` attribute can be read: it is a decimal number
whose sum with `now` fits a 64-bit `time_t`, or it is not a number. -/
def readable_max_age (now : Int) (v : List Nat) : Prop :=
  (is_decimal v ∧ now + decimal_number v < 2 ^ 63) ∨ not_a_number v

instance readable_max_age_decidable (now : Int) : DecidablePred (readable_max_age now) :=
  fun v => by
    unfold readable_max_age
    infer_instance

/-- What a cookie attribute other than `Expires` does to the cookie:
`Max-Age=N` sets `maxage` and nothing else, every other attribute does what
`cookie_attribute` says. -/
def cookie_attribute_age (now : Int) (c : MGET_COOKIE) (av : CookieAv) : MGET_COOKIE :=
  if is_max_age av then { c with maxage := max_age now (max_age_number (av.value.getD [])) }
  else cookie_attribute c av

/-- The attributes of the cookie
`sid=abc; Max-Age=-5; Path=/; max-age=+60; Secure; MAX-AGE=3600; HttpOnly`. -/
def sample_max_age_avs : List CookieAv :=
  [⟨1, bytes "Max-Age", some (bytes "-5")⟩, ⟨1, bytes "Path", some (bytes "/")⟩,
   ⟨1, bytes "max-age", some (bytes "+60")⟩, ⟨1, bytes "Secure", none⟩,
   ⟨1, bytes "MAX-AGE", some (bytes "3600")⟩, ⟨1, bytes "HttpOnly", none⟩]

/-- The values that switch a boolean option on. -/
def true_words : List (List Nat) := [bytes "1", bytes "y", bytes "yes", bytes "on"]

/-- The values that switch a boolean option off. -/
def false_words : List (List Nat) := [bytes "0", bytes "n", bytes "no", bytes "off"]

/-- The option `recursive` of the table. -/
def recursive_option : option :=
  ⟨bytes "recursive", some Var.recursive, ParseFn.parse_bool, 0, 'r'.toNat⟩

/-- The option `timeout` of the table. -/
def timeout_option : option := ⟨bytes "timeout", none, ParseFn.parse_timeout, 1, 'T'.toNat⟩

/-- The three timeouts of `config`, in the order dns, connect, read. -/
def timeouts (c : Config) : Value × Value × Value :=
  (c Var.dns_timeout, c Var.connect_timeout, c Var.read_timeout)

/-- An `include` statement that reads nothing. -/
def no_include : List Nat → Config → Run Config := fun _ c => Run.done c

/-- The RFC 1123 text of a date and time with the year written as it is
given, for instance with two digits: `Wed, 09 Jun 21 10:18:14 GMT`. -/
def rfc1123_year_text (dname mname ytext : List Nat) (d hour min sec : Nat) : List Nat :=
  dname ++ (bytes ", " ++ (two_digits d ++ (32 :: (mname ++ (32 :: (ytext ++
    (32 :: (two_digits hour ++ (58 :: (two_digits min ++ (58 :: (two_digits sec ++
      bytes " GMT"))))))))))))

/-- A year as the date formats read it: one to four decimal digits. -/
def is_year_text (ytext : List Nat) : Prop :=
  ytext ≠ [] ∧ ytext.length ≤ 4 ∧ ∀ c ∈ ytext, isdigit c = true

instance is_year_text_decidable : DecidablePred is_year_text := fun y => by
  unfold is_year_text
  infer_instance

/-- The time computed from scanned fields: with the mapped year,
the seconds from the epoch to a valid date, and 0 for any other. -/
def mapped_time (y m d hour min sec : Int) : Int :=
  if valid_date (mapped_year y) m d hour min sec then
    ((seconds_since_epoch (mapped_year y).toNat m.toNat d.toNat hour.toNat min.toNat
      sec.toNat : Nat) : Int)
  else 0

/-- The ways to give a boolean option on the command line,
each with the value it stands for: `--name` is 1, `--no-name` is 0, `--name=v`
is 1 for `v` one of `1`, `y`, `yes`, `on` and 0 for `v` one of `0`, `n`, `no`,
`off`, and the short form `-c` of an option that has a short name is 1. -/
def bool_arguments (o : option) : List (List Nat × Int) :=
  [(bytes "--" ++ o.long_name, 1), (bytes "--no-" ++ o.long_name, 0)] ++
    true_words.map (fun w => (bytes "--" ++ (o.long_name ++ 61 :: w), 1)) ++
    false_words.map (fun w => (bytes "--" ++ (o.long_name ++ 61 :: w), 0)) ++
    (if o.short_name ≠ 0 then [([45, o.short_name], 1)] else [])

/-! # Properties -/

/-! ## The response reader: what is fed to the decompressor -/

/-- C1 (code defect): one chunk of announced size 5 whose closing CRLF is split
between two reads; `http_get_response_cb` feeds the six bytes `hello\r` to the
decompressor, one more than the announced size, the CR of the chunk's CRLF
among them. -/
theorem C1_straddling_crlf_is_fed :
    http_get_response_cb 0 { tcp := straddle_stream } none false =
      ReadResult.done
        { resp := some
            { major := 1, minor := 1, code := 200, reason := bytes "OK",
              transfer_encoding := TransferEncoding.transfer_encoding_chunked },
          dc := some ContentEncoding.mget_content_encoding_identity,
          fed := [bytes "hello\r"],
          tcp := [] } ∧
    (identity_sink [bytes "hello\r"]).length = 6 ∧
    strtoll16 (bytes "5\r\nhello\r") = 5 := by
  decide

theorem cdiv_100_eq_one {c : Int} (h1 : 100 ≤ c) (h2 : c ≤ 199) : cdiv c 100 = 1 := by
  unfold cdiv
  rw [Int.tdiv_eq_ediv (by omega) (by omega)]
  omega

/-- C4: when the request method is HEAD, or the status code is 1xx, 204 or
304, or the transfer encoding is identity with a valid content length of 0,
`http_get_response_cb` returns the parsed response without opening the
decompressor, without feeding anything to it, and with the stream left where
the read that completed the header block left it. -/
theorem C4_no_body_no_read (now : Int) (conn : MGET_HTTP_CONNECTION)
    (req : Option MGET_HTTP_REQUEST) (keepheader : Bool) (header body : List Nat) (bufsize : Nat)
    (tcp : List (List Nat)) (r : MGET_HTTP_RESPONSE)
    (hh : read_header (pending conn.tcp + 1) conn.tcp [] conn.bufsize =
      HeaderResult.found header body bufsize tcp)
    (hp : http_parse_response now header = ParseResult.resp r)
    (hc : req.any (fun q => strcaseeq q.method (bytes "HEAD")) = true ∨
      (100 ≤ r.code ∧ r.code ≤ 199) ∨ r.code = 204 ∨ r.code = 304 ∨
      (r.transfer_encoding = TransferEncoding.transfer_encoding_identity ∧
        r.content_length_valid = true ∧ r.content_length = 0)) :
    http_get_response_cb now conn req keepheader =
      ReadResult.done
        { resp := some (if req.isSome ∧ keepheader then { r with header := some (header ++ CRLFCRLF) }
            else r),
          dc := none, fed := [], tcp := tcp } := by
  unfold http_get_response_cb
  rw [hh]
  simp only [hp]
  by_cases hhead : req.any (fun q => strcaseeq q.method (bytes "HEAD")) = true
  · simp [hhead]
  · have hnb : no_body (if req.isSome ∧ keepheader then
        { r with header := some (header ++ CRLFCRLF) } else r) = true := by
      have hnb0 : no_body r = true := by
        rcases hc with h | ⟨h1, h2⟩ | h | h | ⟨h1, h2, h3⟩
        · exact absurd h hhead
        · simp [no_body, cdiv_100_eq_one h1 h2]
        · simp [no_body, h]
        · simp [no_body, h]
        · simp [no_body, h1, h2, h3]
      split
      · simpa [no_body] using hnb0
      · exact hnb0
    simp [hhead, hnb]

/-- C4 at a HEAD request whose response announces a body of 5 bytes, and that
is followed on the stream by further bytes. -/
theorem C4_no_body_no_read_witness :
    http_get_response_cb 0
        { tcp := [bytes "HTTP/1.1 200 OK\r\nContent-Length: 5\r\n\r\n", bytes "hello"] }
        (some { method := bytes "HEAD" }) false =
      ReadResult.done
        { resp := some (if (some ({ method := bytes "HEAD" } : MGET_HTTP_REQUEST)).isSome ∧
              false then
              { ({ major := 1, minor := 1, code := 200, reason := bytes "OK", content_length := 5,
                   content_length_valid := true } : MGET_HTTP_RESPONSE) with
                header := some (bytes "HTTP/1.1 200 OK\r\nContent-Length: 5" ++ CRLFCRLF) }
            else { major := 1, minor := 1, code := 200, reason := bytes "OK", content_length := 5,
                   content_length_valid := true }),
          dc := none, fed := [], tcp := [bytes "hello"] } :=
  C4_no_body_no_read 0 _ _ false (bytes "HTTP/1.1 200 OK\r\nContent-Length: 5") [] 102400
    [bytes "hello"] _ (by decide) (by decide) (Or.inl (by decide))

theorem cdiv_100_eq_one_iff (c : Int) : cdiv c 100 = 1 ↔ (100 ≤ c ∧ c ≤ 199) := by
  unfold cdiv
  rcases le_or_lt 0 c with h | h
  · rw [Int.tdiv_eq_ediv h (by omega)]; omega
  · have hneg : Int.tdiv c 100 = -(Int.tdiv (-c) 100) := by
      rw [Int.neg_tdiv]; simp
    rw [hneg, Int.tdiv_eq_ediv (by omega) (by omega)]; omega

theorem mget_tcp_read_bytes (tcp : List (List Nat)) (cap : Nat) :
    (mget_tcp_read tcp cap).1 ++ (mget_tcp_read tcp cap).2.flatten = tcp.flatten := by
  unfold mget_tcp_read
  cases tcp with
  | nil => simp
  | cons seg rest =>
    by_cases h : seg.length ≤ cap
    · simp [h]
    · simp only [h, if_false, List.flatten_cons]
      rw [← List.append_assoc, List.take_append_drop]

theorem mget_tcp_read_pending (tcp : List (List Nat)) (cap : Nat)
    (h : (mget_tcp_read tcp cap).1 ≠ []) : pending (mget_tcp_read tcp cap).2 < pending tcp := by
  have hb := congrArg List.length (mget_tcp_read_bytes tcp cap)
  have hpos : 0 < (mget_tcp_read tcp cap).1.length := List.length_pos.mpr h
  simp only [List.length_append] at hb
  unfold pending
  omega

theorem mget_tcp_read_closed (tcp : List (List Nat)) (cap : Nat) (hc : 0 < cap)
    (h : (mget_tcp_read tcp cap).1 = []) : tcp = [] ∨ tcp.head? = some [] := by
  unfold mget_tcp_read at h
  cases tcp with
  | nil => exact Or.inl rfl
  | cons seg rest =>
    right
    by_cases hl : seg.length ≤ cap
    · simp only [hl, if_true] at h
      simp [h]
    · simp only [hl, if_false] at h
      have : seg.take cap = [] := h
      rw [List.take_eq_nil_iff] at this
      rcases this with h0 | h0
      · omega
      · simp [h0]

/-- The read loop of the identity modes makes `k` reads that return data and
feeds them in order: before each of them the number of bytes received is below
the limit, and the loop ends either with the limit reached, without a further
read, or with one more read that returns no byte. -/
theorem read_body_spec (bufsize : Nat) (limit : Option Nat) :
    ∀ (fuel : Nat) (tcp : List (List Nat)) (body_len : Nat) (fed : List (List Nat)),
      pending tcp < fuel →
      ∃ k : Nat,
        (read_body fuel bufsize tcp limit body_len fed).2.1 = fed ++ read_trace bufsize tcp k ∧
        (read_body fuel bufsize tcp limit body_len fed).1 =
          body_len + (read_trace bufsize tcp k).flatten.length ∧
        [] ∉ read_trace bufsize tcp k ∧
        (read_trace bufsize tcp k).flatten ++
          (read_body fuel bufsize tcp limit body_len fed).2.2.flatten = tcp.flatten ∧
        (((∃ n, limit = some n ∧ n ≤ body_len + (read_trace bufsize tcp k).flatten.length) ∧
            (read_body fuel bufsize tcp limit body_len fed).2.2 = after_reads bufsize tcp k) ∨
          ((mget_tcp_read (after_reads bufsize tcp k) bufsize).1 = [] ∧
            (read_body fuel bufsize tcp limit body_len fed).2.2 =
              after_reads bufsize tcp (k + 1))) ∧
        (∀ n, limit = some n → ∀ j, j < k →
          body_len + (read_trace bufsize tcp j).flatten.length < n) := by
  intro fuel
  induction fuel with
  | zero => intro tcp body_len fed h; omega
  | succ fuel ih =>
    intro tcp body_len fed hfuel
    unfold read_body
    by_cases hlim : limit.all (fun n => decide (body_len < n)) = true
    · simp only [hlim, if_true]
      by_cases hr : (mget_tcp_read tcp bufsize).1 = []
      · simp only [hr, if_true]
        refine ⟨0, by simp [read_trace], by simp [read_trace], by simp [read_trace], ?_, ?_, ?_⟩
        · have := mget_tcp_read_bytes tcp bufsize
          rw [hr] at this
          simpa [read_trace] using this
        · right
          exact ⟨by simpa [after_reads] using hr, rfl⟩
        · intro n _ j hj
          omega
      · simp only [hr, if_false]
        have hp := mget_tcp_read_pending tcp bufsize hr
        obtain ⟨k, h1, h2, h3, h4, h5, h6⟩ :=
          ih (mget_tcp_read tcp bufsize).2 (body_len + (mget_tcp_read tcp bufsize).1.length)
            (fed ++ [(mget_tcp_read tcp bufsize).1]) (by omega)
        refine ⟨k + 1, ?_, ?_, ?_, ?_, ?_, ?_⟩
        · rw [h1]; simp [read_trace]
        · rw [h2]; simp [read_trace]; omega
        · intro hmem
          simp only [read_trace] at hmem
          rcases List.mem_cons.mp hmem with h | h
          · exact hr h.symm
          · exact h3 h
        · simp only [read_trace, List.flatten_cons, List.append_assoc]
          rw [h4]
          exact mget_tcp_read_bytes tcp bufsize
        · rcases h5 with ⟨⟨n, hn, hle⟩, hs⟩ | ⟨hc, hs⟩
          · left
            refine ⟨⟨n, hn, ?_⟩, ?_⟩
            · simp only [read_trace, List.flatten_cons, List.length_append]
              omega
            · simpa [after_reads] using hs
          · right
            exact ⟨by simpa [after_reads] using hc, by simpa [after_reads] using hs⟩
        · intro n hn j hj
          cases j with
          | zero =>
            simp only [read_trace, List.flatten_nil, List.length_nil, Nat.add_zero]
            rw [hn] at hlim
            simpa using hlim
          | succ j =>
            have := h6 n hn j (by omega)
            simp only [read_trace, List.flatten_cons, List.length_append]
            omega
    · simp only [hlim, if_false]
      refine ⟨0, by simp [read_trace], by simp [read_trace], by simp [read_trace],
        by simp [read_trace], ?_, ?_⟩
      · left
        cases limit with
        | none => simp at hlim
        | some n =>
          refine ⟨⟨n, rfl, ?_⟩, rfl⟩
          simp at hlim
          simpa [read_trace] using hlim
      · intro n _ j hj
        omega

/-- C3: for an identity-coded response with a declared content length above 0,
`http_get_response_cb` feeds first the body bytes read with the header and then
the data of each of the `k` reads it makes, in stream order and without losing
a byte; before each read fewer than `content_length` bytes had been received,
and the reading ends either with at least `content_length` bytes received
(no further read is made) or with a read that returns no byte (the peer
closed).  The response returned carries the number of bytes fed as
`content_length`, be it below, equal to or above the declared length. -/
theorem C3_identity_known_length (now : Int) (conn : MGET_HTTP_CONNECTION)
    (req : Option MGET_HTTP_REQUEST) (keepheader : Bool) (header body : List Nat) (bufsize : Nat)
    (tcp : List (List Nat)) (r : MGET_HTTP_RESPONSE)
    (hh : read_header (pending conn.tcp + 1) conn.tcp [] conn.bufsize =
      HeaderResult.found header body bufsize tcp)
    (hp : http_parse_response now header = ParseResult.resp r)
    (hhead : req.any (fun q => strcaseeq q.method (bytes "HEAD")) = false)
    (hcode : ¬ (100 ≤ r.code ∧ r.code ≤ 199) ∧ r.code ≠ 204 ∧ r.code ≠ 304)
    (hte : r.transfer_encoding = TransferEncoding.transfer_encoding_identity)
    (hv : r.content_length_valid = true) (hl : 0 < r.content_length) :
    ∃ (x : Exchange) (k : Nat),
      http_get_response_cb now conn req keepheader = ReadResult.done x ∧
      x.dc = some r.content_encoding ∧
      x.fed = (if body.length ≠ 0 then [body] else []) ++ read_trace bufsize tcp k ∧
      [] ∉ read_trace bufsize tcp k ∧
      identity_sink x.fed ++ x.tcp.flatten = body ++ tcp.flatten ∧
      x.resp = some
        { (if req.isSome ∧ keepheader then { r with header := some (header ++ CRLFCRLF) } else r)
          with content_length := (identity_sink x.fed).length } ∧
      ((r.content_length ≤ (identity_sink x.fed).length ∧ x.tcp = after_reads bufsize tcp k) ∨
        ((mget_tcp_read (after_reads bufsize tcp k) bufsize).1 = [] ∧
          x.tcp = after_reads bufsize tcp (k + 1))) ∧
      (∀ j, j < k → (body ++ (read_trace bufsize tcp j).flatten).length < r.content_length) := by
  have hnb : no_body r = false := by
    have h1 : ¬ cdiv r.code 100 = 1 := fun h => hcode.1 ((cdiv_100_eq_one_iff _).mp h)
    have h0 : r.content_length ≠ 0 := by omega
    simp [no_body, h1, hcode.2.1, hcode.2.2, h0]
  have hspec := read_body_spec bufsize (some r.content_length) (pending tcp + 1) tcp body.length
      (if body.length ≠ 0 then [body] else []) (by omega)
  have hrb : ∃ rb, rb = read_body (pending tcp + 1) bufsize tcp (some r.content_length) body.length
      (if body.length ≠ 0 then [body] else []) := ⟨_, rfl⟩
  obtain ⟨rb, hrb⟩ := hrb
  rw [← hrb] at hspec
  obtain ⟨k, h1, h2, h3, h4, h5, h6⟩ := hspec
  have hflat : (if body.length ≠ 0 then [body] else ([] : List (List Nat))).flatten = body := by
    by_cases hbl : body.length ≠ 0
    · simp [hbl]
    · have : body = [] := by
        have : body.length = 0 := by omega
        exact List.length_eq_zero.mp this
      simp [this]
  have hcb : ∀ r1 : MGET_HTTP_RESPONSE,
      r1.transfer_encoding = TransferEncoding.transfer_encoding_identity →
      r1.content_length_valid = true → r1.content_length = r.content_length →
      r1.content_encoding = r.content_encoding →
      ∃ (x : Exchange),
        read_response_body r1 body bufsize tcp = ReadResult.done x ∧
        x.dc = some r.content_encoding ∧
        x.fed = (if body.length ≠ 0 then [body] else []) ++ read_trace bufsize tcp k ∧
        identity_sink x.fed ++ x.tcp.flatten = body ++ tcp.flatten ∧
        x.resp = some { r1 with content_length := (identity_sink x.fed).length } ∧
        ((r.content_length ≤ (identity_sink x.fed).length ∧
            x.tcp = after_reads bufsize tcp k) ∨
          ((mget_tcp_read (after_reads bufsize tcp k) bufsize).1 = [] ∧
            x.tcp = after_reads bufsize tcp (k + 1))) := by
    intro r1 e1 e2 e3 e4
    refine ⟨⟨some { r1 with content_length := rb.1 }, some r1.content_encoding, rb.2.1, rb.2.2⟩,
      ?_, ?_, ?_, ?_, ?_, ?_⟩
    · unfold read_response_body
      simp only [e1, ne_eq, not_true_eq_false, if_false, e2, if_true, e3, ← hrb]
    · simp [e4]
    · exact h1
    · simp only [identity_sink]
      rw [h1, List.flatten_append, hflat, List.append_assoc, h4]
    · simp only [identity_sink]
      rw [h1, h2, List.flatten_append, hflat, List.length_append]
    · simp only [identity_sink]
      rw [h1, List.flatten_append, hflat, List.length_append]
      rcases h5 with ⟨⟨n, hn, hle⟩, hs⟩ | h5
      · left
        have : n = r.content_length := by simpa using hn.symm
        exact ⟨by omega, hs⟩
      · right; exact h5
  have hmin : ∀ j, j < k →
      (body ++ (read_trace bufsize tcp j).flatten).length < r.content_length := by
    intro j hj
    have := h6 r.content_length rfl j hj
    simpa [List.length_append] using this
  unfold http_get_response_cb
  rw [hh]
  simp only [hp, hhead]
  by_cases hk : req.isSome ∧ keepheader
  · obtain ⟨x, hx1, hx2, hx3, hx4, hx5, hx6⟩ :=
      hcb { r with header := some (header ++ CRLFCRLF) } hte hv rfl rfl
    have hnb1 : no_body { r with header := some (header ++ CRLFCRLF) } = false := by
      simpa [no_body] using hnb
    refine ⟨x, k, ?_, hx2, hx3, h3, hx4, ?_, hx6, hmin⟩
    · simp only [hk, if_true] at hx1 ⊢
      simp [hnb1, hx1]
    · simp only [hk, if_true]
      exact hx5
  · obtain ⟨x, hx1, hx2, hx3, hx4, hx5, hx6⟩ := hcb r hte hv rfl rfl
    refine ⟨x, k, ?_, hx2, hx3, h3, hx4, ?_, hx6, hmin⟩
    · simp only [hk, if_false] at hx1 ⊢
      simp [hnb, hx1]
    · simp only [hk, if_false]
      exact hx5

/-- C3 at scenario 1 of the specification, the body `hello` arriving in two
reads (`he` with the header, then `llo`). -/
theorem C3_identity_known_length_witness :
    ∃ (x : Exchange) (k : Nat),
      http_get_response_cb 0
          { tcp := [bytes "HTTP/1.1 200 OK\r\nContent-Length: 5\r\nConnection: keep-alive\r\n\r\nhe",
                    bytes "llo"] } none false = ReadResult.done x ∧
      x.dc = some ContentEncoding.mget_content_encoding_identity ∧
      x.fed = (if (bytes "he").length ≠ 0 then [bytes "he"] else []) ++
        read_trace 102400 [bytes "llo"] k ∧
      [] ∉ read_trace 102400 [bytes "llo"] k ∧
      identity_sink x.fed ++ x.tcp.flatten = bytes "he" ++ [bytes "llo"].flatten ∧
      x.resp = some
        { (if (none : Option MGET_HTTP_REQUEST).isSome ∧ false then
            { ({ major := 1, minor := 1, code := 200, reason := bytes "OK", content_length := 5,
                 content_length_valid := true, keep_alive := true } : MGET_HTTP_RESPONSE) with
              header := some (bytes "HTTP/1.1 200 OK\r\nContent-Length: 5\r\nConnection: keep-alive"
                ++ CRLFCRLF) }
          else { major := 1, minor := 1, code := 200, reason := bytes "OK", content_length := 5,
                 content_length_valid := true, keep_alive := true })
          with content_length := (identity_sink x.fed).length } ∧
      (((5 : Nat) ≤ (identity_sink x.fed).length ∧ x.tcp = after_reads 102400 [bytes "llo"] k) ∨
        ((mget_tcp_read (after_reads 102400 [bytes "llo"] k) 102400).1 = [] ∧
          x.tcp = after_reads 102400 [bytes "llo"] (k + 1))) ∧
      (∀ j, j < k → (bytes "he" ++ (read_trace 102400 [bytes "llo"] j).flatten).length < 5) :=
  C3_identity_known_length 0 _ none false
    (bytes "HTTP/1.1 200 OK\r\nContent-Length: 5\r\nConnection: keep-alive") (bytes "he") 102400
    [bytes "llo"]
    { major := 1, minor := 1, code := 200, reason := bytes "OK", content_length := 5,
      content_length_valid := true, keep_alive := true }
    (by decide) (by decide) (by decide) (by decide) (by decide) (by decide) (by decide)

/-- The exchange of scenario 1 of the specification, evaluated: the sink
receives `hello` and the response carries the length 5 and `keep_alive`. -/
theorem C3_scenario_exchange :
    http_get_response_cb 0
        { tcp := [bytes "HTTP/1.1 200 OK\r\nContent-Length: 5\r\nConnection: keep-alive\r\n\r\nhe",
                  bytes "llo"] } none false =
      ReadResult.done
        { resp := some { major := 1, minor := 1, code := 200, reason := bytes "OK",
                         content_length := 5, content_length_valid := true, keep_alive := true },
          dc := some ContentEncoding.mget_content_encoding_identity,
          fed := [bytes "he", bytes "llo"], tcp := [] } ∧
    identity_sink [bytes "he", bytes "llo"] = bytes "hello" := by
  decide

/-! ## Chunked bodies that arrive in one read -/

theorem hexdigit_bounds {d : Nat} (h : (hexdigit d).isSome = true) :
    (48 ≤ d ∧ d ≤ 57) ∨ (97 ≤ d ∧ d ≤ 102) ∨ (65 ≤ d ∧ d ≤ 70) := by
  unfold hexdigit at h
  split_ifs at h with h1 h2 h3
  · exact Or.inl h1
  · exact Or.inr (Or.inl h2)
  · exact Or.inr (Or.inr h3)
  · simp at h

theorem crlf_at_hex (rest : List Nat) :
    ∀ ds : List Nat, (∀ d ∈ ds, (hexdigit d).isSome = true) →
      crlf_at (ds ++ 13 :: 10 :: rest) = some ds.length := by
  intro ds
  induction ds with
  | nil => intro _; simp [crlf_at, cur]
  | cons d ds ih =>
    intro h
    have hd := hexdigit_bounds (h d (List.mem_cons_self _ _))
    have h13 : d ≠ 13 := by omega
    have h0 : d ≠ 0 := by omega
    simp only [List.cons_append, crlf_at, h13, h0, if_false, List.append_eq]
    rw [ih (fun x hx => h x (List.mem_cons_of_mem _ hx))]
    simp

theorem hexval_hex_append (rest : List Nat) :
    ∀ (ds : List Nat) (a : Nat), (∀ d ∈ ds, (hexdigit d).isSome = true) →
      hexval a (ds ++ 13 :: rest) = hexval a ds := by
  intro ds
  induction ds with
  | nil => intro a _; simp [hexval, hexdigit]
  | cons d ds ih =>
    intro a h
    have hd : (hexdigit d).isSome = true := h d (List.mem_cons_self _ _)
    obtain ⟨v, hv⟩ := Option.isSome_iff_exists.mp hd
    simp only [List.cons_append, hexval, hv]
    exact ih _ (fun x hx => h x (List.mem_cons_of_mem _ hx))

theorem strtoll16_hex (ds rest : List Nat) (hne : ds ≠ [])
    (h : ∀ d ∈ ds, (hexdigit d).isSome = true) (hlt : hexval 0 ds < 2 ^ 63) :
    strtoll16 (ds ++ 13 :: rest) = (hexval 0 ds : Int) := by
  cases ds with
  | nil => exact absurd rfl hne
  | cons d ds =>
    have hd := hexdigit_bounds (h d (List.mem_cons_self _ _))
    have hsp : isspace d = false := by
      simp only [isspace, Bool.or_eq_false_iff, beq_eq_false_iff_ne, Bool.and_eq_false_iff,
        decide_eq_false_iff_not]
      omega
    have htail : ¬ (cur (ds ++ 13 :: rest) = 120 ∨ cur (ds ++ 13 :: rest) = 88) := by
      cases ds with
      | nil => simp [cur]
      | cons e es =>
        have he := hexdigit_bounds (h e (by simp))
        simp only [List.cons_append, cur, List.headD_cons]
        omega
    have h45 : d ≠ 45 := by omega
    have h43 : d ≠ 43 := by omega
    have hneg : (d == 45) = false := by simp [h45]
    have hpos : (d == 43) = false := by simp [h43]
    have hx : (d == 48 && (List.headD (ds ++ 13 :: rest) 0 == 120 ||
        List.headD (ds ++ 13 :: rest) 0 == 88)) = false := by
      simp only [cur] at htail
      simp only [Bool.and_eq_false_iff, Bool.or_eq_false_iff, beq_eq_false_iff_ne]
      right
      exact ⟨fun h => htail (Or.inl h), fun h => htail (Or.inr h)⟩
    unfold strtoll16
    simp only [List.cons_append, List.dropWhile_cons, hsp, Bool.false_eq_true, if_false, cur,
      List.headD_cons, hneg, hpos, Bool.or_self, List.tail_cons, hx]
    have hv := hexval_hex_append rest (d :: ds) 0 h
    simp only [List.cons_append] at hv
    rw [hv]
    unfold clamp64
    have hlt2 : hexval 0 (d :: ds) < 9223372036854775808 := by
      have : (2 : Nat) ^ 63 = 9223372036854775808 := by norm_num
      omega
    simp [hlt2]

theorem chunk_line_found (bufsize fuel : Nat) (tcp : List (List Nat)) (buf : List Nat)
    (p k : Nat) (h : crlf_at (buf.drop p) = some k) :
    chunk_line (fuel + 1) bufsize tcp buf p = (some (p + k + 2), buf, tcp) := by
  unfold chunk_line
  simp [h]

theorem chunk_loop_buffered (bufsize : Nat) :
    ∀ (chunks : List (List Nat × List Nat)) (pre : List Nat) (fed : List (List Nat))
      (fuel : Nat), chunks.length < fuel → (∀ c ∈ chunks, chunk_ok c) →
      chunk_loop fuel bufsize [] (pre ++ chunked_body chunks) pre.length fed =
        ChunkResult.cleanup (fed ++ chunks.map Prod.snd) [] := by
  intro chunks
  induction chunks with
  | nil =>
    intro pre fed fuel hf _
    obtain ⟨f, rfl⟩ : ∃ f, fuel = f + 1 := ⟨fuel - 1, by omega⟩
    have hbody : chunked_body [] = [48, 13, 10, 13, 10] := by decide
    rw [hbody]
    unfold chunk_loop
    have hdrop : (pre ++ [48, 13, 10, 13, 10]).drop pre.length = [48, 13, 10, 13, 10] := by simp
    have hline := chunk_line_found bufsize (pending []) [] (pre ++ [48, 13, 10, 13, 10])
      pre.length 1 (by rw [hdrop]; decide)
    rw [hline]
    have hsize : strtoll16 [48, 13, 10, 13, 10] = 0 := by decide
    have hd3 : (pre ++ [48, 13, 10, 13, 10]).drop (pre.length + 1 + 2) = [13, 10] := by
      rw [Nat.add_assoc, List.drop_append]; rfl
    have hd4 : (pre ++ [48, 13, 10, 13, 10]).drop (pre.length + 1 + 2 + 1) = [10] := by
      rw [Nat.add_assoc, Nat.add_assoc, List.drop_append]; rfl
    simp [hdrop, hsize, hd3, hd4, cur]
  | cons c cs ih =>
    intro pre fed fuel hf hok
    obtain ⟨f, rfl⟩ : ∃ f, fuel = f + 1 := ⟨fuel - 1, by omega⟩
    obtain ⟨hne, hhex, hval, hpos, hlt⟩ := hok c (List.mem_cons_self _ _)
    have hbody : pre ++ chunked_body (c :: cs) =
        pre ++ (c.1 ++ 13 :: 10 :: (c.2 ++ 13 :: 10 :: chunked_body cs)) := by
      simp [chunked_body, chunk_encode]
    have hbody2 : pre ++ chunked_body (c :: cs) = (pre ++ chunk_encode c) ++ chunked_body cs := by
      simp [chunked_body, chunk_encode]
    have hdrop : (pre ++ chunked_body (c :: cs)).drop pre.length =
        c.1 ++ 13 :: 10 :: (c.2 ++ 13 :: 10 :: chunked_body cs) := by
      rw [hbody]; simp
    have hline := chunk_line_found bufsize (pending []) [] (pre ++ chunked_body (c :: cs))
      pre.length c.1.length (by rw [hdrop]; exact crlf_at_hex _ _ hhex)
    have hsize : strtoll16 ((pre ++ chunked_body (c :: cs)).drop pre.length) = (c.2.length : Int) := by
      rw [hdrop, strtoll16_hex _ _ hne hhex (by rw [hval]; exact hlt), hval]
    have hdata : ((pre ++ chunked_body (c :: cs)).drop (pre.length + c.1.length + 2)).take
        c.2.length = c.2 := by
      rw [hbody]
      have : pre ++ (c.1 ++ 13 :: 10 :: (c.2 ++ 13 :: 10 :: chunked_body cs)) =
          (pre ++ c.1 ++ [13, 10]) ++ (c.2 ++ 13 :: 10 :: chunked_body cs) := by simp
      rw [this]
      have hl : pre.length + c.1.length + 2 = (pre ++ c.1 ++ [13, 10]).length := by
        simp only [List.length_append, List.length_cons, List.length_nil]
      rw [hl, List.drop_left, List.take_left]
    have hlen : pre.length + c.1.length + 2 + c.2.length + 2 = (pre ++ chunk_encode c).length := by
      simp [chunk_encode]; omega
    have hfit : pre.length + c.1.length + 2 + c.2.length + 2 ≤
        (pre ++ chunked_body (c :: cs)).length := by
      rw [hbody2, hlen]; simp
    unfold chunk_loop
    rw [hline]
    simp only [hsize]
    have hn0 : ¬ ((c.2.length : Int) < 0) := by omega
    have hn1 : ¬ ((c.2.length : Int) = 0) := by omega
    simp only [hn0, hn1, if_false, Int.toNat_ofNat, hfit, if_true, hdata]
    rw [hlen, hbody2, ih (pre ++ chunk_encode c) (fed ++ [c.2]) f (by simp at hf; omega)
      (fun x hx => hok x (List.mem_cons_of_mem _ hx))]
    simp

theorem strstr_bound (needle : List Nat) :
    ∀ (s : List Nat) (k : Nat), strstr s needle = some k → k + needle.length ≤ s.length := by
  intro s
  induction s with
  | nil =>
    intro k h
    unfold strstr at h
    by_cases hn : needle = []
    · simp [hn] at h
      simp [hn, ← h]
    · simp [hn] at h
  | cons x xs ih =>
    intro k h
    unfold strstr at h
    by_cases hp : needle.isPrefixOf (x :: xs) = true
    · simp only [hp, if_true, Option.some.injEq] at h
      have := (List.isPrefixOf_iff_prefix.mp hp).length_le
      omega
    · simp only [hp, Bool.false_eq_true, if_false] at h
      by_cases hx : x = 0
      · simp [hx] at h
      · simp only [hx, if_false, Option.map_eq_some'] at h
        obtain ⟨k1, hk1, rfl⟩ := h
        have := ih k1 hk1
        simp only [List.length_cons]
        omega

theorem strstr_append (needle rest : List Nat) :
    ∀ (s : List Nat) (k : Nat), strstr s needle = some k → strstr (s ++ rest) needle = some k := by
  intro s
  induction s with
  | nil =>
    intro k h
    unfold strstr at h
    by_cases hn : needle = []
    · simp [hn] at h
      subst hn
      subst h
      cases rest with
      | nil => simp [strstr]
      | cons y ys => simp [strstr, List.isPrefixOf]
    · simp [hn] at h
  | cons x xs ih =>
    intro k h
    have hb := strstr_bound needle (x :: xs) k h
    unfold strstr at h
    by_cases hp : needle.isPrefixOf (x :: xs) = true
    · simp only [hp, if_true, Option.some.injEq] at h
      have hp2 : needle.isPrefixOf (x :: xs ++ rest) = true :=
        List.isPrefixOf_iff_prefix.mpr
          ((List.isPrefixOf_iff_prefix.mp hp).trans (List.prefix_append _ _))
      rw [List.cons_append] at hp2
      rw [List.cons_append]
      unfold strstr
      simp [hp2, h]
    · simp only [hp, Bool.false_eq_true, if_false] at h
      by_cases hx : x = 0
      · simp [hx] at h
      · simp only [hx, if_false, Option.map_eq_some'] at h
        obtain ⟨k1, hk1, rfl⟩ := h
        have hp2 : ¬ needle.isPrefixOf (x :: (xs ++ rest)) = true := by
          intro hq
          apply hp
          have h1 : needle <+: x :: xs ++ rest := by
            rw [List.cons_append]; exact List.isPrefixOf_iff_prefix.mp hq
          have h2 : x :: xs <+: x :: xs ++ rest := List.prefix_append _ _
          exact List.isPrefixOf_iff_prefix.mpr
            (List.prefix_of_prefix_length_le h1 h2 (by simp only [List.length_cons] at hb ⊢; omega))
        rw [List.cons_append]
        unfold strstr
        simp [hp2, hx, ih k1 hk1]

/-- The header search on a stream whose first segment holds the header block,
the blank line and `body`, and fits into the connection buffer. -/
theorem read_header_single (header body : List Nat) (rest : List (List Nat)) (bufsize fuel : Nat)
    (hterm : strstr (header ++ CRLFCRLF) CRLFCRLF = some header.length)
    (hfit : (header ++ CRLFCRLF ++ body).length ≤ bufsize) :
    read_header (fuel + 1) ((header ++ CRLFCRLF ++ body) :: rest) [] bufsize =
      HeaderResult.found header body bufsize rest := by
  have hlen : (header ++ CRLFCRLF ++ body).length = header.length + 4 + body.length := by
    simp only [CRLFCRLF, List.length_append, List.length_cons, List.length_nil]
  have hne : header ++ CRLFCRLF ++ body ≠ [] := by
    intro h
    have := congrArg List.length h
    rw [hlen] at this
    simp at this
  have hfind := strstr_append CRLFCRLF body (header ++ CRLFCRLF) header.length hterm
  unfold read_header
  simp only [mget_tcp_read, List.length_nil, Nat.sub_zero, hfit, if_true, hne, if_false,
    List.nil_append, Nat.zero_add]
  have h4 : ¬ (header ++ CRLFCRLF ++ body).length < 4 := by rw [hlen]; omega
  simp only [h4, if_false, ne_eq, not_true_eq_false, false_and, if_true, List.drop_zero, hfind,
    Nat.zero_add]
  congr 1
  · rw [List.append_assoc, List.take_left]
  · have : header.length + 4 = (header ++ CRLFCRLF).length := by simp [CRLFCRLF]
    rw [this, List.drop_left]

/-- C2: a chunked response that arrives in one read (header block, blank line,
well-formed chunks, zero-size chunk, final blank line) with identity content
encoding: the data fed to the decompressor are the chunk data, one call per
chunk and in order, so the sink receives their concatenation; the stream is
used up, and the response is returned as parsed, `content_length` and
`content_length_valid` untouched. -/
theorem C2_chunked_single_read (now : Int) (req : Option MGET_HTTP_REQUEST) (keepheader : Bool)
    (bufsize : Nat) (header : List Nat) (chunks : List (List Nat × List Nat))
    (r : MGET_HTTP_RESPONSE)
    (hterm : strstr (header ++ CRLFCRLF) CRLFCRLF = some header.length)
    (hfit : (header ++ CRLFCRLF ++ chunked_body chunks).length ≤ bufsize)
    (hp : http_parse_response now header = ParseResult.resp r)
    (hhead : req.any (fun q => strcaseeq q.method (bytes "HEAD")) = false)
    (hcode : ¬ (100 ≤ r.code ∧ r.code ≤ 199) ∧ r.code ≠ 204 ∧ r.code ≠ 304)
    (hte : r.transfer_encoding = TransferEncoding.transfer_encoding_chunked)
    (henc : r.content_encoding = ContentEncoding.mget_content_encoding_identity)
    (hchunks : ∀ c ∈ chunks, chunk_ok c) :
    ∃ x : Exchange,
      http_get_response_cb now
          { tcp := [header ++ CRLFCRLF ++ chunked_body chunks], bufsize := bufsize }
          req keepheader = ReadResult.done x ∧
      x.dc = some ContentEncoding.mget_content_encoding_identity ∧
      x.fed = chunks.map Prod.snd ∧
      identity_sink x.fed = (chunks.map Prod.snd).flatten ∧
      x.tcp = [] ∧
      x.resp = some (if req.isSome ∧ keepheader then { r with header := some (header ++ CRLFCRLF) }
        else r) ∧
      x.resp.map (fun q => q.content_length_valid) = some r.content_length_valid ∧
      x.resp.map (fun q => q.content_length) = some r.content_length := by
  have hnb : no_body r = false := by
    have h1 : ¬ cdiv r.code 100 = 1 := fun h => hcode.1 ((cdiv_100_eq_one_iff _).mp h)
    simp [no_body, h1, hcode.2.1, hcode.2.2, hte]
  have hloop : chunk_loop (2 * pending [] + (chunked_body chunks).length + 1) bufsize []
      (chunked_body chunks) 0 [] = ChunkResult.cleanup (chunks.map Prod.snd) [] := by
    have h := chunk_loop_buffered bufsize chunks [] []
      (2 * pending [] + (chunked_body chunks).length + 1) ?_ hchunks
    · simpa using h
    · have : chunks.length ≤ (chunked_body chunks).length := by
        unfold chunked_body
        rw [List.length_append, List.length_flatten]
        have hsum : ∀ l : List (List Nat × List Nat),
            l.length ≤ (List.map List.length (List.map chunk_encode l)).sum := by
          intro l
          induction l with
          | nil => simp
          | cons a l ih =>
            simp only [List.map_cons, List.sum_cons, List.length_cons, chunk_encode,
              List.length_append, List.length_nil]
            omega
        have := hsum chunks
        omega
      omega
  have hbody : ∀ r1 : MGET_HTTP_RESPONSE,
      r1.transfer_encoding = TransferEncoding.transfer_encoding_chunked →
      r1.content_encoding = ContentEncoding.mget_content_encoding_identity →
      read_response_body r1 (chunked_body chunks) bufsize [] =
        ReadResult.done ⟨some r1, some ContentEncoding.mget_content_encoding_identity,
          chunks.map Prod.snd, []⟩ := by
    intro r1 e1 e2
    unfold read_response_body
    simp [e1, e2, hloop]
  have hread := read_header_single header (chunked_body chunks) [] bufsize
    (pending [header ++ CRLFCRLF ++ chunked_body chunks]) hterm hfit
  unfold http_get_response_cb
  simp only [hread, hp, hhead]
  by_cases hk : req.isSome ∧ keepheader
  · have hnb1 : no_body { r with header := some (header ++ CRLFCRLF) } = false := by
      simpa [no_body] using hnb
    refine ⟨⟨some { r with header := some (header ++ CRLFCRLF) },
      some ContentEncoding.mget_content_encoding_identity, chunks.map Prod.snd, []⟩,
      ?_, rfl, rfl, rfl, rfl, ?_, rfl, rfl⟩
    · simp only [hk, if_true]
      simp [hnb1, hbody { r with header := some (header ++ CRLFCRLF) } hte henc]
    · simp [hk]
  · refine ⟨⟨some r, some ContentEncoding.mget_content_encoding_identity,
      chunks.map Prod.snd, []⟩, ?_, rfl, rfl, rfl, rfl, ?_, rfl, rfl⟩
    · simp only [hk, if_false]
      simp [hnb, hbody _ hte henc]
    · simp [hk]

/-- C2 at scenario 2 of the specification: the chunks `hello` and ` world`
deliver `hello world`. -/
theorem C2_chunked_single_read_witness :
    ∃ x : Exchange,
      http_get_response_cb 0
          { tcp := [bytes "HTTP/1.1 200 OK\r\nTransfer-Encoding: chunked" ++ CRLFCRLF ++
              chunked_body [(bytes "5", bytes "hello"), (bytes "6", bytes " world")]],
            bufsize := 102400 }
          none false = ReadResult.done x ∧
      x.dc = some ContentEncoding.mget_content_encoding_identity ∧
      x.fed = [(bytes "5", bytes "hello"), (bytes "6", bytes " world")].map Prod.snd ∧
      identity_sink x.fed =
        ([(bytes "5", bytes "hello"), (bytes "6", bytes " world")].map Prod.snd).flatten ∧
      x.tcp = [] ∧
      x.resp = some (if (none : Option MGET_HTTP_REQUEST).isSome ∧ false then
          { ({ major := 1, minor := 1, code := 200, reason := bytes "OK",
               transfer_encoding := TransferEncoding.transfer_encoding_chunked } :
              MGET_HTTP_RESPONSE) with
            header := some (bytes "HTTP/1.1 200 OK\r\nTransfer-Encoding: chunked" ++ CRLFCRLF) }
        else { major := 1, minor := 1, code := 200, reason := bytes "OK",
               transfer_encoding := TransferEncoding.transfer_encoding_chunked }) ∧
      x.resp.map (fun q => q.content_length_valid) = some false ∧
      x.resp.map (fun q => q.content_length) = some 0 :=
  C2_chunked_single_read 0 none false 102400 (bytes "HTTP/1.1 200 OK\r\nTransfer-Encoding: chunked")
    [(bytes "5", bytes "hello"), (bytes "6", bytes " world")]
    { major := 1, minor := 1, code := 200, reason := bytes "OK",
      transfer_encoding := TransferEncoding.transfer_encoding_chunked }
    (by decide) (by decide) (by decide) (by decide) (by decide) (by decide) (by decide)
    (by decide)

/-- The bytes of scenario 2: the rendering used in C2 is the literal stream of
the specification, and its chunk data concatenate to `hello world`. -/
theorem C2_scenario_bytes :
    bytes "HTTP/1.1 200 OK\r\nTransfer-Encoding: chunked" ++ CRLFCRLF ++
        chunked_body [(bytes "5", bytes "hello"), (bytes "6", bytes " world")] =
      bytes "HTTP/1.1 200 OK\r\nTransfer-Encoding: chunked\r\n\r\n5\r\nhello\r\n6\r\n world\r\n0\r\n\r\n" ∧
    ([(bytes "5", bytes "hello"), (bytes "6", bytes " world")].map Prod.snd).flatten =
      bytes "hello world" := by
  decide

/-! ## The header loop, one byte at a time -/

theorem http_parse_lines_none (now : Int) (fuel : Nat) (resp : MGET_HTTP_RESPONSE) :
    http_parse_lines fuel now resp none = some resp := by
  cases fuel <;> rfl

theorem http_parse_lines_cons (now : Int) (fuel : Nat) (resp : MGET_HTTP_RESPONSE) (c : Nat)
    (cs : List Nat) :
    http_parse_lines (fuel + 1) now resp (some (c :: cs)) =
      if c = 0 ∨ c = 13 then some resp else after_line now fuel resp (line_end [c] cs) := by
  rfl

theorem header_run_eq_aux (now : Int) :
    ∀ (n : Nat) (s : List Nat), s.length ≤ n → ∀ (fuel : Nat), s.length ≤ fuel →
      ∀ resp : MGET_HTTP_RESPONSE,
        http_parse_lines fuel now resp (some s) = header_run now none resp s ∧
        ∀ acc : List Nat,
          after_line now fuel resp (line_end acc s) = header_run now (some acc) resp s := by
  intro n
  induction n with
  | zero =>
    intro s hs fuel _ resp
    have : s = [] := List.length_eq_zero.mp (by omega)
    subst this
    constructor
    · cases fuel <;> rfl
    · intro acc
      simp only [line_end, after_line, header_run]
      cases http_parse_header_line now resp acc.reverse with
      | none => rfl
      | some r => exact http_parse_lines_none now fuel r
  | succ n ih =>
    intro s hs fuel hfuel resp
    cases s with
    | nil =>
      constructor
      · cases fuel <;> rfl
      · intro acc
        simp only [line_end, after_line, header_run]
        cases http_parse_header_line now resp acc.reverse with
        | none => rfl
        | some r => exact http_parse_lines_none now fuel r
    | cons c cs =>
      have hcs : cs.length ≤ n := by simp only [List.length_cons] at hs; omega
      have hfc : cs.length ≤ fuel := by simp only [List.length_cons] at hfuel; omega
      constructor
      · obtain ⟨f, rfl⟩ : ∃ f, fuel = f + 1 :=
          ⟨fuel - 1, by simp only [List.length_cons] at hfuel; omega⟩
        have hf : cs.length ≤ f := by simp only [List.length_cons] at hfuel; omega
        rw [http_parse_lines_cons]
        simp only [header_run]
        by_cases hc : c = 0 ∨ c = 13
        · simp [hc]
        · simp only [hc, if_false]
          exact (ih cs hcs f hf resp).2 [c]
      · intro acc
        simp only [line_end, header_run]
        by_cases h0 : c = 0
        · simp only [h0, if_true, after_line]
          cases http_parse_header_line now resp acc.reverse with
          | none => rfl
          | some r => exact http_parse_lines_none now fuel r
        · simp only [h0, if_false]
          by_cases h10 : c = 10
          · simp only [h10, if_true]
            by_cases hb : isblank (cur cs) = true
            · simp only [hb, if_true]
              exact (ih cs hcs fuel hfc resp).2 _
            · simp only [hb, Bool.false_eq_true, if_false, after_line]
              cases http_parse_header_line now resp acc.tail.reverse with
              | none => rfl
              | some r => exact (ih cs hcs fuel hfc r).1
          · simp only [h10, if_false]
            exact (ih cs hcs fuel hfc resp).2 _

/-- The loop of `http_parse_response` and its byte-at-a-time form agree as soon
as `fuel` is at least the length of the input: the fuel is never used up. -/
theorem header_run_eq (now : Int) (fuel : Nat) (resp : MGET_HTTP_RESPONSE) (s : List Nat)
    (h : s.length ≤ fuel) :
    http_parse_lines fuel now resp (some s) = header_run now none resp s :=
  (header_run_eq_aux now s.length s (Nat.le_refl _) fuel h resp).1

/-! ## The status line -/

theorem takeWhile_append_stop {p : Nat → Bool} (l r : List Nat) (x : Nat)
    (hl : ∀ a ∈ l, p a = true) (hx : p x = false) : (l ++ x :: r).takeWhile p = l := by
  induction l with
  | nil => simp [List.takeWhile, hx]
  | cons a l ih =>
    have ha : p a = true := hl a (List.mem_cons_self _ _)
    simp only [List.cons_append, List.takeWhile_cons, ha, if_true]
    rw [ih (fun b hb => hl b (List.mem_cons_of_mem _ hb))]

theorem dropWhile_append_stop {p : Nat → Bool} (l r : List Nat) (x : Nat)
    (hl : ∀ a ∈ l, p a = true) (hx : p x = false) : (l ++ x :: r).dropWhile p = x :: r := by
  induction l with
  | nil => simp [List.dropWhile, hx]
  | cons a l ih =>
    have ha : p a = true := hl a (List.mem_cons_self _ _)
    simp only [List.cons_append, List.dropWhile_cons, ha, if_true]
    exact ih (fun b hb => hl b (List.mem_cons_of_mem _ hb))

theorem cstr_append_of_no_nul (u v : List Nat) (hu : ∀ c ∈ u, c ≠ 0) :
    cstr (u ++ v) = u ++ cstr v := by
  induction u with
  | nil => rfl
  | cons a u ih =>
    have ha : a ≠ 0 := hu a (List.mem_cons_self _ _)
    simp only [cstr, List.cons_append, List.takeWhile_cons, bne_iff_ne, ne_eq, ha,
      not_false_eq_true, if_true, List.cons.injEq, true_and]
    exact ih (fun b hb => hu b (List.mem_cons_of_mem _ hb))

theorem strchr_skip (u r : List Nat) (x : Nat) (hu : ∀ c ∈ u, c ≠ x ∧ c ≠ 0) :
    strchr (u ++ x :: r) x = some (x :: r) := by
  induction u with
  | nil => simp [strchr]
  | cons a u ih =>
    have ha := hu a (List.mem_cons_self _ _)
    simp only [List.cons_append, strchr, ha.1, ha.2, if_false]
    exact ih (fun b hb => hu b (List.mem_cons_of_mem _ hb))

theorem isdigit_not_space {d : Nat} (h : isdigit d = true) : isspace d = false := by
  simp only [isdigit, Bool.and_eq_true, decide_eq_true_eq] at h
  simp only [isspace, Bool.or_eq_false_iff, beq_eq_false_iff_ne, Bool.and_eq_false_iff,
    decide_eq_false_iff_not]
  omega

theorem scan_int_number (ds rest : List Nat) (x : Nat) (hn : is_number ds)
    (hx : isdigit x = false) :
    scan_int 3 (ds ++ x :: rest) = some ((decval ds : Int), x :: rest) := by
  obtain ⟨hne, hlen, hd⟩ := hn
  cases ds with
  | nil => exact absurd rfl hne
  | cons d ds =>
    have hdd : isdigit d = true := hd d (List.mem_cons_self _ _)
    have hsp : isspace d = false := isdigit_not_space hdd
    have hdb : 48 ≤ d ∧ d ≤ 57 := by
      simpa only [isdigit, Bool.and_eq_true, decide_eq_true_eq] using hdd
    have h45 : (d == 45) = false := by simp; omega
    have h43 : (d == 43) = false := by simp; omega
    have htw := takeWhile_append_stop (d :: ds) rest x hd hx
    simp only [List.cons_append] at htw
    have htake : (d :: ds).take 3 = d :: ds := List.take_of_length_le hlen
    unfold scan_int
    simp only [List.cons_append, List.dropWhile_cons, hsp, Bool.false_eq_true, if_false, cur,
      List.headD_cons, h45, h43, Bool.or_self, htw, htake, List.cons_ne_nil, List.length_cons]
    simp

theorem scan_ws_space_then (s : List Nat) (hs : isspace (cur s) = false) :
    scan_ws (32 :: s) = s := by
  have h32 : isspace 32 = true := by decide
  unfold scan_ws
  cases s with
  | nil => simp [List.dropWhile_cons, h32]
  | cons a s =>
    simp only [cur, List.headD_cons] at hs
    simp only [List.dropWhile_cons, h32, if_true, hs, Bool.false_eq_true, if_false]

/-- The status-line `sscanf` on the rendering of a status line that is
followed by CR or LF: the numbers are the values of the digit groups and the
reason is cut to 31 bytes. -/
theorem scan_status_status_line (a b c reason rest : List Nat) (t : Nat)
    (ha : is_number a) (hb : is_number b) (hc : is_number c) (hr : is_reason reason)
    (ht : t = 13 ∨ t = 10) :
    scan_status (status_line a b c reason ++ t :: rest) =
      some ((decval a : Int), (decval b : Int), (decval c : Int), reason.take 31) := by
  obtain ⟨hrne, hrsp, hrc⟩ := hr
  have hshape : status_line a b c reason ++ t :: rest =
      bytes "HTTP/" ++ (a ++ 46 :: (b ++ 32 :: (c ++ 32 :: (reason ++ t :: rest)))) := by
    simp [status_line, List.append_assoc]
  have hws : scan_ws (bytes "HTTP/" ++ (a ++ 46 :: (b ++ 32 :: (c ++ 32 :: (reason ++ t :: rest)))))
      = bytes "HTTP/" ++ (a ++ 46 :: (b ++ 32 :: (c ++ 32 :: (reason ++ t :: rest)))) := by
    have : bytes "HTTP/" = [72, 84, 84, 80, 47] := by decide
    rw [this]
    simp [scan_ws, List.dropWhile_cons, isspace]
  have hlits : ∀ X : List Nat, scan_lits (bytes "HTTP/") (bytes "HTTP/" ++ X) = some X := by
    intro X
    have : bytes "HTTP/" = [72, 84, 84, 80, 47] := by decide
    rw [this]
    simp [scan_lits, scan_lit]
  have hcsp : isspace (cur (c ++ 32 :: (reason ++ t :: rest))) = false := by
    obtain ⟨hne, _, hd⟩ := hc
    cases c with
    | nil => exact absurd rfl hne
    | cons d ds => exact isdigit_not_space (hd d (List.mem_cons_self _ _))
  have hrsp2 : isspace (cur (reason ++ t :: rest)) = false := by
    cases reason with
    | nil => exact absurd rfl hrne
    | cons d ds => simpa [cur] using hrsp
  have hset : scan_set 31 (fun c => c != 13 && c != 10) (reason ++ t :: rest) =
      some (reason.take 31, (reason ++ t :: rest).drop (reason.take 31).length) := by
    unfold scan_set
    have h1 : cstr (reason ++ t :: rest) = reason ++ cstr (t :: rest) :=
      cstr_append_of_no_nul _ _ (fun x hx => (hrc x hx).2.2)
    have ht0 : t ≠ 0 := by rcases ht with h | h <;> omega
    have h2 : cstr (t :: rest) = t :: cstr rest := by
      simp [cstr, List.takeWhile_cons, ht0]
    have h3 : (reason ++ t :: cstr rest).takeWhile (fun c => c != 13 && c != 10) = reason := by
      apply takeWhile_append_stop
      · intro x hx
        have := hrc x hx
        simp [this.1, this.2.1]
      · rcases ht with h | h <;> simp [h]
    rw [h1, h2, h3]
    have hne : reason.take 31 ≠ [] := by
      cases reason with
      | nil => exact absurd rfl hrne
      | cons d ds => simp
    simp [hne]
  unfold scan_status
  rw [hshape, hws, hlits]
  simp only [Option.bind_eq_bind, Option.some_bind, scan_int_number a _ 46 ha (by decide),
    scan_lit, if_true, scan_int_number b _ 32 hb (by decide), scan_ws_space_then _ hcsp,
    scan_int_number c _ 32 hc (by decide), scan_ws_space_then _ hrsp2, hset]
  rfl

theorem status_line_bytes (a b c reason : List Nat)
    (ha : is_number a) (hb : is_number b) (hc : is_number c) (hr : is_reason reason) :
    (∀ x ∈ status_line a b c reason, x ≠ 10 ∧ x ≠ 0) ∧ 10 ≤ (status_line a b c reason).length := by
  have hdig : ∀ ds : List Nat, is_number ds → ∀ x ∈ ds, x ≠ 10 ∧ x ≠ 0 := by
    intro ds hds x hx
    have := hds.2.2 x hx
    simp only [isdigit, Bool.and_eq_true, decide_eq_true_eq] at this
    omega
  have hlen : ∀ ds : List Nat, is_number ds → 1 ≤ ds.length := by
    intro ds hds
    exact List.length_pos.mpr hds.1
  constructor
  · intro x hx
    simp only [status_line, List.mem_append, List.mem_singleton] at hx
    have hH : ∀ y ∈ bytes "HTTP/", y ≠ 10 ∧ y ≠ 0 := by decide
    rcases hx with ((((((h | h) | h) | h) | h) | h) | h) | h
    · exact hH x h
    · exact hdig a ha x h
    · omega
    · exact hdig b hb x h
    · omega
    · exact hdig c hc x h
    · omega
    · exact ⟨(hr.2.2 x h).2.1, (hr.2.2 x h).2.2⟩
  · have h1 := hlen a ha
    have h2 := hlen b hb
    have h3 := hlen c hc
    have h4 : 1 ≤ reason.length := List.length_pos.mpr hr.1
    have h5 : (bytes "HTTP/").length = 5 := by decide
    simp only [status_line, List.length_append, List.length_cons, List.length_nil, h5]
    omega

/-- Model of `http_parse_response` on a header block that starts with a status line
ended by CRLF (`pre = [13]`) or by a bare LF (`pre = []`): the status-line
fields are set as scanned and the header loop runs over what follows. -/
theorem http_parse_response_status (now : Int) (a b c reason pre rest : List Nat)
    (ha : is_number a) (hb : is_number b) (hc : is_number c) (hr : is_reason reason)
    (hpre : pre = [13] ∨ pre = []) :
    http_parse_response now (status_line a b c reason ++ pre ++ 10 :: rest) =
      match header_run now none
        { major := (decval a : Int), minor := (decval b : Int), code := (decval c : Int),
          reason := reason.take 31 } (cstr rest) with
      | none => ParseResult.hang
      | some r => gzip_workaround r := by
  obtain ⟨hS, hlen⟩ := status_line_bytes a b c reason ha hb hc hr
  have hpre0 : ∀ x ∈ pre, x ≠ 10 ∧ x ≠ 0 := by
    rcases hpre with h | h <;> subst h <;> simp
  have hcstr : cstr (status_line a b c reason ++ pre ++ 10 :: rest) =
      status_line a b c reason ++ pre ++ 10 :: cstr rest := by
    rw [cstr_append_of_no_nul]
    · simp [cstr, List.takeWhile_cons]
    · intro x hx
      rcases List.mem_append.mp hx with h | h
      · exact (hS x h).2
      · exact (hpre0 x h).2
  have hscan : scan_status (status_line a b c reason ++ pre ++ 10 :: cstr rest) =
      some ((decval a : Int), (decval b : Int), (decval c : Int), reason.take 31) := by
    rcases hpre with h | h <;> subst h
    · rw [List.append_assoc]
      exact scan_status_status_line a b c reason _ 13 ha hb hc hr (Or.inl rfl)
    · rw [List.append_nil]
      exact scan_status_status_line a b c reason _ 10 ha hb hc hr (Or.inr rfl)
  have hchr : strchr ((status_line a b c reason ++ pre ++ 10 :: cstr rest).drop 10) 10 =
      some (10 :: cstr rest) := by
    rw [List.append_assoc, List.drop_append_of_le_length hlen, ← List.append_assoc]
    apply strchr_skip
    intro x hx
    rcases List.mem_append.mp hx with h | h
    · exact hS x (List.mem_of_mem_drop h)
    · exact hpre0 x h
  unfold http_parse_response
  simp only [hcstr, hscan, hchr, List.tail_cons]
  rw [header_run_eq]
  simp only [List.length_append, List.length_cons]
  omega

/-! ## The dispatch on the header name -/

/-- Case analysis of `http_header_dispatch`: the twelve ways the chain of
`strcasecmp` tests can end. -/
theorem http_header_dispatch_elim (now : Int) (resp : MGET_HTTP_RESPONSE) (s name : List Nat)
    (P : Option MGET_HTTP_RESPONSE → Prop)
    (hLocation : cdiv resp.code 100 = 3 → strcaseeq name (bytes "Location") = true →
      P (some { resp with location := some (http_parse_location s).2 }))
    (hLink : cdiv resp.code 100 = 3 → strcaseeq name (bytes "Link") = true →
      P (some { resp with links := mget_vector_add resp.links (http_parse_link s).2 }))
    (hDigest : strcaseeq name (bytes "Digest") = true →
      P (some { resp with digests := mget_vector_add resp.digests (http_parse_digest s).2 }))
    (hTransfer : strcaseeq name (bytes "Transfer-Encoding") = true →
      P (some { resp with transfer_encoding := (http_parse_transfer_encoding s).2 }))
    (hEncoding : strcaseeq name (bytes "Content-Encoding") = true →
      P (some { resp with content_encoding := (http_parse_content_encoding s).2 }))
    (hType : strcaseeq name (bytes "Content-Type") = true →
      P ((http_parse_content_type s).map
        (fun t => { resp with content_type := some t.2.1, content_type_encoding := t.2.2 })))
    (hLength : strcaseeq name (bytes "Content-Length") = true →
      P (some { resp with content_length := to_size_t (atoll s), content_length_valid := true }))
    (hConnection : strcaseeq name (bytes "Connection") = true →
      P (some { resp with keep_alive := (http_parse_connection s).2 }))
    (hModified : strcaseeq name (bytes "Last-Modified") = true →
      P (some { resp with last_modified := parse_rfc1123_date s }))
    (hCookie : strcaseeq name (bytes "Set-Cookie") = true →
      P (some { resp with cookies := mget_vector_add resp.cookies (http_parse_setcookie now s).2 }))
    (hChallenge : strcaseeq name (bytes "WWW-Authenticate") = true →
      P (some { resp with
        challenges := mget_vector_add resp.challenges (http_parse_challenge s).2 }))
    (hOther : ¬ (cdiv resp.code 100 = 3 ∧ strcaseeq name (bytes "Location") = true) →
      ¬ (cdiv resp.code 100 = 3 ∧ strcaseeq name (bytes "Link") = true) →
      strcaseeq name (bytes "Digest") = false →
      strcaseeq name (bytes "Set-Cookie") = false →
      strcaseeq name (bytes "WWW-Authenticate") = false → P (some resp)) :
    P (http_header_dispatch now resp s name) := by
  unfold http_header_dispatch
  by_cases h1 : cdiv resp.code 100 = 3 ∧ strcaseeq name (bytes "Location") = true
  · rw [if_pos h1]; exact hLocation h1.1 h1.2
  rw [if_neg h1]
  by_cases h2 : cdiv resp.code 100 = 3 ∧ strcaseeq name (bytes "Link") = true
  · rw [if_pos h2]; exact hLink h2.1 h2.2
  rw [if_neg h2]
  by_cases h3 : strcaseeq name (bytes "Digest") = true
  · rw [if_pos h3]; exact hDigest h3
  rw [if_neg h3]
  by_cases h4 : strcaseeq name (bytes "Transfer-Encoding") = true
  · rw [if_pos h4]; exact hTransfer h4
  rw [if_neg h4]
  by_cases h5 : strcaseeq name (bytes "Content-Encoding") = true
  · rw [if_pos h5]; exact hEncoding h5
  rw [if_neg h5]
  by_cases h6 : strcaseeq name (bytes "Content-Type") = true
  · rw [if_pos h6]; exact hType h6
  rw [if_neg h6]
  by_cases h7 : strcaseeq name (bytes "Content-Length") = true
  · rw [if_pos h7]; exact hLength h7
  rw [if_neg h7]
  by_cases h8 : strcaseeq name (bytes "Connection") = true
  · rw [if_pos h8]; exact hConnection h8
  rw [if_neg h8]
  by_cases h9 : strcaseeq name (bytes "Last-Modified") = true
  · rw [if_pos h9]; exact hModified h9
  rw [if_neg h9]
  by_cases h10 : strcaseeq name (bytes "Set-Cookie") = true
  · rw [if_pos h10]; exact hCookie h10
  rw [if_neg h10]
  by_cases h11 : strcaseeq name (bytes "WWW-Authenticate") = true
  · rw [if_pos h11]; exact hChallenge h11
  rw [if_neg h11]
  exact hOther h1 h2 (by simpa using h3) (by simpa using h10) (by simpa using h11)

theorem gzip_workaround_cases (r : MGET_HTTP_RESPONSE) :
    gzip_workaround r = ParseResult.fault ∨
    gzip_workaround r = ParseResult.resp r ∨
    gzip_workaround r = ParseResult.resp
      { r with content_encoding := ContentEncoding.mget_content_encoding_identity } := by
  unfold gzip_workaround
  split_ifs
  · cases r.content_type with
    | none => exact Or.inl rfl
    | some ct =>
      simp only
      split_ifs
      · exact Or.inr (Or.inr rfl)
      · exact Or.inr (Or.inl rfl)
  · exact Or.inr (Or.inl rfl)

theorem cur_append_of_ne_nil (m X : List Nat) (h : m ≠ []) : cur (m ++ X) = cur m := by
  cases m with
  | nil => exact absurd rfl h
  | cons a m => rfl

theorem getLast?_cons_of_ne_nil (c : Nat) (m : List Nat) (h : m ≠ []) :
    (c :: m).getLast? = m.getLast? := by
  cases m with
  | nil => exact absurd rfl h
  | cons a m => simp [List.getLast?_cons_cons]

/-- Two continuations that the loop treats alike inside a line are treated
alike after any common prefix that ends inside a line. -/
theorem header_run_prefix_inl (now : Int) (X Y : List Nat)
    (hXY : ∀ (resp : MGET_HTTP_RESPONSE) (acc : List Nat),
      header_run now (some acc) resp X = header_run now (some acc) resp Y) :
    ∀ (m : List Nat) (st : Option (List Nat)) (resp : MGET_HTTP_RESPONSE),
      (m = [] → st ≠ none) → m.getLast? ≠ some 10 →
      header_run now st resp (m ++ X) = header_run now st resp (m ++ Y) := by
  intro m
  induction m with
  | nil =>
    intro st resp hst _
    cases st with
    | none => exact absurd rfl (hst rfl)
    | some acc => exact hXY resp acc
  | cons c m ih =>
    intro st resp _ hlast
    have hm : m.getLast? ≠ some 10 := by
      cases m with
      | nil => simp
      | cons a m => rwa [List.getLast?_cons_cons] at hlast
    cases st with
    | none =>
      simp only [List.cons_append, header_run, List.append_eq]
      split_ifs
      · rfl
      · exact ih _ _ (fun _ => by simp) hm
    | some acc =>
      simp only [List.cons_append, header_run, List.append_eq]
      by_cases h0 : c = 0
      · simp [h0]
      · simp only [h0, if_false]
        by_cases h10 : c = 10
        · have hne : m ≠ [] := by
            intro h
            subst h; subst h10
            simp at hlast
          simp only [h10, if_true, cur_append_of_ne_nil m _ hne]
          split_ifs
          · exact ih _ _ (fun _ => by simp) hm
          · cases http_parse_header_line now resp acc.tail.reverse with
            | none => rfl
            | some r => exact ih _ _ (fun h => absurd h hne) hm
        · simp only [h10, if_false]
          exact ih _ _ (fun _ => by simp) hm

/-- Two continuations that start with a byte that is not blank and that the
loop treats alike at the start of a line are treated alike after any common
prefix that ends with a line feed. -/
theorem header_run_prefix_start (now : Int) (X Y : List Nat)
    (hbX : isblank (cur X) = false) (hbY : isblank (cur Y) = false)
    (hstart : ∀ resp : MGET_HTTP_RESPONSE,
      header_run now none resp X = header_run now none resp Y)
    (hnl : ∀ resp : MGET_HTTP_RESPONSE,
      header_run now (some [10]) resp X = header_run now (some [10]) resp Y) :
    ∀ (p : List Nat) (st : Option (List Nat)) (resp : MGET_HTTP_RESPONSE),
      (p = [] → st = none ∨ st = some [10]) → (p ≠ [] → p.getLast? = some 10) →
      header_run now st resp (p ++ X) = header_run now st resp (p ++ Y) := by
  intro p
  induction p with
  | nil =>
    intro st resp hst _
    rcases hst rfl with h | h <;> subst h
    · exact hstart resp
    · exact hnl resp
  | cons c p ih =>
    intro st resp _ hlast
    have hlast1 := hlast (by simp)
    have hp : p ≠ [] → p.getLast? = some 10 := by
      intro h
      rwa [getLast?_cons_of_ne_nil c p h] at hlast1
    have hc : p = [] → c = 10 := by
      intro h
      subst h
      simpa using hlast1
    cases st with
    | none =>
      simp only [List.cons_append, header_run, List.append_eq]
      split_ifs
      · rfl
      · exact ih _ _ (fun h => Or.inr (by rw [hc h])) hp
    | some acc =>
      simp only [List.cons_append, header_run, List.append_eq]
      by_cases h0 : c = 0
      · simp [h0]
      · simp only [h0, if_false]
        by_cases h10 : c = 10
        · simp only [h10, if_true]
          by_cases hpe : p = []
          · subst hpe
            simp only [List.nil_append, hbX, hbY, Bool.false_eq_true, if_false]
            cases http_parse_header_line now resp acc.tail.reverse with
            | none => rfl
            | some r => exact hstart r
          · simp only [cur_append_of_ne_nil p _ hpe]
            split_ifs
            · exact ih _ _ (fun h => absurd h hpe) hp
            · cases http_parse_header_line now resp acc.tail.reverse with
              | none => rfl
              | some r => exact ih _ _ (fun h => absurd h hpe) hp
        · simp only [h10, if_false]
          exact ih _ _ (fun h => absurd (hc h) h10) hp

theorem cstr_append_of_nul (u v : List Nat) (hu : ∃ c ∈ u, c = 0) :
    cstr (u ++ v) = cstr u := by
  induction u with
  | nil => simp at hu
  | cons a u ih =>
    by_cases ha : a = 0
    · simp [cstr, List.takeWhile_cons, ha]
    · have hu2 : ∃ c ∈ u, c = 0 := by
        obtain ⟨c, hc, hc0⟩ := hu
        rcases List.mem_cons.mp hc with h | h
        · exact absurd (h ▸ hc0) ha
        · exact ⟨c, h, hc0⟩
      simp only [cstr, List.cons_append, List.takeWhile_cons, bne_iff_ne, ne_eq, ha,
        not_false_eq_true, if_true, List.cons.injEq, true_and]
      exact ih hu2

/-- Two header blocks with the same well-formed status line and a common
prefix `m` after it are parsed alike as soon as the header loop treats what
follows `m` alike. -/
theorem http_parse_response_congr (now : Int) (a b c reason m X Y : List Nat)
    (ha : is_number a) (hb : is_number b) (hc : is_number c) (hr : is_reason reason)
    (h : (∀ x ∈ m, x ≠ 0) →
      header_run now none
          { major := (decval a : Int), minor := (decval b : Int), code := (decval c : Int),
            reason := reason.take 31 } (m ++ cstr X) =
        header_run now none
          { major := (decval a : Int), minor := (decval b : Int), code := (decval c : Int),
            reason := reason.take 31 } (m ++ cstr Y)) :
    http_parse_response now (status_line a b c reason ++ [13, 10] ++ m ++ X) =
      http_parse_response now (status_line a b c reason ++ [13, 10] ++ m ++ Y) := by
  have hshape : ∀ Z : List Nat, status_line a b c reason ++ [13, 10] ++ m ++ Z =
      status_line a b c reason ++ [13] ++ 10 :: (m ++ Z) := by
    intro Z; simp
  rw [hshape X, hshape Y,
    http_parse_response_status now a b c reason [13] _ ha hb hc hr (Or.inl rfl),
    http_parse_response_status now a b c reason [13] _ ha hb hc hr (Or.inl rfl)]
  by_cases hm : ∀ x ∈ m, x ≠ 0
  · rw [cstr_append_of_no_nul m X hm, cstr_append_of_no_nul m Y hm, h hm]
  · have hm2 : ∃ x ∈ m, x = 0 := by
      by_contra hcon
      exact hm (fun x hx h0 => hcon ⟨x, hx, h0⟩)
    rw [cstr_append_of_nul m X hm2, cstr_append_of_nul m Y hm2]

theorem isblank_ne_zero {x : Nat} (h : isblank x = true) : x ≠ 0 := by
  intro h0
  subst h0
  simp [isblank] at h

/-- Folded lines: in a header block whose status line carries a reason phrase,
for a header line of at least one byte that ends with CRLF and is followed by a
continuation line (a line that starts with space or tab), replacing that CR
and that LF by one space each does not change what `http_parse_response`
produces: the continuation is merged into the line before it.  `m` is the part
of the block between the status line and the CRLF, `bl :: rest` the
continuation line and what follows it. -/
theorem folded_line_joined (now : Int) (a b c reason m rest : List Nat) (bl : Nat)
    (ha : is_number a) (hb : is_number b) (hc : is_number c) (hr : is_reason reason)
    (hm : m ≠ []) (hlast : m.getLast? ≠ some 10) (hbl : isblank bl = true) :
    http_parse_response now (status_line a b c reason ++ [13, 10] ++ m ++ (13 :: 10 :: bl :: rest)) =
      http_parse_response now
        (status_line a b c reason ++ [13, 10] ++ m ++ (32 :: 32 :: bl :: rest)) := by
  apply http_parse_response_congr now a b c reason m _ _ ha hb hc hr
  intro _
  have hb0 : bl ≠ 0 := isblank_ne_zero hbl
  have h1 : cstr (13 :: 10 :: bl :: rest) = 13 :: 10 :: bl :: cstr rest := by
    simp [cstr, List.takeWhile_cons, hb0]
  have h2 : cstr (32 :: 32 :: bl :: rest) = 32 :: 32 :: bl :: cstr rest := by
    simp [cstr, List.takeWhile_cons, hb0]
  rw [h1, h2]
  apply header_run_prefix_inl now _ _ _ m none _ (fun h => absurd h hm) hlast
  intro resp acc
  simp [header_run, cur, hbl]

/-- The folded line of scenario 6 of the specification: `X-Foo: a` followed by
the continuation line ` b c`. -/
theorem folded_line_joined_scenario :
    http_parse_response 0 (status_line (bytes "1") (bytes "1") (bytes "200") (bytes "OK") ++
        [13, 10] ++ bytes "X-Foo: a" ++ (13 :: 10 :: 32 :: bytes "b c\r\nContent-Length: 5")) =
      http_parse_response 0 (status_line (bytes "1") (bytes "1") (bytes "200") (bytes "OK") ++
        [13, 10] ++ bytes "X-Foo: a" ++ (32 :: 32 :: 32 :: bytes "b c\r\nContent-Length: 5")) :=
  folded_line_joined 0 (bytes "1") (bytes "1") (bytes "200") (bytes "OK") (bytes "X-Foo: a")
    (bytes "b c\r\nContent-Length: 5") 32 (by decide) (by decide) (by decide) (by decide)
    (by decide) (by decide) (by decide)

/-- C7 (code defect): after a status line with an empty reason phrase the
status-line `sscanf` reads the first header line as the reason, up to CR or
LF: for the block `HTTP/1.1 200 \r\nX-Foo: a\r\n b` the response differs from
the one for the block with that CR and that LF replaced by spaces, in
`reason`.  With the reason phrase `OK` the two responses are the same. -/
theorem C7_fold_after_empty_reason :
    http_parse_response 0 (bytes "HTTP/1.1 200 \r\nX-Foo: a\r\n b") =
      ParseResult.resp { major := 1, minor := 1, code := 200, reason := bytes "X-Foo: a" } ∧
    http_parse_response 0 (bytes "HTTP/1.1 200 \r\nX-Foo: a   b") =
      ParseResult.resp { major := 1, minor := 1, code := 200, reason := bytes "X-Foo: a   b" } ∧
    http_parse_response 0 (bytes "HTTP/1.1 200 \r\nX-Foo: a\r\n b") ≠
      http_parse_response 0 (bytes "HTTP/1.1 200 \r\nX-Foo: a   b") ∧
    http_parse_response 0 (bytes "HTTP/1.1 200 OK\r\nX-Foo: a\r\n b") =
      ParseResult.resp { major := 1, minor := 1, code := 200, reason := bytes "OK" } ∧
    http_parse_response 0 (bytes "HTTP/1.1 200 OK\r\nX-Foo: a   b") =
      ParseResult.resp { major := 1, minor := 1, code := 200, reason := bytes "OK" } := by
  decide

/-- C6, amended: replacing the CRLF that ends the status line by a bare LF does
not change what `http_parse_response` produces; in a header line of at least
two bytes the byte before the LF is overwritten whatever it is, so the result
does not depend on that byte (`x` or `y`, neither NUL nor LF): a line ended by
a bare LF is parsed like the line without its last byte ended by CRLF.  `m` is
the part of the block between the status line and that byte. -/
theorem C6_byte_before_lf_dropped (now : Int) (a b c reason m rest : List Nat) (x y : Nat)
    (ha : is_number a) (hb : is_number b) (hc : is_number c) (hr : is_reason reason)
    (hm : m ≠ []) (hlast : m.getLast? ≠ some 10)
    (hx0 : x ≠ 0) (hx10 : x ≠ 10) (hy0 : y ≠ 0) (hy10 : y ≠ 10) :
    http_parse_response now (status_line a b c reason ++ [10] ++ rest) =
      http_parse_response now (status_line a b c reason ++ [13, 10] ++ rest) ∧
    http_parse_response now (status_line a b c reason ++ [13, 10] ++ m ++ (x :: 10 :: rest)) =
      http_parse_response now
        (status_line a b c reason ++ [13, 10] ++ m ++ (y :: 10 :: rest)) := by
  constructor
  · have h1 : status_line a b c reason ++ [10] ++ rest =
        status_line a b c reason ++ [] ++ 10 :: rest := by simp
    have h2 : status_line a b c reason ++ [13, 10] ++ rest =
        status_line a b c reason ++ [13] ++ 10 :: rest := by simp
    rw [h1, h2, http_parse_response_status now a b c reason [] _ ha hb hc hr (Or.inr rfl),
      http_parse_response_status now a b c reason [13] _ ha hb hc hr (Or.inl rfl)]
  · apply http_parse_response_congr now a b c reason m _ _ ha hb hc hr
    intro _
    have h1 : ∀ z : Nat, z ≠ 0 → cstr (z :: 10 :: rest) = z :: 10 :: cstr rest := by
      intro z hz
      simp [cstr, List.takeWhile_cons, hz]
    rw [h1 x hx0, h1 y hy0]
    apply header_run_prefix_inl now _ _ _ m none _ (fun h => absurd h hm) hlast
    intro resp acc
    simp [header_run, hx0, hx10, hy0, hy10]

/-- C6 at `Content-Length: 12`: ended by a bare LF the line is parsed like
`Content-Length: 1` ended by CRLF, the byte `2` taking the place of the CR. -/
theorem C6_byte_before_lf_dropped_witness :
    http_parse_response 0 (status_line (bytes "1") (bytes "1") (bytes "200") (bytes "OK") ++
        [10] ++ bytes "Connection: keep-alive") =
      http_parse_response 0 (status_line (bytes "1") (bytes "1") (bytes "200") (bytes "OK") ++
        [13, 10] ++ bytes "Connection: keep-alive") ∧
    http_parse_response 0 (status_line (bytes "1") (bytes "1") (bytes "200") (bytes "OK") ++
        [13, 10] ++ bytes "Content-Length: 1" ++ (50 :: 10 :: bytes "Connection: keep-alive")) =
      http_parse_response 0 (status_line (bytes "1") (bytes "1") (bytes "200") (bytes "OK") ++
        [13, 10] ++ bytes "Content-Length: 1" ++ (13 :: 10 :: bytes "Connection: keep-alive")) :=
  C6_byte_before_lf_dropped 0 (bytes "1") (bytes "1") (bytes "200") (bytes "OK")
    (bytes "Content-Length: 1") (bytes "Connection: keep-alive") 50 13
    (by decide) (by decide) (by decide) (by decide) (by decide) (by decide)
    (by decide) (by decide) (by decide) (by decide)

/-- C6 as stated fails: with CRLF line ends `Content-Length: 12` gives the
length 12, with bare LF line ends it gives the length 1. -/
theorem C6_bare_lf_counterexample :
    http_parse_response 0 (bytes "HTTP/1.1 200 OK\r\nContent-Length: 12\r\nConnection: keep-alive") =
      ParseResult.resp
        { major := 1, minor := 1, code := 200, reason := bytes "OK", content_length := 12,
          content_length_valid := true, keep_alive := true } ∧
    http_parse_response 0 (bytes "HTTP/1.1 200 OK\nContent-Length: 12\nConnection: keep-alive") =
      ParseResult.resp
        { major := 1, minor := 1, code := 200, reason := bytes "OK", content_length := 1,
          content_length_valid := true, keep_alive := true } := by
  decide

/-! ## Header field names -/

theorem takeWhile_append_of_all {p : Nat → Bool} (l r : List Nat) (hl : ∀ a ∈ l, p a = true) :
    (l ++ r).takeWhile p = l ++ r.takeWhile p := by
  induction l with
  | nil => rfl
  | cons a l ih =>
    have ha : p a = true := hl a (List.mem_cons_self _ _)
    simp only [List.cons_append, List.takeWhile_cons, ha, if_true, List.cons.injEq, true_and]
    exact ih (fun b hb => hl b (List.mem_cons_of_mem _ hb))

theorem dropWhile_append_of_all {p : Nat → Bool} (l r : List Nat) (hl : ∀ a ∈ l, p a = true) :
    (l ++ r).dropWhile p = r.dropWhile p := by
  induction l with
  | nil => rfl
  | cons a l ih =>
    have ha : p a = true := hl a (List.mem_cons_self _ _)
    simp only [List.cons_append, List.dropWhile_cons, ha, if_true]
    exact ih (fun b hb => hl b (List.mem_cons_of_mem _ hb))

theorem http_istoken_facts {x : Nat} (h : http_istoken x = true) :
    x ≠ 0 ∧ x ≠ 58 ∧ x ≠ 10 ∧ x ≠ 13 ∧ isblank x = false := by
  simp only [http_istoken, http_isseperator, Bool.and_eq_true, decide_eq_true_eq,
    Bool.not_eq_true', Bool.or_eq_false_iff, beq_eq_false_iff_ne, ne_eq] at h
  obtain ⟨⟨h1, h2⟩, h3⟩ := h
  refine ⟨by omega, ?_, by omega, by omega, ?_⟩
  · exact h3.1.1.1.1.1.1.1.1.1.1.1.2
  · simp only [isblank, Bool.or_eq_false_iff, beq_eq_false_iff_ne, ne_eq]
    exact ⟨h3.1.2, h3.2⟩

theorem cstr_of_no_nul (u : List Nat) (hu : ∀ c ∈ u, c ≠ 0) : cstr u = u := by
  have := cstr_append_of_no_nul u [] hu
  simpa [cstr] using this

/-- The dispatch depends on the header name only up to letter case. -/
theorem http_header_dispatch_case (now : Int) (resp : MGET_HTTP_RESPONSE) (s n1 n2 : List Nat)
    (h : ∀ x : List Nat, strcaseeq n1 x = strcaseeq n2 x) :
    http_header_dispatch now resp s n1 = http_header_dispatch now resp s n2 := by
  unfold http_header_dispatch
  simp only [h]

/-- Model of `http_parse_name_fixed` on a line that starts with a non-empty run of token
bytes. -/
theorem http_parse_name_fixed_tokens (n t : List Nat) (hn : is_token_run n) (hne : n ≠ []) :
    http_parse_name_fixed (n ++ t) 32 =
      (if cur ((t.drop (((n ++ t.takeWhile http_istoken).take 31).length - n.length)).dropWhile
            (fun c => c != 0 && c != 58)) = 58 then
          ((t.drop (((n ++ t.takeWhile http_istoken).take 31).length - n.length)).dropWhile
            (fun c => c != 0 && c != 58)).tail
        else (t.drop (((n ++ t.takeWhile http_istoken).take 31).length - n.length)).dropWhile
            (fun c => c != 0 && c != 58),
        (n ++ t.takeWhile http_istoken).take 31) := by
  have hblank : (n ++ t).dropWhile isblank = n ++ t := by
    cases n with
    | nil => exact absurd rfl hne
    | cons a n =>
      have := (http_istoken_facts (hn a (List.mem_cons_self _ _))).2.2.2.2
      simp [List.dropWhile_cons, this]
  have htw : (n ++ t).takeWhile http_istoken = n ++ t.takeWhile http_istoken :=
    takeWhile_append_of_all n t hn
  have hq : ∀ k : Nat, ∀ x ∈ n.drop k, (fun c => c != 0 && c != 58) x = true := by
    intro k x hx
    have := http_istoken_facts (hn x (List.mem_of_mem_drop hx))
    simp [this.1, this.2.1]
  have hdrop : ∀ k : Nat, ((n ++ t).drop k).dropWhile (fun c => c != 0 && c != 58) =
      (t.drop (k - n.length)).dropWhile (fun c => c != 0 && c != 58) := by
    intro k
    rw [List.drop_append_eq_append_drop, dropWhile_append_of_all _ _ (hq k)]
  unfold http_parse_name_fixed
  simp only [hblank, htw, Nat.add_one_sub_one, hdrop]

/-- The header loop body gives the same result for two lines that differ only
in the letter case of the token run they start with. -/
theorem http_parse_header_line_case (now : Int) (resp : MGET_HTTP_RESPONSE) (n1 n2 t : List Nat)
    (h1 : is_token_run n1) (h2 : is_token_run n2) (hcase : n1.map tolower = n2.map tolower) :
    http_parse_header_line now resp (n1 ++ t) = http_parse_header_line now resp (n2 ++ t) := by
  have hlen : n1.length = n2.length := by
    have := congrArg List.length hcase
    simpa using this
  by_cases hne : n1 = []
  · subst hne
    have : n2 = [] := List.length_eq_zero.mp hlen.symm
    subst this
    rfl
  · have hne2 : n2 ≠ [] := by
      intro h
      subst h
      exact hne (List.length_eq_zero.mp hlen)
    have hk : ((n1 ++ t.takeWhile http_istoken).take 31).length =
        ((n2 ++ t.takeWhile http_istoken).take 31).length := by
      simp only [List.length_take, List.length_append, hlen]
    unfold http_parse_header_line
    rw [http_parse_name_fixed_tokens n1 t h1 hne, http_parse_name_fixed_tokens n2 t h2 hne2]
    simp only [hk, hlen]
    apply http_header_dispatch_case
    intro x
    have hnul : ∀ n : List Nat, is_token_run n →
        ∀ c ∈ (n ++ t.takeWhile http_istoken).take 31, c ≠ 0 := by
      intro n hn c hc
      have hc2 := List.mem_of_mem_take hc
      rcases List.mem_append.mp hc2 with h | h
      · exact (http_istoken_facts (hn c h)).1
      · exact (http_istoken_facts (List.mem_takeWhile_imp h)).1
    have hmap : ((n1 ++ t.takeWhile http_istoken).take 31).map tolower =
        ((n2 ++ t.takeWhile http_istoken).take 31).map tolower := by
      rw [List.map_take, List.map_take, List.map_append, List.map_append, hcase]
    simp only [strcaseeq, cstr_of_no_nul _ (hnul n1 h1), cstr_of_no_nul _ (hnul n2 h2), hmap]

theorem header_run_push (now : Int) (Q : List Nat) :
    ∀ (T acc : List Nat) (resp : MGET_HTTP_RESPONSE), (∀ x ∈ T, x ≠ 0 ∧ x ≠ 10) →
      header_run now (some acc) resp (T ++ Q) = header_run now (some (T.reverse ++ acc)) resp Q := by
  intro T
  induction T with
  | nil => intro acc resp _; rfl
  | cons a T ih =>
    intro acc resp h
    have ha := h a (List.mem_cons_self _ _)
    simp only [List.cons_append, header_run, ha.1, ha.2, if_false, List.append_eq]
    rw [ih _ _ (fun x hx => h x (List.mem_cons_of_mem _ hx))]
    simp

/-- Inside a line the loop gives the same result for two accumulators whose
lines, however they go on, are dispatched alike. -/
theorem header_run_acc_congr (now : Int) :
    ∀ (Q acc1 acc2 : List Nat) (resp : MGET_HTTP_RESPONSE),
      (∀ (w : List Nat) (r : MGET_HTTP_RESPONSE),
        http_parse_header_line now r (w ++ acc1).reverse =
          http_parse_header_line now r (w ++ acc2).reverse) →
      (∀ (w : List Nat) (r : MGET_HTTP_RESPONSE),
        http_parse_header_line now r (w ++ acc1.tail).reverse =
          http_parse_header_line now r (w ++ acc2.tail).reverse) →
      header_run now (some acc1) resp Q = header_run now (some acc2) resp Q := by
  intro Q
  induction Q with
  | nil =>
    intro acc1 acc2 resp h1 _
    simpa [header_run] using h1 [] resp
  | cons c cs ih =>
    intro acc1 acc2 resp h1 h2
    have e1 := h1 [] resp
    have e2 := h2 [] resp
    simp only [List.nil_append] at e1 e2
    simp only [header_run]
    by_cases h0 : c = 0
    · simp only [h0, if_true]
      exact e1
    · simp only [h0, if_false]
      by_cases h10 : c = 10
      · simp only [h10, if_true]
        split_ifs
        · apply ih
          · intro w r
            have := h2 (w ++ [32, 32]) r
            simpa using this
          · intro w r
            have := h2 (w ++ [32]) r
            simpa using this
        · rw [e2]
      · simp only [h10, if_false]
        apply ih
        · intro w r
          have := h1 (w ++ [c]) r
          simpa using this
        · intro w r
          simpa using h1 w r

theorem http_parse_header_line_after_lf (now : Int) (resp : MGET_HTTP_RESPONSE)
    (n t : List Nat) (hn : is_token_run n) :
    http_parse_header_line now resp (10 :: (n ++ t)) =
      http_parse_header_line now resp (10 :: t) := by
  have hq : ∀ x ∈ n, (fun c => c != 0 && c != 58) x = true := by
    intro x hx
    have := http_istoken_facts (hn x hx)
    simp [this.1, this.2.1]
  have hb : isblank 10 = false := by decide
  have ht : http_istoken 10 = false := by decide
  have h1 : http_parse_name_fixed (10 :: (n ++ t)) 32 = http_parse_name_fixed (10 :: t) 32 := by
    unfold http_parse_name_fixed
    simp only [List.dropWhile_cons, hb, Bool.false_eq_true, if_false, List.takeWhile_cons, ht,
      List.take_nil, List.length_nil, List.drop_zero]
    simp only [show ((10 : Nat) != 0 && (10 : Nat) != 58) = true by decide, if_true,
      dropWhile_append_of_all n t hq]
  unfold http_parse_header_line
  rw [h1]

theorem is_token_run_dropLast (n : List Nat) (h : is_token_run n) : is_token_run n.dropLast :=
  fun x hx => h x (List.mem_of_mem_dropLast hx)

/-- After a line start, or after a line feed that opens a line, the loop gives
the same result for two inputs that differ only in the letter case of the
token run they start with. -/
theorem header_run_case (now : Int) (n1 n2 Q base : List Nat) (resp : MGET_HTTP_RESPONSE)
    (h1 : is_token_run n1) (h2 : is_token_run n2) (hcase : n1.map tolower = n2.map tolower)
    (hbase : base = [] ∨ base = [10]) :
    header_run now (some (n1.reverse ++ base)) resp Q =
      header_run now (some (n2.reverse ++ base)) resp Q := by
  have hline : ∀ (m1 m2 : List Nat), is_token_run m1 → is_token_run m2 →
      m1.map tolower = m2.map tolower → ∀ (w : List Nat) (r : MGET_HTTP_RESPONSE),
      http_parse_header_line now r (w ++ (m1.reverse ++ base)).reverse =
        http_parse_header_line now r (w ++ (m2.reverse ++ base)).reverse := by
    intro m1 m2 g1 g2 gc w r
    rcases hbase with h | h <;> subst h
    · simp only [List.append_nil, List.reverse_append, List.reverse_reverse]
      exact http_parse_header_line_case now r m1 m2 _ g1 g2 gc
    · simp only [List.reverse_append, List.reverse_reverse, List.reverse_cons, List.reverse_nil,
        List.nil_append, List.append_assoc, List.singleton_append, List.cons_append]
      rw [http_parse_header_line_after_lf now r m1 _ g1,
        http_parse_header_line_after_lf now r m2 _ g2]
  have hlen : n1.length = n2.length := by
    have := congrArg List.length hcase
    simpa using this
  apply header_run_acc_congr
  · exact hline n1 n2 h1 h2 hcase
  · by_cases hne : n1 = []
    · subst hne
      have : n2 = [] := List.length_eq_zero.mp hlen.symm
      subst this
      intro w r
      rfl
    · have hne2 : n2 ≠ [] := by
        intro h
        subst h
        exact hne (List.length_eq_zero.mp hlen)
      have ht1 : (n1.reverse ++ base).tail = n1.dropLast.reverse ++ base := by
        rw [List.tail_append_of_ne_nil (by simpa using hne), List.tail_reverse]
      have ht2 : (n2.reverse ++ base).tail = n2.dropLast.reverse ++ base := by
        rw [List.tail_append_of_ne_nil (by simpa using hne2), List.tail_reverse]
      rw [ht1, ht2]
      apply hline _ _ (is_token_run_dropLast n1 h1) (is_token_run_dropLast n2 h2)
      rw [List.map_dropLast, List.map_dropLast, hcase]

/-- Field names: in a header block whose status line carries a reason phrase,
changing the letter case of a header field name (the token run `n1` at the
start of a line, replaced by `n2`) does not change what `http_parse_response`
produces; and on a line `blanks name g : value` the name handed to the
comparison is the first 31 bytes of the field name while the value starts just
after the first colon, whatever the length of the name.  `p` is the part of
the block between the status line and the field name, empty or ending with a
line feed. -/
theorem field_name_case_and_length (now : Int)
    (a b c reason p n1 n2 q blanks g v : List Nat)
    (ha : is_number a) (hb : is_number b) (hc : is_number c) (hr : is_reason reason)
    (hp : p = [] ∨ p.getLast? = some 10)
    (hn : n1 ≠ []) (h1 : is_token_run n1) (h2 : is_token_run n2)
    (hcase : n1.map tolower = n2.map tolower)
    (hblanks : ∀ x ∈ blanks, isblank x = true)
    (hg : ∀ x ∈ g, x ≠ 58 ∧ x ≠ 0) (hg0 : http_istoken (cur g) = false) :
    http_parse_response now (status_line a b c reason ++ [13, 10] ++ p ++ (n1 ++ q)) =
      http_parse_response now (status_line a b c reason ++ [13, 10] ++ p ++ (n2 ++ q)) ∧
    http_parse_name_fixed (blanks ++ (n1 ++ (g ++ 58 :: v))) 32 = (v, n1.take 31) := by
  have hlen : n1.length = n2.length := by
    have := congrArg List.length hcase
    simpa using this
  have hn2 : n2 ≠ [] := by
    intro h
    subst h
    exact hn (List.length_eq_zero.mp hlen)
  have hhead : ∀ (n Q : List Nat), n ≠ [] → is_token_run n →
      isblank (cur (n ++ Q)) = false ∧
      (∀ resp : MGET_HTTP_RESPONSE, header_run now none resp (n ++ Q) =
        header_run now (some (n.reverse ++ [])) resp Q) ∧
      (∀ resp : MGET_HTTP_RESPONSE, header_run now (some [10]) resp (n ++ Q) =
        header_run now (some (n.reverse ++ [10])) resp Q) := by
    intro n Q hne ht
    have hno : ∀ x ∈ n, x ≠ 0 ∧ x ≠ 10 := fun x hx =>
      ⟨(http_istoken_facts (ht x hx)).1, (http_istoken_facts (ht x hx)).2.2.1⟩
    refine ⟨?_, ?_, ?_⟩
    · cases n with
      | nil => exact absurd rfl hne
      | cons x n => exact (http_istoken_facts (ht x (List.mem_cons_self _ _))).2.2.2.2
    · intro resp
      cases n with
      | nil => exact absurd rfl hne
      | cons x n =>
        have hx := http_istoken_facts (ht x (List.mem_cons_self _ _))
        have hx2 : ¬ (x = 0 ∨ x = 13) := by
          intro h
          rcases h with h | h
          · exact hx.1 h
          · exact hx.2.2.2.1 h
        simp only [List.cons_append, header_run, hx2, if_false, List.append_eq]
        rw [header_run_push now Q n [x] resp (fun y hy => hno y (List.mem_cons_of_mem _ hy))]
        simp
    · intro resp
      exact header_run_push now Q n [10] resp hno
  constructor
  · apply http_parse_response_congr now a b c reason p _ _ ha hb hc hr
    intro _
    have hc1 : cstr (n1 ++ q) = n1 ++ cstr q :=
      cstr_append_of_no_nul _ _ (fun x hx => (http_istoken_facts (h1 x hx)).1)
    have hc2 : cstr (n2 ++ q) = n2 ++ cstr q :=
      cstr_append_of_no_nul _ _ (fun x hx => (http_istoken_facts (h2 x hx)).1)
    rw [hc1, hc2]
    obtain ⟨b1, s1, l1⟩ := hhead n1 (cstr q) hn h1
    obtain ⟨b2, s2, l2⟩ := hhead n2 (cstr q) hn2 h2
    apply header_run_prefix_start now _ _ b1 b2
    · intro resp
      rw [s1, s2]
      exact header_run_case now n1 n2 _ [] resp h1 h2 hcase (Or.inl rfl)
    · intro resp
      rw [l1, l2]
      exact header_run_case now n1 n2 _ [10] resp h1 h2 hcase (Or.inr rfl)
    · intro _
      exact Or.inl rfl
    · intro hne
      rcases hp with h | h
      · exact absurd h hne
      · exact h
  · have hx0 : isblank (cur (n1 ++ (g ++ 58 :: v))) = false := by
      cases n1 with
      | nil => exact absurd rfl hn
      | cons x n => exact (http_istoken_facts (h1 x (List.mem_cons_self _ _))).2.2.2.2
    have hdw : (blanks ++ (n1 ++ (g ++ 58 :: v))).dropWhile isblank = n1 ++ (g ++ 58 :: v) := by
      cases n1 with
      | nil => exact absurd rfl hn
      | cons x n =>
        have hxb := (http_istoken_facts (h1 x (List.mem_cons_self _ _))).2.2.2.2
        rw [List.cons_append]
        exact dropWhile_append_stop blanks _ x hblanks hxb
    have htw : (n1 ++ (g ++ 58 :: v)).takeWhile http_istoken = n1 := by
      rw [takeWhile_append_of_all n1 _ h1]
      cases g with
      | nil => simp [List.takeWhile_cons, show http_istoken 58 = false by decide]
      | cons y g =>
        simp only [cur, List.headD_cons] at hg0
        simp [List.takeWhile_cons, hg0]
    have hq1 : ∀ x ∈ n1.drop (n1.take 31).length, (fun c => c != 0 && c != 58) x = true := by
      intro x hx
      have := http_istoken_facts (h1 x (List.mem_of_mem_drop hx))
      simp [this.1, this.2.1]
    have hq2 : ∀ x ∈ g, (fun c => c != 0 && c != 58) x = true := by
      intro x hx
      have := hg x hx
      simp [this.1, this.2]
    have hdrop : ((n1 ++ (g ++ 58 :: v)).drop (n1.take 31).length).dropWhile
        (fun c => c != 0 && c != 58) = 58 :: v := by
      rw [List.drop_append_of_le_length (by simp [List.length_take]),
        dropWhile_append_of_all _ _ hq1]
      exact dropWhile_append_stop g v 58 hq2 (by decide)
    unfold http_parse_name_fixed
    simp only [hdw, htw, Nat.add_one_sub_one, hdrop, cur, List.headD_cons, if_true, List.tail_cons]

/-- The field name `content-length` for `Content-Length`, and the line
` Content-Length : 5`. -/
theorem field_name_case_and_length_sample :
    http_parse_response 0 (status_line (bytes "1") (bytes "1") (bytes "200") (bytes "OK") ++
        [13, 10] ++ bytes "Connection: keep-alive\r\n" ++
        (bytes "Content-Length" ++ bytes ": 5")) =
      http_parse_response 0 (status_line (bytes "1") (bytes "1") (bytes "200") (bytes "OK") ++
        [13, 10] ++ bytes "Connection: keep-alive\r\n" ++
        (bytes "content-length" ++ bytes ": 5")) ∧
    http_parse_name_fixed (bytes " " ++ (bytes "Content-Length" ++ (bytes " " ++ 58 :: bytes " 5")))
        32 = (bytes " 5", (bytes "Content-Length").take 31) :=
  field_name_case_and_length 0 (bytes "1") (bytes "1") (bytes "200") (bytes "OK")
    (bytes "Connection: keep-alive\r\n") (bytes "Content-Length") (bytes "content-length")
    (bytes ": 5") (bytes " ") (bytes " ") (bytes " 5")
    (by decide) (by decide) (by decide) (by decide) (by decide) (by decide) (by decide)
    (by decide) (by decide) (by decide) (by decide) (by decide)

/-- C8 (code defect): after a status line with an empty reason phrase the
status-line `sscanf` reads the first header line, field name included, as the
reason: for the block `HTTP/1.1 200 \r\nContent-Length: 5` the response changes
with the letter case of the field name, in `reason`.  With the reason phrase
`OK` the two responses are the same. -/
theorem C8_name_case_after_empty_reason :
    http_parse_response 0 (bytes "HTTP/1.1 200 \r\nContent-Length: 5") =
      ParseResult.resp
        { major := 1, minor := 1, code := 200, reason := bytes "Content-Length: 5",
          content_length := 5, content_length_valid := true } ∧
    http_parse_response 0 (bytes "HTTP/1.1 200 \r\ncontent-length: 5") =
      ParseResult.resp
        { major := 1, minor := 1, code := 200, reason := bytes "content-length: 5",
          content_length := 5, content_length_valid := true } ∧
    http_parse_response 0 (bytes "HTTP/1.1 200 \r\nContent-Length: 5") ≠
      http_parse_response 0 (bytes "HTTP/1.1 200 \r\ncontent-length: 5") ∧
    http_parse_response 0 (bytes "HTTP/1.1 200 OK\r\nContent-Length: 5") =
      ParseResult.resp
        { major := 1, minor := 1, code := 200, reason := bytes "OK",
          content_length := 5, content_length_valid := true } ∧
    http_parse_response 0 (bytes "HTTP/1.1 200 OK\r\ncontent-length: 5") =
      ParseResult.resp
        { major := 1, minor := 1, code := 200, reason := bytes "OK",
          content_length := 5, content_length_valid := true } := by
  decide

/-! ## Header blocks as sequences of header lines -/

theorem join_lines_cons (l : List Nat) (ls : List (List Nat)) (h : ls ≠ []) :
    join_lines (l :: ls) = l ++ 13 :: 10 :: join_lines ls := by
  cases ls with
  | nil => exact absurd rfl h
  | cons k ks => simp [join_lines]

theorem header_run_one_line (now : Int) (resp : MGET_HTTP_RESPONSE) (l : List Nat)
    (hl : is_header_line l) :
    header_run now none resp l = http_parse_header_line now resp l := by
  obtain ⟨hne, hb, h13, _⟩ := hl
  cases l with
  | nil => exact absurd rfl hne
  | cons c l =>
    have hc := hb c (List.mem_cons_self _ _)
    have hc2 : ¬ (c = 0 ∨ c = 13) := by
      intro h
      rcases h with h | h
      · exact hc.1 h
      · exact h13 (by simpa [cur] using h)
    simp only [header_run, hc2, if_false]
    have := header_run_push now [] l [c] resp (fun x hx => hb x (List.mem_cons_of_mem _ hx))
    rw [List.append_nil] at this
    rw [this]
    simp [header_run]

theorem header_run_line_then (now : Int) (resp : MGET_HTTP_RESPONSE) (l rest : List Nat)
    (hl : is_header_line l) (hrest : isblank (cur rest) = false) :
    header_run now none resp (l ++ 13 :: 10 :: rest) =
      (http_parse_header_line now resp l).bind (fun r => header_run now none r rest) := by
  obtain ⟨hne, hb, h13, _⟩ := hl
  cases l with
  | nil => exact absurd rfl hne
  | cons c l =>
    have hc := hb c (List.mem_cons_self _ _)
    have hc2 : ¬ (c = 0 ∨ c = 13) := by
      intro h
      rcases h with h | h
      · exact hc.1 h
      · exact h13 (by simpa [cur] using h)
    simp only [List.cons_append, header_run, hc2, if_false, List.append_eq]
    rw [header_run_push now _ l [c] resp (fun x hx => hb x (List.mem_cons_of_mem _ hx))]
    simp only [header_run, show ¬ ((13 : Nat) = 0) by decide, show ¬ ((13 : Nat) = 10) by decide,
      if_false, if_true, hrest, Bool.false_eq_true, List.tail_cons, List.reverse_append,
      List.reverse_reverse, List.reverse_cons, List.reverse_nil, List.nil_append,
      List.singleton_append]
    cases http_parse_header_line now resp (c :: l) <;> rfl

/-- The header loop over a block of well-formed header lines dispatches the
lines one after the other. -/
theorem header_run_lines (now : Int) :
    ∀ (lines : List (List Nat)) (resp : MGET_HTTP_RESPONSE),
      (∀ l ∈ lines, is_header_line l) →
      header_run now none resp (join_lines lines) =
        lines.foldlM (http_parse_header_line now) resp := by
  intro lines
  induction lines with
  | nil => intro resp _; rfl
  | cons l ls ih =>
    intro resp h
    have hl := h l (List.mem_cons_self _ _)
    cases ls with
    | nil =>
      simp only [join_lines, List.foldlM_cons, List.foldlM_nil]
      rw [header_run_one_line now resp l hl]
      cases http_parse_header_line now resp l <;> rfl
    | cons k ks =>
      have hk := h k (by simp)
      have hcur : isblank (cur (join_lines (k :: ks))) = false := by
        have hkne := hk.1
        have : cur (join_lines (k :: ks)) = cur k := by
          cases ks with
          | nil => rfl
          | cons j js =>
            simp only [join_lines, List.append_assoc]
            exact cur_append_of_ne_nil k _ hkne
        rw [this]
        exact hk.2.2.2
      rw [join_lines_cons l (k :: ks) (by simp), header_run_line_then now resp l _ hl hcur,
        List.foldlM_cons]
      cases hstep : http_parse_header_line now resp l with
      | none => rfl
      | some r =>
        simp only [Option.some_bind, Option.bind_eq_bind]
        exact ih r (fun x hx => h x (List.mem_cons_of_mem _ hx))

theorem join_lines_no_nul :
    ∀ lines : List (List Nat), (∀ l ∈ lines, is_header_line l) →
      ∀ x ∈ join_lines lines, x ≠ 0 := by
  intro lines
  induction lines with
  | nil => intro _ x hx; simp [join_lines] at hx
  | cons l ls ih =>
    intro h x hx
    cases ls with
    | nil =>
      simp only [join_lines] at hx
      exact ((h l (by simp)).2.1 x hx).1
    | cons k ks =>
      rw [join_lines_cons l (k :: ks) (by simp)] at hx
      rcases List.mem_append.mp hx with h1 | h1
      · exact ((h l (by simp)).2.1 x h1).1
      · rcases List.mem_cons.mp h1 with h2 | h2
        · omega
        · rcases List.mem_cons.mp h2 with h3 | h3
          · omega
          · exact ih (fun y hy => h y (List.mem_cons_of_mem _ hy)) x h3

/-- Model of `http_parse_response` on a header block made of a status line with a
reason phrase and well-formed header lines: the lines are dispatched in order
on the response the status line gives; the call hangs when a line does, and
the content-type workaround is applied at the end. -/
theorem http_parse_response_lines (now : Int) (a b c reason : List Nat)
    (lines : List (List Nat))
    (ha : is_number a) (hb : is_number b) (hc : is_number c) (hr : is_reason reason)
    (hl : ∀ l ∈ lines, is_header_line l) :
    http_parse_response now (header_block (status_line a b c reason) lines) =
      match lines.foldlM (http_parse_header_line now) (status_response a b c reason) with
      | none => ParseResult.hang
      | some r => gzip_workaround r := by
  have hshape : header_block (status_line a b c reason) lines =
      status_line a b c reason ++ [13] ++ 10 :: join_lines lines := by
    simp [header_block]
  rw [hshape, http_parse_response_status now a b c reason [13] _ ha hb hc hr (Or.inl rfl),
    cstr_of_no_nul _ (join_lines_no_nul lines hl), header_run_lines now lines _ hl]
  rfl

/-! ## What one header line adds to the response -/

theorem strcaseeq_of_eq (name a : List Nat) (h : strcaseeq name a = true) (x : List Nat) :
    strcaseeq name x = strcaseeq a x := by
  simp only [strcaseeq, beq_iff_eq] at h ⊢
  rw [h]

theorem cdiv_100_eq_three_iff (c : Int) : cdiv c 100 = 3 ↔ (300 ≤ c ∧ c ≤ 399) := by
  unfold cdiv
  rcases le_or_lt 0 c with h | h
  · rw [Int.tdiv_eq_ediv h (by omega)]; omega
  · have hneg : Int.tdiv c 100 = -(Int.tdiv (-c) 100) := by
      rw [Int.neg_tdiv]; simp
    rw [hneg, Int.tdiv_eq_ediv (by omega) (by omega)]; omega

/-- The dispatch on one header line has the effect `dispatch_effect`. -/
theorem http_header_dispatch_lists (now : Int) (resp r : MGET_HTTP_RESPONSE) (s name : List Nat)
    (h : http_header_dispatch now resp s name = some r) :
    dispatch_effect now resp r s name := by
  revert h
  apply http_header_dispatch_elim now resp s name
    (fun o => o = some r → dispatch_effect now resp r s name)
  · intro h3 hn h
    cases h
    unfold dispatch_effect
    simp +decide [strcaseeq_of_eq name _ hn, h3, mget_vector_add]
  · intro h3 hn h
    cases h
    unfold dispatch_effect
    simp +decide [strcaseeq_of_eq name _ hn, h3, mget_vector_add]
  · intro hn h
    cases h
    unfold dispatch_effect
    simp +decide [strcaseeq_of_eq name _ hn, mget_vector_add]
  · intro hn h
    cases h
    unfold dispatch_effect
    simp +decide [strcaseeq_of_eq name _ hn, mget_vector_add]
  · intro hn h
    cases h
    unfold dispatch_effect
    simp +decide [strcaseeq_of_eq name _ hn, mget_vector_add]
  · intro hn h
    obtain ⟨t, _, rfl⟩ := Option.map_eq_some'.mp h
    unfold dispatch_effect
    simp +decide [strcaseeq_of_eq name _ hn, mget_vector_add]
  · intro hn h
    cases h
    unfold dispatch_effect
    simp +decide [strcaseeq_of_eq name _ hn, mget_vector_add]
  · intro hn h
    cases h
    unfold dispatch_effect
    simp +decide [strcaseeq_of_eq name _ hn, mget_vector_add]
  · intro hn h
    cases h
    unfold dispatch_effect
    simp +decide [strcaseeq_of_eq name _ hn, mget_vector_add]
  · intro hn h
    cases h
    unfold dispatch_effect
    simp +decide [strcaseeq_of_eq name _ hn, mget_vector_add]
  · intro hn h
    cases h
    unfold dispatch_effect
    simp +decide [strcaseeq_of_eq name _ hn, mget_vector_add]
  · intro n1 n2 n3 n4 n5 h
    cases h
    unfold dispatch_effect
    simp only [n3, n4, n5, n1, n2, if_false, List.append_nil, Bool.false_eq_true]
    simp

theorem getLast?_cons_or (x : List Nat) (xs : List (List Nat)) (d : Option (List Nat)) :
    ((x :: xs).getLast?).or d = (xs.getLast?).or (some x) := by
  cases xs with
  | nil => rfl
  | cons y ys =>
    rw [List.getLast?_cons_cons]
    cases h : (y :: ys).getLast? with
    | none => simp at h
    | some z => rfl

/-- What a run of header lines adds to the response: one entry per
`Set-Cookie`, `Digest` and `WWW-Authenticate` line, and on a 3xx response one
entry per `Link` line and the location of the last `Location` line, in the
order of the lines. -/
theorem foldlM_lists (now : Int) :
    ∀ (lines : List (List Nat)) (resp r : MGET_HTTP_RESPONSE),
      lines.foldlM (http_parse_header_line now) resp = some r →
      r.code = resp.code ∧
      r.cookies = resp.cookies ++ cookies_of now lines ∧
      r.digests = resp.digests ++ digests_of lines ∧
      r.challenges = resp.challenges ++ challenges_of lines ∧
      r.links = resp.links ++ (if cdiv resp.code 100 = 3 then links_of lines else []) ∧
      r.location =
        (if cdiv resp.code 100 = 3 then (location_of lines).or resp.location
          else resp.location) := by
  intro lines
  induction lines with
  | nil =>
    intro resp r h
    simp only [List.foldlM_nil, Option.pure_def, Option.some.injEq] at h
    subst h
    simp [cookies_of, digests_of, challenges_of, links_of, location_of]
  | cons l ls ih =>
    intro resp r h
    rw [List.foldlM_cons] at h
    cases hstep : http_parse_header_line now resp l with
    | none => simp [hstep] at h
    | some r1 =>
      simp only [hstep, Option.bind_eq_bind, Option.some_bind] at h
      obtain ⟨e1, e2, e3, e4, e5, e6⟩ := http_header_dispatch_lists now resp r1 _ _ hstep
      obtain ⟨f1, f2, f3, f4, f5, f6⟩ := ih r1 r h
      have hname : ∀ x : String, strcaseeq (http_parse_name_fixed l 32).2 (bytes x) = is_named x l :=
        fun _ => rfl
      simp only [hname] at e2 e3 e4 e5 e6
      refine ⟨f1.trans e1, ?_, ?_, ?_, ?_, ?_⟩
      · rw [f2, e2]
        simp only [cookies_of, List.filter_cons]
        split_ifs <;> simp [header_value]
      · rw [f3, e3]
        simp only [digests_of, List.filter_cons]
        split_ifs <;> simp [header_value]
      · rw [f4, e4]
        simp only [challenges_of, List.filter_cons]
        split_ifs <;> simp [header_value]
      · rw [f5, e5, e1]
        simp only [links_of, List.filter_cons]
        by_cases h3 : cdiv resp.code 100 = 3
        · simp only [h3, true_and, if_true]
          split_ifs <;> simp [header_value]
        · simp [h3]
      · rw [f6, e6, e1]
        by_cases h3 : cdiv resp.code 100 = 3
        · simp only [h3, true_and, if_true, location_of, List.filter_cons]
          by_cases hn : is_named "Location" l = true
          · simp only [hn, if_true, List.map_cons, getLast?_cons_or]
            rfl
          · simp only [hn, Bool.false_eq_true, if_false]
        · simp [h3]

/-- The response `http_parse_response` returns for a block of header lines
carries the sequences, the location and the status code the header loop has
built, the workaround at the end touching only `content_encoding`; and the
call does not return `NULL`. -/
theorem http_parse_response_lines_result (now : Int) (a b c reason : List Nat)
    (lines : List (List Nat))
    (ha : is_number a) (hb : is_number b) (hc : is_number c) (hr : is_reason reason)
    (hl : ∀ l ∈ lines, is_header_line l) :
    http_parse_response now (header_block (status_line a b c reason) lines) ≠ ParseResult.null ∧
    ∀ r : MGET_HTTP_RESPONSE,
      http_parse_response now (header_block (status_line a b c reason) lines) =
        ParseResult.resp r →
      r.cookies = cookies_of now lines ∧ r.digests = digests_of lines ∧
      r.challenges = challenges_of lines ∧
      r.links = (if cdiv (decval c : Int) 100 = 3 then links_of lines else []) ∧
      r.location = (if cdiv (decval c : Int) 100 = 3 then location_of lines else none) := by
  rw [http_parse_response_lines now a b c reason lines ha hb hc hr hl]
  cases hf : lines.foldlM (http_parse_header_line now) (status_response a b c reason) with
  | none =>
    constructor
    · simp
    · intro r h
      simp at h
  | some r0 =>
    obtain ⟨f1, f2, f3, f4, f5, f6⟩ := foldlM_lists now lines _ r0 hf
    simp only [status_response, List.nil_append, Option.or_none] at f2 f3 f4 f5 f6
    constructor
    · rcases gzip_workaround_cases r0 with h | h | h <;> simp [h]
    · intro r h
      simp only at h
      rcases gzip_workaround_cases r0 with g | g | g
      · rw [g] at h; cases h
      · rw [g] at h
        cases h
        exact ⟨f2, f3, f4, f5, f6⟩
      · rw [g] at h
        cases h
        exact ⟨f2, f3, f4, f5, f6⟩

/-- C9 as stated fails: the same `Location` and `Link` lines give a location
and a link after the status code 302 and nothing after the status code 200. -/
theorem C9_status_code_counterexample :
    http_parse_response 0
        (bytes "HTTP/1.1 302 Found\r\nLocation: /next\r\nLink: <http://a/b>; rel=duplicate; pri=2") =
      ParseResult.resp
        { major := 1, minor := 1, code := 302, reason := bytes "Found",
          location := some (bytes "/next"),
          links := [{ uri := some (bytes "http://a/b"), pri := 2,
                      rel := LinkRel.link_rel_duplicate }] } ∧
    http_parse_response 0
        (bytes "HTTP/1.1 200 Found\r\nLocation: /next\r\nLink: <http://a/b>; rel=duplicate; pri=2") =
      ParseResult.resp
        { major := 1, minor := 1, code := 200, reason := bytes "Found",
          location := none, links := [] } := by
  decide

/-- A field name of 35 bytes: the name handed to the comparison is cut to 31
bytes and the value still starts after the colon. -/
theorem http_parse_name_fixed_long_name :
    http_parse_name_fixed (bytes "X-Header-Field-Name-Of-35-Bytes-Long: v") 32 =
      (bytes " v", bytes "X-Header-Field-Name-Of-35-Bytes") := by
  decide

/-! ## The content coding and the gzip workaround -/

/-- Case analysis of `http_header_dispatch` that keeps, for the last case, the
failure of every test of the chain. -/
theorem http_header_dispatch_elim_all (now : Int) (resp : MGET_HTTP_RESPONSE) (s name : List Nat)
    (P : Option MGET_HTTP_RESPONSE → Prop)
    (hLocation : cdiv resp.code 100 = 3 → strcaseeq name (bytes "Location") = true →
      P (some { resp with location := some (http_parse_location s).2 }))
    (hLink : cdiv resp.code 100 = 3 → strcaseeq name (bytes "Link") = true →
      P (some { resp with links := mget_vector_add resp.links (http_parse_link s).2 }))
    (hDigest : strcaseeq name (bytes "Digest") = true →
      P (some { resp with digests := mget_vector_add resp.digests (http_parse_digest s).2 }))
    (hTransfer : strcaseeq name (bytes "Transfer-Encoding") = true →
      P (some { resp with transfer_encoding := (http_parse_transfer_encoding s).2 }))
    (hEncoding : strcaseeq name (bytes "Content-Encoding") = true →
      P (some { resp with content_encoding := (http_parse_content_encoding s).2 }))
    (hType : strcaseeq name (bytes "Content-Type") = true →
      P ((http_parse_content_type s).map
        (fun t => { resp with content_type := some t.2.1, content_type_encoding := t.2.2 })))
    (hLength : strcaseeq name (bytes "Content-Length") = true →
      P (some { resp with content_length := to_size_t (atoll s), content_length_valid := true }))
    (hConnection : strcaseeq name (bytes "Connection") = true →
      P (some { resp with keep_alive := (http_parse_connection s).2 }))
    (hModified : strcaseeq name (bytes "Last-Modified") = true →
      P (some { resp with last_modified := parse_rfc1123_date s }))
    (hCookie : strcaseeq name (bytes "Set-Cookie") = true →
      P (some { resp with cookies := mget_vector_add resp.cookies (http_parse_setcookie now s).2 }))
    (hChallenge : strcaseeq name (bytes "WWW-Authenticate") = true →
      P (some { resp with
        challenges := mget_vector_add resp.challenges (http_parse_challenge s).2 }))
    (hOther : strcaseeq name (bytes "Content-Encoding") = false →
      strcaseeq name (bytes "Content-Type") = false → P (some resp)) :
    P (http_header_dispatch now resp s name) := by
  unfold http_header_dispatch
  by_cases h1 : cdiv resp.code 100 = 3 ∧ strcaseeq name (bytes "Location") = true
  · rw [if_pos h1]; exact hLocation h1.1 h1.2
  rw [if_neg h1]
  by_cases h2 : cdiv resp.code 100 = 3 ∧ strcaseeq name (bytes "Link") = true
  · rw [if_pos h2]; exact hLink h2.1 h2.2
  rw [if_neg h2]
  by_cases h3 : strcaseeq name (bytes "Digest") = true
  · rw [if_pos h3]; exact hDigest h3
  rw [if_neg h3]
  by_cases h4 : strcaseeq name (bytes "Transfer-Encoding") = true
  · rw [if_pos h4]; exact hTransfer h4
  rw [if_neg h4]
  by_cases h5 : strcaseeq name (bytes "Content-Encoding") = true
  · rw [if_pos h5]; exact hEncoding h5
  rw [if_neg h5]
  by_cases h6 : strcaseeq name (bytes "Content-Type") = true
  · rw [if_pos h6]; exact hType h6
  rw [if_neg h6]
  by_cases h7 : strcaseeq name (bytes "Content-Length") = true
  · rw [if_pos h7]; exact hLength h7
  rw [if_neg h7]
  by_cases h8 : strcaseeq name (bytes "Connection") = true
  · rw [if_pos h8]; exact hConnection h8
  rw [if_neg h8]
  by_cases h9 : strcaseeq name (bytes "Last-Modified") = true
  · rw [if_pos h9]; exact hModified h9
  rw [if_neg h9]
  by_cases h10 : strcaseeq name (bytes "Set-Cookie") = true
  · rw [if_pos h10]; exact hCookie h10
  rw [if_neg h10]
  by_cases h11 : strcaseeq name (bytes "WWW-Authenticate") = true
  · rw [if_pos h11]; exact hChallenge h11
  rw [if_neg h11]
  exact hOther (by simpa using h5) (by simpa using h6)

theorem http_parse_content_type_media (s : List Nat) (t : List Nat × List Nat × Option (List Nat))
    (h : http_parse_content_type s = some t) : t.2.1 = media_type s := by
  unfold http_parse_content_type at h
  obtain ⟨r, _, rfl⟩ := Option.map_eq_some'.mp h
  rfl

/-- What the dispatch on one header line does to `content_encoding` and to
`content_type`. -/
theorem http_header_dispatch_encoding (now : Int) (resp r : MGET_HTTP_RESPONSE)
    (s name : List Nat) (h : http_header_dispatch now resp s name = some r) :
    r.content_encoding =
      (if strcaseeq name (bytes "Content-Encoding") = true then (http_parse_content_encoding s).2
        else resp.content_encoding) ∧
    r.content_type =
      (if strcaseeq name (bytes "Content-Type") = true then some (media_type s)
        else resp.content_type) := by
  revert h
  apply http_header_dispatch_elim_all now resp s name
    (fun o => o = some r →
      r.content_encoding =
        (if strcaseeq name (bytes "Content-Encoding") = true then
          (http_parse_content_encoding s).2 else resp.content_encoding) ∧
      r.content_type =
        (if strcaseeq name (bytes "Content-Type") = true then some (media_type s)
          else resp.content_type))
  · intro _ hn h
    cases h
    simp +decide [strcaseeq_of_eq name _ hn]
  · intro _ hn h
    cases h
    simp +decide [strcaseeq_of_eq name _ hn]
  · intro hn h
    cases h
    simp +decide [strcaseeq_of_eq name _ hn]
  · intro hn h
    cases h
    simp +decide [strcaseeq_of_eq name _ hn]
  · intro hn h
    cases h
    simp +decide [strcaseeq_of_eq name _ hn]
  · intro hn h
    obtain ⟨t, ht, rfl⟩ := Option.map_eq_some'.mp h
    simp +decide [strcaseeq_of_eq name _ hn, http_parse_content_type_media s t ht]
  · intro hn h
    cases h
    simp +decide [strcaseeq_of_eq name _ hn]
  · intro hn h
    cases h
    simp +decide [strcaseeq_of_eq name _ hn]
  · intro hn h
    cases h
    simp +decide [strcaseeq_of_eq name _ hn]
  · intro hn h
    cases h
    simp +decide [strcaseeq_of_eq name _ hn]
  · intro hn h
    cases h
    simp +decide [strcaseeq_of_eq name _ hn]
  · intro n1 n2 h
    cases h
    simp [n1, n2]

/-- The dispatch on a header line returns unless the line is a `Content-Type`
line whose charset loop does not end. -/
theorem http_header_dispatch_returns (now : Int) (resp : MGET_HTTP_RESPONSE) (s name : List Nat)
    (h : strcaseeq name (bytes "Content-Type") = true → (http_parse_content_type s).isSome = true) :
    ∃ r, http_header_dispatch now resp s name = some r := by
  apply http_header_dispatch_elim_all now resp s name (fun o => ∃ r, o = some r)
  all_goals intros
  all_goals first
    | exact ⟨_, rfl⟩
    | (rename_i hn
       obtain ⟨t, ht⟩ := Option.isSome_iff_exists.mp (h hn)
       exact ⟨_, by rw [ht]; rfl⟩)

theorem getLast?_cons_getD {α : Type} (x : α) (xs : List α) (d : α) :
    ((x :: xs).getLast?).getD d = (xs.getLast?).getD x := by
  cases xs with
  | nil => rfl
  | cons y ys =>
    rw [List.getLast?_cons_cons]
    cases h : (y :: ys).getLast? with
    | none => simp at h
    | some z => rfl

/-- What a run of header lines does to `content_encoding` and `content_type`:
the last `Content-Encoding` line and the last `Content-Type` line decide. -/
theorem foldlM_encoding (now : Int) :
    ∀ (lines : List (List Nat)) (resp r : MGET_HTTP_RESPONSE),
      lines.foldlM (http_parse_header_line now) resp = some r →
      r.content_encoding = (encodings_of lines).getLast?.getD resp.content_encoding ∧
      r.content_type = ((media_types_of lines).getLast?).or resp.content_type := by
  intro lines
  induction lines with
  | nil =>
    intro resp r h
    simp only [List.foldlM_nil, Option.pure_def, Option.some.injEq] at h
    subst h
    simp [encodings_of, media_types_of]
  | cons l ls ih =>
    intro resp r h
    rw [List.foldlM_cons] at h
    cases hstep : http_parse_header_line now resp l with
    | none => simp [hstep] at h
    | some r1 =>
      simp only [hstep, Option.bind_eq_bind, Option.some_bind] at h
      obtain ⟨e1, e2⟩ := http_header_dispatch_encoding now resp r1 _ _ hstep
      obtain ⟨f1, f2⟩ := ih r1 r h
      have hname : ∀ x : String, strcaseeq (http_parse_name_fixed l 32).2 (bytes x) = is_named x l :=
        fun _ => rfl
      simp only [hname] at e1 e2
      constructor
      · rw [f1, e1]
        simp only [encodings_of, List.filter_cons]
        by_cases hn : is_named "Content-Encoding" l = true
        · simp only [hn, if_true, List.map_cons, getLast?_cons_getD]
          rfl
        · simp only [hn, Bool.false_eq_true, if_false]
      · rw [f2, e2]
        simp only [media_types_of, List.filter_cons]
        by_cases hn : is_named "Content-Type" l = true
        · simp only [hn, if_true, List.map_cons, getLast?_cons_or]
          rfl
        · simp only [hn, Bool.false_eq_true, if_false]

/-- The header loop returns when the charset loop ends on every `Content-Type`
line. -/
theorem foldlM_returns (now : Int) :
    ∀ (lines : List (List Nat)) (resp : MGET_HTTP_RESPONSE),
      (∀ l ∈ lines, is_named "Content-Type" l = true →
        (http_parse_content_type (header_value l)).isSome = true) →
      ∃ r, lines.foldlM (http_parse_header_line now) resp = some r := by
  intro lines
  induction lines with
  | nil => intro resp _; exact ⟨resp, rfl⟩
  | cons l ls ih =>
    intro resp h
    obtain ⟨r1, h1⟩ := http_header_dispatch_returns now resp (header_value l) (header_name l)
      (h l (List.mem_cons_self _ _))
    obtain ⟨r, h2⟩ := ih r1 (fun k hk => h k (List.mem_cons_of_mem _ hk))
    refine ⟨r, ?_⟩
    rw [List.foldlM_cons]
    have : http_parse_header_line now resp l = some r1 := h1
    simp only [this, Option.bind_eq_bind, Option.some_bind]
    exact h2

/-- C11: for a header block made of a status line and header lines on which the
content-type parser returns, and that declares a `Content-Type` whenever it
declares the content coding gzip (`gzip` or `x-gzip`), `http_parse_response`
returns a response whose `content_encoding` is identity when the declared
coding is gzip and the declared media type equals `application/x-gzip` up to
letter case, and is the coding the `Content-Encoding` header selects (gzip,
deflate or identity) with any other media type or coding. -/
theorem C11_gzip_workaround (now : Int) (a b c reason : List Nat) (lines : List (List Nat))
    (ha : is_number a) (hb : is_number b) (hc : is_number c) (hr : is_reason reason)
    (hl : ∀ l ∈ lines, is_header_line l)
    (hret : ∀ l ∈ lines, is_named "Content-Type" l = true →
      (http_parse_content_type (header_value l)).isSome = true)
    (hct : encoding_of lines = ContentEncoding.mget_content_encoding_gzip →
      (content_type_of lines).isSome = true) :
    ∃ r : MGET_HTTP_RESPONSE,
      http_parse_response now (header_block (status_line a b c reason) lines) =
        ParseResult.resp r ∧
      r.content_type = content_type_of lines ∧
      r.content_encoding =
        (if encoding_of lines = ContentEncoding.mget_content_encoding_gzip ∧
            (content_type_of lines).any (fun ct => strcaseeq ct (bytes "application/x-gzip")) = true
          then ContentEncoding.mget_content_encoding_identity
          else encoding_of lines) := by
  rw [http_parse_response_lines now a b c reason lines ha hb hc hr hl]
  obtain ⟨r0, hf⟩ := foldlM_returns now lines (status_response a b c reason) hret
  obtain ⟨f1, f2⟩ := foldlM_encoding now lines _ r0 hf
  have g1 : r0.content_encoding = encoding_of lines := by
    rw [f1]; rfl
  have g2 : r0.content_type = content_type_of lines := by
    rw [f2]; simp [status_response, content_type_of]
  simp only [hf]
  unfold gzip_workaround
  by_cases hg : encoding_of lines = ContentEncoding.mget_content_encoding_gzip
  · obtain ⟨ct, hct1⟩ := Option.isSome_iff_exists.mp (hct hg)
    rw [hct1] at g2
    simp only [g1, hg, if_true, g2, true_and, hct1, Option.any_some]
    by_cases hx : strcaseeq ct (bytes "application/x-gzip") = true
    · simp only [hx, if_true]
      exact ⟨_, rfl, by simp [g2], rfl⟩
    · simp only [hx, Bool.false_eq_true, if_false]
      exact ⟨_, rfl, g2, g1.trans hg⟩
  · simp only [g1, hg, if_false, false_and]
    exact ⟨_, rfl, g2, g1⟩

/-- C11 at a block that labels a gzip file as gzip-encoded, with the header
names and values in mixed letter case: the coding is reverted to identity. -/
theorem C11_gzip_workaround_witness :
    (∃ r : MGET_HTTP_RESPONSE,
      http_parse_response 0
          (header_block (status_line (bytes "1") (bytes "1") (bytes "200") (bytes "OK"))
            gzip_file_lines) = ParseResult.resp r ∧
      r.content_type = content_type_of gzip_file_lines ∧
      r.content_encoding =
        (if encoding_of gzip_file_lines = ContentEncoding.mget_content_encoding_gzip ∧
            (content_type_of gzip_file_lines).any
              (fun ct => strcaseeq ct (bytes "application/x-gzip")) = true
          then ContentEncoding.mget_content_encoding_identity
          else encoding_of gzip_file_lines)) ∧
    encoding_of gzip_file_lines = ContentEncoding.mget_content_encoding_gzip ∧
    content_type_of gzip_file_lines = some (bytes "Application/X-Gzip") :=
  ⟨C11_gzip_workaround 0 (bytes "1") (bytes "1") (bytes "200") (bytes "OK") gzip_file_lines
      (by decide) (by decide) (by decide) (by decide) (by decide) (by decide) (by decide),
    by decide, by decide⟩

/-- The content coding after `http_parse_response` on five header blocks: gzip
and x-gzip with the media type `application/x-gzip` give identity; gzip with
another media type stays gzip; deflate and identity are kept also with the
media type `application/x-gzip`. -/
theorem content_encoding_examples :
    http_parse_response 0
        (bytes "HTTP/1.1 200 OK\r\nContent-Encoding: gzip\r\nContent-Type: application/x-gzip") =
      ParseResult.resp
        { major := 1, minor := 1, code := 200, reason := bytes "OK",
          content_type := some (bytes "application/x-gzip") } ∧
    http_parse_response 0
        (bytes "HTTP/1.1 200 OK\r\nContent-Encoding: X-GZIP\r\nContent-Type: APPLICATION/X-GZIP") =
      ParseResult.resp
        { major := 1, minor := 1, code := 200, reason := bytes "OK",
          content_type := some (bytes "APPLICATION/X-GZIP") } ∧
    http_parse_response 0
        (bytes "HTTP/1.1 200 OK\r\nContent-Encoding: gzip\r\nContent-Type: text/html") =
      ParseResult.resp
        { major := 1, minor := 1, code := 200, reason := bytes "OK",
          content_type := some (bytes "text/html"),
          content_encoding := ContentEncoding.mget_content_encoding_gzip } ∧
    http_parse_response 0
        (bytes "HTTP/1.1 200 OK\r\nContent-Encoding: deflate\r\nContent-Type: application/x-gzip") =
      ParseResult.resp
        { major := 1, minor := 1, code := 200, reason := bytes "OK",
          content_type := some (bytes "application/x-gzip"),
          content_encoding := ContentEncoding.mget_content_encoding_deflate } ∧
    http_parse_response 0
        (bytes "HTTP/1.1 200 OK\r\nContent-Encoding: br\r\nContent-Type: application/x-gzip") =
      ParseResult.resp
        { major := 1, minor := 1, code := 200, reason := bytes "OK",
          content_type := some (bytes "application/x-gzip") } := by
  decide

/-! ## The request builder -/

theorem cstr_iri_scheme_name (s : IriScheme) : cstr (iri_scheme_name s) = iri_scheme_name s := by
  cases s <;> decide

/-- The loop over the caller-supplied lines appends each line as
`line_as_rendered` gives it, provided the buffer ends with a line feed when the
loop starts; it then also ends with a line feed when the loop is left. -/
theorem request_lines_content :
    ∀ (lines : List (List Nat)) (buf : mget_buffer_t),
      buf.content.getLast? = some 10 →
      (request_lines lines buf).content =
          buf.content ++ (lines.map line_as_rendered).flatten ∧
        (request_lines lines buf).content.getLast? = some 10 := by
  intro lines
  induction lines with
  | nil => intro buf h; simp [request_lines, h]
  | cons l ls ih =>
    intro buf h
    have hc : (mget_buffer_strcat buf l).content = buf.content ++ cstr l := by
      simp [mget_buffer_strcat, mget_buffer_memcat]
    unfold request_lines
    simp only [hc]
    by_cases he : cstr l = []
    · have hlast : (buf.content ++ cstr l).getLast? = some 10 := by rw [he]; simpa using h
      simp only [hlast, ne_eq, not_true_eq_false, if_false]
      obtain ⟨h1, h2⟩ := ih (mget_buffer_strcat buf l) (by rw [hc]; exact hlast)
      refine ⟨?_, h2⟩
      rw [h1, hc]
      simp [line_as_rendered, he]
    · have hlast : (buf.content ++ cstr l).getLast? = (cstr l).getLast? := by
        rw [List.getLast?_append]
        cases hq : (cstr l).getLast? with
        | none => exact absurd (List.getLast?_eq_none_iff.mp hq) he
        | some x => rfl
      by_cases hn : (cstr l).getLast? = some 10
      · simp only [hlast, hn, ne_eq, not_true_eq_false, if_false]
        obtain ⟨h1, h2⟩ := ih (mget_buffer_strcat buf l) (by rw [hc, hlast]; exact hn)
        refine ⟨?_, h2⟩
        rw [h1, hc]
        simp [line_as_rendered, he, hn]
      · simp only [hlast, hn, ne_eq, not_false_eq_true, if_true]
        obtain ⟨h1, h2⟩ := ih (mget_buffer_memcat (mget_buffer_strcat buf l) (bytes "\r\n") 2)
          (by simp [mget_buffer_memcat, bytes])
        refine ⟨?_, h2⟩
        rw [h1]
        simp [mget_buffer_memcat, hc, line_as_rendered, he, hn, bytes]

theorem request_lines_text (lines : List (List Nat)) (buf : mget_buffer_t)
    (h : buf.content.getLast? = some 10) :
    (request_lines lines buf).content = buf.content ++ (lines.map line_as_rendered).flatten :=
  (request_lines_content lines buf h).1

theorem getLast?_append_of_ne_nil (X Y : List Nat) (h : Y ≠ []) :
    (X ++ Y).getLast? = Y.getLast? := by
  rw [List.getLast?_append]
  cases hq : Y.getLast? with
  | none => exact absurd (List.getLast?_eq_none_iff.mp hq) h
  | some x => rfl

/-- The buffer `http_request_to_buffer` leaves holds the request text with the
caller-supplied lines carried as `line_as_rendered` says, whatever it held
before; the value returned is the length of that text. -/
theorem http_request_to_buffer_text (http_proxy https_proxy : Bool) (req : MGET_HTTP_REQUEST)
    (buf : mget_buffer_t) :
    (http_request_to_buffer http_proxy https_proxy req buf).1.content =
        request_text line_as_rendered http_proxy https_proxy req ∧
      (http_request_to_buffer http_proxy https_proxy req buf).2 =
        ((request_text line_as_rendered http_proxy https_proxy req).length : Int) := by
  have t1 : List.take 1 (bytes " ") = bytes " " := by decide
  have t2 : List.take 3 (bytes "://") = bytes "://" := by decide
  have t3 : List.take 1 (bytes "/") = bytes "/" := by decide
  have t4 : List.take 11 (bytes " HTTP/1.1\r\n") = bytes " HTTP/1.1\r\n" := by decide
  have t5 : List.take 6 (bytes "Host: ") = bytes "Host: " := by decide
  have t6 : List.take 2 (bytes "\r\n") = bytes "\r\n" := by decide
  have t7 : cstr (bytes "Proxy-Connection: keep-alive\r\n") =
      bytes "Proxy-Connection: keep-alive\r\n" := by decide
  have key : (http_request_to_buffer http_proxy https_proxy req buf).1.content =
      request_text line_as_rendered http_proxy https_proxy req := by
    unfold http_request_to_buffer
    simp only
    by_cases hu : use_proxy http_proxy https_proxy req = true
    · simp only [hu, if_true, mget_buffer_strcat, mget_buffer_memcat, mget_buffer_bufcat]
      rw [request_lines_text _ _ (by rw [getLast?_append_of_ne_nil _ _ (by decide)]; decide)]
      simp only [mget_buffer_strcpy, mget_buffer_strcat, mget_buffer_memcat,
        mget_buffer_reset, request_text, request_head, request_tail, hu, cstr_iri_scheme_name,
        t1, t2, t3, t4, t5, t6, t7, List.take_length, List.nil_append, if_true,
        List.append_assoc]
    · simp only [hu, Bool.false_eq_true, if_false, mget_buffer_strcat, mget_buffer_memcat,
        mget_buffer_bufcat]
      rw [request_lines_text _ _ (by rw [getLast?_append_of_ne_nil _ _ (by decide)]; decide)]
      simp only [mget_buffer_strcpy, mget_buffer_strcat, mget_buffer_memcat,
        mget_buffer_reset, request_text, request_head, request_tail, hu,
        t1, t2, t3, t4, t5, t6, t7, List.take_length, List.nil_append, if_false,
        Bool.false_eq_true, List.append_assoc]
  refine ⟨key, ?_⟩
  rw [← key]
  rfl

/-- C14, amended: `http_request_to_buffer` overwrites the buffer with the method,
a space, `scheme://host` when a proxy is configured for the scheme of the
request, `/` and the escaped resource, ` HTTP/1.1\r\n`, `Host: <escaped_host>\r\n`,
every caller-supplied line in order, each followed by CRLF unless the line is
empty or already ends with a line feed, `Proxy-Connection: keep-alive\r\n` when
the proxy is used, and `\r\n`; it returns the length of that text, whatever
the buffer held before. -/
theorem C14_request_text (http_proxy https_proxy : Bool) (req : MGET_HTTP_REQUEST)
    (buf : mget_buffer_t) :
    (http_request_to_buffer http_proxy https_proxy req buf).1.content =
        request_text line_as_rendered http_proxy https_proxy req ∧
      (http_request_to_buffer http_proxy https_proxy req buf).2 =
        ((request_text line_as_rendered http_proxy https_proxy req).length : Int) :=
  http_request_to_buffer_text http_proxy https_proxy req buf

/-- C14 as stated fails: an empty caller-supplied line does not end with a line
feed, yet no CRLF is written for it (the last byte of the buffer is the line
feed of the line before); the text with a CRLF after every such line would
carry one more CRLF, an empty line in the middle of the header. -/
theorem C14_empty_line_counterexample :
    (http_request_to_buffer false false (sample_request [bytes "", bytes "A: b"])
        { content := bytes "old" }).1.content =
      bytes "GET /x HTTP/1.1\r\nHost: h\r\nA: b\r\n\r\n" ∧
    request_text line_with_crlf false false (sample_request [bytes "", bytes "A: b"]) =
      bytes "GET /x HTTP/1.1\r\nHost: h\r\n\r\nA: b\r\n\r\n" := by
  decide

/-- The request text for a proxied request with three sorts of caller-supplied
lines: without line end, ending in CRLF, ending in a line feed. -/
theorem http_request_to_buffer_example :
    http_request_to_buffer true false (sample_request [bytes "A: b", bytes "C: d\r\n", bytes "E: f\n"])
        { content := bytes "old", slack := [0] } =
      ({ content := bytes ("GET http://h/x HTTP/1.1\r\nHost: h\r\nA: b\r\nC: d\r\nE: f\n" ++
            "Proxy-Connection: keep-alive\r\n\r\n"),
         slack := [0] }, 83) := by
  decide

theorem ends_crlf_concat (Y : List Nat) (b a : Nat) :
    ends_crlf (Y ++ [b, a]) ↔ b = 13 ∧ a = 10 := by
  constructor
  · rintro ⟨pre, h⟩
    have := (List.append_inj' h rfl).2
    simp only [List.cons.injEq, and_true] at this
    exact this
  · rintro ⟨rfl, rfl⟩
    exact ⟨Y, rfl⟩

theorem last_line_cons (l : List Nat) (ls : List (List Nat)) :
    last_line (l :: ls) = (last_line ls).or (if cstr l = [] then none else some (cstr l)) := by
  unfold last_line
  simp only [List.map_cons, List.filter_cons]
  by_cases h : cstr l = []
  · simp [h]
  · have : (!(cstr l).isEmpty) = true := by
      cases hc : cstr l with
      | nil => exact absurd hc h
      | cons x xs => rfl
    simp only [this, if_true, h, if_false]
    exact getLast?_cons_or _ _ none

theorem eq_nil_or_append_singleton (l : List Nat) : l = [] ∨ ∃ L b, l = L ++ [b] := by
  rcases List.eq_nil_or_concat l with h | ⟨L, b, h⟩
  · exact Or.inl h
  · exact Or.inr ⟨L, b, by rw [h, List.concat_eq_append]⟩

/-- One caller-supplied line `k` appended to a text that ends with a line
feed: the text still ends with a line feed, and it ends with CRLF exactly when
`k` does not end in a bare line feed (when the text before did, for an empty
`k`). -/
theorem ends_crlf_line (X k : List Nat) (hX : X.getLast? = some 10) :
    (X ++ (k ++ (if k = [] ∨ k.getLast? = some 10 then [] else bytes "\r\n"))).getLast? = some 10 ∧
    (ends_crlf (X ++ (k ++ (if k = [] ∨ k.getLast? = some 10 then [] else bytes "\r\n"))) ↔
      match (if k = [] then none else some k) with
      | none => ends_crlf X
      | some k => bare_lf k = false) := by
  have hcrlf : bytes "\r\n" = [13, 10] := by decide
  rcases eq_nil_or_append_singleton k with he | ⟨l1, a, he⟩
  · subst he
    simp [hX]
  · subst he
    have hne : l1 ++ [a] ≠ [] := by simp
    have hlast : (l1 ++ [a]).getLast? = some a := by simp
    simp only [hne, if_false, false_or, hlast, Option.some.injEq]
    by_cases ha : a = 10
    · subst ha
      simp only [if_true, List.append_nil]
      refine ⟨by simp, ?_⟩
      rcases eq_nil_or_append_singleton l1 with h1 | ⟨l2, b, h1⟩
      · subst h1
        obtain ⟨X1, x, hX1⟩ : ∃ X1 x, X = X1 ++ [x] := by
          rcases eq_nil_or_append_singleton X with h | h
          · rw [h] at hX; simp at hX
          · exact h
        subst hX1
        have hx : x = 10 := by simpa using hX
        subst hx
        have : X1 ++ [10] ++ ([] ++ [10]) = X1 ++ [10, 10] := by simp
        rw [this, ends_crlf_concat]
        simp [bare_lf]
      · subst h1
        have : X ++ (l2 ++ [b] ++ [10]) = (X ++ l2) ++ [b, 10] := by simp
        rw [this, ends_crlf_concat]
        simp [bare_lf]
    · simp only [ha, if_false, hcrlf]
      refine ⟨by simp, ?_⟩
      have : X ++ (l1 ++ [a] ++ [13, 10]) = (X ++ l1 ++ [a]) ++ [13, 10] := by simp
      rw [this, ends_crlf_concat]
      simp [bare_lf, ha]

/-- Whether the text ends with CRLF after the caller-supplied lines have been
appended is decided by the last line that is not empty. -/
theorem ends_crlf_lines :
    ∀ (lines : List (List Nat)) (X : List Nat), X.getLast? = some 10 →
      (X ++ (lines.map line_as_rendered).flatten).getLast? = some 10 ∧
      (ends_crlf (X ++ (lines.map line_as_rendered).flatten) ↔
        match last_line lines with
        | none => ends_crlf X
        | some l => bare_lf l = false) := by
  intro lines
  induction lines with
  | nil =>
    intro X hX
    simp [last_line, hX]
  | cons l ls ih =>
    intro X hX
    have hshape : X ++ (List.map line_as_rendered (l :: ls)).flatten =
        (X ++ line_as_rendered l) ++ (List.map line_as_rendered ls).flatten := by
      simp
    rw [hshape, last_line_cons]
    have hstep := ends_crlf_line X (cstr l) hX
    obtain ⟨i1, i2⟩ := ih (X ++ line_as_rendered l) hstep.1
    refine ⟨i1, ?_⟩
    rw [i2]
    cases hl : last_line ls with
    | none =>
      simp only [Option.none_or]
      exact hstep.2
    | some k => simp

/-- The buffer `http_request_to_buffer` leaves ends with `\r\n\r\n` exactly when the
proxy is used or the last caller-supplied line that is not empty does not end
in a bare line feed. -/
theorem http_request_to_buffer_end (http_proxy https_proxy : Bool) (req : MGET_HTTP_REQUEST)
    (buf : mget_buffer_t) :
    (∃ pre, (http_request_to_buffer http_proxy https_proxy req buf).1.content = pre ++ CRLFCRLF) ↔
      (use_proxy http_proxy https_proxy req = true ∨
        ∀ l, last_line req.lines = some l → bare_lf l = false) := by
  rw [(http_request_to_buffer_text http_proxy https_proxy req buf).1]
  unfold request_text request_tail
  by_cases hu : use_proxy http_proxy https_proxy req = true
  · simp only [hu, if_true, true_or, iff_true]
    refine ⟨request_head http_proxy https_proxy req ++
      (req.lines.map line_as_rendered).flatten ++ bytes "Proxy-Connection: keep-alive", ?_⟩
    have : bytes "Proxy-Connection: keep-alive\r\n" ++ bytes "\r\n" =
        bytes "Proxy-Connection: keep-alive" ++ CRLFCRLF := by decide
    rw [this]
    simp
  · simp only [hu, Bool.false_eq_true, if_false, false_or, List.nil_append]
    have hhead : ∃ Y, request_head http_proxy https_proxy req = Y ++ [13, 10] := by
      unfold request_head
      exact ⟨_, by rw [show bytes "\r\n" = [13, 10] by decide]⟩
    obtain ⟨Y, hY⟩ := hhead
    have hlast : (request_head http_proxy https_proxy req).getLast? = some 10 := by
      rw [hY]; simp
    have hl := (ends_crlf_lines req.lines _ hlast).2
    have hE : (∃ pre, request_head http_proxy https_proxy req ++
          (req.lines.map line_as_rendered).flatten ++ bytes "\r\n" = pre ++ CRLFCRLF) ↔
        ends_crlf (request_head http_proxy https_proxy req ++
          (req.lines.map line_as_rendered).flatten) := by
      have hc : ∀ pre : List Nat, pre ++ CRLFCRLF = (pre ++ [13, 10]) ++ bytes "\r\n" := by
        intro pre
        rw [show bytes "\r\n" = [13, 10] by decide, show CRLFCRLF = [13, 10, 13, 10] by rfl]
        simp
      constructor
      · rintro ⟨pre, h⟩
        rw [hc] at h
        exact ⟨pre, List.append_cancel_right h⟩
      · rintro ⟨pre, h⟩
        exact ⟨pre, by rw [hc, h]⟩
    rw [hE, hl]
    cases hq : last_line req.lines with
    | none => simp [ends_crlf, hY]
    | some l => simp

/-- C12, amended: the buffer `http_request_to_buffer` produces ends with the four
bytes `\r\n\r\n` exactly when the proxy is used or the last caller-supplied
header line that is not empty does not end in a bare line feed; so it does
whenever no caller-supplied line ends in a line feed that no carriage return
precedes. -/
theorem C12_request_ends_with_empty_line (http_proxy https_proxy : Bool)
    (req : MGET_HTTP_REQUEST) (buf : mget_buffer_t) :
    (∃ pre, (http_request_to_buffer http_proxy https_proxy req buf).1.content = pre ++ CRLFCRLF) ↔
      (use_proxy http_proxy https_proxy req = true ∨
        ∀ l, last_line req.lines = some l → bare_lf l = false) :=
  http_request_to_buffer_end http_proxy https_proxy req buf

/-- C12 as stated fails: with the caller-supplied line `X: a\n`, which already
ends in a line feed, and no proxy the buffer ends with `a\n\r\n`. -/
theorem C12_bare_lf_counterexample :
    (http_request_to_buffer false false (sample_request [bytes "X: a\n"]) {}).1.content =
      bytes "GET /x HTTP/1.1\r\nHost: h\r\nX: a\n\r\n" ∧
    ¬ ∃ pre, (http_request_to_buffer false false (sample_request [bytes "X: a\n"]) {}).1.content =
      pre ++ CRLFCRLF := by
  refine ⟨by decide, ?_⟩
  rw [http_request_to_buffer_end]
  decide

/-! ## The lines of the request text -/

theorem lines_of_ne_nil (s : List Nat) : lines_of s ≠ [] := by
  cases s with
  | nil => simp [lines_of]
  | cons c cs =>
    unfold lines_of
    split_ifs
    · simp
    · split <;> simp

theorem lines_of_cons (c : Nat) (cs : List Nat) :
    lines_of (c :: cs) =
      if c = 10 then [] :: lines_of cs
      else
        match lines_of cs with
        | [] => [[c]]
        | l :: ls => (c :: l) :: ls := rfl

theorem lines_of_append (u v : List Nat) : lines_of (u ++ 10 :: v) = lines_of u ++ lines_of v := by
  induction u with
  | nil => simp [lines_of]
  | cons c cs ih =>
    rw [List.cons_append, lines_of_cons c (cs ++ 10 :: v), lines_of_cons c cs, ih]
    by_cases hc : c = 10
    · simp only [hc, if_true, List.cons_append]
    · simp only [hc, if_false]
      cases hq : lines_of cs with
      | nil => exact absurd hq (lines_of_ne_nil cs)
      | cons l ls => simp

theorem lines_of_no_lf (u : List Nat) (h : 10 ∉ u) : lines_of u = [u] := by
  induction u with
  | nil => rfl
  | cons c cs ih =>
    have hc : c ≠ 10 := fun e => h (by simp [e])
    have hcs : 10 ∉ cs := fun e => h (List.mem_cons_of_mem _ e)
    unfold lines_of
    simp [hc, ih hcs]

theorem host_lines_append (u v : List Nat) :
    host_lines (u ++ 10 :: v) = host_lines u + host_lines v := by
  simp [host_lines, lines_of_append, List.countP_append]

theorem host_lines_no_lf (u : List Nat) (h : 10 ∉ u) :
    host_lines u = if starts_with_host u then 1 else 0 := by
  simp only [host_lines, lines_of_no_lf u h, List.countP_cons, List.countP_nil, Nat.zero_add]

/-- A carriage return at the end of a line does not make it start with
`Host:`, nor does it stop it from doing so. -/
theorem starts_with_host_cr (l : List Nat) : starts_with_host (l ++ [13]) = starts_with_host l := by
  unfold starts_with_host
  rcases Nat.lt_or_ge l.length 5 with h | h
  · have h1 : (l.take 5 == bytes "Host:") = false := by
      apply beq_false_of_ne
      intro e
      have := congrArg List.length e
      simp only [List.length_take, bytes] at this
      simp at this
      omega
    have h2 : ((l ++ [13]).take 5 == bytes "Host:") = false := by
      apply beq_false_of_ne
      intro e
      have hm : 13 ∈ (l ++ [13]).take 5 := by
        rw [List.take_append_eq_append_take]
        have : 5 - l.length = (5 - l.length - 1) + 1 := by omega
        rw [this]
        simp
      rw [e] at hm
      revert hm
      decide
    rw [h1, h2]
  · rw [List.take_append_of_le_length h]

/-- The caller-supplied lines, when none of them contains a line feed, add to
the text one line per line that is not empty, and these lines start with
`Host:` when the caller-supplied line does. -/
theorem host_lines_rendered :
    ∀ (lines : List (List Nat)) (rest : List Nat), (∀ l ∈ lines, 10 ∉ cstr l) →
      host_lines ((lines.map line_as_rendered).flatten ++ rest) =
        (lines.filter (fun l => starts_with_host (cstr l))).length + host_lines rest := by
  intro lines
  induction lines with
  | nil => intro rest _; simp
  | cons l ls ih =>
    intro rest h
    have hl : 10 ∉ cstr l := h l (List.mem_cons_self _ _)
    have ih1 := ih rest (fun k hk => h k (List.mem_cons_of_mem _ hk))
    have hlast : (cstr l).getLast? ≠ some 10 := by
      intro e
      exact hl (List.mem_of_mem_getLast? e)
    simp only [List.map_cons, List.flatten_cons, List.filter_cons, line_as_rendered]
    by_cases he : cstr l = []
    · have hs : starts_with_host (cstr l) = false := by rw [he]; decide
      simp only [he, true_or, if_true, List.append_nil, List.nil_append, hs, Bool.false_eq_true,
        if_false]
      exact ih1
    · simp only [he, hlast, or_self, if_false]
      have hshape : cstr l ++ bytes "\r\n" ++ (List.map line_as_rendered ls).flatten ++ rest =
          (cstr l ++ [13]) ++ 10 :: ((List.map line_as_rendered ls).flatten ++ rest) := by
        rw [show bytes "\r\n" = [13, 10] by decide]
        simp
      have hno : 10 ∉ cstr l ++ [13] := by simp [hl]
      rw [hshape, host_lines_append, host_lines_no_lf _ hno, starts_with_host_cr]
      by_cases hs : starts_with_host (cstr l) = true
      · simp only [hs, if_true, List.length_cons]
        omega
      · simp only [hs, Bool.false_eq_true, if_false]
        omega

/-- A text that starts with a method (a run of token bytes) and a space does
not start with `Host:`. -/
theorem starts_with_host_method (m rest : List Nat) (hm : is_token_run m) :
    starts_with_host (m ++ 32 :: rest) = false := by
  unfold starts_with_host
  apply beq_false_of_ne
  intro e
  rcases Nat.lt_or_ge m.length 5 with h | h
  · have hmem : 32 ∈ (m ++ 32 :: rest).take 5 := by
      rw [List.take_append_eq_append_take]
      have : 5 - m.length = (5 - m.length - 1) + 1 := by omega
      rw [this]
      simp
    rw [e] at hmem
    revert hmem
    decide
  · rw [List.take_append_of_le_length h] at e
    have hmem : 58 ∈ m := List.mem_of_mem_take (by rw [e]; decide)
    have := hm 58 hmem
    revert this
    decide

theorem is_token_run_no_lf (m : List Nat) (hm : is_token_run m) : 10 ∉ m := by
  intro h
  have := hm 10 h
  revert this
  decide

/-- The number of lines starting with `Host:` in the buffer `http_request_to_buffer`
leaves, for a request whose method is a token, whose escaped host and resource
are free of line feeds and whose caller-supplied lines are free of them: the
line the function writes and the caller-supplied lines that start so. -/
theorem http_request_to_buffer_host_lines (http_proxy https_proxy : Bool)
    (req : MGET_HTTP_REQUEST) (buf : mget_buffer_t)
    (hm : is_token_run (cstr req.method)) (hh : 10 ∉ req.esc_host)
    (hr : 10 ∉ req.esc_resource) (hl : ∀ l ∈ req.lines, 10 ∉ cstr l) :
    host_lines (http_request_to_buffer http_proxy https_proxy req buf).1.content =
      1 + (req.lines.filter (fun l => starts_with_host (cstr l))).length := by
  rw [(http_request_to_buffer_text http_proxy https_proxy req buf).1]
  obtain ⟨R, hR, hR10⟩ : ∃ R, (cstr req.method ++ bytes " " ++
      (if use_proxy http_proxy https_proxy req then
        iri_scheme_name req.scheme ++ bytes "://" ++ req.esc_host else []) ++
      bytes "/" ++ req.esc_resource ++ bytes " HTTP/1.1\r\n") =
        (cstr req.method ++ 32 :: R ++ [13]) ++ [10] ∧ 10 ∉ R := by
    refine ⟨(if use_proxy http_proxy https_proxy req then
        iri_scheme_name req.scheme ++ bytes "://" ++ req.esc_host else []) ++
      bytes "/" ++ req.esc_resource ++ bytes " HTTP/1.1", ?_, ?_⟩
    · rw [show bytes " HTTP/1.1\r\n" = bytes " HTTP/1.1" ++ [13] ++ [10] by decide,
        show bytes " " = [32] by decide]
      simp
    · have hs : 10 ∉ iri_scheme_name req.scheme := by cases req.scheme <;> decide
      have h1 : 10 ∉ bytes "://" := by decide
      have h2 : 10 ∉ bytes "/" := by decide
      have h3 : 10 ∉ bytes " HTTP/1.1" := by decide
      by_cases hu : use_proxy http_proxy https_proxy req = true
      · simp [hu, hs, h1, h2, h3, hh, hr]
      · simp [hu, h2, h3, hr]
  have hshape : request_text line_as_rendered http_proxy https_proxy req =
      (cstr req.method ++ 32 :: R ++ [13]) ++ 10 ::
        ((bytes "Host: " ++ req.esc_host ++ [13]) ++ 10 ::
          ((req.lines.map line_as_rendered).flatten ++ request_tail http_proxy https_proxy req)) := by
    unfold request_text request_head
    rw [hR, show bytes "\r\n" = [13, 10] by decide]
    simp
  have hm10 := is_token_run_no_lf _ hm
  have hno1 : 10 ∉ cstr req.method ++ 32 :: R ++ [13] := by simp [hm10, hR10]
  have hno2 : 10 ∉ bytes "Host: " ++ req.esc_host ++ [13] := by
    have : 10 ∉ bytes "Host: " := by decide
    simp [this, hh]
  have hs1 : starts_with_host (cstr req.method ++ 32 :: R ++ [13]) = false := by
    have : cstr req.method ++ 32 :: R ++ [13] = cstr req.method ++ 32 :: (R ++ [13]) := by simp
    rw [this]
    exact starts_with_host_method _ _ hm
  have hs2 : starts_with_host (bytes "Host: " ++ req.esc_host ++ [13]) = true := by
    rw [show bytes "Host: " = 72 :: 111 :: 115 :: 116 :: 58 :: [32] by decide]
    rfl
  have htail : host_lines (request_tail http_proxy https_proxy req) = 0 := by
    unfold request_tail
    by_cases hu : use_proxy http_proxy https_proxy req = true
    · simp only [hu, if_true]; decide
    · simp only [hu, Bool.false_eq_true, if_false]; decide
  rw [hshape, host_lines_append, host_lines_append, host_lines_no_lf _ hno1,
    host_lines_no_lf _ hno2, hs1, hs2, host_lines_rendered _ _ hl, htail]
  simp

/-- C13, amended: for a request whose method is a token, whose escaped host and
escaped resource contain no line feed and whose caller-supplied header lines
contain none, the buffer `http_request_to_buffer` produces contains the line
`Host:` the function writes and, besides, one line starting with `Host:` for
every caller-supplied line that starts so: exactly one such line when no
caller-supplied line starts with `Host:`. -/
theorem C13_host_lines (http_proxy https_proxy : Bool)
    (req : MGET_HTTP_REQUEST) (buf : mget_buffer_t)
    (hm : is_token_run (cstr req.method)) (hh : 10 ∉ req.esc_host)
    (hr : 10 ∉ req.esc_resource) (hl : ∀ l ∈ req.lines, 10 ∉ cstr l) :
    host_lines (http_request_to_buffer http_proxy https_proxy req buf).1.content =
      1 + (req.lines.filter (fun l => starts_with_host (cstr l))).length :=
  http_request_to_buffer_host_lines http_proxy https_proxy req buf hm hh hr hl

/-- C13 at a proxied request with two caller-supplied lines, none of which
starts with `Host:`: the buffer holds exactly one such line. -/
theorem C13_host_lines_witness :
    host_lines (http_request_to_buffer true false
        (sample_request [bytes "Accept: */*", bytes "X-Host: h"]) {}).1.content =
      1 + ([bytes "Accept: */*", bytes "X-Host: h"].filter
        (fun l => starts_with_host (cstr l))).length ∧
    ([bytes "Accept: */*", bytes "X-Host: h"].filter
        (fun l => starts_with_host (cstr l))).length = 0 :=
  ⟨C13_host_lines true false (sample_request [bytes "Accept: */*", bytes "X-Host: h"]) {}
      (by decide) (by decide) (by decide) (by decide),
    by decide⟩

/-- C13 as stated fails: when the caller has appended the line `Host: other`,
the buffer holds two lines that start with `Host:`. -/
theorem C13_caller_host_counterexample :
    (http_request_to_buffer false false (sample_request [bytes "Host: other"]) {}).1.content =
      bytes "GET /x HTTP/1.1\r\nHost: h\r\nHost: other\r\n\r\n" ∧
    host_lines (http_request_to_buffer false false
      (sample_request [bytes "Host: other"]) {}).1.content = 2 := by
  decide

/-! ## The formatted append: pointers and unknown conversions -/

/-- C19 (code defect): a `%p` written with a flag or a field width is not
converted by `_convert_pointer` but by `_convert_dec`, which never looks at
`FLAG_ALTERNATE`: for the pointer value `0x1f` the conversions `%-p` and `%20p`
append `1f` (the latter after 18 spaces) without `0x`, and `%-p` appends `0`
for the null pointer, whereas the plain `%p` appends `0x1f` and `0x0`. -/
theorem C19_pointer_with_flag_or_width :
    mget_buffer_vprintf_append2 {} (bytes "%-p") [Arg.ptr 31] =
      some ({ content := bytes "1f", slack := [0] }, 2) ∧
    mget_buffer_vprintf_append2 {} (bytes "%20p") [Arg.ptr 31] =
      some ({ content := bytes "                  1f", slack := [0] }, 20) ∧
    mget_buffer_vprintf_append2 {} (bytes "%-p") [Arg.ptr 0] =
      some ({ content := bytes "0", slack := [0] }, 1) ∧
    mget_buffer_vprintf_append2 {} (bytes "%p") [Arg.ptr 31] =
      some ({ content := bytes "0x1f", slack := [0] }, 4) ∧
    mget_buffer_vprintf_append2 {} (bytes "%p") [Arg.ptr 0] =
      some ({ content := bytes "0x0", slack := [0] }, 3) := by
  decide

/-- C20 (code defect): after an unknown conversion specifier the parsing is
taken up at `begin + 1`, and `begin` is the start of the plain text before the
`%`, not the `%`: the format `abc%q` appends `abc%bc%c%%q`, the text before the
`%` being run through again from its second byte, then from its third, and a
`%` being written each time.  Only when no plain text stands before the `%`
(`%q`) is the `%` written once and the parsing continued after it.  The
arguments make no difference. -/
theorem C20_unknown_conversion_rewinds :
    mget_buffer_vprintf_append2 {} (bytes "abc%q") [] =
      some ({ content := bytes "abc%bc%c%%q", slack := [0] }, 11) ∧
    mget_buffer_vprintf_append2 {} (bytes "abc%q") [Arg.int 1, Arg.int 2, Arg.int 3, Arg.int 4] =
      some ({ content := bytes "abc%bc%c%%q", slack := [0] }, 11) ∧
    mget_buffer_vprintf_append2 {} (bytes "%q") [] =
      some ({ content := bytes "%q", slack := [0] }, 2) := by
  decide

/-- C18 (code defect): the plain `%d` is converted by `_convert_dec_fast`, whose
negation `arg = -arg` leaves the least `int` negative: for -2147483648 the
digit loop is not entered, the one digit written is `(arg % 10) + '0'`, the
byte `(`, and `-(` is appended.  The conversions `%i` and `%1d`, which go
through `_convert_dec`, append `-2147483648`. -/
theorem C18_plain_d_least_int :
    mget_buffer_vprintf_append2 {} (bytes "%d") [Arg.int (-2147483648)] =
      some ({ content := bytes "-(", slack := [0] }, 2) ∧
    mget_buffer_vprintf_append2 {} (bytes "%i") [Arg.int (-2147483648)] =
      some ({ content := bytes "-2147483648", slack := [0] }, 11) ∧
    mget_buffer_vprintf_append2 {} (bytes "%1d") [Arg.int (-2147483648)] =
      some ({ content := bytes "-2147483648", slack := [0] }, 11) := by
  decide

/-! ## The formatted append: plain text and `%s` -/

theorem mget_buffer_memcat_content (buf : mget_buffer_t) (data : List Nat) (n : Nat) :
    (mget_buffer_memcat buf data n).content = buf.content ++ data.take n := rfl

theorem mget_buffer_strcat_content (buf : mget_buffer_t) (s : List Nat) :
    (mget_buffer_strcat buf s).content = buf.content ++ cstr s := by
  simp [mget_buffer_strcat, mget_buffer_memcat]

theorem mget_buffer_memset_append_content (buf : mget_buffer_t) (c n : Nat) :
    (mget_buffer_memset_append buf c n).content = buf.content ++ List.replicate n c := rfl

theorem cur_plain_append (plain rest : List Nat) (hp : is_plain plain) :
    cur (plain ++ 37 :: rest) ≠ 0 := by
  cases plain with
  | nil => simp [cur]
  | cons c cs => simpa [cur] using (hp c (List.mem_cons_self _ _)).1

/-- The formatter on a format made of plain texts and `%s`, with a string for
every `%s`: the texts and the strings are appended in turn. -/
theorem vprintf_loop_s_format :
    ∀ (pieces : List (List Nat × List Nat)) (last : List Nat) (fuel : Nat) (buf : mget_buffer_t),
      (∀ q ∈ pieces, is_plain q.1) → is_plain last → pieces.length < fuel →
      ∃ b, vprintf_loop fuel buf (s_format (pieces.map Prod.fst) last)
          (pieces.map (fun q => Arg.str (some q.2))) = some b ∧
        b.content = buf.content ++ (pieces.map (fun q => q.1 ++ cstr q.2)).flatten ++ last := by
  intro pieces
  induction pieces with
  | nil =>
    intro last fuel buf _ hl hf
    obtain ⟨f, rfl⟩ : ∃ f, fuel = f + 1 := ⟨fuel - 1, by simp at hf; omega⟩
    have htw : last.takeWhile (fun c => c != 0 && c != 37) = last := by
      apply List.takeWhile_eq_self_iff.mpr
      intro c hc
      have := hl c hc
      simp [this.1, this.2]
    have hdw : last.dropWhile (fun c => c != 0 && c != 37) = [] := by
      apply List.dropWhile_eq_nil_iff.mpr
      intro c hc
      have := hl c hc
      simp [this.1, this.2]
    simp only [List.map_nil, s_format, vprintf_loop, htw, hdw]
    by_cases hc : cur last = 0
    · have : last = [] := by
        cases last with
        | nil => rfl
        | cons c cs => exact absurd hc (by simpa [cur] using (hl c (List.mem_cons_self _ _)).1)
      subst this
      exact ⟨buf, by simp [cur], by simp⟩
    · have hne : last ≠ [] := by
        intro e
        exact hc (by rw [e]; rfl)
      simp only [hc, if_false, hne, ne_eq, not_false_eq_true, if_true]
      exact ⟨mget_buffer_memcat buf last last.length, by simp [cur],
        by simp [mget_buffer_memcat]⟩
  | cons q qs ih =>
    intro last fuel buf hq hl hf
    obtain ⟨f, rfl⟩ : ∃ f, fuel = f + 1 := ⟨fuel - 1, by simp at hf; omega⟩
    have hq1 : is_plain q.1 := hq q (List.mem_cons_self _ _)
    have hpred : ∀ a ∈ q.1, (fun c => c != 0 && c != 37) a = true := by
      intro c hc
      have := hq1 c hc
      simp [this.1, this.2]
    have htw : (q.1 ++ 37 :: 115 :: s_format (qs.map Prod.fst) last).takeWhile
        (fun c => c != 0 && c != 37) = q.1 :=
      takeWhile_append_stop q.1 _ 37 hpred (by simp)
    have hdw : (q.1 ++ 37 :: 115 :: s_format (qs.map Prod.fst) last).dropWhile
        (fun c => c != 0 && c != 37) = 37 :: 115 :: s_format (qs.map Prod.fst) last :=
      dropWhile_append_stop q.1 _ 37 hpred (by simp)
    have hcur := cur_plain_append q.1 (115 :: s_format (qs.map Prod.fst) last) hq1
    obtain ⟨b, hb1, hb2⟩ := ih last f
      (mget_buffer_strcat
        (if q.1 ≠ [] then mget_buffer_memcat buf q.1 q.1.length else buf) q.2)
      (fun k hk => hq k (List.mem_cons_of_mem _ hk)) hl (by simp at hf; omega)
    refine ⟨b, ?_, ?_⟩
    · simp only [List.map_cons, s_format, vprintf_loop, hcur, if_false, htw, hdw]
      simp only [cur, List.headD_cons, List.tail_cons, va_arg_str]
      simpa using hb1
    · rw [hb2, mget_buffer_strcat_content]
      by_cases he : q.1 = []
      · simp [he]
      · simp [he, mget_buffer_memcat]

/-- The formatted append of a format made of plain texts and `%s`: the call
returns, and the buffer holds what it held, the texts and the strings. -/
theorem mget_buffer_vprintf_append2_s_format (pieces : List (List Nat × List Nat))
    (last : List Nat) (buf : mget_buffer_t)
    (hq : ∀ q ∈ pieces, is_plain q.1) (hl : is_plain last) :
    ∃ b, mget_buffer_vprintf_append2 buf (s_format (pieces.map Prod.fst) last)
        (pieces.map (fun q => Arg.str (some q.2))) = some (b, b.content.length) ∧
      b.content = buf.content ++ (pieces.map (fun q => q.1 ++ cstr q.2)).flatten ++ last := by
  have hlen : ∀ (ps : List (List Nat)), ps.length ≤ (s_format ps last).length := by
    intro ps
    induction ps with
    | nil => simp
    | cons p ps ih => simp only [s_format, List.length_append, List.length_cons]; omega
  obtain ⟨b, h1, h2⟩ := vprintf_loop_s_format pieces last
    ((s_format (pieces.map Prod.fst) last).length + 1) buf hq hl
    (by have := hlen (pieces.map Prod.fst); simp at this; omega)
  exact ⟨b, by simp [mget_buffer_vprintf_append2, h1], h2⟩

/-! ## Credentials -/

theorem cstr_no_nul (s : List Nat) : 0 ∉ cstr s := by
  intro h
  have := List.mem_takeWhile_imp h
  simp at this

theorem cstr_cstr (s : List Nat) : cstr (cstr s) = cstr s :=
  cstr_of_no_nul _ (fun _ hc e => cstr_no_nul s (e ▸ hc))

theorem cstr_eq_of_not_mem (s : List Nat) (h : 0 ∉ s) : cstr s = s :=
  cstr_of_no_nul _ (fun _ hc e => h (e ▸ hc))

/-- The digits `convert_digits` writes are among the bytes the digit function
gives. -/
theorem convert_digits_mem (base : Nat) (digit : Nat → Nat) (P : Nat → Prop)
    (hd : ∀ c, P (digit c)) :
    ∀ (fuel argu : Nat) (acc : List Nat), (∀ c ∈ acc, P c) →
      ∀ c ∈ convert_digits base digit fuel argu acc, P c := by
  intro fuel
  induction fuel with
  | zero => intro argu acc h; simpa [convert_digits] using h
  | succ f ih =>
    intro argu acc h
    unfold convert_digits
    split_ifs
    · exact h
    · apply ih
      intro c hc
      rcases List.mem_cons.mp hc with e | e
      · rw [e]; exact hd _
      · exact h c e

theorem hex08_no_nul (v : Nat) : 0 ∉ hex08 v := by
  intro h
  unfold hex08 at h
  have h1 := List.mem_of_mem_take h
  rcases List.mem_append.mp h1 with e | e
  · have := List.eq_of_mem_replicate e
    omega
  · have := convert_digits_mem 16 (fun c => if 10 ≤ c then c + 97 - 10 else c + 48)
      (fun c => c ≠ 0) (by intro c; dsimp only; split_ifs <;> omega) 32 v [] (by simp) 0 e
    exact this rfl

/-- The same with the plain texts and the strings given as two lists. -/
theorem mget_buffer_vprintf_append2_strings (plains strs : List (List Nat))
    (last : List Nat) (buf : mget_buffer_t) (hlen : plains.length = strs.length)
    (hq : ∀ p ∈ plains, is_plain p) (hl : is_plain last) :
    ∃ b, mget_buffer_vprintf_append2 buf (s_format plains last)
        (strs.map (fun s => Arg.str (some s))) = some (b, b.content.length) ∧
      b.content = buf.content ++ ((plains.zip strs).map (fun q => q.1 ++ cstr q.2)).flatten ++
        last := by
  obtain ⟨b, h1, h2⟩ := mget_buffer_vprintf_append2_s_format (plains.zip strs) last buf
    (fun q hq1 => hq q.1 (List.of_mem_zip hq1).1) hl
  have e1 : (plains.zip strs).map Prod.fst = plains := List.map_fst_zip _ _ (by omega)
  have e2 : (plains.zip strs).map (fun q => Arg.str (some q.2)) =
      strs.map (fun s => Arg.str (some s)) := by
    have : (plains.zip strs).map Prod.snd = strs := List.map_snd_zip _ _ (by omega)
    conv_rhs => rw [← this]
    simp
  rw [e1, e2] at h1
  exact ⟨b, h1, h2⟩

/-- The `Authorization` line `http_add_credentials` appends for a Digest challenge
with realm, nonce, the quality of protection `auth` and the algorithm `MD5`. -/
theorem http_add_credentials_digest_auth (md5_hex base64 : List Nat → List Nat) (lrand48 : Nat)
    (req : MGET_HTTP_REQUEST) (challenge : MGET_HTTP_CHALLENGE)
    (username password : Option (List Nat)) (scheme realm nonce qop algorithm : List Nat)
    (hmd5 : ∀ x, 0 ∉ md5_hex x)
    (hs : challenge.auth_scheme = some scheme) (hd : strcaseeq scheme (bytes "digest") = true)
    (hrealm : mget_stringmap_get challenge.params (bytes "realm") = some realm)
    (hnonce : mget_stringmap_get challenge.params (bytes "nonce") = some nonce)
    (hqop : mget_stringmap_get challenge.params (bytes "qop") = some qop)
    (hq : cstr qop = bytes "auth")
    (halg : mget_stringmap_get challenge.params (bytes "algorithm") = some algorithm)
    (ha : cstr algorithm = bytes "MD5") :
    http_add_credentials md5_hex base64 lrand48 req (some challenge) username password =
      some { req with
        lines := req.lines ++
          [digest_auth_line (cstr (username.getD [])) (cstr realm) (cstr nonce)
            (cstr req.esc_resource)
            (digest_auth_response md5_hex (cstr (username.getD [])) (cstr realm)
              (cstr (password.getD [])) (cstr nonce) (hex08 lrand48) (cstr req.method)
              (cstr req.esc_resource))
            (hex08 lrand48)
            ((mget_stringmap_get challenge.params (bytes "opaque")).map cstr)] } := by
  have hb : strcaseeq scheme (bytes "basic") = false := by
    rw [strcaseeq_of_eq scheme _ hd]; decide
  have e1 : mget_streq (some qop) (some (bytes "auth")) = true := by
    simp only [mget_streq, hq]; decide
  have e2 : mget_streq (some algorithm) (some (bytes "MD5")) = true := by
    simp only [mget_streq, ha]; decide
  have e3 : mget_streq (some algorithm) (some (bytes "MD5-sess")) = false := by
    simp only [mget_streq, ha]; decide
  have hc : cstr (hex08 lrand48) = hex08 lrand48 := cstr_eq_of_not_mem _ (hex08_no_nul _)
  have hm : ∀ x, cstr (md5_hex x) = md5_hex x := fun x => cstr_eq_of_not_mem _ (hmd5 x)
  have f1 : bytes ("Authorization: Digest " ++
        "username=\"%s\", realm=\"%s\", nonce=\"%s\", uri=\"/%s\", response=\"%s\"") =
      s_format [bytes "Authorization: Digest username=\"", bytes "\", realm=\"",
        bytes "\", nonce=\"", bytes "\", uri=\"/", bytes "\", response=\""] (bytes "\"") := by
    decide
  have f2 : bytes ", qop=auth, nc=00000001, cnonce=\"%s\"" =
      s_format [bytes ", qop=auth, nc=00000001, cnonce=\""] (bytes "\"") := by decide
  have f3 : bytes ", opaque=\"%s\"" = s_format [bytes ", opaque=\""] (bytes "\"") := by decide
  have f4 : bytes ", algorithm=%s" = s_format [bytes ", algorithm="] [] := by decide
  obtain ⟨b1, h1, c1⟩ := mget_buffer_vprintf_append2_strings
    [bytes "Authorization: Digest username=\"", bytes "\", realm=\"", bytes "\", nonce=\"",
      bytes "\", uri=\"/", bytes "\", response=\""]
    [username.getD [], realm, nonce, req.esc_resource,
      digest_auth_response md5_hex (cstr (username.getD [])) (cstr realm)
        (cstr (password.getD [])) (cstr nonce) (hex08 lrand48) (cstr req.method)
        (cstr req.esc_resource)]
    (bytes "\"") {} rfl (by decide) (by decide)
  obtain ⟨b2, h2, c2⟩ := mget_buffer_vprintf_append2_strings
    [bytes ", qop=auth, nc=00000001, cnonce=\""] [hex08 lrand48] (bytes "\"") b1 rfl
    (by decide) (by decide)
  have hresp : md5_hex (cstr (md5_hex (cstr (username.getD []) ++ bytes ":" ++ cstr realm ++
        bytes ":" ++ cstr (password.getD []))) ++ bytes ":" ++ cstr nonce ++ bytes ":00000001:" ++
        cstr (hex08 lrand48) ++ bytes ":" ++ cstr qop ++ bytes ":" ++
        cstr (md5_hex (cstr req.method ++ bytes ":/" ++ cstr req.esc_resource))) =
      digest_auth_response md5_hex (cstr (username.getD [])) (cstr realm)
          (cstr (password.getD [])) (cstr nonce) (hex08 lrand48) (cstr req.method)
          (cstr req.esc_resource) := by
    rw [hm, hm, hc, hq]
    unfold digest_auth_response
    rw [show bytes ":auth:" = bytes ":" ++ bytes "auth" ++ bytes ":" by decide]
    simp only [List.append_assoc]
  unfold http_add_credentials
  simp only [hs, hd, hb, hrealm, hnonce, hqop, halg, e1, e2, e3, Bool.not_true, Bool.false_eq_true,
    if_false, if_true, Bool.true_or, Bool.false_and, true_and, Option.getD_some, hresp,
    mget_buffer_printf2, mget_buffer_vprintf2, mget_buffer_printf_append2, f1, f2, f3, f4]
  have hreset : mget_buffer_reset {} = ({} : mget_buffer_t) := rfl
  simp only [List.map_cons, List.map_nil] at h1 h2
  rw [hreset, h1]
  simp only [Option.some_bind, h2]
  have hline : ∀ (b : mget_buffer_t) (X : List Nat), b.content = X → 0 ∉ X →
      cstr b.content = X := fun b X e h => by rw [e]; exact cstr_eq_of_not_mem _ h
  have hdr : cstr (digest_auth_response md5_hex (cstr (username.getD [])) (cstr realm)
        (cstr (password.getD [])) (cstr nonce) (hex08 lrand48) (cstr req.method)
        (cstr req.esc_resource)) =
      digest_auth_response md5_hex (cstr (username.getD [])) (cstr realm)
        (cstr (password.getD [])) (cstr nonce) (hex08 lrand48) (cstr req.method)
        (cstr req.esc_resource) := hm _
  have hnr : 0 ∉ digest_auth_response md5_hex (cstr (username.getD [])) (cstr realm)
        (cstr (password.getD [])) (cstr nonce) (hex08 lrand48) (cstr req.method)
        (cstr req.esc_resource) := hmd5 _
  have halg2 : bytes ", algorithm=MD5" = bytes ", algorithm=" ++ bytes "MD5" := by decide
  have hqop2 : bytes "\", qop=auth, nc=00000001, cnonce=\"" =
      bytes "\"" ++ bytes ", qop=auth, nc=00000001, cnonce=\"" := by decide
  have n1 : 0 ∉ bytes "Authorization: Digest username=\"" := by decide
  have n2 : 0 ∉ bytes "\", realm=\"" := by decide
  have n3 : 0 ∉ bytes "\", nonce=\"" := by decide
  have n4 : 0 ∉ bytes "\", uri=\"/" := by decide
  have n5 : 0 ∉ bytes "\", response=\"" := by decide
  have n6 : 0 ∉ bytes "\"" := by decide
  have n7 : 0 ∉ bytes "\", qop=auth, nc=00000001, cnonce=\"" := by decide
  have n8 : 0 ∉ bytes ", algorithm=MD5" := by decide
  have n9 : 0 ∉ bytes ", opaque=\"" := by decide
  cases hopq : mget_stringmap_get challenge.params (bytes "opaque") with
  | none =>
    obtain ⟨b4, h4, c4⟩ := mget_buffer_vprintf_append2_strings
      [bytes ", algorithm="] [algorithm] [] b2 rfl (by decide) (by decide)
    simp only [List.map_cons, List.map_nil] at h4
    have hfin := hline b4
      (digest_auth_line (cstr (username.getD [])) (cstr realm) (cstr nonce)
        (cstr req.esc_resource)
        (digest_auth_response md5_hex (cstr (username.getD [])) (cstr realm)
          (cstr (password.getD [])) (cstr nonce) (hex08 lrand48) (cstr req.method)
          (cstr req.esc_resource))
        (hex08 lrand48) none)
      (by
        rw [c4, c2, c1]
        simp only [digest_auth_line, List.zip_cons_cons, List.zip_nil_right, List.map_cons,
          List.map_nil, List.flatten_cons, List.flatten_nil, List.append_nil, List.append_assoc,
          ha, hdr, hc, List.nil_append, halg2, hqop2])
      (by
        simp only [digest_auth_line, List.mem_append, not_or, List.append_nil]
        simp [n1, n2, n3, n4, n5, n6, n7, n8, cstr_no_nul, hnr, hex08_no_nul])
    simp only [Option.some_bind, h4, Option.map_some', mget_vector_add, Option.map_none', hfin]
  | some o =>
    obtain ⟨b3, h3, c3⟩ := mget_buffer_vprintf_append2_strings
      [bytes ", opaque=\""] [o] (bytes "\"") b2 rfl (by decide) (by decide)
    obtain ⟨b4, h4, c4⟩ := mget_buffer_vprintf_append2_strings
      [bytes ", algorithm="] [algorithm] [] b3 rfl (by decide) (by decide)
    simp only [List.map_cons, List.map_nil] at h3 h4
    have hfin := hline b4
      (digest_auth_line (cstr (username.getD [])) (cstr realm) (cstr nonce)
        (cstr req.esc_resource)
        (digest_auth_response md5_hex (cstr (username.getD [])) (cstr realm)
          (cstr (password.getD [])) (cstr nonce) (hex08 lrand48) (cstr req.method)
          (cstr req.esc_resource))
        (hex08 lrand48) (some (cstr o)))
      (by
        rw [c4, c3, c2, c1]
        simp only [digest_auth_line, List.zip_cons_cons, List.zip_nil_right, List.map_cons,
          List.map_nil, List.flatten_cons, List.flatten_nil, List.append_nil, List.append_assoc,
          ha, hdr, hc, List.nil_append, halg2, hqop2])
      (by
        simp only [digest_auth_line, List.mem_append, not_or, List.append_nil]
        simp [n1, n2, n3, n4, n5, n6, n7, n8, n9, cstr_no_nul, hnr, hex08_no_nul])
    simp only [Option.some_bind, h3, h4, Option.map_some', mget_vector_add, hfin]

theorem sample_digest_no_nul (x : List Nat) : 0 ∉ sample_digest x := by
  unfold sample_digest
  intro h
  rcases List.mem_append.mp h with e | e
  · have := List.eq_of_mem_replicate e
    omega
  · simp at e
    omega

/-- C15: for a Digest challenge with realm, nonce, the quality of protection
`auth` and the algorithm `MD5`, `http_add_credentials` appends exactly one header
line, `Authorization: Digest username="U", realm="R", nonce="N", uri="/RES",
response="H", qop=auth, nc=00000001, cnonce="C"`, then `, opaque="O"` when the
challenge has one, then `, algorithm=MD5`, where `H` is
`md5_hex(md5_hex(U:R:P) : N : 00000001 : C : auth : md5_hex(METHOD:/RES))`, `C`
is the client nonce (eight hexadecimal digits of the random number) and the
`uri` field carries the string `/RES` that is hashed. -/
theorem C15_digest_auth_line (md5_hex base64 : List Nat → List Nat) (lrand48 : Nat)
    (req : MGET_HTTP_REQUEST) (challenge : MGET_HTTP_CHALLENGE)
    (username password : Option (List Nat)) (scheme realm nonce qop algorithm : List Nat)
    (hmd5 : ∀ x, 0 ∉ md5_hex x)
    (hs : challenge.auth_scheme = some scheme) (hd : strcaseeq scheme (bytes "digest") = true)
    (hrealm : mget_stringmap_get challenge.params (bytes "realm") = some realm)
    (hnonce : mget_stringmap_get challenge.params (bytes "nonce") = some nonce)
    (hqop : mget_stringmap_get challenge.params (bytes "qop") = some qop)
    (hq : cstr qop = bytes "auth")
    (halg : mget_stringmap_get challenge.params (bytes "algorithm") = some algorithm)
    (ha : cstr algorithm = bytes "MD5") :
    http_add_credentials md5_hex base64 lrand48 req (some challenge) username password =
      some { req with
        lines := req.lines ++
          [digest_auth_line (cstr (username.getD [])) (cstr realm) (cstr nonce)
            (cstr req.esc_resource)
            (digest_auth_response md5_hex (cstr (username.getD [])) (cstr realm)
              (cstr (password.getD [])) (cstr nonce) (hex08 lrand48) (cstr req.method)
              (cstr req.esc_resource))
            (hex08 lrand48)
            ((mget_stringmap_get challenge.params (bytes "opaque")).map cstr)] } :=
  http_add_credentials_digest_auth md5_hex base64 lrand48 req challenge username password
    scheme realm nonce qop algorithm hmd5 hs hd hrealm hnonce hqop hq halg ha

set_option maxRecDepth 4000 in
/-- C15 at scenario 5 of the specification: the challenge
`Digest realm="r", nonce="n", qop="auth", algorithm=MD5`, the request `GET /x`,
the credentials `u` and `p`, the client nonce `00000000`. -/
theorem C15_digest_auth_line_witness :
    http_add_credentials sample_digest sample_digest 0 sample_get (some sample_challenge)
        (some (bytes "u")) (some (bytes "p")) =
      some { sample_get with
        lines := sample_get.lines ++
          [digest_auth_line (cstr ((some (bytes "u")).getD [])) (cstr (bytes "r"))
            (cstr (bytes "n")) (cstr sample_get.esc_resource)
            (digest_auth_response sample_digest (cstr ((some (bytes "u")).getD []))
              (cstr (bytes "r")) (cstr ((some (bytes "p")).getD [])) (cstr (bytes "n")) (hex08 0)
              (cstr sample_get.method) (cstr sample_get.esc_resource))
            (hex08 0)
            ((mget_stringmap_get sample_challenge.params (bytes "opaque")).map cstr)] } ∧
    digest_auth_line (bytes "u") (bytes "r") (bytes "n") (bytes "x")
        (digest_auth_response sample_digest (bytes "u") (bytes "r") (bytes "p") (bytes "n")
          (hex08 0) (bytes "GET") (bytes "x"))
        (hex08 0) none =
      bytes ("Authorization: Digest username=\"u\", realm=\"r\", nonce=\"n\", uri=\"/x\", " ++
        "response=\"00000000000000000000000000000090\", " ++
        "qop=auth, nc=00000001, cnonce=\"00000000\", algorithm=MD5") :=
  ⟨C15_digest_auth_line sample_digest sample_digest 0 sample_get sample_challenge
      (some (bytes "u")) (some (bytes "p")) (bytes "Digest") (bytes "r") (bytes "n")
      (bytes "auth") (bytes "MD5") sample_digest_no_nul (by decide) (by decide) (by decide)
      (by decide) (by decide) (by decide) (by decide) (by decide),
    by decide⟩

/-- C16 (code defect): for the challenge `Digest realm="r", nonce="n",
algorithm=MD5`, which has no qop parameter, the test `mget_strcmp(qop, "auth")`
on the `NULL` qop makes `http_add_credentials` return before anything is computed:
the request keeps its header lines, no `Authorization` line is appended.  The
branch that computes `md5_hex(A1 ":" nonce ":" A2)` for an absent qop is never
reached. -/
theorem C16_unset_qop_no_credentials :
    (http_parse_challenge (bytes "Digest realm=\"r\", nonce=\"n\", algorithm=MD5")).2 =
      { auth_scheme := some (bytes "Digest"),
        params := some [(bytes "realm", some (bytes "r")), (bytes "nonce", some (bytes "n")),
          (bytes "algorithm", some (bytes "MD5"))] } ∧
    http_add_credentials sample_digest sample_digest 0 sample_get
        (some (http_parse_challenge (bytes "Digest realm=\"r\", nonce=\"n\", algorithm=MD5")).2)
        (some (bytes "u")) (some (bytes "p")) = some sample_get ∧
    sample_get.lines = [] := by
  decide

/-- No credentials are attached to a Digest challenge without qop, whatever
the hash function and the other parameters are. -/
theorem http_add_credentials_unset_qop (md5_hex base64 : List Nat → List Nat) (lrand48 : Nat)
    (req : MGET_HTTP_REQUEST) (challenge : MGET_HTTP_CHALLENGE)
    (username password : Option (List Nat)) (scheme : List Nat)
    (hs : challenge.auth_scheme = some scheme) (hd : strcaseeq scheme (bytes "digest") = true)
    (hqop : mget_stringmap_get challenge.params (bytes "qop") = none) :
    http_add_credentials md5_hex base64 lrand48 req (some challenge) username password =
      some req := by
  have hb : strcaseeq scheme (bytes "basic") = false := by
    rw [strcaseeq_of_eq scheme _ hd]; decide
  unfold http_add_credentials
  simp [hs, hd, hb, hqop, mget_streq]

/-- C17: for no challenge, for an authentication scheme other than Basic and
Digest, and for a Digest challenge whose qop is present and different from
`auth` or whose algorithm is present and neither `MD5` nor `MD5-sess`,
`http_add_credentials` returns and leaves the request, its list of header lines
included, as it was. -/
theorem C17_unsupported_challenge (md5_hex base64 : List Nat → List Nat) (lrand48 : Nat)
    (req : MGET_HTTP_REQUEST) (challenge : Option MGET_HTTP_CHALLENGE)
    (username password : Option (List Nat))
    (h : unsupported_challenge challenge = true) :
    http_add_credentials md5_hex base64 lrand48 req challenge username password = some req := by
  have hauth : cstr (bytes "auth") = bytes "auth" := by decide
  have hm1 : cstr (bytes "MD5") = bytes "MD5" := by decide
  have hm2 : cstr (bytes "MD5-sess") = bytes "MD5-sess" := by decide
  unfold unsupported_challenge at h
  unfold http_add_credentials
  cases challenge with
  | none => rfl
  | some c =>
    simp only at h ⊢
    cases hs : c.auth_scheme with
    | none => simp [hs] at h
    | some s =>
      simp only [hs] at h ⊢
      by_cases hb : strcaseeq s (bytes "basic") = true
      · simp [hb] at h
      · simp only [hb, Bool.false_eq_true, if_false] at h ⊢
        by_cases hd : strcaseeq s (bytes "digest") = true
        · simp only [hd, if_true] at h ⊢
          cases hq : mget_stringmap_get c.params (bytes "qop") with
          | none => simp [mget_streq]
          | some q =>
            by_cases hqa : cstr q = bytes "auth"
            · have e1 : mget_streq (some q) (some (bytes "auth")) = true := by
                simp [mget_streq, hqa, hauth]
              cases ha : mget_stringmap_get c.params (bytes "algorithm") with
              | none => simp [hq, ha, hqa] at h
              | some a =>
                simp only [hq, ha, Option.any_some, hqa, bne_self_eq_false, Bool.false_or,
                  Bool.and_eq_true, bne_iff_ne, ne_eq] at h
                have e2 : mget_streq (some a) (some (bytes "MD5")) = false := by
                  simp [mget_streq, hm1, h.1]
                have e3 : mget_streq (some a) (some (bytes "MD5-sess")) = false := by
                  simp [mget_streq, hm2, h.2]
                simp [e1, e2, e3]
            · have e1 : mget_streq (some q) (some (bytes "auth")) = false := by
                simp [mget_streq, hqa, hauth]
              simp [e1]
        · simp [hd]

/-- C17 at four challenges: none, the scheme `NTLM`, a Digest challenge with
the quality of protection `auth-int`, and one with the algorithm `SHA-256`. -/
theorem C17_unsupported_challenge_witness :
    http_add_credentials sample_digest sample_digest 0 sample_get none
        (some (bytes "u")) (some (bytes "p")) = some sample_get ∧
    http_add_credentials sample_digest sample_digest 0 sample_get
        (some (http_parse_challenge (bytes "NTLM")).2)
        (some (bytes "u")) (some (bytes "p")) = some sample_get ∧
    http_add_credentials sample_digest sample_digest 0 sample_get
        (some (http_parse_challenge
          (bytes "Digest realm=\"r\", nonce=\"n\", qop=\"auth-int\", algorithm=MD5")).2)
        (some (bytes "u")) (some (bytes "p")) = some sample_get ∧
    http_add_credentials sample_digest sample_digest 0 sample_get
        (some (http_parse_challenge
          (bytes "Digest realm=\"r\", nonce=\"n\", qop=\"auth\", algorithm=SHA-256")).2)
        (some (bytes "u")) (some (bytes "p")) = some sample_get :=
  ⟨C17_unsupported_challenge sample_digest sample_digest 0 sample_get none _ _ (by decide),
    C17_unsupported_challenge sample_digest sample_digest 0 sample_get _ _ _ (by decide),
    C17_unsupported_challenge sample_digest sample_digest 0 sample_get _ _ _ (by decide),
    C17_unsupported_challenge sample_digest sample_digest 0 sample_get _ _ _ (by decide)⟩

/-! ## The formatted append: integer conversions -/

theorem to_unsigned_natCast (w : Nat) (h : w < 2 ^ 32) : to_unsigned (w : Int) = w := by
  unfold to_unsigned
  have : ((w : Int) % 2 ^ 32) = (w : Int) := Int.emod_eq_of_lt (by omega) (by omega)
  rw [this]
  simp

theorem to_size_t_natCast (w : Nat) (h : w < 2 ^ 64) : to_size_t (w : Int) = w := by
  unfold to_size_t
  have : ((w : Int) % 2 ^ 64) = (w : Int) := Int.emod_eq_of_lt (by omega) (by omega)
  rw [this]
  simp

theorem to_int_of_small (v : Int) (h1 : -2 ^ 31 ≤ v) (h2 : v < 2 ^ 31) : to_int v = v := by
  unfold to_int
  have : (v + 2 ^ 31) % 2 ^ 32 = v + 2 ^ 31 := Int.emod_eq_of_lt (by omega) (by omega)
  omega

/-- The digit loops of `_convert_dec` write the numeral of `argu`: the digits of
Mathlib's `Nat.digits`, most significant first. -/
theorem convert_digits_numeral (base : Nat) (digit : Nat → Nat) (upper : Bool) (hb : 1 < base)
    (hd : ∀ d, d < base → digit d = digit_char upper d) :
    ∀ (fuel argu : Nat) (acc : List Nat), argu < base ^ fuel →
      convert_digits base digit fuel argu acc = numeral base upper argu ++ acc := by
  intro fuel
  induction fuel with
  | zero =>
    intro argu acc h
    have : argu = 0 := by simpa using h
    subst this
    simp [convert_digits, numeral]
  | succ f ih =>
    intro argu acc h
    unfold convert_digits
    by_cases h0 : argu = 0
    · subst h0
      simp [numeral]
    · simp only [h0, if_false]
      have hlt : argu / base < base ^ f := by
        rw [Nat.div_lt_iff_lt_mul (by omega)]
        rw [pow_succ] at h
        exact h
      rw [ih _ _ hlt]
      have hdig : Nat.digits base argu = argu % base :: Nat.digits base (argu / base) :=
        Nat.digits_def' hb (by omega)
      simp only [numeral, hdig, List.reverse_cons, List.map_append, List.map_cons, List.map_nil,
        List.append_assoc, List.singleton_append]
      rw [hd _ (Nat.mod_lt _ (by omega))]

theorem to_size_t_sub (a b : Nat) (hb : b ≤ a) (ha : a < 2 ^ 64) :
    to_size_t ((a : Int) - (b : Int)) = a - b := by
  have : ((a : Int) - (b : Int)) = ((a - b : Nat) : Int) := by omega
  rw [this]
  exact to_size_t_natCast _ (by omega)

theorem to_size_t_sub_sub (a b c : Nat) (hb : b + c ≤ a) (ha : a < 2 ^ 64) :
    to_size_t ((a : Int) - (b : Int) - (c : Int)) = a - b - c := by
  have : ((a : Int) - (b : Int) - (c : Int)) = ((a - b - c : Nat) : Int) := by omega
  rw [this]
  exact to_size_t_natCast _ (by omega)

/-- The second half of `_convert_dec` appends the text of `printf_integer`. -/
theorem convert_dec_pad_printf (buf : mget_buffer_t) (flags : Flags) (width : Nat)
    (precision : Option Nat) (minus : Bool) (dst : List Nat)
    (hw : width < 2 ^ 31) (hp : ∀ p, precision = some p → p < 2 ^ 31 - 1) :
    (convert_dec_pad buf flags width (precision_int precision) minus dst).content =
      buf.content ++
        printf_integer flags.zero_padded flags.left_adjust width precision minus dst := by
  obtain ⟨P, hP, hPlt⟩ : ∃ P : Nat, precision.getD 1 = P ∧ P < 2 ^ 31 - 1 := by
    cases precision with
    | none => exact ⟨1, rfl, by norm_num⟩
    | some p => exact ⟨p, rfl, hp p rfl⟩
  have hprec : (if precision_int precision < 0 then (1 : Int) else precision_int precision) = P := by
    cases precision with
    | none => simp [precision_int] at hP ⊢; omega
    | some p => simp [precision_int] at hP ⊢; omega
  have hzero : (if precision_int precision < 0 then flags
      else { flags with zero_padded := false }).zero_padded =
        (flags.zero_padded && decide (precision = none)) := by
    cases precision with
    | none => simp [precision_int]
    | some p =>
      have : ¬ ((p : Int) < 0) := by omega
      simp [precision_int, this]
  have hleft : (if precision_int precision < 0 then flags
      else { flags with zero_padded := false }).left_adjust = flags.left_adjust := by
    split_ifs <;> rfl
  have hm : ∀ b : Bool, ((if b = true then (1 : Nat) else 0 : Nat) : Int) =
      ((if b = true then 1 else 0 : Nat) : Int) := fun _ => rfl
  have uP : to_unsigned (P : Int) = P := to_unsigned_natCast P (by omega)
  have uW : to_unsigned (width : Int) = width := to_unsigned_natCast width (by omega)
  have hW0 : ((width : Int) ≠ 0) ↔ width ≠ 0 := by omega
  have hcond : (flags.zero_padded = true ∧ precision = none) ↔
      (flags.zero_padded && decide (precision = none)) = true := by simp
  have hwlt : width < 2 ^ 64 := by omega
  have hplt : P < 2 ^ 64 := by omega
  unfold convert_dec_pad printf_integer
  simp only [hprec, hzero, hleft, uP, uW, hW0, hcond, hP]
  cases minus
  · have iP : to_int ((P : Int) + ((if false = true then 1 else 0 : Nat) : Int)) = P := by
      simp only [Bool.false_eq_true, if_false, Nat.cast_zero, add_zero]
      exact to_int_of_small _ (by omega) (by omega)
    simp only [iP, Nat.cast_lt]
    simp only [Bool.false_eq_true, if_false, Nat.cast_zero, sub_zero, Nat.add_zero,
      List.length_nil, Nat.zero_add, List.nil_append, List.length_append, List.length_replicate,
      List.append_nil]
    split_ifs <;>
      simp (disch := omega) only [to_size_t_sub, mget_buffer_memset_append_content,
        mget_buffer_memcat_content, List.take_length, List.append_assoc, Nat.sub_add_cancel,
        Nat.sub_eq_zero_of_le, List.replicate_zero, List.nil_append, List.append_nil,
        Nat.add_zero, Nat.zero_add, Nat.sub_zero]
  · have iP : to_int ((P : Int) + 1) = (P : Int) + 1 :=
      to_int_of_small _ (by omega) (by omega)
    have hc : ((P : Int) + 1 < (width : Int)) ↔ P + 1 < width := by omega
    have s1 : ∀ a b : Nat, 1 + b ≤ a → a < 2 ^ 64 →
        to_size_t ((a : Int) - (b : Int) - 1) = a - (1 + b) := by
      intro a b h1 h2
      have := to_size_t_sub_sub a b 1 (by omega) h2
      simp only [Nat.cast_one] at this
      rw [this]
      omega
    simp only [if_true, Nat.cast_one, List.length_cons, List.length_nil, Nat.zero_add,
      List.length_append, List.length_replicate]
    simp only [iP, hc]
    split_ifs <;>
      simp (disch := omega) only [to_size_t_sub, s1,
        mget_buffer_memset_append_content,
        mget_buffer_memcat_content, List.take_length, List.append_assoc, Nat.sub_add_cancel,
        Nat.sub_eq_zero_of_le, List.replicate_zero, List.nil_append, List.append_nil,
        Nat.add_zero, Nat.zero_add, Nat.sub_zero, List.replicate_one, List.singleton_append,
        List.cons_append]

theorem to_size_t_lt (v : Int) : to_size_t v < 2 ^ 64 := by
  unfold to_size_t
  have h1 : 0 ≤ v % 2 ^ 64 := Int.emod_nonneg _ (by norm_num)
  have h2 : v % 2 ^ 64 < 2 ^ 64 := Int.emod_lt_of_pos _ (by norm_num)
  omega

theorem to_size_t_of_nonneg (v : Int) (h1 : 0 ≤ v) (h2 : v < 2 ^ 64) : to_size_t v = v.toNat := by
  unfold to_size_t
  rw [Int.emod_eq_of_lt h1 h2]

theorem digit_char_decimal (upper : Bool) (d : Nat) (h : d < 10) : d + 48 = digit_char upper d := by
  unfold digit_char
  simp only [h, if_true]
  omega

theorem digit_char_hexlo (d : Nat) :
    (if 10 ≤ d then d + 97 - 10 else d + 48) = digit_char false d := by
  unfold digit_char
  split_ifs <;> simp at * <;> omega

theorem digit_char_hexup (d : Nat) :
    (if 10 ≤ d then d + 65 - 10 else d + 48) = digit_char true d := by
  unfold digit_char
  split_ifs <;> simp at * <;> omega

/-- The magnitude `_convert_dec` converts: the absolute value of a negative
argument of a signed conversion, the argument as `unsigned long long`
otherwise. -/
theorem convert_dec_magnitude (conv : IntConv) (arg : Int) (ha1 : -2 ^ 63 ≤ arg) :
    (if conv = IntConv.d ∧ arg < 0 then to_size_t (-arg) else to_size_t arg) =
      (if conv = IntConv.d ∧ arg < 0 then (-arg).toNat else to_size_t arg) := by
  split_ifs with h
  · exact to_size_t_of_nonneg _ (by omega) (by omega)
  · rfl

/-- `_convert_dec` appends the text of `printf_integer` for the numeral of the
argument in the base of the conversion. -/
theorem convert_dec_printf (buf : mget_buffer_t) (zero left alt : Bool) (width : Nat)
    (precision : Option Nat) (conv : IntConv) (arg : Int)
    (hw : width < 2 ^ 31) (hp : ∀ p, precision = some p → p < 2 ^ 31 - 1)
    (ha1 : -2 ^ 63 ≤ arg) :
    (convert_dec buf
        (conv_flags { zero_padded := zero, left_adjust := left, alternate := alt } conv)
        width (precision_int precision) arg).content =
      buf.content ++
        printf_integer zero left width precision (decide (conv = IntConv.d ∧ arg < 0))
          (numeral (conv_base conv) (decide (conv = IntConv.X))
            (if conv = IntConv.d ∧ arg < 0 then (-arg).toNat else to_size_t arg)) := by
  have hmag := convert_dec_magnitude conv arg ha1
  have hlt : (if conv = IntConv.d ∧ arg < 0 then to_size_t (-arg) else to_size_t arg) < 2 ^ 64 := by
    split_ifs <;> exact to_size_t_lt _
  have h10 : (2 : Nat) ^ 64 < 10 ^ 32 := by norm_num
  have h16 : (2 : Nat) ^ 64 < 16 ^ 32 := by norm_num
  have h8 : (2 : Nat) ^ 64 < 8 ^ 32 := by norm_num
  unfold convert_dec
  cases conv
  · simp only [conv_flags, Bool.and_self, Bool.true_and, true_and, if_true, decide_eq_true_eq,
      Bool.decide_eq_true] at hmag hlt ⊢
    rw [convert_digits_numeral 10 _ false (by norm_num)
      (fun d hd => digit_char_decimal false d hd) 32 _ [] (by omega), List.append_nil,
      convert_dec_pad_printf _ _ _ _ _ _ hw hp, hmag]
    simp [conv_base]
  · simp only [conv_flags, Bool.and_false, Bool.false_and, Bool.false_eq_true, if_false, if_true,
      reduceCtorEq, false_and, decide_False] at hmag hlt ⊢
    rw [convert_digits_numeral 10 _ false (by norm_num)
      (fun d hd => digit_char_decimal false d hd) 32 _ [] (by omega), List.append_nil,
      convert_dec_pad_printf _ _ _ _ _ _ hw hp]
    simp [conv_base]
  · simp only [conv_flags, Bool.and_false, Bool.false_and, Bool.false_eq_true, if_false, if_true,
      reduceCtorEq, false_and, decide_False] at hmag hlt ⊢
    rw [convert_digits_numeral 16 _ false (by norm_num)
      (fun d _ => digit_char_hexlo d) 32 _ [] (by omega), List.append_nil,
      convert_dec_pad_printf _ _ _ _ _ _ hw hp]
    simp [conv_base]
  · simp only [conv_flags, Bool.and_false, Bool.false_and, Bool.false_eq_true, if_false, if_true,
      reduceCtorEq, false_and, decide_False] at hmag hlt ⊢
    rw [convert_digits_numeral 16 _ true (by norm_num)
      (fun d _ => digit_char_hexup d) 32 _ [] (by omega), List.append_nil,
      convert_dec_pad_printf _ _ _ _ _ _ hw hp]
    simp [conv_base]
  · simp only [conv_flags, Bool.and_false, Bool.false_and, Bool.false_eq_true, if_false, if_true,
      reduceCtorEq, false_and, decide_False] at hmag hlt ⊢
    rw [convert_digits_numeral 8 _ false (by norm_num)
      (fun d hd => digit_char_decimal false d (by omega)) 32 _ [] (by omega), List.append_nil,
      convert_dec_pad_printf _ _ _ _ _ _ hw hp]
    simp [conv_base]

theorem numeral_ne_nil (base : Nat) (upper : Bool) (n : Nat) (h : n ≠ 0) :
    numeral base upper n ≠ [] := by
  unfold numeral
  simp [Nat.digits_ne_nil_iff_ne_zero, h]

/-- The digit loop of `_convert_dec_fast` on an argument that is not negative: the
numeral of the argument, and `0` for the argument 0. -/
theorem fast_digits_numeral :
    ∀ (fuel a : Nat) (acc : List Nat), a < 10 ^ fuel → 0 < fuel →
      fast_digits fuel (a : Int) acc = (if a = 0 then [48] else numeral 10 false a) ++ acc := by
  intro fuel
  induction fuel with
  | zero => intro a acc _ h; omega
  | succ f ih =>
    intro a acc h _
    have hmod : cmod (a : Int) 10 = ((a % 10 : Nat) : Int) := by
      unfold cmod
      rw [Int.tmod_eq_emod (by omega) (by omega)]
      omega
    have hdiv : cdiv (a : Int) 10 = ((a / 10 : Nat) : Int) := by
      unfold cdiv
      rw [Int.tdiv_eq_ediv (by omega) (by omega)]
      omega
    have hch : (((cmod (a : Int) 10) + 48) % 256).toNat = digit_char false (a % 10) := by
      rw [hmod]
      have h1 : a % 10 < 10 := Nat.mod_lt _ (by norm_num)
      rw [← digit_char_decimal false _ h1]
      omega
    unfold fast_digits
    rw [hch, hdiv]
    by_cases h10 : 10 ≤ a
    · have hc : (10 : Int) ≤ (a : Int) := by omega
      have hq : a / 10 ≠ 0 := by omega
      have hf : 0 < f := by
        rcases Nat.eq_zero_or_pos f with e | e
        · subst e
          simp at h
          omega
        · exact e
      have hlt : a / 10 < 10 ^ f := by
        rw [Nat.div_lt_iff_lt_mul (by omega)]
        rw [pow_succ] at h
        exact h
      have ha : a ≠ 0 := by omega
      simp only [hc, if_true, ih (a / 10) _ hlt hf, hq, if_false, ha]
      have hdig : Nat.digits 10 a = a % 10 :: Nat.digits 10 (a / 10) :=
        Nat.digits_def' (by norm_num) (by omega)
      simp [numeral, hdig]
    · have hc : ¬ (10 : Int) ≤ (a : Int) := by omega
      simp only [hc, if_false]
      by_cases h0 : a = 0
      · subst h0
        simp [digit_char]
      · have hdig : Nat.digits 10 a = [a] := Nat.digits_of_lt 10 a h0 (by omega)
        have hm : a % 10 = a := Nat.mod_eq_of_lt (by omega)
        simp [numeral, hdig, h0, hm]

/-- `_convert_dec_fast` appends the text of `printf_integer` for the plain `%d`,
provided the argument is not the least `int`. -/
theorem convert_dec_fast_printf (buf : mget_buffer_t) (v : Int)
    (h1 : -2 ^ 31 < v) (h2 : v < 2 ^ 31) :
    (convert_dec_fast buf v).content =
      buf.content ++
        printf_integer false false 0 none (decide (v < 0))
          (numeral 10 false (if v < 0 then (-v).toNat else to_size_t v)) := by
  have hmagn : ∃ a : Nat, (if v < 0 then to_int (-v) else v) = (a : Int) ∧
      (if v < 0 then (-v).toNat else to_size_t v) = a ∧ a < 10 ^ 32 := by
    by_cases hv : v < 0
    · refine ⟨(-v).toNat, ?_, ?_, ?_⟩
      · simp only [hv, if_true]
        rw [to_int_of_small _ (by omega) (by omega)]
        omega
      · simp [hv]
      · have : (2 : Nat) ^ 31 < 10 ^ 32 := by norm_num
        omega
    · refine ⟨v.toNat, ?_, ?_, ?_⟩
      · simp only [hv, if_false]
        omega
      · simp only [hv, if_false]
        exact to_size_t_of_nonneg _ (by omega) (by omega)
      · have : (2 : Nat) ^ 31 < 10 ^ 32 := by norm_num
        omega
  obtain ⟨a, e1, e2, e3⟩ := hmagn
  unfold convert_dec_fast printf_integer
  simp only [e1, e2, fast_digits_numeral 32 a [] e3 (by norm_num), List.append_nil,
    mget_buffer_memcat_content, List.take_length]
  by_cases h0 : a = 0
  · subst h0
    by_cases hv : v < 0 <;> simp [hv, numeral]
  · have hne := numeral_ne_nil 10 false a h0
    have hlen : 1 - (numeral 10 false a).length = 0 := by
      have : 0 < (numeral 10 false a).length := List.length_pos.mpr hne
      omega
    by_cases hv : v < 0 <;> simp [hv, h0, hlen]

/-- The flag loop reads a run of the flag characters `0` and `-`. -/
theorem read_flags_chars :
    ∀ (fl : List Nat) (f : Flags) (rest : List Nat), (∀ x ∈ fl, x = 48 ∨ x = 45) →
      cur rest ≠ 48 → cur rest ≠ 45 → cur rest ≠ 35 →
      read_flags f (fl ++ rest) =
        ({ f with zero_padded := f.zero_padded || decide (48 ∈ fl),
                  left_adjust := f.left_adjust || decide (45 ∈ fl) }, rest) := by
  intro fl
  induction fl with
  | nil =>
    intro f rest _ h1 h2 h3
    cases rest with
    | nil => simp [read_flags]
    | cons c cs =>
      simp only [cur, List.headD_cons] at h1 h2 h3
      simp [read_flags, h1, h2, h3]
  | cons x xs ih =>
    intro f rest h h1 h2 h3
    have hx := h x (List.mem_cons_self _ _)
    have hxs : ∀ y ∈ xs, y = 48 ∨ y = 45 := fun y hy => h y (List.mem_cons_of_mem _ hy)
    rw [List.cons_append]
    rcases hx with e | e
    · subst e
      unfold read_flags
      simp only [if_true]
      rw [ih _ rest hxs h1 h2 h3]
      simp
    · subst e
      unfold read_flags
      simp only [if_true, show ¬ (45 = 48) by decide, if_false]
      rw [ih _ rest hxs h1 h2 h3]
      simp

theorem foldl_digits_le (ds : List Nat) (n : Nat) :
    n ≤ ds.foldl (fun a d => 10 * a + (d - 48)) n := by
  induction ds generalizing n with
  | nil => simp
  | cons d ds ih =>
    simp only [List.foldl_cons]
    have := ih (10 * n + (d - 48))
    omega

/-- The number loops read a run of digits as the decimal number it writes, as
long as the number fits an `int`. -/
theorem read_number_digits :
    ∀ (ds : List Nat) (n : Nat) (rest : List Nat), (∀ x ∈ ds, isdigit x = true) →
      isdigit (cur rest) = false → ds.foldl (fun a d => 10 * a + (d - 48)) n < 2 ^ 31 →
      read_number (n : Int) (ds ++ rest) =
        (((ds.foldl (fun a d => 10 * a + (d - 48)) n : Nat) : Int), rest) := by
  intro ds
  induction ds with
  | nil =>
    intro n rest _ hr _
    cases rest with
    | nil => simp [read_number]
    | cons c cs =>
      simp only [cur, List.headD_cons] at hr
      simp [read_number, hr]
  | cons d ds ih =>
    intro n rest hd hr hlt
    have hdd : isdigit d = true := hd d (List.mem_cons_self _ _)
    have h48 : 48 ≤ d := by
      simp only [isdigit, Bool.and_eq_true, decide_eq_true_eq] at hdd
      exact hdd.1
    simp only [List.foldl_cons] at hlt ⊢
    have hle := foldl_digits_le ds (10 * n + (d - 48))
    have hstep : to_int ((n : Int) * 10 + ((d : Int) - 48)) = ((10 * n + (d - 48) : Nat) : Int) := by
      rw [to_int_of_small _ (by omega) (by omega)]
      omega
    rw [List.cons_append]
    unfold read_number
    simp only [hdd, if_true, hstep]
    exact ih _ rest (fun x hx => hd x (List.mem_cons_of_mem _ hx)) hr hlt

theorem conv_chars_facts (conv : IntConv) (c : Nat) (hc : c ∈ conv_chars conv) :
    isdigit c = false ∧ c ≠ 46 ∧ c ≠ 42 ∧ c ≠ 48 ∧ c ≠ 45 ∧ c ≠ 35 ∧ c ≠ 0 ∧ c ≠ 37 ∧
      c ≠ 115 ∧ c ≠ 112 ∧ c ≠ 122 ∧ c ≠ 108 ∧ c ≠ 76 ∧ c ≠ 104 := by
  cases conv <;> simp only [conv_chars, List.mem_cons, List.mem_singleton, List.not_mem_nil,
    or_false] at hc
  · rcases hc with rfl | rfl <;> decide
  · subst hc; decide
  · subst hc; decide
  · subst hc; decide
  · subst hc; decide

theorem isdigit_facts (x : Nat) (h : isdigit x = true) :
    x ≠ 45 ∧ x ≠ 35 ∧ x ≠ 42 ∧ x ≠ 46 ∧ x ≠ 0 ∧ x ≠ 37 ∧ x ≠ 115 ∧ x ≠ 100 ∧ x ≠ 112 := by
  simp only [isdigit, Bool.and_eq_true, decide_eq_true_eq] at h
  omega

/-- The flags, the field width and the precision `mget_buffer_vprintf_append2` reads
from a conversion specification `[flags][width][.precision]c`. -/
theorem read_conversion_format (fl wd : List Nat) (pd : Option (List Nat)) (conv : IntConv)
    (c : Nat) (args : List Arg)
    (hfl : ∀ x ∈ fl, x = 48 ∨ x = 45) (hwd : ∀ x ∈ wd, isdigit x = true) (hw0 : cur wd ≠ 48)
    (hwv : decval wd < 2 ^ 31)
    (hpd : ∀ ds, pd = some ds → ds ≠ [] ∧ (∀ x ∈ ds, isdigit x = true) ∧ decval ds < 2 ^ 31 - 1)
    (hc : c ∈ conv_chars conv) :
    read_conversion (fl ++ (wd ++ (precision_part pd ++ [c]))) args =
      { flags := { zero_padded := decide (48 ∈ fl), left_adjust := decide (45 ∈ fl) },
        field_width := some (decval wd : Int),
        precision := some (precision_int (pd.map decval)),
        p := [c], args := args } := by
  obtain ⟨c1, c2, c3, c4, c5, c6, c7, c8, c9, c10, c11, c12, c13, c14⟩ :=
    conv_chars_facts conv c hc
  have hprec_cur : ∀ y, cur (precision_part pd ++ [c]) = y → y = 46 ∨ y = c := by
    intro y hy
    cases pd with
    | none => right; simpa [cur, precision_part] using hy.symm
    | some ds => left; simpa [cur, precision_part] using hy.symm
  have hrest_cur : ∀ y, cur (wd ++ (precision_part pd ++ [c])) = y → isdigit y = true ∧ y ≠ 48 ∨ y = 46 ∨ y = c := by
    intro y hy
    cases wd with
    | nil => right; exact hprec_cur y (by simpa using hy)
    | cons w ws =>
      left
      simp only [List.cons_append, cur, List.headD_cons] at hy hw0
      subst hy
      exact ⟨hwd _ (List.mem_cons_self _ _), hw0⟩
  have hne : ∀ z, z ≠ 46 → z ≠ c → (isdigit z = false ∨ z = 48) →
      cur (wd ++ (precision_part pd ++ [c])) ≠ z := by
    intro z z1 z2 z3 e
    rcases hrest_cur z e with h | h | h
    · rcases z3 with z3 | z3
      · rw [h.1] at z3; cases z3
      · exact h.2 z3
    · exact z1 h
    · exact z2 h
  have hflags := read_flags_chars fl {} _ hfl
    (hne 48 (by decide) (Ne.symm c4) (Or.inr rfl))
    (hne 45 (by decide) (Ne.symm c5) (Or.inl (by decide)))
    (hne 35 (by decide) (Ne.symm c6) (Or.inl (by decide)))
  have hstar := hne 42 (by decide) (Ne.symm c3) (Or.inl (by decide))
  have hnd : isdigit (cur (precision_part pd ++ [c])) = false := by
    rcases hprec_cur _ rfl with h | h
    · rw [h]; decide
    · rw [h]; exact c1
  have hwidth := read_number_digits wd 0 _ hwd hnd hwv
  simp only [Nat.cast_zero] at hwidth
  unfold read_conversion
  simp only [hflags, hstar, if_false, hwidth]
  cases pd with
  | none =>
    have : cur ([] ++ [c]) ≠ 46 := by simpa [cur] using c2
    simp only [precision_part, this, if_false]
    simp [decval, precision_int]
  | some ds =>
    obtain ⟨p1, p2, p3⟩ := hpd ds rfl
    have hd1 : isdigit (cur (ds ++ [c])) = true := by
      cases ds with
      | nil => exact absurd rfl p1
      | cons d ds => exact p2 d (List.mem_cons_self _ _)
    have hd2 : cur (ds ++ [c]) ≠ 42 := fun e => (isdigit_facts _ hd1).2.2.1 e
    have hprec := read_number_digits ds 0 [c] p2 (by simpa [cur] using c1) (by
      have : decval ds = ds.foldl (fun a d => 10 * a + (d - 48)) 0 := rfl
      omega)
    simp only [Nat.cast_zero] at hprec
    simp only [precision_part, List.cons_append, cur, List.headD_cons, if_true, List.tail_cons]
    simp only [cur] at hd1 hd2
    simp only [hd2, if_false, hd1, if_true, hprec]
    simp [decval, precision_int]

/-- The `switch` on the length modifier at a conversion character: the
argument is read as an `int`. -/
theorem read_modifier_conv (conv : IntConv) (c : Nat) (v : Int) (hc : c ∈ conv_chars conv) :
    read_modifier [c] [Arg.int v] =
      (Operand.number (some (to_int v)) (some (to_unsigned v)), [c], []) := by
  obtain ⟨c1, c2, c3, c4, c5, c6, c7, c8, c9, c10, c11, c12, c13, c14⟩ :=
    conv_chars_facts conv c hc
  unfold read_modifier
  simp [cur, c9, c10, c11, c12, c13, c14, va_arg_int]

theorem to_long_long_to_unsigned (v : Int) :
    to_long_long ((to_unsigned v : Nat) : Int) = ((to_unsigned v : Nat) : Int) := by
  have h : to_unsigned v < 2 ^ 32 := by
    unfold to_unsigned
    have h1 : 0 ≤ v % 2 ^ 32 := Int.emod_nonneg _ (by norm_num)
    have h2 : v % 2 ^ 32 < 2 ^ 32 := Int.emod_lt_of_pos _ (by norm_num)
    omega
  unfold to_long_long
  have : (((to_unsigned v : Nat) : Int) + 2 ^ 63) % 2 ^ 64 = ((to_unsigned v : Nat) : Int) + 2 ^ 63 :=
    Int.emod_eq_of_lt (by omega) (by omega)
  omega

theorem to_unsigned_lt (v : Int) : to_unsigned v < 2 ^ 32 := by
  unfold to_unsigned
  have h1 : 0 ≤ v % 2 ^ 32 := Int.emod_nonneg _ (by norm_num)
  have h2 : v % 2 ^ 32 < 2 ^ 32 := Int.emod_lt_of_pos _ (by norm_num)
  omega

/-- The formatter on one integer conversion `%[flags][width][.precision]c`, with
`c` one of `d`, `i`, `u`, `x`, `X`, `o`, flags among `0` and `-` and an `int`
argument: the call returns, and it has appended the text of `printf_integer`,
that is of the C library function `printf`.  The one exception is the plain
`%d` with the least `int` as argument. -/
theorem vprintf_integer_conversion (buf : mget_buffer_t) (fl wd : List Nat)
    (pd : Option (List Nat)) (conv : IntConv) (c : Nat) (v : Int)
    (hfl : ∀ x ∈ fl, x = 48 ∨ x = 45) (hwd : ∀ x ∈ wd, isdigit x = true) (hw0 : cur wd ≠ 48)
    (hwv : decval wd < 2 ^ 31)
    (hpd : ∀ ds, pd = some ds → ds ≠ [] ∧ (∀ x ∈ ds, isdigit x = true) ∧ decval ds < 2 ^ 31 - 1)
    (hc : c ∈ conv_chars conv) (hv1 : -2 ^ 31 ≤ v) (hv2 : v < 2 ^ 31)
    (hfast : fl = [] ∧ wd = [] ∧ pd = none ∧ c = 100 → v ≠ -2 ^ 31) :
    ∃ b, mget_buffer_vprintf_append2 buf (conversion_format fl wd pd c) [Arg.int v] =
        some (b, b.content.length) ∧
      b.content = buf.content ++
        printf_integer (decide (48 ∈ fl)) (decide (45 ∈ fl)) (decval wd) (pd.map decval)
          (decide (conv = IntConv.d ∧ v < 0))
          (numeral (conv_base conv) (decide (conv = IntConv.X)) (conv_magnitude conv v)) := by
  obtain ⟨c1, c2, c3, c4, c5, c6, c7, c8, c9, c10, c11, c12, c13, c14⟩ :=
    conv_chars_facts conv c hc
  have htoint : to_int v = v := to_int_of_small v hv1 hv2
  obtain ⟨f, hf⟩ : ∃ f, (conversion_format fl wd pd c).length + 1 = f + 2 :=
    ⟨(fl ++ (wd ++ (precision_part pd ++ [c]))).length, by simp [conversion_format]⟩
  have hloop : ∀ b : mget_buffer_t, vprintf_loop (f + 1) b [] [] = some b := by
    intro b; simp [vprintf_loop, cur]
  -- the first byte after the `%`
  have hbody : ∀ z, z ≠ 48 → z ≠ 45 → isdigit z = false → z ≠ 46 → z ≠ c →
      cur (fl ++ (wd ++ (precision_part pd ++ [c]))) ≠ z := by
    intro z z1 z2 z3 z4 z5 e
    cases fl with
    | cons x xs =>
      simp only [List.cons_append, cur, List.headD_cons] at e
      rcases hfl x (List.mem_cons_self _ _) with h | h <;> omega
    | nil =>
      cases wd with
      | cons w ws =>
        simp only [List.nil_append, List.cons_append, cur, List.headD_cons] at e
        have := hwd w (List.mem_cons_self _ _)
        rw [e] at this
        rw [this] at z3
        cases z3
      | nil =>
        cases pd with
        | some ds =>
          simp only [List.nil_append, precision_part, List.cons_append, cur, List.headD_cons] at e
          exact z4 e.symm
        | none =>
          simp only [List.nil_append, precision_part, cur, List.headD_cons] at e
          exact z5 e.symm
  have hs := hbody 115 (by decide) (by decide) (by decide) (by decide) (Ne.symm c9)
  have hp := hbody 112 (by decide) (by decide) (by decide) (by decide) (Ne.symm c10)
  have hpc := hbody 37 (by decide) (by decide) (by decide) (by decide) (Ne.symm c8)
  unfold mget_buffer_vprintf_append2
  rw [hf]
  unfold conversion_format
  unfold vprintf_loop
  simp only [cur, List.headD_cons, show ¬ (37 = 0) by decide, if_false, List.takeWhile_cons,
    List.dropWhile_cons, show ((37 : Nat) != 0 && (37 : Nat) != 37) = false by decide,
    Bool.false_eq_true, ne_eq, not_true_eq_false, List.tail_cons]
  simp only [cur] at hs hp hpc
  simp only [hs, hp, hpc, if_false]
  by_cases hfa : fl = [] ∧ wd = [] ∧ pd = none ∧ c = 100
  · obtain ⟨rfl, rfl, rfl, rfl⟩ := hfa
    have hvne := hfast ⟨rfl, rfl, rfl, rfl⟩
    have hconv : conv = IntConv.d := by
      cases conv <;> simp [conv_chars] at hc
      rfl
    subst hconv
    simp only [List.nil_append, precision_part, List.headD_cons, if_true, va_arg_int, htoint,
      List.tail_cons, hloop, Option.map_some']
    refine ⟨_, rfl, ?_⟩
    rw [convert_dec_fast_printf buf v (by omega) hv2]
    have hmag : (if v < 0 then (-v).toNat else to_size_t v) = v.natAbs := by
      split_ifs with h
      · omega
      · rw [to_size_t_of_nonneg _ (by omega) (by omega)]; omega
    simp [hmag, conv_base, conv_magnitude, decval]
  · have hd : (fl ++ (wd ++ (precision_part pd ++ [c]))).headD 0 ≠ 100 := by
      intro e
      apply hfa
      cases fl with
      | cons x xs =>
        simp only [List.cons_append, List.headD_cons] at e
        rcases hfl x (List.mem_cons_self _ _) with h | h <;> omega
      | nil =>
        cases wd with
        | cons w ws =>
          simp only [List.nil_append, List.cons_append, List.headD_cons] at e
          have := (isdigit_facts w (hwd w (List.mem_cons_self _ _))).2.2.2.2.2.2.2.1
          exact absurd e this
        | nil =>
          cases pd with
          | some ds =>
            simp only [List.nil_append, precision_part, List.cons_append, List.headD_cons] at e
            cases e
          | none =>
            simp only [List.nil_append, precision_part, List.headD_cons] at e
            exact ⟨rfl, rfl, rfl, e⟩
    simp only [hd, if_false,
      read_conversion_format fl wd pd conv c [Arg.int v] hfl hwd hw0 hwv hpd hc,
      read_modifier_conv conv c v hc, htoint, cur, List.headD_cons, List.tail_cons]
    have hpb : ∀ p, pd.map decval = some p → p < 2 ^ 31 - 1 := by
      intro p hp1
      cases pd with
      | none => cases hp1
      | some ds =>
        simp only [Option.map_some', Option.some.injEq] at hp1
        rw [← hp1]
        exact (hpd ds rfl).2.2
    have hcd := fun (cv : IntConv) (arg : Int) (ha : -2 ^ 63 ≤ arg) =>
      convert_dec_printf buf (decide (48 ∈ fl)) (decide (45 ∈ fl)) false (decval wd)
        (pd.map decval) cv arg hwv hpb ha
    have hcu := hcd IntConv.u (to_unsigned v) (by omega)
    have hcx := hcd IntConv.x (to_unsigned v) (by omega)
    have hcX := hcd IntConv.X (to_unsigned v) (by omega)
    have hco := hcd IntConv.o (to_unsigned v) (by omega)
    simp only [conv_flags] at hcu hcx hcX hco
    cases conv <;> simp only [conv_chars, List.mem_cons, List.mem_singleton, List.not_mem_nil,
      or_false] at hc
    · have hcc : c = 100 ∨ c = 105 := hc
      simp only [hcc, if_true, hloop, Option.map_some']
      refine ⟨_, rfl, ?_⟩
      have := hcd IntConv.d v (by omega)
      simp only [conv_flags] at this
      rw [this]
      have hmag : (if True ∧ v < 0 then (-v).toNat else to_size_t v) = v.natAbs := by
        split_ifs with h
        · omega
        · have hv0 : 0 ≤ v := by
            by_contra hn
            exact h ⟨trivial, by omega⟩
          rw [to_size_t_of_nonneg _ hv0 (by omega)]; omega
      simp only [conv_magnitude]
      rw [hmag]
    all_goals
      subst hc
      simp only [show ¬ ((117 : Nat) = 100 ∨ (117 : Nat) = 105) by decide,
        show ¬ ((120 : Nat) = 100 ∨ (120 : Nat) = 105) by decide,
        show ¬ ((88 : Nat) = 100 ∨ (88 : Nat) = 105) by decide,
        show ¬ ((111 : Nat) = 100 ∨ (111 : Nat) = 105) by decide,
        show ¬ ((120 : Nat) = 117) by decide, show ¬ ((88 : Nat) = 117) by decide,
        show ¬ ((111 : Nat) = 117) by decide, show ¬ ((88 : Nat) = 120) by decide,
        show ¬ ((111 : Nat) = 120) by decide, show ¬ ((111 : Nat) = 88) by decide,
        if_false, if_true, hloop, Option.map_some', to_long_long_to_unsigned]
      refine ⟨_, rfl, ?_⟩
      first
        | rw [hcu]
        | rw [hcx]
        | rw [hcX]
        | rw [hco]
      simp [conv_magnitude, to_size_t_natCast _ (Nat.lt_trans (to_unsigned_lt v) (by norm_num))]

/-- The conversion `%-6.3d` on `-42`, through `vprintf_integer_conversion`: the
formatter appends `-042` and two spaces. -/
theorem vprintf_integer_conversion_example :
    ∃ b, mget_buffer_vprintf_append2 {} (bytes "%-6.3d") [Arg.int (-42)] =
        some (b, b.content.length) ∧
      b.content = bytes "-042  " := by
  obtain ⟨b, h1, h2⟩ := vprintf_integer_conversion {} [45] [54] (some [51]) IntConv.d 100 (-42)
    (by decide) (by decide) (by decide) (by decide)
    (by intro ds h; cases h; decide) (by decide) (by decide) (by decide)
    (by intro h; exact absurd h.1 (by decide))
  have hfmt : conversion_format [45] [54] (some [51]) 100 = bytes "%-6.3d" := by decide
  rw [hfmt] at h1
  have hnum : numeral (conv_base IntConv.d) (decide (IntConv.d = IntConv.X))
      (conv_magnitude IntConv.d (-42)) = [52, 50] := by
    norm_num [numeral, conv_base, conv_magnitude, digit_char]
  rw [hnum] at h2
  exact ⟨b, h1, h2.trans (by decide)⟩

/-! ## Tokens and quoted strings -/

/-- The byte test of the code is the token byte of the HTTP grammar. -/
theorem http_istoken_iff (c : Nat) : http_istoken c = true ↔ is_token_byte c := by
  have hsep : http_separators =
      [40, 41, 60, 62, 64, 44, 59, 58, 92, 34, 47, 91, 93, 63, 61, 123, 125, 32, 9] := by decide
  simp only [http_istoken, http_isseperator, is_token_byte, hsep, Bool.and_eq_true,
    decide_eq_true_eq, Bool.not_eq_true', Bool.or_eq_false_iff, beq_eq_false_iff_ne, ne_eq,
    List.mem_cons, List.mem_singleton, List.not_mem_nil, or_false, not_or]
  constructor
  · rintro ⟨⟨h1, h2⟩, h3⟩
    refine ⟨by omega, h2, ?_⟩
    tauto
  · rintro ⟨h1, h2, h3⟩
    refine ⟨⟨by omega, h2⟩, ?_⟩
    tauto

/-- C25: for every string `s`, `http_parse_token` returns a rest and a token
with `token ++ rest = s`; every byte of the token is a token byte (visible
ASCII outside the separator set) and the rest is empty or starts with a byte
that is no token byte, so the token is the longest such prefix of `s`. -/
theorem C25_token_longest_prefix (s : List Nat) :
    (http_parse_token s).2 ++ (http_parse_token s).1 = s ∧
      (∀ c ∈ (http_parse_token s).2, is_token_byte c) ∧
      ((http_parse_token s).1 = [] ∨
        ∃ c r, (http_parse_token s).1 = c :: r ∧ ¬ is_token_byte c) := by
  refine ⟨List.takeWhile_append_dropWhile _ _, ?_, ?_⟩
  · intro c hc
    exact (http_istoken_iff c).1 (List.mem_takeWhile_imp hc)
  · simp only [http_parse_token]
    cases h : s.dropWhile http_istoken with
    | nil => exact Or.inl rfl
    | cons c r =>
      refine Or.inr ⟨c, r, rfl, ?_⟩
      intro hc
      have h1 := List.head_dropWhile_not http_istoken s (by rw [h]; exact List.cons_ne_nil _ _)
      simp only [h, List.head_cons] at h1
      rw [(http_istoken_iff c).2 hc] at h1
      exact absurd h1 (by decide)

/-- The token of `text/html; charset=utf-8` is `text`; the rest starts with the
separator `/`. -/
theorem http_parse_token_example :
    http_parse_token (bytes "text/html; charset=utf-8") =
      (bytes "/html; charset=utf-8", bytes "text") := by decide

/-- C27: `http_parse_transfer_encoding` selects identity exactly when the
header value, after its leading blanks, is the word `identity` in any letter
case and nothing else; every other value selects chunked. -/
theorem C27_identity_only_as_whole_value (s : List Nat) :
    ((http_parse_transfer_encoding s).2 = TransferEncoding.transfer_encoding_identity ↔
        (cstr (s.dropWhile isblank)).map tolower = bytes "identity") ∧
      ((http_parse_transfer_encoding s).2 = TransferEncoding.transfer_encoding_chunked ↔
        (cstr (s.dropWhile isblank)).map tolower ≠ bytes "identity") := by
  have hid : (cstr (bytes "identity")).map tolower = bytes "identity" := by decide
  simp only [http_parse_transfer_encoding, strcaseeq, hid, beq_iff_eq]
  constructor <;> split_ifs with h <;> simp [h]

/-- Values of `Transfer-Encoding` and the coding selected: `identity` in any
letter case and after blanks selects identity; `chunked`, unknown codings, the
list `gzip, chunked`, and `identity` followed by further bytes select
chunked. -/
theorem http_parse_transfer_encoding_examples :
    (http_parse_transfer_encoding (bytes "identity")).2 =
        TransferEncoding.transfer_encoding_identity ∧
      (http_parse_transfer_encoding (bytes " \tIdEnTiTy")).2 =
        TransferEncoding.transfer_encoding_identity ∧
      (http_parse_transfer_encoding (bytes "chunked")).2 =
        TransferEncoding.transfer_encoding_chunked ∧
      (http_parse_transfer_encoding (bytes "frobnicate")).2 =
        TransferEncoding.transfer_encoding_chunked ∧
      (http_parse_transfer_encoding (bytes "gzip, chunked")).2 =
        TransferEncoding.transfer_encoding_chunked ∧
      (http_parse_transfer_encoding (bytes "identity ")).2 =
        TransferEncoding.transfer_encoding_chunked ∧
      (http_parse_transfer_encoding (bytes "identity, chunked")).2 =
        TransferEncoding.transfer_encoding_chunked ∧
      (http_parse_transfer_encoding (bytes "")).2 =
        TransferEncoding.transfer_encoding_chunked := by decide

/-! ## The formatted reset and the terminating NUL -/

theorem nul_terminated_memcat (buf : mget_buffer_t) (data : List Nat) (n : Nat) :
    nul_terminated (mget_buffer_memcat buf data n) := rfl

theorem nul_terminated_strcat (buf : mget_buffer_t) (s : List Nat) :
    nul_terminated (mget_buffer_strcat buf s) := rfl

theorem nul_terminated_memset_append (buf : mget_buffer_t) (c n : Nat) :
    nul_terminated (mget_buffer_memset_append buf c n) := rfl

theorem nul_terminated_ite (c : Prop) [Decidable c] (a b : mget_buffer_t)
    (ha : nul_terminated a) (hb : nul_terminated b) : nul_terminated (if c then a else b) := by
  split_ifs
  · exact ha
  · exact hb

theorem nul_terminated_copy_string (buf : mget_buffer_t) (flags : Flags) (w p : Int)
    (arg : Option (List Nat)) : nul_terminated (copy_string buf flags w p arg) := by
  unfold copy_string
  cases arg with
  | none => exact nul_terminated_strcat _ _
  | some a =>
    simp only
    split_ifs <;>
      first
        | exact nul_terminated_memcat _ _ _
        | exact nul_terminated_memset_append _ _ _

theorem nul_terminated_convert_dec_fast (buf : mget_buffer_t) (arg : Int) :
    nul_terminated (convert_dec_fast buf arg) := nul_terminated_memcat _ _ _

theorem nul_terminated_convert_pointer (buf : mget_buffer_t) (v : Nat) :
    nul_terminated (convert_pointer buf v) := by
  unfold convert_pointer
  split_ifs <;> exact nul_terminated_memcat _ _ _

theorem nul_terminated_convert_dec_pad (buf : mget_buffer_t) (flags : Flags) (w p : Int)
    (minus : Bool) (dst : List Nat) : nul_terminated (convert_dec_pad buf flags w p minus dst) := by
  unfold convert_dec_pad
  simp only
  repeat' first
    | with_reducible exact nul_terminated_memcat _ _ _
    | with_reducible exact nul_terminated_memset_append _ _ _
    | with_reducible apply nul_terminated_ite

theorem nul_terminated_convert_dec (buf : mget_buffer_t) (flags : Flags) (w p arg : Int) :
    nul_terminated (convert_dec buf flags w p arg) :=
  nul_terminated_convert_dec_pad _ _ _ _ _ _
/-- A call of the formatter that returns leaves the buffer NUL-terminated when
the buffer was so before or the format is not empty. -/
theorem vprintf_loop_nul_terminated (fuel : Nat) (buf : mget_buffer_t) (p : List Nat)
    (args : List Arg) (b : mget_buffer_t) (h : vprintf_loop fuel buf p args = some b)
    (h0 : nul_terminated buf ∨ cur p ≠ 0) : nul_terminated b := by
  induction fuel generalizing buf p args with
  | zero => simp [vprintf_loop] at h
  | succ n ih =>
    rw [vprintf_loop] at h
    by_cases hp : cur p = 0
    · rw [if_pos hp] at h
      cases h
      rcases h0 with h0 | h0
      · exact h0
      · exact absurd hp h0
    · rw [if_neg hp] at h
      simp only at h
      have hbuf : cur (p.dropWhile (fun c => c != 0 && c != 37)) = 0 →
          nul_terminated (if p.takeWhile (fun c => c != 0 && c != 37) ≠ [] then
            mget_buffer_memcat buf (p.takeWhile (fun c => c != 0 && c != 37))
              (p.takeWhile (fun c => c != 0 && c != 37)).length else buf) := by
        intro hd
        cases p with
        | nil => exact absurd rfl hp
        | cons x xs =>
          simp only [cur, List.headD_cons] at hp
          by_cases hx : x = 37
          · subst hx
            simp [cur, List.dropWhile_cons] at hd
          · have : (x != 0 && x != 37) = true := by simp [hp, hx]
            rw [List.takeWhile_cons, if_pos this, if_pos (List.cons_ne_nil _ _)]
            exact nul_terminated_memcat _ _ _
      generalize (if p.takeWhile (fun c => c != 0 && c != 37) ≠ [] then
            mget_buffer_memcat buf (p.takeWhile (fun c => c != 0 && c != 37))
              (p.takeWhile (fun c => c != 0 && c != 37)).length else buf) = buf1 at h hbuf
      by_cases hd : cur (p.dropWhile (fun c => c != 0 && c != 37)) = 0
      · rw [if_pos hd] at h
        cases h
        exact hbuf hd
      · rw [if_neg hd] at h
        generalize (List.dropWhile (fun c => c != 0 && c != 37) p).tail = q at h
        by_cases h1 : cur q = 115
        · rw [if_pos h1] at h
          split at h
          · exact ih _ _ _ h (Or.inl (nul_terminated_strcat _ _))
          · cases h
        rw [if_neg h1] at h
        by_cases h2 : cur q = 100
        · rw [if_pos h2] at h
          split at h
          · exact ih _ _ _ h (Or.inl (nul_terminated_convert_dec_fast _ _))
          · cases h
        rw [if_neg h2] at h
        by_cases h3 : cur q = 112
        · rw [if_pos h3] at h
          split at h
          · exact ih _ _ _ h (Or.inl (nul_terminated_convert_pointer _ _))
          · cases h
        rw [if_neg h3] at h
        by_cases h4 : cur q = 37
        · rw [if_pos h4] at h
          exact ih _ _ _ h (Or.inl (nul_terminated_memset_append _ _ _))
        rw [if_neg h4] at h
        generalize read_conversion q args = c at h
        generalize read_modifier c.p c.args = m at h
        obtain ⟨op, p2, a2⟩ := m
        cases op with
        | string s =>
          simp only at h
          split at h
          · exact ih _ _ _ h (Or.inl (nul_terminated_copy_string _ _ _ _ _))
          · cases h
        | pointer v =>
          simp only at h
          split at h
          · exact ih _ _ _ h (Or.inl (nul_terminated_convert_dec _ _ _ _ _))
          · cases h
        | number arg argu =>
          simp only at h
          by_cases c1 : cur p2 = 100 ∨ cur p2 = 105
          · rw [if_pos c1] at h
            split at h
            · exact ih _ _ _ h (Or.inl (nul_terminated_convert_dec _ _ _ _ _))
            · cases h
          rw [if_neg c1] at h
          by_cases c2 : cur p2 = 117
          · rw [if_pos c2] at h
            split at h
            · exact ih _ _ _ h (Or.inl (nul_terminated_convert_dec _ _ _ _ _))
            · cases h
          rw [if_neg c2] at h
          by_cases c3 : cur p2 = 120
          · rw [if_pos c3] at h
            split at h
            · exact ih _ _ _ h (Or.inl (nul_terminated_convert_dec _ _ _ _ _))
            · cases h
          rw [if_neg c3] at h
          by_cases c4 : cur p2 = 88
          · rw [if_pos c4] at h
            split at h
            · exact ih _ _ _ h (Or.inl (nul_terminated_convert_dec _ _ _ _ _))
            · cases h
          rw [if_neg c4] at h
          by_cases c5 : cur p2 = 111
          · rw [if_pos c5] at h
            split at h
            · exact ih _ _ _ h (Or.inl (nul_terminated_convert_dec _ _ _ _ _))
            · cases h
          rw [if_neg c5] at h
          exact ih _ _ _ h (Or.inl (nul_terminated_memset_append _ _ _))
/-- After `mget_buffer_vprintf2` with a format that is not empty, the buffer is
NUL-terminated at its logical end whenever the call returns. -/
theorem mget_buffer_vprintf2_nul_terminated (buf : mget_buffer_t) (fmt : List Nat)
    (args : List Arg) (r : mget_buffer_t × Nat) (h : mget_buffer_vprintf2 buf fmt args = some r)
    (hf : cur fmt ≠ 0) : nul_terminated r.1 := by
  unfold mget_buffer_vprintf2 mget_buffer_vprintf_append2 at h
  cases hl : vprintf_loop (fmt.length + 1) (mget_buffer_reset buf) fmt args with
  | none => rw [hl] at h; cases h
  | some b =>
    rw [hl] at h
    cases h
    exact vprintf_loop_nul_terminated _ _ _ _ _ hl (Or.inr hf)

/-- The appending call keeps a NUL-terminated buffer NUL-terminated, for every
format. -/
theorem mget_buffer_vprintf_append2_nul_terminated (buf : mget_buffer_t) (fmt : List Nat)
    (args : List Arg) (r : mget_buffer_t × Nat)
    (h : mget_buffer_vprintf_append2 buf fmt args = some r) (hb : nul_terminated buf) :
    nul_terminated r.1 := by
  unfold mget_buffer_vprintf_append2 at h
  cases hl : vprintf_loop (fmt.length + 1) buf fmt args with
  | none => rw [hl] at h; cases h
  | some b =>
    rw [hl] at h
    cases h
    exact vprintf_loop_nul_terminated _ _ _ _ _ hl (Or.inl hb)

/-- C21: the formatted reset with the empty format on a NUL-terminated buffer
that holds `abc`.  Both `mget_buffer_vprintf2` and `mget_buffer_printf2`
return 0 and leave the length 0 with the byte `a` at `data[0]`: the buffer is
not NUL-terminated at its logical end. -/
theorem C21_empty_format_not_terminated :
    nul_terminated { content := bytes "abc", slack := [0] } ∧
      mget_buffer_vprintf2 { content := bytes "abc", slack := [0] } [] [] =
        some ({ content := [], slack := bytes "abc" ++ [0] }, 0) ∧
      mget_buffer_printf2 { content := bytes "abc", slack := [0] } [] [] =
        some ({ content := [], slack := bytes "abc" ++ [0] }, 0) ∧
      ¬ nul_terminated { content := [], slack := bytes "abc" ++ [0] } := by decide

/-- The formatted reset with the format `x` on the same buffer leaves `x` and
a NUL after it. -/
theorem mget_buffer_printf2_example :
    mget_buffer_printf2 { content := bytes "abc", slack := [0] } (bytes "x") [] =
      some ({ content := bytes "x", slack := [0, 99, 0] }, 1) := by decide

/-! ## Dates: the arithmetic of `parse_rfc1123_date` -/

theorem cdiv_natCast (a b : Nat) : cdiv (a : Int) (b : Int) = ((a / b : Nat) : Int) := by
  unfold cdiv
  rw [Int.tdiv_eq_ediv (by omega) (by omega)]
  norm_cast

theorem cmod_natCast (a b : Nat) : cmod (a : Int) (b : Int) = ((a % b : Nat) : Int) := by
  unfold cmod
  rw [Int.tmod_eq_emod (by omega) (by omega)]
  norm_cast

/-- The test of the code for a leap year is the Gregorian leap rule. -/
theorem leap_year_gregorian (y : Nat) :
    (cmod (y : Int) 4 == 0 && (cmod (y : Int) 100 != 0 || cmod (y : Int) 400 == 0)) =
      gregorian_leap y := by
  have h4 := cmod_natCast y 4
  have h100 := cmod_natCast y 100
  have h400 := cmod_natCast y 400
  simp only [Nat.cast_ofNat] at h4 h100 h400
  rw [h4, h100, h400]
  unfold gregorian_leap
  have e : ∀ a : Nat, (((a : Nat) : Int) == 0) = (a == 0) := by
    intro a
    cases a <;> rfl
  have n : ∀ a : Nat, (((a : Nat) : Int) != 0) = (a != 0) := by
    intro a
    cases a <;> rfl
  rw [e, e, n]

/-- The value of `leap_days(1970, y)` for a year `y` that is not negative. -/
theorem leap_days_natCast (y : Nat) (hy : 1 ≤ y) :
    leap_days 1970 (y : Int) =
      ((((y - 1) / 4 : Nat) : Int) - 492) - ((((y - 1) / 100 : Nat) : Int) - 19) +
        ((((y - 1) / 400 : Nat) : Int) - 4) := by
  have h1 : ((y : Int) - 1) = ((y - 1 : Nat) : Int) := by omega
  have e : ∀ b : Nat, cdiv ((y : Int) - 1) (b : Int) = (((y - 1) / b : Nat) : Int) := by
    intro b
    rw [h1]
    exact cdiv_natCast _ _
  have e4 := e 4
  have e100 := e 100
  have e400 := e 400
  have f4 : cdiv (1970 - 1) 4 = 492 := by decide
  have f100 : cdiv (1970 - 1) 100 = 19 := by decide
  have f400 : cdiv (1970 - 1) 400 = 4 := by decide
  simp only [Nat.cast_ofNat] at e4 e100 e400
  simp only [leap_days, e4, e100, e400, f4, f100, f400]

/-- The function `leap_days` counts the leap years from 1970 to the year before
`1970 + n`. -/
theorem leap_days_sum (n : Nat) :
    (((List.range n).map (fun k => days_in_year (1970 + k))).sum : Int) =
      365 * (n : Int) + leap_days 1970 ((1970 + n : Nat) : Int) := by
  induction n with
  | zero => simp [leap_days, cdiv]
  | succ n ih =>
    rw [List.range_succ, List.map_append, List.sum_append, Nat.cast_add, ih]
    rw [leap_days_natCast _ (by omega), leap_days_natCast _ (by omega)]
    simp only [List.map_cons, List.map_nil, List.sum_cons, List.sum_nil, days_in_year,
      gregorian_leap]
    by_cases hl : ((1970 + n) % 4 == 0 && ((1970 + n) % 100 != 0 || (1970 + n) % 400 == 0)) = true
    · rw [if_pos hl]
      simp only [Bool.and_eq_true, beq_iff_eq, Bool.or_eq_true, bne_iff_ne, ne_eq] at hl
      push_cast
      omega
    · rw [if_neg hl]
      simp only [Bool.and_eq_true, beq_iff_eq, Bool.or_eq_true, bne_iff_ne, ne_eq] at hl
      push_cast
      omega
/-- The time `parse_rfc1123_date` computes from the fields of a valid date from
1970 on is the number of seconds from the epoch to it. -/
theorem date_to_time_seconds (f : DateFields) (y m d H M S : Nat)
    (hyear : f.year = (y : Int)) (hy : 1970 ≤ y) (hmon : month_of f.mname = (m : Int))
    (hm : 1 ≤ m ∧ m ≤ 12) (hday : f.day = (d : Int)) (hd : 1 ≤ d ∧ d ≤ days_in_month y m)
    (hhour : f.hour = (H : Int)) (hH : H ≤ 23) (hmin : f.min = (M : Int)) (hM : M ≤ 60)
    (hsec : f.sec = (S : Int)) (hS : S ≤ 60) :
    date_to_time f = (seconds_since_epoch y m d H M S : Int) := by
  have y1 : ¬ ((y : Int) < 70 ∧ (y : Int) ≥ 0) := by omega
  have y2 : ¬ ((y : Int) ≥ 70 ∧ (y : Int) ≤ 99) := by omega
  have y3 : ¬ ((y : Int) < 1970) := by omega
  have hsum := leap_days_sum (y - 1970)
  have hy2 : ((1970 + (y - 1970) : Nat) : Int) = (y : Int) := by omega
  rw [hy2] at hsum
  unfold date_to_time
  simp only [hyear, hmon, hday, hhour, hmin, hsec, y1, y2, y3, if_false, leap_year_gregorian]
  unfold seconds_since_epoch days_since_epoch
  obtain ⟨hm1, hm2⟩ := hm
  obtain ⟨hd1, hd2⟩ := hd
  have hY : ((y - 1970 : Nat) : Int) = (y : Int) - 1970 := by omega
  rw [hY] at hsum
  generalize ((List.range (y - 1970)).map (fun k => days_in_year (1970 + k))).sum = A at hsum ⊢
  generalize leap_days 1970 (y : Int) = L at hsum ⊢
  cases hg : gregorian_leap y <;>
    interval_cases m <;>
    simp [days_in_month, hg, days_per_month, sum_of_days, List.range_succ] at hd2 ⊢ <;>
    omega
theorem tolower_letter (c : Nat) (h : 97 ≤ tolower c ∧ tolower c ≤ 122) :
    c ≠ 0 ∧ isspace c = false ∧ isalpha c = true := by
  unfold tolower at h
  simp only [isspace, isalpha, Bool.or_eq_false_iff, beq_eq_false_iff_ne, Bool.and_eq_false_iff,
    decide_eq_false_iff_not, Bool.or_eq_true, Bool.and_eq_true, decide_eq_true_eq]
  split_ifs at h <;> omega

/-- A name of the month `m`, in any letter case: three letters, and the loop
over `mnames` finds the month `m`. -/
theorem month_name_facts (mname : List Nat) (m : Nat) (h : is_month_name mname m) (hm : m ≤ 12) :
    month_of mname = (m : Int) ∧ mname.length = 3 ∧
      ∀ c ∈ mname, c ≠ 0 ∧ isspace c = false := by
  obtain ⟨h1, h2⟩ := h
  have hL : ∀ x ∈ (mnames.getD (m - 1) []).map tolower, 97 ≤ x ∧ x ≤ 122 := by
    interval_cases m <;> decide
  have hlen : ((mnames.getD (m - 1) []).map tolower).length = 3 := by
    interval_cases m <;> decide
  have hc : ∀ c ∈ mname, c ≠ 0 ∧ isspace c = false := by
    intro c hc
    have := tolower_letter c (hL _ (by rw [← h2]; exact List.mem_map_of_mem _ hc))
    exact ⟨this.1, this.2.1⟩
  have hcs : cstr mname = mname := cstr_of_no_nul mname (fun c hc' => (hc c hc').1)
  refine ⟨?_, ?_, hc⟩
  · unfold month_of
    simp only [strcaseeq, hcs, h2]
    interval_cases m <;> decide
  · rw [← hlen, ← h2, List.length_map]
/-! ## Dates: the `sscanf` of the RFC 1123 text -/

/-- The directive `%Nd` on exactly `N` digits. -/
theorem scan_int_width (w : Nat) (ds rest : List Nat) (hlen : ds.length = w) (hw : 1 ≤ w)
    (hd : ∀ c ∈ ds, isdigit c = true) :
    scan_int w (ds ++ rest) = some ((decval ds : Int), rest) := by
  cases ds with
  | nil => simp at hlen; omega
  | cons d ds =>
    have hdd : isdigit d = true := hd d (List.mem_cons_self _ _)
    have hsp : isspace d = false := isdigit_not_space hdd
    have hdb : 48 ≤ d ∧ d ≤ 57 := by
      simpa only [isdigit, Bool.and_eq_true, decide_eq_true_eq] using hdd
    have h45 : (d == 45) = false := by simp; omega
    have h43 : (d == 43) = false := by simp; omega
    have htw : ((d :: ds) ++ rest).takeWhile isdigit = (d :: ds) ++ rest.takeWhile isdigit :=
      takeWhile_append_of_all _ _ hd
    have htk : ((d :: ds) ++ rest.takeWhile isdigit).take w = d :: ds := by
      rw [← hlen]
      exact List.take_left' rfl
    unfold scan_int
    have hdw : ((d :: ds) ++ rest).dropWhile isspace = (d :: ds) ++ rest := by
      simp [List.dropWhile_cons, hsp]
    simp only [hdw]
    have hcur : cur ((d :: ds) ++ rest) = d := rfl
    simp only [hcur, h45, h43, Bool.or_self, Bool.false_eq_true, if_false, htw, htk]
    simp

theorem two_digits_facts (n : Nat) (hn : n < 100) :
    (two_digits n).length = 2 ∧ (∀ c ∈ two_digits n, isdigit c = true) ∧
      decval (two_digits n) = n := by
  refine ⟨rfl, ?_, ?_⟩
  · intro c hc
    simp only [two_digits, List.mem_cons, List.mem_singleton, List.not_mem_nil, or_false] at hc
    simp only [isdigit, Bool.and_eq_true, decide_eq_true_eq]
    omega
  · simp only [two_digits, decval, List.foldl_cons, List.foldl_nil]
    omega

theorem four_digits_facts (n : Nat) (hn : n < 10000) :
    (four_digits n).length = 4 ∧ (∀ c ∈ four_digits n, isdigit c = true) ∧
      decval (four_digits n) = n := by
  refine ⟨rfl, ?_, ?_⟩
  · intro c hc
    simp only [four_digits, List.mem_cons, List.mem_singleton, List.not_mem_nil, or_false] at hc
    simp only [isdigit, Bool.and_eq_true, decide_eq_true_eq]
    omega
  · simp only [four_digits, decval, List.foldl_cons, List.foldl_nil]
    omega

theorem cur_digits_not_space (ds rest : List Nat) (hne : ds ≠ [])
    (hd : ∀ c ∈ ds, isdigit c = true) : isspace (cur (ds ++ rest)) = false := by
  cases ds with
  | nil => exact absurd rfl hne
  | cons d ds => exact isdigit_not_space (hd d (List.mem_cons_self _ _))

theorem two_digits_ne_nil (n : Nat) : two_digits n ≠ [] := by simp [two_digits]

theorem four_digits_ne_nil (n : Nat) : four_digits n ≠ [] := by simp [four_digits]

/-- The tail `%2d:%2d:%2d` on `hh:mm:ss`. -/
theorem scan_hms_text (H M S : Nat) (rest : List Nat) (hH : H < 100) (hM : M < 100)
    (hS : S < 100) :
    scan_hms (two_digits H ++ (58 :: (two_digits M ++ (58 :: (two_digits S ++ rest))))) =
      some ((H : Int), (M : Int), (S : Int), rest) := by
  obtain ⟨h1, h2, h3⟩ := two_digits_facts H hH
  obtain ⟨m1, m2, m3⟩ := two_digits_facts M hM
  obtain ⟨s1, s2, s3⟩ := two_digits_facts S hS
  unfold scan_hms
  simp only [Option.bind_eq_bind, Option.some_bind, scan_int_width 2 _ _ h1 (by decide) h2,
    scan_int_width 2 _ _ m1 (by decide) m2, scan_int_width 2 _ _ s1 (by decide) s2,
    scan_lit, if_true, h3, m3, s3]
  rfl

/-- The first `sscanf` of `parse_rfc1123_date` on the RFC 1123 text of a date:
all six fields are converted. -/
theorem scan_rfc1123_text (dname mname : List Nat) (y d H M S : Nat)
    (hdn : is_day_name dname) (hml : mname.length = 3)
    (hmc : ∀ c ∈ mname, c ≠ 0 ∧ isspace c = false)
    (hy : y < 10000) (hd : d < 100) (hH : H < 100) (hM : M < 100) (hS : S < 100) :
    scan_rfc1123 (rfc1123_text dname mname y d H M S) =
      some { day := d, mname := mname, year := y, hour := H, min := M, sec := S } := by
  obtain ⟨hdne, hda⟩ := hdn
  obtain ⟨d1, d2, d3⟩ := two_digits_facts d hd
  obtain ⟨y1, y2, y3⟩ := four_digits_facts y hy
  have hb : bytes ", " = [44, 32] := by decide
  have hmne : mname ≠ [] := by
    intro h
    rw [h] at hml
    cases hml
  have hws1 : ∀ X : List Nat, scan_ws (dname ++ X) = dname ++ X := by
    intro X
    cases dname with
    | nil => exact absurd rfl hdne
    | cons a as =>
      have ha := hda a (List.mem_cons_self _ _)
      have : isspace a = false := by
        simp only [isalpha, Bool.or_eq_true, Bool.and_eq_true, decide_eq_true_eq] at ha
        simp only [isspace, Bool.or_eq_false_iff, beq_eq_false_iff_ne, Bool.and_eq_false_iff,
          decide_eq_false_iff_not]
        omega
      simp [scan_ws, List.dropWhile_cons, this]
  have halpha : ∀ X : List Nat, scan_alpha (dname ++ 44 :: X) = some (44 :: X) := by
    intro X
    unfold scan_alpha
    have h1 : isalpha (cur (dname ++ 44 :: X)) = true := by
      cases dname with
      | nil => exact absurd rfl hdne
      | cons a as => exact hda a (List.mem_cons_self _ _)
    rw [if_pos h1, dropWhile_append_stop _ _ _ hda (by decide)]
  have hs3 : ∀ X : List Nat, scan_s3 (mname ++ 32 :: X) = some (mname, 32 :: X) := by
    intro X
    unfold scan_s3 scan_set
    have hdw : (mname ++ 32 :: X).dropWhile isspace = mname ++ 32 :: X := by
      cases mname with
      | nil => exact absurd rfl hmne
      | cons a as =>
        have := (hmc a (List.mem_cons_self _ _)).2
        simp [List.dropWhile_cons, this]
    have hc1 : cstr (mname ++ 32 :: X) = mname ++ 32 :: cstr X := by
      rw [cstr_append_of_no_nul _ _ (fun c hc => (hmc c hc).1)]
      simp [cstr, List.takeWhile_cons]
    have htw : (mname ++ 32 :: cstr X).takeWhile (fun c => !isspace c) = mname := by
      apply takeWhile_append_stop
      · intro a ha
        simp [(hmc a ha).2]
      · decide
    have htk : mname.take 3 = mname := by
      rw [← hml]
      exact List.take_length _
    simp only [hdw, hc1, htw, htk, if_neg hmne]
    simp
  unfold scan_rfc1123 rfc1123_text
  rw [hb]
  simp only [List.cons_append, List.nil_append, hws1, halpha, Option.bind_eq_bind,
    Option.some_bind, scan_lit, if_true,
    scan_ws_space_then _ (cur_digits_not_space _ _ (two_digits_ne_nil d) d2),
    scan_int_width 2 _ _ d1 (by decide) d2, d3]
  have hmsp : isspace (cur (mname ++ 32 :: (four_digits y ++ 32 :: (two_digits H ++
      58 :: (two_digits M ++ 58 :: (two_digits S ++ bytes " GMT")))))) = false := by
    cases mname with
    | nil => exact absurd rfl hmne
    | cons a as => exact (hmc a (List.mem_cons_self _ _)).2
  simp only [scan_ws_space_then _ hmsp, hs3, Option.bind_eq_bind, Option.some_bind,
    scan_ws_space_then _ (cur_digits_not_space _ _ (four_digits_ne_nil y) y2),
    scan_int_width 4 _ _ y1 (by decide) y2, y3,
    scan_ws_space_then _ (cur_digits_not_space _ _ (two_digits_ne_nil H)
      (two_digits_facts H hH).2.1),
    scan_hms_text H M S _ hH hM hS]
  rfl
theorem days_in_month_le (y m : Nat) : days_in_month y m ≤ 31 := by
  unfold days_in_month
  split_ifs <;> omega

/-- The function `parse_rfc1123_date` on the RFC 1123 text of a valid date from
1970 to 9999. -/
theorem parse_rfc1123_date_text (dname mname : List Nat) (y m d H M S : Nat)
    (hdn : is_day_name dname) (hmn : is_month_name mname m) (hm : m ≤ 12)
    (hy1 : 1970 ≤ y) (hy2 : y ≤ 9999) (hd1 : 1 ≤ d) (hd2 : d ≤ days_in_month y m)
    (hH : H ≤ 23) (hM : M ≤ 59) (hS : S ≤ 59) :
    parse_rfc1123_date (rfc1123_text dname mname y d H M S) =
      (seconds_since_epoch y m d H M S : Int) := by
  obtain ⟨hmon, hml, hmc⟩ := month_name_facts mname m hmn hm
  have hd : d < 100 := by
    have := days_in_month_le y m
    omega
  unfold parse_rfc1123_date
  rw [scan_rfc1123_text dname mname y d H M S hdn hml hmc (by omega) hd (by omega) (by omega)
    (by omega)]
  exact date_to_time_seconds _ y m d H M S rfl hy1 hmon ⟨hmn.1, hm⟩ rfl ⟨hd1, hd2⟩ rfl hH rfl
    (by omega) rfl (by omega)

/-- C22: for every year 1970..9999, every month, every day valid for that
month and year under the Gregorian leap rule, hour 0..23, minute 0..59 and
second 0..59, `parse_rfc1123_date` on the RFC 1123 text of that date and time
returns the number of seconds from 1970-01-01 00:00:00 UTC to it.  The name of
the month may be written in any letter case, the name of the day is any word. -/
theorem C22_rfc1123_date_seconds (dname mname : List Nat) (y m d H M S : Nat)
    (hdn : is_day_name dname) (hmn : is_month_name mname m) (hm : m ≤ 12)
    (hy1 : 1970 ≤ y) (hy2 : y ≤ 9999) (hd1 : 1 ≤ d) (hd2 : d ≤ days_in_month y m)
    (hH : H ≤ 23) (hM : M ≤ 59) (hS : S ≤ 59) :
    parse_rfc1123_date (rfc1123_text dname mname y d H M S) =
      ((days_since_epoch y m d * 86400 + H * 3600 + M * 60 + S : Nat) : Int) :=
  parse_rfc1123_date_text dname mname y m d H M S hdn hmn hm hy1 hy2 hd1 hd2 hH hM hS

theorem C22_rfc1123_date_seconds_witness :
    is_day_name (bytes "Wed") ∧ is_month_name (bytes "jUN") 6 ∧ 6 ≤ 12 ∧ 1970 ≤ 2021 ∧
      2021 ≤ 9999 ∧ 1 ≤ 9 ∧ 9 ≤ days_in_month 2021 6 ∧ 10 ≤ 23 ∧ 18 ≤ 59 ∧ 14 ≤ 59 ∧
      parse_rfc1123_date (rfc1123_text (bytes "Wed") (bytes "jUN") 2021 9 10 18 14) =
        ((days_since_epoch 2021 6 9 * 86400 + 10 * 3600 + 18 * 60 + 14 : Nat) : Int) :=
  ⟨by decide, by decide, by decide, by decide, by decide, by decide, by decide, by decide,
    by decide, by decide,
    C22_rfc1123_date_seconds (bytes "Wed") (bytes "jUN") 2021 6 9 10 18 14 (by decide) (by decide)
      (by decide) (by decide) (by decide) (by decide) (by decide) (by decide) (by decide)
      (by decide)⟩

/-- The date `Wed, 09 Jun 2021 10:18:14 GMT` is 18787 days and 37094 seconds
after the epoch, and `parse_rfc1123_date` returns 1623233894 for it. -/
theorem parse_rfc1123_date_example :
    rfc1123_text (bytes "Wed") (bytes "Jun") 2021 9 10 18 14 =
        bytes "Wed, 09 Jun 2021 10:18:14 GMT" ∧
      days_since_epoch 2021 6 9 = 18787 ∧
      seconds_since_epoch 2021 6 9 10 18 14 = 1623233894 ∧
      parse_rfc1123_date (bytes "Wed, 09 Jun 2021 10:18:14 GMT") = 1623233894 ∧
      parse_rfc1123_date (bytes "Wed, 09 JUN 2021 10:18:14 GMT") = 1623233894 := by
  refine ⟨by decide, by decide, by decide, by decide, by decide⟩

/-! ## Dates: two-digit years and years before 1970 -/

theorem mapped_year_ge (y : Int) : 1970 ≤ mapped_year y := by
  unfold mapped_year
  simp only
  split_ifs <;> omega

/-- The year `parse_rfc1123_date` works with is the mapped year. -/
theorem date_to_time_mapped (f : DateFields) :
    date_to_time f = date_to_time { f with year := mapped_year f.year } := by
  have hge := mapped_year_ge f.year
  have e1 : (if f.year < 70 ∧ f.year ≥ 0 then f.year + 2000
      else if f.year ≥ 70 ∧ f.year ≤ 99 then f.year + 1900 else f.year) =
      (if 0 ≤ f.year ∧ f.year < 70 then 2000 + f.year
        else if 70 ≤ f.year ∧ f.year ≤ 99 then 1900 + f.year else f.year) := by
    split_ifs <;> omega
  have e2 : (if (if f.year < 70 ∧ f.year ≥ 0 then f.year + 2000
      else if f.year ≥ 70 ∧ f.year ≤ 99 then f.year + 1900 else f.year) < 1970 then (1970 : Int)
      else (if f.year < 70 ∧ f.year ≥ 0 then f.year + 2000
        else if f.year ≥ 70 ∧ f.year ≤ 99 then f.year + 1900 else f.year)) =
      mapped_year f.year := by
    rw [e1]
    rfl
  have y1 : ¬ (mapped_year f.year < 70 ∧ mapped_year f.year ≥ 0) := by omega
  have y2 : ¬ (mapped_year f.year ≥ 70 ∧ mapped_year f.year ≤ 99) := by omega
  have y3 : ¬ (mapped_year f.year < 1970) := by omega
  unfold date_to_time
  simp only [e2, y1, y2, y3, if_false]

/-- Fields that are not valid give the time 0. -/
theorem date_to_time_invalid (f : DateFields) (hy : 1970 ≤ f.year)
    (h : ¬ valid_date f.year (month_of f.mname) f.day f.hour f.min f.sec) :
    date_to_time f = 0 := by
  obtain ⟨y, hyy⟩ : ∃ y : Nat, f.year = (y : Int) := ⟨f.year.toNat, by omega⟩
  have y1 : ¬ ((y : Int) < 70 ∧ (y : Int) ≥ 0) := by omega
  have y2 : ¬ ((y : Int) ≥ 70 ∧ (y : Int) ≤ 99) := by omega
  have y3 : ¬ ((y : Int) < 1970) := by omega
  unfold date_to_time
  simp only [hyy, y1, y2, y3, if_false, leap_year_gregorian]
  apply if_pos
  unfold valid_date at h
  rw [hyy] at h
  simp only [Int.toNat_ofNat] at h
  generalize month_of f.mname = mon at h ⊢
  by_cases hm : 1 ≤ mon ∧ mon ≤ 12
  · obtain ⟨m, hmm⟩ : ∃ m : Nat, mon = (m : Int) := ⟨mon.toNat, by omega⟩
    subst hmm
    simp only [Int.toNat_ofNat] at h
    obtain ⟨hm1, hm2⟩ := hm
    have hm1 : 1 ≤ m := by omega
    have hm2 : m ≤ 12 := by omega
    cases hg : gregorian_leap y <;>
      interval_cases m <;>
      simp [days_in_month, hg, days_per_month] at h ⊢ <;>
      omega
  · omega

/-- What `parse_rfc1123_date` computes from the scanned fields: with the mapped
year, the seconds from the epoch to a valid date and 0 for another one. -/
theorem date_to_time_spec (f : DateFields) :
    date_to_time f =
      if valid_date (mapped_year f.year) (month_of f.mname) f.day f.hour f.min f.sec then
        ((seconds_since_epoch (mapped_year f.year).toNat (month_of f.mname).toNat f.day.toNat
          f.hour.toNat f.min.toNat f.sec.toNat : Nat) : Int)
      else 0 := by
  have hge := mapped_year_ge f.year
  rw [date_to_time_mapped]
  by_cases hv : valid_date (mapped_year f.year) (month_of f.mname) f.day f.hour f.min f.sec
  · rw [if_pos hv]
    obtain ⟨v1, v2, v3, v4, v5, v6, v7, v8, v9, v10⟩ := hv
    apply date_to_time_seconds
    · show mapped_year f.year = _
      omega
    · omega
    · show month_of f.mname = _
      omega
    · omega
    · show f.day = _
      omega
    · omega
    · show f.hour = _
      omega
    · omega
    · show f.min = _
      omega
    · omega
    · show f.sec = _
      omega
    · omega
  · rw [if_neg hv]
    exact date_to_time_invalid _ hge hv

theorem parse_rfc1123_date_nonneg (s : List Nat) : 0 ≤ parse_rfc1123_date s := by
  have h : ∀ f : DateFields, 0 ≤ date_to_time f := by
    intro f
    rw [date_to_time_spec]
    split_ifs
    · exact Int.natCast_nonneg _
    · exact le_refl _
  unfold parse_rfc1123_date
  split
  · exact h _
  · split
    · exact h _
    · split
      · exact h _
      · exact le_refl _
/-! ## Dates: the year as it is scanned from the text -/

/-- The directive `%Nd` on at most `N` digits that are followed by a byte
that is no digit. -/
theorem scan_int_digits (w : Nat) (ds rest : List Nat) (x : Nat) (hne : ds ≠ [])
    (hlen : ds.length ≤ w) (hd : ∀ c ∈ ds, isdigit c = true) (hx : isdigit x = false) :
    scan_int w (ds ++ x :: rest) = some ((decval ds : Int), x :: rest) := by
  cases ds with
  | nil => exact absurd rfl hne
  | cons d ds =>
    have hdd : isdigit d = true := hd d (List.mem_cons_self _ _)
    have hsp : isspace d = false := isdigit_not_space hdd
    have hdb : 48 ≤ d ∧ d ≤ 57 := by
      simpa only [isdigit, Bool.and_eq_true, decide_eq_true_eq] using hdd
    have h45 : (d == 45) = false := by simp; omega
    have h43 : (d == 43) = false := by simp; omega
    have htw := takeWhile_append_stop (d :: ds) rest x hd hx
    simp only [List.cons_append] at htw
    have htake : (d :: ds).take w = d :: ds := List.take_of_length_le hlen
    unfold scan_int
    simp only [List.cons_append, List.dropWhile_cons, hsp, Bool.false_eq_true, if_false, cur,
      List.headD_cons, h45, h43, Bool.or_self, htw, htake, List.cons_ne_nil, List.length_cons]
    simp

/-- The first `sscanf` of `parse_rfc1123_date` on the RFC 1123 text of a date
whose year is written with one to four digits: all six fields are converted,
the year being the number the digits stand for. -/
theorem scan_rfc1123_year_text (dname mname ytext : List Nat) (d H M S : Nat)
    (hdn : is_day_name dname) (hml : mname.length = 3)
    (hmc : ∀ c ∈ mname, c ≠ 0 ∧ isspace c = false)
    (hy : is_year_text ytext) (hd : d < 100) (hH : H < 100) (hM : M < 100) (hS : S < 100) :
    scan_rfc1123 (rfc1123_year_text dname mname ytext d H M S) =
      some { day := d, mname := mname, year := (decval ytext : Int), hour := H, min := M,
             sec := S } := by
  obtain ⟨hdne, hda⟩ := hdn
  obtain ⟨hyne, hylen, hyd⟩ := hy
  obtain ⟨d1, d2, d3⟩ := two_digits_facts d hd
  have hb : bytes ", " = [44, 32] := by decide
  have hmne : mname ≠ [] := by
    intro h
    rw [h] at hml
    cases hml
  have hws1 : ∀ X : List Nat, scan_ws (dname ++ X) = dname ++ X := by
    intro X
    cases dname with
    | nil => exact absurd rfl hdne
    | cons a as =>
      have ha := hda a (List.mem_cons_self _ _)
      have : isspace a = false := by
        simp only [isalpha, Bool.or_eq_true, Bool.and_eq_true, decide_eq_true_eq] at ha
        simp only [isspace, Bool.or_eq_false_iff, beq_eq_false_iff_ne, Bool.and_eq_false_iff,
          decide_eq_false_iff_not]
        omega
      simp [scan_ws, List.dropWhile_cons, this]
  have halpha : ∀ X : List Nat, scan_alpha (dname ++ 44 :: X) = some (44 :: X) := by
    intro X
    unfold scan_alpha
    have h1 : isalpha (cur (dname ++ 44 :: X)) = true := by
      cases dname with
      | nil => exact absurd rfl hdne
      | cons a as => exact hda a (List.mem_cons_self _ _)
    rw [if_pos h1, dropWhile_append_stop _ _ _ hda (by decide)]
  have hs3 : ∀ X : List Nat, scan_s3 (mname ++ 32 :: X) = some (mname, 32 :: X) := by
    intro X
    unfold scan_s3 scan_set
    have hdw : (mname ++ 32 :: X).dropWhile isspace = mname ++ 32 :: X := by
      cases mname with
      | nil => exact absurd rfl hmne
      | cons a as =>
        have := (hmc a (List.mem_cons_self _ _)).2
        simp [List.dropWhile_cons, this]
    have hc1 : cstr (mname ++ 32 :: X) = mname ++ 32 :: cstr X := by
      rw [cstr_append_of_no_nul _ _ (fun c hc => (hmc c hc).1)]
      simp [cstr, List.takeWhile_cons]
    have htw : (mname ++ 32 :: cstr X).takeWhile (fun c => !isspace c) = mname := by
      apply takeWhile_append_stop
      · intro a ha
        simp [(hmc a ha).2]
      · decide
    have htk : mname.take 3 = mname := by
      rw [← hml]
      exact List.take_length _
    simp only [hdw, hc1, htw, htk, if_neg hmne]
    simp
  unfold scan_rfc1123 rfc1123_year_text
  rw [hb]
  simp only [List.cons_append, List.nil_append, hws1, halpha, Option.bind_eq_bind,
    Option.some_bind, scan_lit, if_true,
    scan_ws_space_then _ (cur_digits_not_space _ _ (two_digits_ne_nil d) d2),
    scan_int_width 2 _ _ d1 (by decide) d2, d3]
  have hmsp : isspace (cur (mname ++ 32 :: (ytext ++ 32 :: (two_digits H ++
      58 :: (two_digits M ++ 58 :: (two_digits S ++ bytes " GMT")))))) = false := by
    cases mname with
    | nil => exact absurd rfl hmne
    | cons a as => exact (hmc a (List.mem_cons_self _ _)).2
  simp only [scan_ws_space_then _ hmsp, hs3, Option.bind_eq_bind, Option.some_bind,
    scan_ws_space_then _ (cur_digits_not_space _ _ hyne hyd),
    scan_int_digits 4 ytext _ 32 hyne hylen hyd (by decide),
    scan_ws_space_then _ (cur_digits_not_space _ _ (two_digits_ne_nil H)
      (two_digits_facts H hH).2.1),
    scan_hms_text H M S _ hH hM hS]
  rfl

/-- Whatever the text, the time `parse_rfc1123_date` returns is 0 when no
format converts all six fields, and otherwise the time computed with the
mapped year from the fields the first matching format has scanned from the
text. -/
theorem parse_rfc1123_date_fields (s : List Nat) :
    (scan_rfc1123 s = none ∧ scan_rfc850 s = none ∧ scan_asctime s = none ∧
        parse_rfc1123_date s = 0) ∨
      ∃ f : DateFields,
        (scan_rfc1123 s = some f ∨ (scan_rfc1123 s = none ∧ scan_rfc850 s = some f) ∨
          (scan_rfc1123 s = none ∧ scan_rfc850 s = none ∧ scan_asctime s = some f)) ∧
        parse_rfc1123_date s =
          (if valid_date (mapped_year f.year) (month_of f.mname) f.day f.hour f.min f.sec then
            ((seconds_since_epoch (mapped_year f.year).toNat (month_of f.mname).toNat
              f.day.toNat f.hour.toNat f.min.toNat f.sec.toNat : Nat) : Int)
          else 0) := by
  unfold parse_rfc1123_date
  cases h1 : scan_rfc1123 s with
  | some f => exact Or.inr ⟨f, Or.inl rfl, date_to_time_spec f⟩
  | none =>
    cases h2 : scan_rfc850 s with
    | some f => exact Or.inr ⟨f, Or.inr (Or.inl ⟨rfl, rfl⟩), date_to_time_spec f⟩
    | none =>
      cases h3 : scan_asctime s with
      | some f => exact Or.inr ⟨f, Or.inr (Or.inr ⟨rfl, rfl, rfl⟩), date_to_time_spec f⟩
      | none => exact Or.inl ⟨rfl, rfl, rfl, rfl⟩

/-- The function `parse_rfc1123_date` on the RFC 1123 text of a date whose
year is written with one to four digits. -/
theorem parse_rfc1123_date_year_text (dname mname ytext : List Nat) (m d H M S : Nat)
    (hdn : is_day_name dname) (hmn : is_month_name mname m) (hm : m ≤ 12)
    (hy : is_year_text ytext) (hd : d < 100) (hH : H < 100) (hM : M < 100) (hS : S < 100) :
    parse_rfc1123_date (rfc1123_year_text dname mname ytext d H M S) =
      mapped_time (decval ytext) m d H M S := by
  obtain ⟨hmon, hml, hmc⟩ := month_name_facts mname m hmn hm
  unfold parse_rfc1123_date
  rw [scan_rfc1123_year_text dname mname ytext d H M S hdn hml hmc hy hd hH hM hS]
  simp only [date_to_time_spec, hmon]
  rfl

/-- C24: the year `parse_rfc1123_date` scans from the text is mapped before
anything else is done with it: 0..69 to 2000 + y, 70..99 to 1900 + y, and
then every year below 1970 to 1970.  For the RFC 1123 text of a date whose
year is written with one to four digits, the time returned is the number of
seconds from the epoch to that date in the mapped year when the month, the
day of that month of the mapped year, the hour, the minute and the second are
valid, and 0 otherwise.  For every text `s`, either no format converts all six
fields and 0 is returned, or the time returned is the one computed in the same
way from the fields the first matching format has scanned from `s`; it is
never negative. -/
theorem C24_two_digit_years_and_clamp (dname mname ytext s : List Nat) (m d H M S : Nat)
    (hdn : is_day_name dname) (hmn : is_month_name mname m) (hm : m ≤ 12)
    (hy : is_year_text ytext) (hd : d < 100) (hH : H < 100) (hM : M < 100) (hS : S < 100) :
    parse_rfc1123_date (rfc1123_year_text dname mname ytext d H M S) =
        (if valid_date (mapped_year (decval ytext)) m d H M S then
          ((seconds_since_epoch (mapped_year (decval ytext)).toNat m d H M S : Nat) : Int)
        else 0) ∧
      (decval ytext < 70 → mapped_year (decval ytext) = 2000 + (decval ytext : Int)) ∧
      (70 ≤ decval ytext ∧ decval ytext ≤ 99 →
        mapped_year (decval ytext) = 1900 + (decval ytext : Int)) ∧
      (100 ≤ decval ytext ∧ decval ytext < 1970 → mapped_year (decval ytext) = 1970) ∧
      (1970 ≤ decval ytext → mapped_year (decval ytext) = (decval ytext : Int)) ∧
      1970 ≤ mapped_year (decval ytext) ∧
      ((scan_rfc1123 s = none ∧ scan_rfc850 s = none ∧ scan_asctime s = none ∧
          parse_rfc1123_date s = 0) ∨
        ∃ f : DateFields,
          (scan_rfc1123 s = some f ∨ (scan_rfc1123 s = none ∧ scan_rfc850 s = some f) ∨
            (scan_rfc1123 s = none ∧ scan_rfc850 s = none ∧ scan_asctime s = some f)) ∧
          parse_rfc1123_date s =
            (if valid_date (mapped_year f.year) (month_of f.mname) f.day f.hour f.min f.sec then
              ((seconds_since_epoch (mapped_year f.year).toNat (month_of f.mname).toNat
                f.day.toNat f.hour.toNat f.min.toNat f.sec.toNat : Nat) : Int)
            else 0)) ∧
      0 ≤ parse_rfc1123_date s := by
  have h := parse_rfc1123_date_year_text dname mname ytext m d H M S hdn hmn hm hy hd hH hM hS
  refine ⟨?_, ?_, ?_, ?_, ?_, mapped_year_ge _, parse_rfc1123_date_fields s,
    parse_rfc1123_date_nonneg s⟩
  · rw [h]
    unfold mapped_time
    simp only [Int.toNat_ofNat]
  · intro h1
    unfold mapped_year
    simp only
    split_ifs <;> omega
  · intro h1
    unfold mapped_year
    simp only
    split_ifs <;> omega
  · intro h1
    unfold mapped_year
    simp only
    split_ifs <;> omega
  · intro h1
    unfold mapped_year
    simp only
    split_ifs <;> omega

/-- C24 at `Wed, 09 Jun 21 10:18:14 GMT`: the year 21 is taken as 2021 and the
time returned is 1623233894. -/
theorem C24_two_digit_years_and_clamp_witness :
    is_day_name (bytes "Wed") ∧ is_month_name (bytes "Jun") 6 ∧ is_year_text (bytes "21") ∧
      rfc1123_year_text (bytes "Wed") (bytes "Jun") (bytes "21") 9 10 18 14 =
        bytes "Wed, 09 Jun 21 10:18:14 GMT" ∧
      mapped_year (decval (bytes "21")) = 2021 ∧
      parse_rfc1123_date (bytes "Wed, 09 Jun 21 10:18:14 GMT") = 1623233894 ∧
      parse_rfc1123_date (bytes "Wed, 09 Jun 21 10:18:14 GMT") =
        ((seconds_since_epoch 2021 6 9 10 18 14 : Nat) : Int) :=
  ⟨by decide, by decide, by decide, by decide, by decide,
    (C24_two_digit_years_and_clamp (bytes "Wed") (bytes "Jun") (bytes "21")
      (bytes "Wednesday, 09-Jun-21 10:18:14") 6 9 10 18 14 (by decide) (by decide) (by decide)
      (by decide) (by decide) (by decide) (by decide) (by decide)).1.trans (by decide),
    by decide⟩

/-- Years in dates: `21` is taken as 2021 and `70` as 1970, the year 1960 is
replaced by 1970, and the 29th of February 1960 is no valid date because 1970
is no leap year. -/
theorem parse_rfc1123_date_years :
    mapped_year 21 = 2021 ∧ mapped_year 70 = 1970 ∧ mapped_year 99 = 1999 ∧
      mapped_year 1960 = 1970 ∧ mapped_year (-5) = 1970 ∧ mapped_year 100 = 1970 ∧
      parse_rfc1123_date (bytes "Wednesday, 09-Jun-21 10:18:14") =
        seconds_since_epoch 2021 6 9 10 18 14 ∧
      parse_rfc1123_date (bytes "Wed, 09 Jun 70 10:18:14 GMT") =
        seconds_since_epoch 1970 6 9 10 18 14 ∧
      parse_rfc1123_date (bytes "Wed, 09 Jun 1960 10:18:14 GMT") =
        seconds_since_epoch 1970 6 9 10 18 14 ∧
      parse_rfc1123_date (bytes "Wed, 29 Feb 1960 10:18:14 GMT") = 0 := by
  refine ⟨by decide, by decide, by decide, by decide, by decide, by decide, by decide, by decide,
    by decide, by decide⟩

/-! ## Dates: the renderer and the round trip -/

theorem sum_range_succ_front (f : Nat → Nat) (n : Nat) :
    ((List.range (n + 1)).map f).sum = f 0 + ((List.range n).map (fun k => f (k + 1))).sum := by
  rw [List.range_succ_eq_map, List.map_cons, List.sum_cons, List.map_map]
  rfl

theorem sum_range_mono (f : Nat → Nat) (n m : Nat) (h : n ≤ m) :
    ((List.range n).map f).sum ≤ ((List.range m).map f).sum := by
  induction m with
  | zero =>
    have : n = 0 := by omega
    subst this
    exact le_refl _
  | succ m ih =>
    by_cases hn : n = m + 1
    · subst hn
      exact le_refl _
    · have := ih (by omega)
      rw [List.range_succ, List.map_append, List.sum_append]
      omega

theorem days_in_year_ge (y : Nat) : 365 ≤ days_in_year y := by
  unfold days_in_year
  split_ifs <;> omega

/-- The year loop of `gmtime_r`: the day number is the days of the years passed
and a day within the year reached. -/
theorem gmtime_years_spec (fuel y0 d0 : Nat) (hf : d0 < 365 * fuel) :
    y0 ≤ (gmtime_years fuel y0 d0).1 ∧
      (gmtime_years fuel y0 d0).2 < days_in_year (gmtime_years fuel y0 d0).1 ∧
      d0 = ((List.range ((gmtime_years fuel y0 d0).1 - y0)).map
        (fun k => days_in_year (y0 + k))).sum + (gmtime_years fuel y0 d0).2 := by
  induction fuel generalizing y0 d0 with
  | zero => omega
  | succ n ih =>
    unfold gmtime_years
    by_cases h : days_in_year y0 ≤ d0
    · rw [if_pos h]
      have hge := days_in_year_ge y0
      obtain ⟨i1, i2, i3⟩ := ih (y0 + 1) (d0 - days_in_year y0) (by omega)
      refine ⟨by omega, i2, ?_⟩
      have hlen : (gmtime_years n (y0 + 1) (d0 - days_in_year y0)).1 - y0 =
          ((gmtime_years n (y0 + 1) (d0 - days_in_year y0)).1 - (y0 + 1)) + 1 := by omega
      rw [hlen, sum_range_succ_front]
      have hfun : (fun k => days_in_year (y0 + (k + 1))) = (fun k => days_in_year (y0 + 1 + k)) := by
        funext k
        congr 1
        omega
      rw [hfun]
      simp only [Nat.add_zero]
      omega
    · rw [if_neg h]
      simp only [Nat.sub_self, List.range_zero, List.map_nil, List.sum_nil, Nat.zero_add]
      exact ⟨le_refl _, by omega, trivial⟩

theorem days_in_month_pos (y m : Nat) (h : 0 < days_in_month y m) : 1 ≤ m ∧ m ≤ 12 := by
  unfold days_in_month at h
  split_ifs at h <;> omega

/-- The month loop of `gmtime_r`: the day number is the days of the months
passed and a day within the month reached. -/
theorem gmtime_months_inv (fuel y m d : Nat) (hf : 13 ≤ m + fuel)
    (hd : d < ((List.range (13 - m)).map (fun k => days_in_month y (m + k))).sum) :
    m ≤ (gmtime_months fuel y m d).1 ∧ (gmtime_months fuel y m d).1 ≤ 12 ∧
      (gmtime_months fuel y m d).2 < days_in_month y (gmtime_months fuel y m d).1 ∧
      d = ((List.range ((gmtime_months fuel y m d).1 - m)).map
        (fun k => days_in_month y (m + k))).sum + (gmtime_months fuel y m d).2 := by
  induction fuel generalizing m d with
  | zero =>
    have : 13 - m = 0 := by omega
    rw [this] at hd
    simp at hd
  | succ n ih =>
    have hm : m ≤ 12 := by
      by_contra hc
      have : 13 - m = 0 := by omega
      rw [this] at hd
      simp at hd
    unfold gmtime_months
    by_cases h : days_in_month y m ≤ d
    · rw [if_pos h]
      have hlen : 13 - m = (13 - (m + 1)) + 1 := by omega
      rw [hlen, sum_range_succ_front] at hd
      have hfun : (fun k => days_in_month y (m + (k + 1))) =
          (fun k => days_in_month y (m + 1 + k)) := by
        funext k
        congr 1
        omega
      rw [hfun] at hd
      simp only [Nat.add_zero] at hd
      obtain ⟨i1, i2, i3, i4⟩ := ih (m + 1) (d - days_in_month y m) (by omega) (by omega)
      refine ⟨by omega, i2, i3, ?_⟩
      have hlen2 : (gmtime_months n y (m + 1) (d - days_in_month y m)).1 - m =
          ((gmtime_months n y (m + 1) (d - days_in_month y m)).1 - (m + 1)) + 1 := by omega
      rw [hlen2, sum_range_succ_front, hfun]
      simp only [Nat.add_zero]
      omega
    · rw [if_neg h]
      simp only [Nat.sub_self, List.range_zero, List.map_nil, List.sum_nil, Nat.zero_add]
      exact ⟨le_refl _, hm, by omega, trivial⟩

theorem days_in_year_months (y : Nat) :
    ((List.range 12).map (fun k => days_in_month y (1 + k))).sum = days_in_year y := by
  unfold days_in_year
  cases hg : gregorian_leap y <;> simp [List.range_succ, days_in_month, hg]

/-- The month loop of `gmtime_r`, from January on, for a day of the year. -/
theorem gmtime_months_spec (y d : Nat) (hd : d < days_in_year y) :
    1 ≤ (gmtime_months 12 y 1 d).1 ∧ (gmtime_months 12 y 1 d).1 ≤ 12 ∧
      (gmtime_months 12 y 1 d).2 < days_in_month y (gmtime_months 12 y 1 d).1 ∧
      d = ((List.range ((gmtime_months 12 y 1 d).1 - 1)).map
        (fun k => days_in_month y (k + 1))).sum + (gmtime_months 12 y 1 d).2 := by
  have h := gmtime_months_inv 12 y 1 d (by omega) (by
    rw [show 13 - 1 = 12 from rfl, days_in_year_months]
    exact hd)
  have hfun : (fun k => days_in_month y (1 + k)) = (fun k => days_in_month y (k + 1)) := by
    funext k
    congr 1
    omega
  rw [hfun] at h
  exact h
theorem numeral_step (n : Nat) (hn : 0 < n) :
    numeral 10 false n = numeral 10 false (n / 10) ++ [48 + n % 10] := by
  unfold numeral
  rw [Nat.digits_def' (by decide) hn, List.reverse_cons, List.map_append]
  have : digit_char false (n % 10) = 48 + n % 10 := by
    rw [← digit_char_decimal false (n % 10) (Nat.mod_lt _ (by decide))]
    omega
  simp [this]

theorem numeral_zero : numeral 10 false 0 = [] := by
  simp [numeral]

/-- The conversion `%02d` of a number below 100. -/
theorem snprintf_d_two (n : Nat) (hn : n < 100) : snprintf_d true 2 n = two_digits n := by
  unfold snprintf_d two_digits
  by_cases h0 : n = 0
  · subst h0
    rw [numeral_zero]
    decide
  by_cases h1 : n < 10
  · rw [numeral_step n (by omega)]
    have e1 : n / 10 = 0 := by omega
    have e2 : n % 10 = n := by omega
    rw [e1, numeral_zero, e2]
    simp [printf_integer]
  · rw [numeral_step n (by omega), numeral_step (n / 10) (by omega)]
    have e1 : n / 10 / 10 = 0 := by omega
    rw [e1, numeral_zero]
    simp [printf_integer]

/-- The conversion `%d` of a number of four digits. -/
theorem snprintf_d_four (n : Nat) (h1 : 1000 ≤ n) (h2 : n < 10000) :
    snprintf_d false 0 n = four_digits n := by
  unfold snprintf_d four_digits
  rw [numeral_step n (by omega), numeral_step (n / 10) (by omega),
    numeral_step (n / 10 / 10) (by omega), numeral_step (n / 10 / 10 / 10) (by omega)]
  have e1 : n / 10 / 10 / 10 / 10 = 0 := by omega
  have e2 : n / 10 / 10 / 10 % 10 = n / 1000 % 10 := by omega
  have e3 : n / 10 / 10 % 10 = n / 100 % 10 := by omega
  rw [e1, numeral_zero, e2, e3]
  simp [printf_integer]

/-- The days from 1970 to the end of the year 9999. -/
theorem days_to_year_10000 :
    ((List.range 8030).map (fun k => days_in_year (1970 + k))).sum = 2932897 := by
  have h := leap_days_sum 8030
  generalize ((List.range 8030).map (fun k => days_in_year (1970 + k))).sum = A at h ⊢
  rw [leap_days_natCast _ (by omega)] at h
  norm_num at h
  omega

theorem dnames_day_name (w : Nat) (hw : w < 7) : is_day_name (dnames.getD w []) ∧
    (dnames.getD w []).length = 3 := by
  interval_cases w <;> decide

theorem mnames_month_name (m : Nat) (h1 : 1 ≤ m) (h2 : m ≤ 12) :
    is_month_name (mnames.getD (m - 1) []) m ∧ (mnames.getD (m - 1) []).length = 3 := by
  refine ⟨⟨h1, rfl⟩, ?_⟩
  interval_cases m <;> decide
/-- The renderer on a time up to the end of the year 9999, with room for the
text: it leaves the RFC 1123 text of a valid date, and the time is the number
of seconds from the epoch to that date. -/
theorem http_print_date_text (t : Nat) (buf : List Nat) (bufsize : Nat)
    (ht : t < 253402300800) (hb : 30 ≤ bufsize) :
    ∃ (dname mname : List Nat) (y m d H M S : Nat),
      http_print_date t buf bufsize = rfc1123_text dname mname y d H M S ∧
        is_day_name dname ∧ is_month_name mname m ∧ m ≤ 12 ∧ 1970 ≤ y ∧ y ≤ 9999 ∧ 1 ≤ d ∧
        d ≤ days_in_month y m ∧ H ≤ 23 ∧ M ≤ 59 ∧ S ≤ 59 ∧
        seconds_since_epoch y m d H M S = t := by
  have hdays : t / 86400 < 2932897 := by omega
  have hfuel : t / 86400 < 365 * (t / 86400 / 365 + 1) := by omega
  obtain ⟨g1, g2, g3⟩ := gmtime_years_spec (t / 86400 / 365 + 1) 1970 (t / 86400) hfuel
  obtain ⟨yd, hyd⟩ : ∃ yd, gmtime_years (t / 86400 / 365 + 1) 1970 (t / 86400) = yd := ⟨_, rfl⟩
  rw [hyd] at g1 g2 g3
  have hy : yd.1 ≤ 9999 := by
    by_contra hc
    have := sum_range_mono (fun k => days_in_year (1970 + k)) 8030 (yd.1 - 1970) (by omega)
    rw [days_to_year_10000] at this
    omega
  obtain ⟨m1, m2, m3, m4⟩ := gmtime_months_spec yd.1 yd.2 g2
  obtain ⟨w1, w2⟩ := dnames_day_name ((t / 86400 + 4) % 7) (Nat.mod_lt _ (by decide))
  have hmd : (gmtime_months 12 yd.1 1 yd.2).2 + 1 ≤ days_in_month yd.1 (gmtime_months 12 yd.1 1 yd.2).1 :=
    by omega
  have hmd31 := days_in_month_le yd.1 (gmtime_months 12 yd.1 1 yd.2).1
  obtain ⟨n1, n2⟩ := mnames_month_name (gmtime_months 12 yd.1 1 yd.2).1 m1 m2
  refine ⟨dnames.getD ((t / 86400 + 4) % 7) [], mnames.getD ((gmtime_months 12 yd.1 1 yd.2).1 - 1) [],
    yd.1, (gmtime_months 12 yd.1 1 yd.2).1, (gmtime_months 12 yd.1 1 yd.2).2 + 1,
    t % 86400 / 3600, t % 86400 / 60 % 60, t % 86400 % 60, ?_, w1, n1, m2, g1, hy, by omega, hmd,
    by omega, by omega, by omega, ?_⟩
  · have hyear : yd.1 - 1900 + 1900 = yd.1 := by omega
    have hfit : yd.1 - 1900 < 2 ^ 31 := by
      have : (2 : Nat) ^ 31 = 2147483648 := by norm_num
      omega
    have hlen : (rfc1123_text (dnames.getD ((t / 86400 + 4) % 7) [])
        (mnames.getD ((gmtime_months 12 yd.1 1 yd.2).1 - 1) []) yd.1
        ((gmtime_months 12 yd.1 1 yd.2).2 + 1) (t % 86400 / 3600) (t % 86400 / 60 % 60)
        (t % 86400 % 60)).length ≤ bufsize - 1 := by
      simp only [rfc1123_text, List.length_append, List.length_cons, w2, n2, two_digits,
        four_digits, List.length_nil]
      have : (bytes ", ").length = 2 := by decide
      have : (bytes " GMT").length = 4 := by decide
      omega
    unfold http_print_date gmtime_r
    rw [if_neg (by omega)]
    simp only [hyd]
    rw [if_pos hfit]
    simp only [hyear, snprintf_d_two _ (show (gmtime_months 12 yd.1 1 yd.2).2 + 1 < 100 by omega),
      snprintf_d_two _ (show t % 86400 / 3600 < 100 by omega),
      snprintf_d_two _ (show t % 86400 / 60 % 60 < 100 by omega),
      snprintf_d_two _ (show t % 86400 % 60 < 100 by omega),
      snprintf_d_four _ (show 1000 ≤ yd.1 by omega) (show yd.1 < 10000 by omega)]
    exact List.take_of_length_le hlen
  · unfold seconds_since_epoch days_since_epoch
    rw [Nat.add_sub_cancel]
    generalize ((List.range (yd.1 - 1970)).map (fun k => days_in_year (1970 + k))).sum = A at g3 ⊢
    generalize ((List.range ((gmtime_months 12 yd.1 1 yd.2).1 - 1)).map
      (fun k => days_in_month yd.1 (k + 1))).sum = B at m4 ⊢
    omega

/-- The function `parse_rfc1123_date` gives back the time that
`http_print_date` rendered. -/
theorem parse_rfc1123_date_print (t : Nat) (buf : List Nat) (bufsize : Nat)
    (ht : t < 253402300800) (hb : 30 ≤ bufsize) :
    parse_rfc1123_date (http_print_date t buf bufsize) = (t : Int) := by
  obtain ⟨dname, mname, y, m, d, H, M, S, h1, h2, h3, h4, h5, h6, h7, h8, h9, h10, h11, h12⟩ :=
    http_print_date_text t buf bufsize ht hb
  rw [h1, parse_rfc1123_date_text dname mname y m d H M S h2 h3 h4 h5 h6 h7 h8 h9 h10 h11, h12]

/-- C23: for every time `t` with `0 ≤ t < 253402300800` (1970-01-01 to
9999-12-31 UTC) and a buffer that has room for the text,
`parse_rfc1123_date(http_print_date(t)) = t`; and rendering the time parsed
from such a text gives the same text again. -/
theorem C23_print_parse_round_trip (t : Nat) (buf : List Nat) (bufsize : Nat)
    (ht : t < 253402300800) (hb : 30 ≤ bufsize) :
    parse_rfc1123_date (http_print_date t buf bufsize) = (t : Int) ∧
      http_print_date (parse_rfc1123_date (http_print_date t buf bufsize)).toNat buf bufsize =
        http_print_date t buf bufsize := by
  have h := parse_rfc1123_date_print t buf bufsize ht hb
  refine ⟨h, ?_⟩
  rw [h, Int.toNat_ofNat]

theorem C23_print_parse_round_trip_witness :
    1623233894 < 253402300800 ∧ 30 ≤ 30 ∧
      parse_rfc1123_date (http_print_date 1623233894 [] 30) = ((1623233894 : Nat) : Int) ∧
      http_print_date (parse_rfc1123_date (http_print_date 1623233894 [] 30)).toNat [] 30 =
        http_print_date 1623233894 [] 30 :=
  ⟨by decide, by decide, C23_print_parse_round_trip 1623233894 [] 30 (by decide) (by decide)⟩
/-- The time 1623233894 is rendered as `Wed, 09 Jun 2021 10:18:14 GMT`; a
buffer of 10 bytes takes the first 9 bytes of the text. -/
theorem http_print_date_example :
    http_print_date 1623233894 [] 30 = bytes "Wed, 09 Jun 2021 10:18:14 GMT" ∧
      http_print_date 1623233894 [] 10 = bytes "Wed, 09 J" ∧
      http_print_date 1623233894 (bytes "x") 0 = bytes "x" := by
  have hg : gmtime_r 1623233894 = some ⟨14, 18, 10, 9, 5, 121, 3⟩ := by decide
  have h2 : ∀ n, n < 100 → snprintf_d true 2 n = two_digits n := snprintf_d_two
  have h4 : snprintf_d false 0 (121 + 1900) = four_digits 2021 :=
    snprintf_d_four 2021 (by decide) (by decide)
  refine ⟨?_, ?_, by decide⟩
  · unfold http_print_date
    rw [if_neg (by decide), hg]
    simp only [h2 9 (by decide), h2 10 (by decide), h2 18 (by decide), h2 14 (by decide), h4]
    decide
  · unfold http_print_date
    rw [if_neg (by decide), hg]
    simp only [h2 9 (by decide), h2 10 (by decide), h2 18 (by decide), h2 14 (by decide), h4]
    decide

/-! ## Quoted strings -/

theorem getD_append_cons (pre r : List Nat) (c : Nat) :
    (pre ++ c :: r).getD pre.length 0 = c := by
  induction pre with
  | nil => rfl
  | cons a pre ih => simpa using ih

theorem escaped_succ (t : List Nat) (i : Nat) :
    escaped t (i + 1) = (t.getD i 0 == 92 && !escaped t i) := rfl

/-- The scanning loop of `http_parse_quoted_string` from a byte that is not
escaped: it stops at the first closing quote, or at the end of the string. -/
theorem quoted_scan_spec (t : List Nat) (hnn : ∀ c ∈ t, c ≠ 0) :
    ∀ (n : Nat) (pre u : List Nat), u.length = n → t = pre ++ u →
      escaped t pre.length = false →
      ∃ j, j ≤ u.length ∧ quoted_scan u = (u.take j, u.drop j) ∧
        (∀ i, pre.length ≤ i → i < pre.length + j → ¬ closing_quote t i) ∧
        (j < u.length → closing_quote t (pre.length + j)) := by
  intro n
  induction n using Nat.strong_induction_on with
  | _ n ih =>
    intro pre u hlen ht hesc
    match u, hlen, ht with
    | [], _, _ =>
      exact ⟨0, le_refl _, rfl, fun i h1 h2 => by omega, fun h => by simp at h⟩
    | [c], _, ht =>
      have hc0 : c ≠ 0 := hnn c (by rw [ht]; simp)
      have hget : t.getD pre.length 0 = c := by rw [ht]; exact getD_append_cons _ _ _
      by_cases hq : c = 34
      · refine ⟨0, by simp, by simp [quoted_scan, hq], fun i h1 h2 => by omega, fun _ => ?_⟩
        exact ⟨by rw [Nat.add_zero, hget, hq], by rw [Nat.add_zero]; exact hesc⟩
      · refine ⟨1, by simp, by simp [quoted_scan, hq, hc0], fun i h1 h2 => ?_, fun h => by simp at h⟩
        have : i = pre.length := by omega
        subst this
        intro hcl
        exact hq (hget ▸ hcl.1)
    | c :: d :: ds, hlen, ht =>
      have hc0 : c ≠ 0 := hnn c (by rw [ht]; simp)
      have hd0 : d ≠ 0 := hnn d (by rw [ht]; simp)
      have hget : t.getD pre.length 0 = c := by rw [ht]; exact getD_append_cons _ _ _
      have hget1 : t.getD (pre.length + 1) 0 = d := by
        have : t = (pre ++ [c]) ++ d :: ds := by rw [ht]; simp
        have h2 := getD_append_cons (pre ++ [c]) ds d
        rw [← this] at h2
        simpa using h2
      by_cases hq : c = 34
      · refine ⟨0, by simp, by simp [quoted_scan, hq], fun i h1 h2 => by omega, fun _ => ?_⟩
        exact ⟨by rw [Nat.add_zero, hget, hq], by rw [Nat.add_zero]; exact hesc⟩
      · by_cases hb : c = 92
        · have hesc1 : escaped t (pre.length + 1) = true := by
            rw [escaped_succ, hget, hb, hesc]
            rfl
          have hesc2 : escaped t (pre ++ [c, d]).length = false := by
            have : (pre ++ [c, d]).length = pre.length + 1 + 1 := by simp
            rw [this, escaped_succ, hesc1]
            simp
          obtain ⟨j, j1, j2, j3, j4⟩ := ih ds.length (by simp at hlen; omega) (pre ++ [c, d]) ds rfl
            (by rw [ht]; simp) hesc2
          have hpl : (pre ++ [c, d]).length = pre.length + 2 := by simp
          rw [hpl] at j3 j4
          refine ⟨j + 2, by simp; omega, ?_, ?_, ?_⟩
          · rw [quoted_scan]
            simp [hq, hc0, hb, hd0, j2]
          · intro i h1 h2 hcl
            by_cases hi : i = pre.length
            · subst hi
              exact hq (hget ▸ hcl.1)
            · by_cases hi1 : i = pre.length + 1
              · subst hi1
                rw [hcl.2] at hesc1
                cases hesc1
              · exact j3 i (by omega) (by omega) hcl
          · intro h
            have := j4 (by simp at h; omega)
            rw [show pre.length + (j + 2) = pre.length + 2 + j by omega]
            exact this
        · have hesc1 : escaped t (pre ++ [c]).length = false := by
            have : (pre ++ [c]).length = pre.length + 1 := by simp
            rw [this, escaped_succ, hget]
            simp [hb]
          obtain ⟨j, j1, j2, j3, j4⟩ := ih (d :: ds).length (by simp at hlen ⊢; omega) (pre ++ [c])
            (d :: ds) rfl (by rw [ht]; simp) hesc1
          have hpl : (pre ++ [c]).length = pre.length + 1 := by simp
          rw [hpl] at j3 j4
          refine ⟨j + 1, by simp at j1 ⊢; omega, ?_, ?_, ?_⟩
          · rw [quoted_scan]
            simp [hq, hc0, hb, j2]
          · intro i h1 h2 hcl
            by_cases hi : i = pre.length
            · subst hi
              exact hq (hget ▸ hcl.1)
            · exact j3 i (by omega) (by omega) hcl
          · intro h
            have := j4 (by simp at h ⊢; omega)
            rw [show pre.length + (j + 1) = pre.length + 1 + j by omega]
            exact this
/-- Model of `http_parse_quoted_string` on a string that starts with a double
quote: the interior ends before the first closing quote, or at the end of the
string. -/
theorem http_parse_quoted_string_spec (s : List Nat) (hnn : ∀ c ∈ s, c ≠ 0) (hq : cur s = 34) :
    ∃ k, k ≤ s.tail.length ∧
      http_parse_quoted_string s = (s.tail.drop (k + 1), some (s.tail.take k)) ∧
      (∀ i, i < k → ¬ closing_quote s.tail i) ∧
      (k < s.tail.length → closing_quote s.tail k) := by
  obtain ⟨k, k1, k2, k3, k4⟩ := quoted_scan_spec s.tail
    (fun c hc => hnn c (List.mem_of_mem_tail hc)) s.tail.length [] s.tail rfl rfl rfl
  simp only [List.length_nil, Nat.zero_add] at k3 k4
  refine ⟨k, k1, ?_, fun i hi => k3 i (Nat.zero_le _) hi, k4⟩
  unfold http_parse_quoted_string
  rw [if_pos hq]
  simp only [k2]
  by_cases hk : k < s.tail.length
  · have hc := (k4 hk).1
    have hd : s.tail.drop k = 34 :: s.tail.drop (k + 1) := by
      rw [List.drop_eq_getElem_cons hk]
      congr 1
      rw [List.getD_eq_getElem _ _ hk] at hc
      exact hc
    rw [hd]
    simp [cur]
  · have hd : s.tail.drop k = [] := List.drop_eq_nil_of_le (by omega)
    have hd1 : s.tail.drop (k + 1) = [] := List.drop_eq_nil_of_le (by omega)
    rw [hd, hd1]
    simp [cur]

/-- C26: for every string `s` that starts with `"`, `http_parse_quoted_string`
returns as interior the bytes between the opening quote and the first `"` that
is not preceded by an escaping backslash, or the end of the string when there
is none, with every backslash kept, and a rest that starts just after the
closing quote; for `s` that does not start with `"` it returns no string and
the rest `s`. -/
theorem C26_quoted_string_interior (s : List Nat) (hnn : ∀ c ∈ s, c ≠ 0) :
    (cur s = 34 →
      ∃ k, k ≤ s.tail.length ∧
        http_parse_quoted_string s = (s.tail.drop (k + 1), some (s.tail.take k)) ∧
        (∀ i, i < k → ¬ closing_quote s.tail i) ∧
        (k < s.tail.length → closing_quote s.tail k)) ∧
      (cur s ≠ 34 → http_parse_quoted_string s = (s, none)) := by
  refine ⟨http_parse_quoted_string_spec s hnn, fun h => ?_⟩
  unfold http_parse_quoted_string
  rw [if_neg h]

theorem C26_quoted_string_interior_witness :
    (∀ c ∈ bytes "\"a\\\"b\" rest", c ≠ 0) ∧
      ((cur (bytes "\"a\\\"b\" rest") = 34 →
        ∃ k, k ≤ (bytes "\"a\\\"b\" rest").tail.length ∧
          http_parse_quoted_string (bytes "\"a\\\"b\" rest") =
            ((bytes "\"a\\\"b\" rest").tail.drop (k + 1),
              some ((bytes "\"a\\\"b\" rest").tail.take k)) ∧
          (∀ i, i < k → ¬ closing_quote (bytes "\"a\\\"b\" rest").tail i) ∧
          (k < (bytes "\"a\\\"b\" rest").tail.length →
            closing_quote (bytes "\"a\\\"b\" rest").tail k)) ∧
        (cur (bytes "\"a\\\"b\" rest") ≠ 34 →
          http_parse_quoted_string (bytes "\"a\\\"b\" rest") = (bytes "\"a\\\"b\" rest", none))) :=
  ⟨by decide, C26_quoted_string_interior (bytes "\"a\\\"b\" rest") (by decide)⟩

/-- Quoted strings and what `http_parse_quoted_string` returns for them: an
escaped quote does not close the string, a backslash that is itself escaped
does not escape, a string without closing quote runs to its end, and a string
without opening quote gives no string. -/
theorem http_parse_quoted_string_examples :
    http_parse_quoted_string (bytes "\"a\\\"b\" rest") = (bytes " rest", some (bytes "a\\\"b")) ∧
      http_parse_quoted_string (bytes "\"a\\\\\"b\"") = (bytes "b\"", some (bytes "a\\\\")) ∧
      http_parse_quoted_string (bytes "\"abc") = ([], some (bytes "abc")) ∧
      http_parse_quoted_string (bytes "\"ab\\") = ([], some (bytes "ab\\")) ∧
      http_parse_quoted_string (bytes "\"\"x") = (bytes "x", some []) ∧
      http_parse_quoted_string (bytes "abc\"") = (bytes "abc\"", none) := by decide

/-! ## Cookies: name and value -/

/-- The byte test of the value loop is the cookie-octet of RFC 6265. -/
theorem cookie_octet_iff (c : Nat) : cookie_octet c = decide (is_cookie_octet c) := by
  by_cases h : is_cookie_octet c
  · rw [decide_eq_true h]
    unfold is_cookie_octet at h
    simp only [cookie_octet, Bool.and_eq_true, decide_eq_true_eq, bne_iff_ne, ne_eq]
    omega
  · rw [decide_eq_false h]
    unfold is_cookie_octet at h
    simp only [cookie_octet, Bool.and_eq_false_iff, decide_eq_false_iff_not, bne_eq_false_iff_eq]
    omega

theorem cookie_av_value_name_value (now : Int) (c : MGET_COOKIE) (n p v : List Nat) :
    (cookie_av_value now c n p v).name = c.name ∧
      (cookie_av_value now c n p v).value = c.value := by
  unfold cookie_av_value
  split_ifs <;> exact ⟨rfl, rfl⟩

theorem cookie_av_flag_name_value (c : MGET_COOKIE) (n : List Nat) :
    (cookie_av_flag c n).name = c.name ∧ (cookie_av_flag c n).value = c.value := by
  unfold cookie_av_flag
  split_ifs <;> exact ⟨rfl, rfl⟩

/-- The loop over the cookie attributes leaves the name and the value of the
cookie as they are. -/
theorem cookie_avs_name_value (fuel : Nat) (now : Int) (c : MGET_COOKIE) (s : List Nat) :
    (cookie_avs fuel now c s).1.name = c.name ∧ (cookie_avs fuel now c s).1.value = c.value := by
  induction fuel generalizing c s with
  | zero => exact ⟨rfl, rfl⟩
  | succ n ih =>
    unfold cookie_avs
    simp only
    split_ifs
    · exact ⟨rfl, rfl⟩
    · have h1 := ih (cookie_av_value now c
        (http_parse_token ((s.dropWhile (fun c => c != 0 && c != 59)).tail.dropWhile isspace)).2
        ((http_parse_token ((s.dropWhile (fun c => c != 0 && c != 59)).tail.dropWhile
          isspace)).1.dropWhile (fun c => c != 0 && c != 61 && c != 59)).tail
        (((http_parse_token ((s.dropWhile (fun c => c != 0 && c != 59)).tail.dropWhile
          isspace)).1.dropWhile (fun c => c != 0 && c != 61 && c != 59)).tail.takeWhile
            cookie_av_octet))
      have h2 := cookie_av_value_name_value now c
        (http_parse_token ((s.dropWhile (fun c => c != 0 && c != 59)).tail.dropWhile isspace)).2
        ((http_parse_token ((s.dropWhile (fun c => c != 0 && c != 59)).tail.dropWhile
          isspace)).1.dropWhile (fun c => c != 0 && c != 61 && c != 59)).tail
        (((http_parse_token ((s.dropWhile (fun c => c != 0 && c != 59)).tail.dropWhile
          isspace)).1.dropWhile (fun c => c != 0 && c != 61 && c != 59)).tail.takeWhile
            cookie_av_octet)
      rw [(h1 _).1, (h1 _).2]
      exact h2
    · exact cookie_av_value_name_value _ _ _ _ _
    · have h1 := ih (cookie_av_flag c
        (http_parse_token ((s.dropWhile (fun c => c != 0 && c != 59)).tail.dropWhile isspace)).2)
      rw [(h1 _).1, (h1 _).2]
      exact cookie_av_flag_name_value _ _
    · exact cookie_av_flag_name_value _ _
theorem http_istoken_not_space {c : Nat} (h : http_istoken c = true) : isspace c = false := by
  simp only [http_istoken, Bool.and_eq_true, decide_eq_true_eq] at h
  simp only [isspace, Bool.or_eq_false_iff, beq_eq_false_iff_ne, Bool.and_eq_false_iff,
    decide_eq_false_iff_not]
  omega

theorem cur_eq_iff_head (s : List Nat) (c : Nat) (hc : c ≠ 0) : cur s = c ↔ s.head? = some c := by
  cases s with
  | nil => simp [cur]; exact fun h => hc h.symm
  | cons a s => simp [cur]

/-- The token at the start of a text `NAME=...`. -/
theorem http_parse_token_name (name v : List Nat) (hn : is_token_run name) :
    http_parse_token (name ++ 61 :: v) = (61 :: v, name) := by
  unfold http_parse_token
  rw [dropWhile_append_stop _ _ _ hn (by decide), takeWhile_append_stop _ _ _ hn (by decide)]

theorem dropWhile_isspace_token (name rest : List Nat) (hn : is_token_run name) (hne : name ≠ []) :
    (name ++ rest).dropWhile isspace = name ++ rest := by
  cases name with
  | nil => exact absurd rfl hne
  | cons a as =>
    have := http_istoken_not_space (hn a (List.mem_cons_self _ _))
    simp [List.dropWhile_cons, this]

/-- C29: for every Set-Cookie value `NAME=...` with a token `NAME` that is not
empty, `http_parse_setcookie` stores `NAME` as the name and, as the value, the
longest run of cookie-octets that follows the `=`, optional white space and
one optional opening double quote; and every text that lacks the name or the
`=` after it gives a cookie without any field set. -/
theorem C29_cookie_name_and_value (now : Int) (name v s : List Nat) (hn : is_token_run name)
    (hne : name ≠ []) :
    ((http_parse_setcookie now (name ++ 61 :: v)).2.name = some name ∧
        (http_parse_setcookie now (name ++ 61 :: v)).2.value = some (cookie_value_of v)) ∧
      ((http_parse_token (s.dropWhile isspace)).2 = [] ∨
          cur ((http_parse_token (s.dropWhile isspace)).1.dropWhile isspace) ≠ 61 →
        (http_parse_setcookie now s).2 = {}) := by
  constructor
  · unfold http_parse_setcookie
    simp only [dropWhile_isspace_token name _ hn hne, http_parse_token_name name v hn]
    have h61 : (61 :: v).dropWhile isspace = 61 :: v := by
      simp [List.dropWhile_cons, isspace]
    have hcur : cur (61 :: v) = 61 := rfl
    simp only [h61, hcur, hne, ne_eq, not_false_eq_true, and_self, if_true, List.tail_cons]
    have hoct : cookie_octet = fun c => decide (is_cookie_octet c) := funext cookie_octet_iff
    have hv : (if cur (v.dropWhile isspace) = 34 then (v.dropWhile isspace).tail
        else v.dropWhile isspace).takeWhile cookie_octet = cookie_value_of v := by
      unfold cookie_value_of
      simp only [hoct, cur_eq_iff_head _ 34 (by decide)]
    have h := cookie_avs_name_value
      (((if cur (v.dropWhile isspace) = 34 then (v.dropWhile isspace).tail
        else v.dropWhile isspace).dropWhile cookie_octet).length + 1) now
      { name := some name, value := some ((if cur (v.dropWhile isspace) = 34 then
          (v.dropWhile isspace).tail else v.dropWhile isspace).takeWhile cookie_octet) }
      ((if cur (v.dropWhile isspace) = 34 then (v.dropWhile isspace).tail
        else v.dropWhile isspace).dropWhile cookie_octet)
    rw [h.1, h.2, hv]
    exact ⟨rfl, rfl⟩
  · intro h
    unfold http_parse_setcookie
    simp only
    rw [if_neg]
    intro hc
    rcases h with h | h
    · exact hc.1 h
    · exact h hc.2

theorem C29_cookie_name_and_value_witness :
    is_token_run (bytes "sid") ∧ bytes "sid" ≠ [] ∧
      (((http_parse_setcookie 0 (bytes "sid" ++ 61 :: bytes " \"abc\"; Path=/")).2.name =
            some (bytes "sid") ∧
          (http_parse_setcookie 0 (bytes "sid" ++ 61 :: bytes " \"abc\"; Path=/")).2.value =
            some (cookie_value_of (bytes " \"abc\"; Path=/"))) ∧
        ((http_parse_token ((bytes "sid; Path=/").dropWhile isspace)).2 = [] ∨
            cur ((http_parse_token ((bytes "sid; Path=/").dropWhile isspace)).1.dropWhile
              isspace) ≠ 61 →
          (http_parse_setcookie 0 (bytes "sid; Path=/")).2 = {})) :=
  ⟨by decide, by decide,
    C29_cookie_name_and_value 0 (bytes "sid") (bytes " \"abc\"; Path=/") (bytes "sid; Path=/")
      (by decide) (by decide)⟩

/-- Names and values of cookies: the quotes around a value are not stored, a
value ends at the first byte that is no cookie-octet, and a text without name
or without `=` gives the empty cookie. -/
theorem http_parse_setcookie_examples :
    cookie_value_of (bytes " \"abc\"; Path=/") = bytes "abc" ∧
      (http_parse_setcookie 0 (bytes "sid=\"abc\"; Path=/")).2 =
        { name := some (bytes "sid"), value := some (bytes "abc"), path := some (bytes "/") } ∧
      (http_parse_setcookie 0 (bytes "sid=abc")).2 =
        { name := some (bytes "sid"), value := some (bytes "abc") } ∧
      (http_parse_setcookie 0 (bytes "sid=a,b")).2 =
        { name := some (bytes "sid"), value := some (bytes "a") } ∧
      (http_parse_setcookie 0 (bytes "=abc")).2 = {} ∧
      (http_parse_setcookie 0 (bytes "sid; Path=/")).2 = {} ∧
      (http_parse_setcookie 0 (bytes "")).2 = {} := by decide

/-! ## Cookies: the attributes -/

theorem strcaseeq_token_run (n b : List Nat) (hn : is_token_run n)
    (hb : (cstr b).map tolower = b) : strcaseeq n b = decide (n.map tolower = b) := by
  have hcs : cstr n = n := cstr_of_no_nul n (fun c hc => (http_istoken_facts (hn c hc)).1)
  unfold strcaseeq
  rw [hcs, hb]
  by_cases h : n.map tolower = b
  · rw [decide_eq_true h]
    exact beq_iff_eq.2 h
  · rw [decide_eq_false h]
    exact beq_eq_false_iff_ne.2 h

theorem cookie_avs_nil (fuel : Nat) (now : Int) (c : MGET_COOKIE) :
    cookie_avs fuel now c [] = (c, []) := by
  cases fuel with
  | zero => rfl
  | succ n => simp [cookie_avs, cur]

theorem cookie_avs_text_start (avs : List CookieAv) :
    cookie_avs_text avs = [] ∨ cur (cookie_avs_text avs) = 59 := by
  cases avs with
  | nil => exact Or.inl rfl
  | cons a as => exact Or.inr rfl

theorem dropWhile_stop_start {p : Nat → Bool} (rest : List Nat) (c : Nat) (hc : p c = false)
    (hrest : rest = [] ∨ cur rest = c) : rest.dropWhile p = rest := by
  cases rest with
  | nil => rfl
  | cons a r =>
    rcases hrest with h | h
    · cases h
    · simp only [cur, List.headD_cons] at h
      subst h
      simp [List.dropWhile_cons, hc]

theorem takeWhile_stop_start {p : Nat → Bool} (rest : List Nat) (c : Nat) (hc : p c = false)
    (hrest : rest = [] ∨ cur rest = c) : rest.takeWhile p = [] := by
  cases rest with
  | nil => rfl
  | cons a r =>
    rcases hrest with h | h
    · cases h
    · simp only [cur, List.headD_cons] at h
      subst h
      simp [List.takeWhile_cons, hc]

theorem dropWhile_isspace_replicate (b : Nat) (rest : List Nat)
    (h : isspace (cur rest) = false) :
    (List.replicate b 32 ++ rest).dropWhile isspace = rest := by
  rw [dropWhile_append_of_all _ _ (by
    intro a ha
    rw [List.eq_of_mem_replicate ha]
    decide)]
  cases rest with
  | nil => rfl
  | cons a r =>
    simp only [cur, List.headD_cons] at h
    simp [List.dropWhile_cons, h]

theorem cur_token_append (name rest : List Nat) (c : Nat) (hn : is_token_run name)
    (hc : isspace c = false) (hrest : rest = [] ∨ cur rest = c) :
    isspace (cur (name ++ rest)) = false := by
  cases name with
  | cons a as => exact http_istoken_not_space (hn a (List.mem_cons_self _ _))
  | nil =>
    rcases hrest with h | h
    · subst h
      decide
    · simp only [List.nil_append, h, hc]

/-- One round of the loop over the cookie attributes, on an attribute with a
value. -/
theorem cookie_avs_round_value (fuel : Nat) (now : Int) (c : MGET_COOKIE) (b : Nat)
    (name v rest : List Nat) (hn : is_token_run name)
    (hv : ∀ x ∈ v, cookie_av_octet x = true) (hrest : rest = [] ∨ cur rest = 59) :
    cookie_avs (fuel + 1) now c (59 :: (List.replicate b 32 ++ (name ++ 61 :: (v ++ rest)))) =
      cookie_avs fuel now (cookie_av_value now c name (v ++ rest) v) rest := by
  have h1 : (59 :: (List.replicate b 32 ++ (name ++ 61 :: (v ++ rest)))).dropWhile
      (fun c => c != 0 && c != 59) = 59 :: (List.replicate b 32 ++ (name ++ 61 :: (v ++ rest))) := by
    simp [List.dropWhile_cons]
  have h2 : (List.replicate b 32 ++ (name ++ 61 :: (v ++ rest))).dropWhile isspace =
      name ++ 61 :: (v ++ rest) :=
    dropWhile_isspace_replicate _ _
      (cur_token_append name (61 :: (v ++ rest)) 61 hn (by decide) (Or.inr rfl))
  have h3 : (61 :: (v ++ rest)).dropWhile (fun c => c != 0 && c != 61 && c != 59) =
      61 :: (v ++ rest) := by
    simp [List.dropWhile_cons]
  have h4 : (v ++ rest).takeWhile cookie_av_octet = v := by
    rw [takeWhile_append_of_all _ _ hv, takeWhile_stop_start rest 59 (by decide) hrest,
      List.append_nil]
  have h5 : (v ++ rest).dropWhile cookie_av_octet = rest := by
    rw [dropWhile_append_of_all _ _ hv, dropWhile_stop_start rest 59 (by decide) hrest]
  rw [cookie_avs]
  simp only [h1, cur, List.headD_cons, List.tail_cons, h2, http_parse_token_name name _ hn, h3,
    h4, h5]
  simp only [show ¬ ((59 : Nat) = 0) by decide, if_false, if_true]
  rcases hrest with h | h
  · subst h
    simp [cookie_avs_nil]
  · have : List.headD rest 0 ≠ 0 := by
      simp only [cur] at h
      rw [h]
      decide
    simp only [this, ne_eq, not_false_eq_true, if_true]

/-- One round of the loop over the cookie attributes, on an attribute without
value. -/
theorem cookie_avs_round_flag (fuel : Nat) (now : Int) (c : MGET_COOKIE) (b : Nat)
    (name rest : List Nat) (hn : is_token_run name) (hrest : rest = [] ∨ cur rest = 59) :
    cookie_avs (fuel + 1) now c (59 :: (List.replicate b 32 ++ (name ++ rest))) =
      cookie_avs fuel now (cookie_av_flag c name) rest := by
  have h1 : (59 :: (List.replicate b 32 ++ (name ++ rest))).dropWhile
      (fun c => c != 0 && c != 59) = 59 :: (List.replicate b 32 ++ (name ++ rest)) := by
    simp [List.dropWhile_cons]
  have h2 : (List.replicate b 32 ++ (name ++ rest)).dropWhile isspace = name ++ rest :=
    dropWhile_isspace_replicate _ _ (cur_token_append name rest 59 hn (by decide) hrest)
  have h3 : http_parse_token (name ++ rest) = (rest, name) := by
    unfold http_parse_token
    rw [dropWhile_append_of_all _ _ hn, takeWhile_append_of_all _ _ hn,
      dropWhile_stop_start rest 59 (by decide) hrest,
      takeWhile_stop_start rest 59 (by decide) hrest, List.append_nil]
  have h4 : rest.dropWhile (fun c => c != 0 && c != 61 && c != 59) = rest :=
    dropWhile_stop_start rest 59 (by decide) hrest
  rw [cookie_avs]
  simp only [h1, cur, List.headD_cons, List.tail_cons, h2, h3, h4]
  simp only [show ¬ ((59 : Nat) = 0) by decide, if_false]
  rcases hrest with h | h
  · subst h
    simp [cookie_avs_nil]
  · have h0 : List.headD rest 0 ≠ 0 := by
      simp only [cur] at h
      rw [h]
      decide
    have h61 : ¬ (List.headD rest 0 = 61) := by
      simp only [cur] at h
      rw [h]
      decide
    simp only [h0, h61, ne_eq, not_false_eq_true, if_true, if_false]
theorem cookie_av_value_attribute (now : Int) (c : MGET_COOKIE) (b : Nat) (name p v : List Nat)
    (hn : is_token_run name) :
    without_times (cookie_av_value now c name p v) =
        without_times (cookie_attribute c ⟨b, name, some v⟩) ∧
      (¬ sets_time ⟨b, name, some v⟩ →
        cookie_av_value now c name p v = cookie_attribute c ⟨b, name, some v⟩) := by
  have e1 := strcaseeq_token_run name (bytes "expires") hn (by decide)
  have e2 := strcaseeq_token_run name (bytes "max-age") hn (by decide)
  have e3 := strcaseeq_token_run name (bytes "domain") hn (by decide)
  have e4 := strcaseeq_token_run name (bytes "path") hn (by decide)
  unfold cookie_av_value cookie_attribute sets_time
  simp only [e1, e2, e3, e4, decide_eq_true_eq]
  generalize name.map tolower = L
  by_cases n1 : L = bytes "expires"
  · subst n1
    simp +decide [without_times]
  by_cases n2 : L = bytes "max-age"
  · subst n2
    simp +decide [without_times]
  by_cases n3 : L = bytes "domain"
  · subst n3
    simp only [if_true, if_false, show ¬ (bytes "domain" = bytes "expires") by decide,
      show ¬ (bytes "domain" = bytes "max-age") by decide]
    cases v with
    | nil => simp
    | cons a r =>
      by_cases ha : a = 46
      · subst ha
        simp [cur, List.dropWhile_cons]
      · simp [cur, List.dropWhile_cons, ha]
  by_cases n4 : L = bytes "path"
  · subst n4
    simp +decide
  · simp [n1, n2, n3, n4]

theorem cookie_av_flag_attribute (c : MGET_COOKIE) (b : Nat) (name : List Nat)
    (hn : is_token_run name) :
    cookie_av_flag c name = cookie_attribute c ⟨b, name, none⟩ := by
  have e1 := strcaseeq_token_run name (bytes "secure") hn (by decide)
  have e2 := strcaseeq_token_run name (bytes "httponly") hn (by decide)
  unfold cookie_av_flag cookie_attribute
  simp only [e1, e2, decide_eq_true_eq]

theorem cookie_attribute_without_times (c e : MGET_COOKIE) (av : CookieAv)
    (h : without_times c = without_times e) :
    without_times (cookie_attribute c av) = without_times (cookie_attribute e av) := by
  obtain ⟨b, name, value⟩ := av
  cases c
  cases e
  simp only [without_times, MGET_COOKIE.mk.injEq] at h
  unfold cookie_attribute without_times
  cases value with
  | none => simp only; split_ifs <;> simp_all
  | some v => simp only; split_ifs <;> simp_all

theorem cookie_octets_av (v : List Nat) (h : ∀ c ∈ v, 33 ≤ c ∧ c ≤ 126 ∧ c ≠ 59) :
    ∀ x ∈ v, cookie_av_octet x = true := by
  intro x hx
  have := h x hx
  simp only [cookie_av_octet, Bool.and_eq_true, decide_eq_true_eq, bne_iff_ne, ne_eq]
  omega

/-- The loop over the cookie attributes on the text of a sequence of
attributes: every attribute does what `cookie_attribute` says, up to the
times of the cookie. -/
theorem cookie_avs_attributes (now : Int) (avs : List CookieAv) :
    ∀ (fuel : Nat) (c e : MGET_COOKIE), avs.length ≤ fuel → (∀ av ∈ avs, is_cookie_av av) →
      without_times c = without_times e →
      (cookie_avs fuel now c (cookie_avs_text avs)).2 = [] ∧
        without_times (cookie_avs fuel now c (cookie_avs_text avs)).1 =
          without_times (avs.foldl cookie_attribute e) ∧
        ((∀ av ∈ avs, ¬ sets_time av) → c = e →
          (cookie_avs fuel now c (cookie_avs_text avs)).1 = avs.foldl cookie_attribute e) := by
  induction avs with
  | nil =>
    intro fuel c e _ _ h
    simp only [cookie_avs_text, cookie_avs_nil, List.foldl_nil]
    exact ⟨trivial, h, fun _ hce => hce⟩
  | cons av avs ih =>
    intro fuel c e hf hav h
    obtain ⟨n, rfl⟩ : ∃ n, fuel = n + 1 := ⟨fuel - 1, by simp at hf; omega⟩
    have hav1 := hav av (List.mem_cons_self _ _)
    have havs : ∀ a ∈ avs, is_cookie_av a := fun a ha => hav a (List.mem_cons_of_mem _ ha)
    obtain ⟨b, name, value⟩ := av
    have hn : is_token_run name := hav1.1
    simp only [cookie_avs_text, cookie_av_text, List.foldl_cons, List.cons_append,
      List.append_assoc]
    cases value with
    | none =>
      simp only [cookie_av_value_text, List.nil_append]
      rw [cookie_avs_round_flag n now c b name _ hn (cookie_avs_text_start avs),
        cookie_av_flag_attribute c b name hn]
      obtain ⟨i1, i2, i3⟩ := ih n (cookie_attribute c ⟨b, name, none⟩)
        (cookie_attribute e ⟨b, name, none⟩) (by simp at hf; omega) havs
        (cookie_attribute_without_times c e _ h)
      refine ⟨i1, i2, fun hnt hce => ?_⟩
      exact i3 (fun a ha => hnt a (List.mem_cons_of_mem _ ha)) (by rw [hce])
    | some v =>
      have hv := cookie_octets_av v hav1.2
      simp only [cookie_av_value_text, List.cons_append]
      rw [cookie_avs_round_value n now c b name v _ hn hv (cookie_avs_text_start avs)]
      obtain ⟨a1, a2⟩ := cookie_av_value_attribute now c b name (v ++ cookie_avs_text avs) v hn
      obtain ⟨i1, i2, i3⟩ := ih n (cookie_av_value now c name (v ++ cookie_avs_text avs) v)
        (cookie_attribute e ⟨b, name, some v⟩) (by simp at hf; omega) havs
        (a1.trans (cookie_attribute_without_times c e _ h))
      refine ⟨i1, i2, fun hnt hce => ?_⟩
      have hns := hnt _ (List.mem_cons_self _ _)
      exact i3 (fun a ha => hnt a (List.mem_cons_of_mem _ ha)) (by rw [a2 hns, hce])
theorem cookie_avs_text_length (avs : List CookieAv) :
    avs.length ≤ (cookie_avs_text avs).length := by
  induction avs with
  | nil => exact le_refl _
  | cons a as ih =>
    simp only [cookie_avs_text, cookie_av_text, List.length_cons, List.length_append,
      List.cons_append]
    omega

/-- The function `http_parse_setcookie` on `NAME=VALUE` followed by a sequence
of attributes. -/
theorem http_parse_setcookie_attributes (now : Int) (name value : List Nat)
    (avs : List CookieAv) (hn : is_token_run name) (hne : name ≠ [])
    (hv : ∀ c ∈ value, is_cookie_octet c) (havs : ∀ av ∈ avs, is_cookie_av av) :
    without_times (http_parse_setcookie now (name ++ 61 :: (value ++ cookie_avs_text avs))).2 =
        without_times (avs.foldl cookie_attribute { name := some name, value := some value }) ∧
      ((∀ av ∈ avs, ¬ sets_time av) →
        (http_parse_setcookie now (name ++ 61 :: (value ++ cookie_avs_text avs))).2 =
          avs.foldl cookie_attribute { name := some name, value := some value }) := by
  have hoct : ∀ c ∈ value, cookie_octet c = true := by
    intro c hc
    rw [cookie_octet_iff]
    exact decide_eq_true (hv c hc)
  have hstart : value ++ cookie_avs_text avs = [] ∨
      (isspace (cur (value ++ cookie_avs_text avs)) = false ∧
        cur (value ++ cookie_avs_text avs) ≠ 34) := by
    cases value with
    | cons a r =>
      right
      have := hv a (List.mem_cons_self _ _)
      unfold is_cookie_octet at this
      simp only [List.cons_append, cur, List.headD_cons, isspace, Bool.or_eq_false_iff,
        beq_eq_false_iff_ne, Bool.and_eq_false_iff, decide_eq_false_iff_not]
      omega
    | nil =>
      rcases cookie_avs_text_start avs with h | h
      · left
        simp [h]
      · right
        simp only [List.nil_append, h]
        decide
  have hsp : (value ++ cookie_avs_text avs).dropWhile isspace = value ++ cookie_avs_text avs := by
    rcases hstart with h | h
    · rw [h]
      rfl
    · cases hl : value ++ cookie_avs_text avs with
      | nil => rfl
      | cons a r =>
        rw [hl] at h
        simp only [cur, List.headD_cons] at h
        simp [List.dropWhile_cons, h.1]
  have hq : ¬ (cur (value ++ cookie_avs_text avs) = 34) := by
    rcases hstart with h | h
    · rw [h]
      decide
    · exact h.2
  have htw : (value ++ cookie_avs_text avs).takeWhile cookie_octet = value := by
    rw [takeWhile_append_of_all _ _ hoct,
      takeWhile_stop_start _ 59 (by decide) (cookie_avs_text_start avs), List.append_nil]
  have hdw : (value ++ cookie_avs_text avs).dropWhile cookie_octet = cookie_avs_text avs := by
    rw [dropWhile_append_of_all _ _ hoct,
      dropWhile_stop_start _ 59 (by decide) (cookie_avs_text_start avs)]
  have h61 : (61 :: (value ++ cookie_avs_text avs)).dropWhile isspace =
      61 :: (value ++ cookie_avs_text avs) := by
    simp [List.dropWhile_cons, isspace]
  have hcur : cur (61 :: (value ++ cookie_avs_text avs)) = 61 := rfl
  obtain ⟨i1, i2, i3⟩ := cookie_avs_attributes now avs ((cookie_avs_text avs).length + 1)
    { name := some name, value := some value } { name := some name, value := some value }
    (by have := cookie_avs_text_length avs; omega) havs rfl
  unfold http_parse_setcookie
  simp only [dropWhile_isspace_token name _ hn hne, http_parse_token_name name _ hn, h61, hcur,
    hne, ne_eq, not_false_eq_true, and_self, if_true, List.tail_cons, hsp, hq, if_false, htw, hdw]
  exact ⟨i2, fun h => i3 h rfl⟩

/-- C30, as the code has it: in `http_parse_setcookie` the attributes after
`NAME=VALUE` are recognised by their names without regard to letter case.
`Domain=D` with a `D` that is not empty stores `D` without its leading dots
(all of them) and sets `domain_dot` when `D` starts with a dot, clearing it
otherwise, and `Domain=` changes nothing; `Path=P` stores `P`; `Secure` sets
`secure_only` and `HttpOnly` sets `http_only`.  Up to the two times the
cookie is the one these rules give, and it is that cookie exactly when no
attribute is `Expires=...` or `Max-Age=...`: an unknown attribute changes no
field. -/
theorem C30_cookie_attributes (now : Int) (name value : List Nat) (avs : List CookieAv)
    (hn : is_token_run name) (hne : name ≠ []) (hv : ∀ c ∈ value, is_cookie_octet c)
    (havs : ∀ av ∈ avs, is_cookie_av av) :
    without_times (http_parse_setcookie now (name ++ 61 :: (value ++ cookie_avs_text avs))).2 =
        without_times (avs.foldl cookie_attribute { name := some name, value := some value }) ∧
      ((∀ av ∈ avs, ¬ sets_time av) →
        (http_parse_setcookie now (name ++ 61 :: (value ++ cookie_avs_text avs))).2 =
          avs.foldl cookie_attribute { name := some name, value := some value }) :=
  http_parse_setcookie_attributes now name value avs hn hne hv havs
theorem C30_cookie_attributes_witness :
    is_token_run (bytes "sid") ∧ bytes "sid" ≠ [] ∧ (∀ c ∈ bytes "abc", is_cookie_octet c) ∧
      (∀ av ∈ sample_cookie_avs, is_cookie_av av) ∧
      (without_times (http_parse_setcookie 1000
            (bytes "sid" ++ 61 :: (bytes "abc" ++ cookie_avs_text sample_cookie_avs))).2 =
          without_times (sample_cookie_avs.foldl cookie_attribute
            { name := some (bytes "sid"), value := some (bytes "abc") }) ∧
        ((∀ av ∈ sample_cookie_avs, ¬ sets_time av) →
          (http_parse_setcookie 1000
              (bytes "sid" ++ 61 :: (bytes "abc" ++ cookie_avs_text sample_cookie_avs))).2 =
            sample_cookie_avs.foldl cookie_attribute
              { name := some (bytes "sid"), value := some (bytes "abc") })) :=
  ⟨by decide, by decide, by decide, by decide,
    C30_cookie_attributes 1000 (bytes "sid") (bytes "abc") sample_cookie_avs (by decide)
      (by decide) (by decide) (by decide)⟩

/-- The cookie `sid=abc; Domain=.example.com; Path=/; Max-Age=60; Secure;
HttpOnly`, parsed at the time 1000. -/
theorem http_parse_setcookie_scenario :
    bytes "sid" ++ 61 :: (bytes "abc" ++ cookie_avs_text sample_cookie_avs) =
        bytes "sid=abc; Domain=.example.com; Path=/; Max-Age=60; Secure; HttpOnly" ∧
      sample_cookie_avs.foldl cookie_attribute
          { name := some (bytes "sid"), value := some (bytes "abc") } =
        { name := some (bytes "sid"), value := some (bytes "abc"),
          domain := some (bytes "example.com"), domain_dot := true, path := some (bytes "/"),
          secure_only := true, http_only := true } ∧
      http_parse_setcookie 1000
          (bytes "sid=abc; Domain=.example.com; Path=/; Max-Age=60; Secure; HttpOnly") =
        ([], { name := some (bytes "sid"), value := some (bytes "abc"),
               domain := some (bytes "example.com"), domain_dot := true,
               path := some (bytes "/"), maxage := 1060, secure_only := true,
               http_only := true }) := by
  refine ⟨by decide, by decide, by decide⟩

/-- C30, where the claim fails: `Domain=..example.com` is stored as
`example.com`, without both of its leading dots and not as `.example.com`;
and `Domain=` with an empty value stores nothing and leaves `domain_dot` as it
was, here set by the attribute before it. -/
theorem C30_domain_counterexample :
    (http_parse_setcookie 0 (bytes "sid=abc; Domain=..example.com")).2.domain =
        some (bytes "example.com") ∧
      (http_parse_setcookie 0 (bytes "sid=abc; Domain=..example.com")).2.domain ≠
        some (bytes ".example.com") ∧
      (http_parse_setcookie 0 (bytes "sid=abc; Domain=.a.com; Domain=")).2.domain =
        some (bytes "a.com") ∧
      (http_parse_setcookie 0 (bytes "sid=abc; Domain=.a.com; Domain=")).2.domain_dot = true := by
  decide

/-! ## Link values -/

theorem getD_append_left (v w : List Nat) (i : Nat) (h : i < v.length) :
    (v ++ w).getD i 0 = v.getD i 0 := by
  simp [List.getD_eq_getElem?_getD, List.getElem?_append_left h]

theorem escaped_append (v w : List Nat) (i : Nat) (h : i ≤ v.length) :
    escaped (v ++ w) i = escaped v i := by
  induction i with
  | zero => rfl
  | succ n ih =>
    rw [escaped_succ, escaped_succ, ih (by omega), getD_append_left v w n (by omega)]

/-- The scanning loop of `http_parse_quoted_string` on the interior of a quoted
string, its closing quote and what follows. -/
theorem quoted_scan_interior (v rest : List Nat) (hv : is_quoted_interior v)
    (hrest : ∀ c ∈ rest, c ≠ 0) :
    quoted_scan (v ++ 34 :: rest) = (v, 34 :: rest) := by
  obtain ⟨h1, h2, h3⟩ := hv
  have hnn : ∀ c ∈ v ++ 34 :: rest, c ≠ 0 := by
    intro c hc
    simp only [List.mem_append, List.mem_cons] at hc
    rcases hc with h | h | h
    · exact h1 c h
    · omega
    · exact hrest c h
  obtain ⟨j, j1, j2, j3, j4⟩ := quoted_scan_spec (v ++ 34 :: rest) hnn _ [] (v ++ 34 :: rest) rfl
    rfl rfl
  simp only [List.length_nil, Nat.zero_add] at j3 j4
  have hj : j = v.length := by
    rcases Nat.lt_trichotomy j v.length with h | h | h
    · exfalso
      have hc := j4 (by simp; omega)
      apply h2 j h
      exact ⟨by rw [← getD_append_left v (34 :: rest) j h]; exact hc.1,
        by rw [← escaped_append v (34 :: rest) j (by omega)]; exact hc.2⟩
    · exact h
    · exfalso
      apply j3 v.length (Nat.zero_le _) h
      exact ⟨getD_append_cons v rest 34, by rw [escaped_append v _ _ (le_refl _)]; exact h3⟩
  rw [j2, hj]
  simp
theorem strcaseeq_no_nul (n b : List Nat) (hn : ∀ c ∈ n, c ≠ 0)
    (hb : (cstr b).map tolower = b) : strcaseeq n b = decide (n.map tolower = b) := by
  have hcs : cstr n = n := cstr_of_no_nul n hn
  unfold strcaseeq
  rw [hcs, hb]
  by_cases h : n.map tolower = b
  · rw [decide_eq_true h]
    exact beq_iff_eq.2 h
  · rw [decide_eq_false h]
    exact beq_eq_false_iff_ne.2 h

theorem link_params_text_start (ps : List LinkParam) :
    link_params_text ps = [] ∨ cur (link_params_text ps) = 59 := by
  cases ps with
  | nil => exact Or.inl rfl
  | cons a as => exact Or.inr rfl

theorem link_value_no_nul (p : LinkParam) (h : is_link_param p) : ∀ c ∈ p.value, c ≠ 0 := by
  obtain ⟨_, _, h3⟩ := h
  intro c hc
  by_cases hq : p.quoted = true
  · rw [if_pos hq] at h3
    exact h3.1 c hc
  · rw [if_neg hq] at h3
    exact (http_istoken_facts (h3 c hc)).1

theorem replicate_no_nul (b : Nat) : ∀ c ∈ List.replicate b 32, c ≠ 0 := by
  intro c hc
  rw [List.eq_of_mem_replicate hc]
  decide

theorem link_value_text_no_nul (p : LinkParam) (h : is_link_param p) :
    ∀ c ∈ link_value_text p.quoted p.value, c ≠ 0 := by
  have hv := link_value_no_nul p h
  intro c hc
  unfold link_value_text at hc
  by_cases hq : p.quoted = true
  · simp only [hq, if_true, List.mem_cons, List.mem_append, List.not_mem_nil, or_false] at hc
    rcases hc with h1 | h1 | h1
    · omega
    · exact hv c h1
    · omega
  · simp only [hq, Bool.false_eq_true, if_false] at hc
    exact hv c hc

theorem link_params_text_no_nul (ps : List LinkParam) (h : ∀ p ∈ ps, is_link_param p) :
    ∀ c ∈ link_params_text ps, c ≠ 0 := by
  induction ps with
  | nil => intro c hc; cases hc
  | cons p ps ih =>
    intro c hc
    have hp := h p (List.mem_cons_self _ _)
    simp only [link_params_text, link_param_text, List.mem_append, List.mem_cons] at hc
    rcases hc with (h1 | h1 | h1 | h1 | h1 | h1 | h1 | h1) | h1
    · omega
    · exact replicate_no_nul _ c h1
    · exact (http_istoken_facts (hp.1 c h1)).1
    · exact replicate_no_nul _ c h1
    · omega
    · exact replicate_no_nul _ c h1
    · exact link_value_text_no_nul p hp c h1
    · exact replicate_no_nul _ c h1
    · exact ih (fun q hq => h q (List.mem_cons_of_mem _ hq)) c h1

theorem dropWhile_isblank_replicate (b : Nat) (rest : List Nat)
    (h : isblank (cur rest) = false) :
    (List.replicate b 32 ++ rest).dropWhile isblank = rest := by
  rw [dropWhile_append_of_all _ _ (by
    intro a ha
    rw [List.eq_of_mem_replicate ha]
    decide)]
  cases rest with
  | nil => rfl
  | cons a r =>
    simp only [cur, List.headD_cons] at h
    simp [List.dropWhile_cons, h]

theorem takeWhile_append_head {p : Nat → Bool} (l X : List Nat) (hl : ∀ a ∈ l, p a = true)
    (hX : X = [] ∨ p (cur X) = false) : (l ++ X).takeWhile p = l := by
  rw [takeWhile_append_of_all _ _ hl]
  cases X with
  | nil => simp
  | cons a r =>
    rcases hX with h | h
    · cases h
    · simp only [cur, List.headD_cons] at h
      simp [List.takeWhile_cons, h]

theorem dropWhile_append_head {p : Nat → Bool} (l X : List Nat) (hl : ∀ a ∈ l, p a = true)
    (hX : X = [] ∨ p (cur X) = false) : (l ++ X).dropWhile p = X := by
  rw [dropWhile_append_of_all _ _ hl]
  cases X with
  | nil => simp
  | cons a r =>
    rcases hX with h | h
    · cases h
    · simp only [cur, List.headD_cons] at h
      simp [List.dropWhile_cons, h]

/-- Spaces and what follows them, when that is the end of the text or a `;`:
the text starts with a byte that is no token byte. -/
theorem replicate_rest_start (b : Nat) (rest : List Nat) (hrest : rest = [] ∨ cur rest = 59) :
    List.replicate b 32 ++ rest = [] ∨
      (http_istoken (cur (List.replicate b 32 ++ rest)) = false ∧
        cur (List.replicate b 32 ++ rest) ≠ 34) := by
  cases b with
  | succ n =>
    right
    simp only [List.replicate_succ, List.cons_append, cur, List.headD_cons]
    decide
  | zero =>
    rcases hrest with h | h
    · left
      simp [h]
    · right
      simp only [List.replicate_zero, List.nil_append, h]
      decide

/-- The function `http_parse_param` on a parameter `; name = value` whose value
is a token or a quoted string: the name and the value, and the position after
the spaces that follow the value. -/
theorem http_parse_param_link (p : LinkParam) (rest : List Nat) (hp : is_link_param p)
    (hrest : rest = [] ∨ cur rest = 59) (hnn : ∀ c ∈ rest, c ≠ 0) :
    (http_parse_param (link_param_text p ++ rest)).2 = (some p.name, some p.value) ∧
      (http_parse_param (link_param_text p ++ rest)).1.dropWhile isblank = rest := by
  obtain ⟨b, name, b2, b3, quoted, value, b4⟩ := p
  obtain ⟨hn, hne, hv⟩ := hp
  simp only at hn hne hv
  have hrb : isblank (cur rest) = false := by
    rcases hrest with h | h
    · rw [h]
      decide
    · rw [h]
      decide
  have hblank_name : ∀ X : List Nat, isblank (cur (name ++ X)) = false := by
    intro X
    cases name with
    | nil => exact absurd rfl hne
    | cons a as => exact (http_istoken_facts (hn a (List.mem_cons_self _ _))).2.2.2.2
  have hend : (List.replicate b4 32 ++ rest).dropWhile isblank = rest :=
    dropWhile_isblank_replicate _ _ hrb
  have hendnn : ∀ c ∈ List.replicate b4 32 ++ rest, c ≠ 0 := by
    intro c hc
    rcases List.mem_append.1 hc with h | h
    · exact replicate_no_nul _ c h
    · exact hnn c h
  unfold http_parse_param
  simp only [link_param_text, List.cons_append, List.append_assoc]
  generalize hV : link_value_text quoted value ++ (List.replicate b4 32 ++ rest) = V
  have h1 : (59 :: (List.replicate b 32 ++ (name ++ (List.replicate b2 32 ++
      61 :: (List.replicate b3 32 ++ V))))).dropWhile isblank =
      59 :: (List.replicate b 32 ++ (name ++ (List.replicate b2 32 ++
        61 :: (List.replicate b3 32 ++ V)))) := by
    simp [List.dropWhile_cons, isblank]
  have h2 : (List.replicate b 32 ++ (name ++ (List.replicate b2 32 ++
      61 :: (List.replicate b3 32 ++ V)))).dropWhile isblank =
      name ++ (List.replicate b2 32 ++ 61 :: (List.replicate b3 32 ++ V)) :=
    dropWhile_isblank_replicate _ _ (hblank_name _)
  have hX : List.replicate b2 32 ++ 61 :: (List.replicate b3 32 ++ V) = [] ∨
      http_istoken (cur (List.replicate b2 32 ++ 61 :: (List.replicate b3 32 ++ V))) = false := by
    right
    cases b2 with
    | zero => rfl
    | succ n => rfl
  have h3 : (name ++ (List.replicate b2 32 ++ 61 :: (List.replicate b3 32 ++ V))).takeWhile
      http_istoken = name := takeWhile_append_head _ _ hn hX
  have h4 : (name ++ (List.replicate b2 32 ++ 61 :: (List.replicate b3 32 ++ V))).dropWhile
      http_istoken = List.replicate b2 32 ++ 61 :: (List.replicate b3 32 ++ V) :=
    dropWhile_append_head _ _ hn hX
  have h5 : (List.replicate b2 32 ++ 61 :: (List.replicate b3 32 ++ V)).dropWhile isblank =
      61 :: (List.replicate b3 32 ++ V) := dropWhile_isblank_replicate _ _ rfl
  simp only [h1, cur, List.headD_cons, if_true, List.tail_cons, h2, h3, h4, h5]
  cases quoted with
  | true =>
    simp only [if_true] at hv
    have hv1 : V = 34 :: (value ++ 34 :: (List.replicate b4 32 ++ rest)) := by
      rw [← hV]
      simp [link_value_text]
    have h6 : (List.replicate b3 32 ++ V).dropWhile isblank = V :=
      dropWhile_isblank_replicate _ _ (by rw [hv1]; rfl)
    rw [h6, hv1]
    simp only [List.headD_cons, if_true, http_parse_quoted_string, cur, List.tail_cons,
      quoted_scan_interior value _ hv hendnn]
    exact ⟨trivial, hend⟩
  | false =>
    simp only [Bool.false_eq_true, if_false] at hv
    have hv1 : V = value ++ (List.replicate b4 32 ++ rest) := by
      rw [← hV]
      simp [link_value_text]
    have hR := replicate_rest_start b4 rest hrest
    cases value with
    | cons a r =>
      have ha := hv a (List.mem_cons_self _ _)
      have hab : isblank a = false := (http_istoken_facts ha).2.2.2.2
      have ha34 : ¬ (a = 34) := by
        intro h34
        subst h34
        exact absurd ha (by decide)
      have h6 : (List.replicate b3 32 ++ V).dropWhile isblank = V :=
        dropWhile_isblank_replicate _ _ (by rw [hv1]; exact hab)
      have h8 : http_parse_token ((a :: r) ++ (List.replicate b4 32 ++ rest)) =
          (List.replicate b4 32 ++ rest, a :: r) := by
        unfold http_parse_token
        rw [dropWhile_append_head _ _ hv (hR.imp id And.left),
          takeWhile_append_head _ _ hv (hR.imp id And.left)]
      rw [h6, hv1]
      simp only [List.cons_append, List.headD_cons, ha34, if_false]
      rw [← List.cons_append, h8]
      exact ⟨rfl, hend⟩
    | nil =>
      have hv2 : V = List.replicate b4 32 ++ rest := by
        rw [hv1]
        rfl
      have h6 : (List.replicate b3 32 ++ V).dropWhile isblank = rest := by
        rw [hv2, dropWhile_append_of_all _ _ (by
          intro x hx
          rw [List.eq_of_mem_replicate hx]
          decide)]
        exact hend
      have h7 : ¬ (List.headD rest 0 = 34) := by
        rcases hrest with h | h
        · rw [h]
          decide
        · simp only [cur] at h
          rw [h]
          decide
      have h8 : http_parse_token rest = (rest, []) := by
        unfold http_parse_token
        rw [dropWhile_stop_start rest 59 (by decide) hrest,
          takeWhile_stop_start rest 59 (by decide) hrest]
      rw [h6]
      simp only [h7, if_false, h8]
      exact ⟨trivial, dropWhile_stop_start rest 59 (by decide) hrest⟩
theorem link_param_attribute (link : MGET_HTTP_LINK) (p : LinkParam) (hp : is_link_param p) :
    link_param link p.name p.value = link_attribute link p := by
  have hn : ∀ c ∈ p.name, c ≠ 0 := fun c hc => (http_istoken_facts (hp.1 c hc)).1
  have hv := link_value_no_nul p hp
  unfold link_param link_attribute
  simp only [strcaseeq_no_nul p.name (bytes "rel") hn (by decide),
    strcaseeq_no_nul p.name (bytes "pri") hn (by decide),
    strcaseeq_no_nul p.name (bytes "type") hn (by decide),
    strcaseeq_no_nul p.value (bytes "describedby") hv (by decide),
    strcaseeq_no_nul p.value (bytes "duplicate") hv (by decide), decide_eq_true_eq]

theorem link_params_nil (fuel : Nat) (link : MGET_HTTP_LINK) :
    link_params fuel link [] = (link, []) := by
  cases fuel with
  | zero => rfl
  | succ n => simp [link_params, cur]

theorem link_params_text_length (ps : List LinkParam) :
    ps.length ≤ (link_params_text ps).length := by
  induction ps with
  | nil => exact le_refl _
  | cons a as ih =>
    simp only [link_params_text, link_param_text, List.length_cons, List.length_append,
      List.cons_append]
    omega

/-- The loop over the parameters of a `Link` value: every parameter does what
`link_attribute` says. -/
theorem link_params_params (ps : List LinkParam) :
    ∀ (fuel : Nat) (link : MGET_HTTP_LINK), ps.length ≤ fuel → (∀ p ∈ ps, is_link_param p) →
      link_params fuel link (link_params_text ps) = (ps.foldl link_attribute link, []) := by
  induction ps with
  | nil =>
    intro fuel link _ _
    exact link_params_nil fuel link
  | cons p ps ih =>
    intro fuel link hf hps
    obtain ⟨n, rfl⟩ : ∃ n, fuel = n + 1 := ⟨fuel - 1, by simp at hf; omega⟩
    have hp := hps p (List.mem_cons_self _ _)
    have hrest : ∀ q ∈ ps, is_link_param q := fun q hq => hps q (List.mem_cons_of_mem _ hq)
    obtain ⟨hpar, hpos⟩ := http_parse_param_link p (link_params_text ps) hp
      (link_params_text_start ps) (link_params_text_no_nul ps hrest)
    have hcur : cur (link_param_text p ++ link_params_text ps) = 59 := rfl
    rw [link_params_text, link_params]
    simp only [hcur, if_true]
    rw [hpar]
    simp only [hpos]
    rw [link_param_attribute link p hp, List.foldl_cons]
    exact ih n _ (by simp at hf; omega) hrest

/-- The function `http_parse_link` on `<U>` followed by parameters. -/
theorem http_parse_link_form (uri : List Nat) (b : Nat) (ps : List LinkParam)
    (huri : ∀ c ∈ uri, c ≠ 62 ∧ c ≠ 0) (hps : ∀ p ∈ ps, is_link_param p) :
    http_parse_link (link_text uri b ps) =
      (some [], ps.foldl link_attribute { uri := some uri }) := by
  have h1 : (link_text uri b ps).dropWhile isblank = link_text uri b ps := by
    simp [link_text, List.dropWhile_cons, isblank]
  have h2 : cur (link_text uri b ps) = 60 := rfl
  have h3 : (link_text uri b ps).tail =
      uri ++ 62 :: (List.replicate b 32 ++ link_params_text ps) := rfl
  have hpb : isblank (cur (link_params_text ps)) = false := by
    rcases link_params_text_start ps with h | h
    · rw [h]
      rfl
    · rw [h]
      rfl
  have h4 : (62 :: (List.replicate b 32 ++ link_params_text ps)).tail.dropWhile isblank =
      link_params_text ps := dropWhile_isblank_replicate _ _ hpb
  have h5 : (uri ++ 62 :: (List.replicate b 32 ++ link_params_text ps)).take
      ((uri ++ 62 :: (List.replicate b 32 ++ link_params_text ps)).length -
        (62 :: (List.replicate b 32 ++ link_params_text ps)).length) = uri := by
    have : (uri ++ 62 :: (List.replicate b 32 ++ link_params_text ps)).length -
        (62 :: (List.replicate b 32 ++ link_params_text ps)).length = uri.length := by
      simp
    rw [this]
    exact List.take_left' rfl
  have h6 := link_params_params ps (62 :: (List.replicate b 32 ++ link_params_text ps)).length
    { uri := some uri } (by have := link_params_text_length ps; simp; omega) hps
  unfold http_parse_link
  simp only [h1, h2, if_true, h3, strchr_skip uri _ 62 huri, h4, h5, h6]
  rfl

/-- A value that does not start with `<`, after blanks, or has no `>` after
it, gives a link without any field set. -/
theorem http_parse_link_no_uri (s : List Nat)
    (h : cur (s.dropWhile isblank) ≠ 60 ∨ strchr (s.dropWhile isblank).tail 62 = none) :
    (http_parse_link s).2 = {} := by
  unfold http_parse_link
  simp only
  by_cases h1 : cur (s.dropWhile isblank) = 60
  · rw [if_pos h1]
    rcases h with h | h
    · exact absurd h1 h
    · rw [h]
  · rw [if_neg h1]

/-- C28: for every `Link` value `<U>` followed by parameters `; name=value`
whose values are tokens or quoted strings, with any number of spaces around
the `;`, the `=` and the value, `http_parse_link` returns at the end of the
value, with `uri` the bytes `U` between `<` and the first `>` and the other
fields as the parameters set them in their order: `rel=describedby` and
`rel=duplicate` set `rel` (names and values in any letter case), `pri` sets
`pri` to the integer of its value, `type` sets `type`, every other parameter
is ignored; and a value without `<...>` gives a link without `uri`. -/
theorem C28_link_uri_and_parameters (uri : List Nat) (b : Nat) (ps : List LinkParam)
    (s : List Nat) (huri : ∀ c ∈ uri, c ≠ 62 ∧ c ≠ 0) (hps : ∀ p ∈ ps, is_link_param p) :
    http_parse_link (link_text uri b ps) =
        (some [], ps.foldl link_attribute { uri := some uri }) ∧
      (cur (s.dropWhile isblank) ≠ 60 ∨ strchr (s.dropWhile isblank).tail 62 = none →
        (http_parse_link s).2 = {}) :=
  ⟨http_parse_link_form uri b ps huri hps, http_parse_link_no_uri s⟩

theorem C28_link_uri_and_parameters_witness :
    (∀ c ∈ bytes "http://a/b", c ≠ 62 ∧ c ≠ 0) ∧ (∀ p ∈ sample_link_params, is_link_param p) ∧
      (http_parse_link (link_text (bytes "http://a/b") 0 sample_link_params) =
          (some [], sample_link_params.foldl link_attribute { uri := some (bytes "http://a/b") }) ∧
        (cur ((bytes "http://a/b").dropWhile isblank) ≠ 60 ∨
            strchr ((bytes "http://a/b").dropWhile isblank).tail 62 = none →
          (http_parse_link (bytes "http://a/b")).2 = {})) :=
  ⟨by decide, by decide,
    C28_link_uri_and_parameters (bytes "http://a/b") 0 sample_link_params (bytes "http://a/b")
      (by decide) (by decide)⟩

/-- The link `<http://a/b>; rel=duplicate; pri=2` and other `Link` values. -/
theorem http_parse_link_examples :
    link_text (bytes "http://a/b") 0 sample_link_params =
        bytes "<http://a/b>; rel=duplicate; pri=2" ∧
      sample_link_params.foldl link_attribute { uri := some (bytes "http://a/b") } =
        { uri := some (bytes "http://a/b"), rel := LinkRel.link_rel_duplicate, pri := 2 } ∧
      http_parse_link (bytes "<http://a/b>; rel=duplicate; pri=2") =
        (some [], { uri := some (bytes "http://a/b"), rel := LinkRel.link_rel_duplicate,
                    pri := 2 }) ∧
      http_parse_link (bytes "<x> ; REL = \"DescribedBy\" ;type=\"text/html\"; title=t") =
        (some [], { uri := some (bytes "x"), rel := LinkRel.link_rel_describedby,
                    type := some (bytes "text/html") }) ∧
      http_parse_link (bytes "http://a/b; rel=duplicate") =
        (some (bytes "http://a/b; rel=duplicate"), {}) ∧
      http_parse_link (bytes "<http://a/b; rel=duplicate") = (none, {}) := by
  refine ⟨by decide, by decide, by decide, by decide, by decide, by decide⟩

/-! ## The start of the header search -/

/-- The header loop of the model reports a search below the buffer exactly
when the offset computed in the source is negative. -/
theorem header_search_offset_neg (before nbytes : Nat) :
    header_search_offset (before + nbytes) nbytes < 0 ↔ before ≠ 0 ∧ before < 3 := by
  unfold header_search_offset
  split_ifs with h1 <;> omega

/-- C36 (code defect): after a first read of one byte and a second read of
three bytes the search for the end of the header starts at offset -2, two
bytes before the buffer, where the claim has offset `max(0, nread - nbytes - 3)`
= 0; likewise after first reads of 2 bytes, and the call on such a stream
ends in undefined behaviour. -/
theorem C36_search_starts_below_buffer :
    header_search_offset 4 3 = -2 ∧
    header_search_offset 22 20 = -1 ∧
    header_search_offset 21 20 = -2 ∧
    max 0 ((4 : Int) - 3 - 3) = 0 ∧
    http_get_response_cb 0
      { tcp := [bytes "H", bytes "TTP/1.1 200 OK\r\nContent-Length: 0\r\n\r\n"] } none false =
      ReadResult.fault ∧
    http_get_response_cb 0
      { tcp := [bytes "HT", bytes "TP/1.1 200 OK\r\nContent-Length: 0\r\n\r\n"] } none false =
      ReadResult.fault ∧
    http_get_response_cb 0
      { tcp := [bytes "HTT", bytes "P/1.1 200 OK\r\nContent-Length: 0\r\n\r\n"] } none false ≠
      ReadResult.fault := by
  decide

/-! ## The parameter scan of `http_parse_content_type` -/

/-- At a byte that is neither NUL, blank, `;`, `=` nor a token byte,
`http_parse_param` returns its argument: an empty name, no value, and the
position it was given. -/
theorem http_parse_param_no_progress (c : Nat) (rest : List Nat)
    (hb : isblank c = false) (hs : c ≠ 59) (he : c ≠ 61) (ht : http_istoken c = false) :
    http_parse_param (c :: rest) = (c :: rest, some [], none) := by
  simp [http_parse_param, List.dropWhile_cons, List.takeWhile_cons, hb, ht, cur, hs, he]

/-- The parameter scan does not return when the remaining input starts with
such a byte. -/
theorem content_type_charset_hangs (fuel c : Nat) (rest : List Nat)
    (h0 : c ≠ 0) (hb : isblank c = false) (hs : c ≠ 59) (he : c ≠ 61)
    (ht : http_istoken c = false) :
    content_type_charset fuel (c :: rest) = none := by
  cases fuel with
  | zero => rfl
  | succ n =>
    rw [content_type_charset]
    simp only [http_parse_param_no_progress c rest hb hs he ht]
    simp +decide [cur, h0, mget_strcaseeq]

/-- C37 (code defect): with a charset requested, `http_parse_content_type` does
not return for `text/html, x` nor for `text/html"`: at the byte after the type
`http_parse_param` returns the position it was given, with an empty name, so
the scan `while (*s)` repeats the same call for ever.  For `text/html; x` the
scan ends. -/
theorem C37_parameter_scan_without_progress :
    http_parse_param (bytes ", x") = (bytes ", x", some [], none) ∧
    http_parse_param (bytes "\"") = (bytes "\"", some [], none) ∧
    http_parse_content_type (bytes "text/html, x") = none ∧
    http_parse_content_type (bytes "text/html\"") = none ∧
    (∀ fuel, content_type_charset fuel (bytes ", x") = none) ∧
    http_parse_content_type (bytes "text/html; x") = some ([], bytes "text/html", none) := by
  refine ⟨by decide, by decide, by decide, by decide, ?_, by decide⟩
  intro fuel
  exact content_type_charset_hangs fuel 44 (bytes " x") (by decide) (by decide) (by decide)
    (by decide) (by decide)

/-! ## The gzip check without a content type -/

/-- Every block of a status line and header lines that declares the coding
gzip and carries no `Content-Type` line ends in the `strcasecmp` on the null
content type. -/
theorem gzip_without_content_type_faults (now : Int) (a b c reason : List Nat)
    (lines : List (List Nat))
    (ha : is_number a) (hb : is_number b) (hc : is_number c) (hr : is_reason reason)
    (hl : ∀ l ∈ lines, is_header_line l)
    (hret : ∀ l ∈ lines, is_named "Content-Type" l = true →
      (http_parse_content_type (header_value l)).isSome = true)
    (hg : encoding_of lines = ContentEncoding.mget_content_encoding_gzip)
    (hct : content_type_of lines = none) :
    http_parse_response now (header_block (status_line a b c reason) lines) =
      ParseResult.fault := by
  rw [http_parse_response_lines now a b c reason lines ha hb hc hr hl]
  obtain ⟨r0, hf⟩ := foldlM_returns now lines (status_response a b c reason) hret
  obtain ⟨f1, f2⟩ := foldlM_encoding now lines _ r0 hf
  have g1 : r0.content_encoding = ContentEncoding.mget_content_encoding_gzip := by
    rw [f1]; exact hg
  have g2 : r0.content_type = none := by
    rw [f2, ← hct]; simp [status_response, content_type_of]
  simp only [hf]
  simp [gzip_workaround, g1, g2]

/-- C38 (code defect): a header block that declares `Content-Encoding: gzip`
and has no `Content-Type` line reaches `strcasecmp(resp->content_type, ...)`
with a null `content_type`: the call does not return a response.  With a
`Content-Type` line the response is returned with `content_encoding` gzip. -/
theorem C38_gzip_without_content_type :
    http_parse_response 0 (bytes "HTTP/1.1 200 OK\r\nContent-Encoding: gzip\r\n") =
      ParseResult.fault ∧
    http_parse_response 0
      (bytes "HTTP/1.1 200 OK\r\nContent-Length: 10\r\nContent-Encoding: x-gzip\r\n") =
      ParseResult.fault ∧
    returned_encoding (http_parse_response 0
        (bytes "HTTP/1.1 200 OK\r\nContent-Type: text/html\r\nContent-Encoding: gzip\r\n")) =
      some ContentEncoding.mget_content_encoding_gzip := by
  decide

/-! ## The plain `%d` -/

/-- Apart from the least `int`, `_convert_dec_fast` appends the decimal
representation of its argument. -/
theorem convert_dec_fast_decimal (buf : mget_buffer_t) (v : Int)
    (h1 : -2 ^ 31 < v) (h2 : v < 2 ^ 31) :
    (convert_dec_fast buf v).content = buf.content ++ decimal_text v := by
  rw [convert_dec_fast_printf buf v h1 h2]
  congr 1
  unfold decimal_text printf_integer
  by_cases h0 : v = 0
  · subst h0
    simp [to_size_t, numeral_zero]
  · have hne : numeral 10 false v.natAbs ≠ [] :=
      numeral_ne_nil 10 false v.natAbs (by omega)
    have hlen : 1 - (numeral 10 false v.natAbs).length = 0 := by
      have := List.length_pos.mpr hne
      omega
    by_cases hv : v < 0
    · have e : (-v).toNat = v.natAbs := by omega
      simp [hv, e, h0, hlen]
    · have e : to_size_t v = v.natAbs := by
        unfold to_size_t
        omega
      simp [hv, e, h0, hlen]

/-- C39 (code defect): for the least `int` the plain `%d` appends `-(`, not
the decimal representation `-2147483648`: `_convert_dec_fast` negates the
`int` argument, which leaves -2147483648 as it is, and then writes the one
digit `(arg % 10) + '0'` = -8 + 48, the byte `(`. -/
theorem C39_fast_path_least_int :
    to_int (-(-2147483648)) = -2147483648 ∧
    (convert_dec_fast {} (-2147483648)).content = bytes "-(" ∧
    decimal_text (-2147483648) = bytes "-2147483648" ∧
    mget_buffer_vprintf_append2 { content := bytes "n=" } (bytes "%d") [Arg.int (-2147483648)] =
      some ({ content := bytes "n=-(", slack := [0] }, 4) ∧
    mget_buffer_vprintf_append2 { content := bytes "n=" } (bytes "%d") [Arg.int (-2147483647)] =
      some ({ content := bytes "n=-2147483647", slack := [0] }, 13) := by
  refine ⟨by decide, by decide, ?_, by decide, by decide⟩
  norm_num [decimal_text, numeral, digit_char]
  decide

/-! ## `mget_strdup` -/

/-- For a null argument `mget_strdup` returns no string. -/
theorem mget_strdup_null : mget_strdup none = none := rfl

/-- C40 (code defect): for every non-null string `mget_strdup` asks the
allocator for `strlen(s)` bytes and `strcpy` writes `strlen(s) + 1` bytes to
the block, the string and its terminating NUL: the copy ends one byte after
the memory requested. -/
theorem C40_strdup_requests_one_byte_less (s : List Nat) :
    mget_strdup (some s) = some { size := strlen s, data := cstr s ++ [0] } ∧
    (cstr s ++ [0]).length = strlen s + 1 ∧
    ¬ (strlen s + 1 ≤ strlen s) ∧
    mget_strdup (some (bytes "abc")) = some { size := 3, data := [97, 98, 99, 0] } ∧
    mget_strdup (some []) = some { size := 0, data := [0] } := by
  refine ⟨rfl, by simp [strlen], by omega, by decide, by decide⟩

/-! ## Cookies: `Max-Age` -/

theorem takeWhile_isdigit_digits (ds rest : List Nat) (hd : ∀ c ∈ ds, isdigit c = true)
    (hrest : rest = [] ∨ cur rest = 59) : (ds ++ rest).takeWhile isdigit = ds := by
  rw [takeWhile_append_of_all _ _ hd, takeWhile_stop_start rest 59 (by decide) hrest,
    List.append_nil]

theorem takeWhile_isdigit_start (s : List Nat) (h : isdigit (cur s) = false) :
    s.takeWhile isdigit = [] := by
  cases s with
  | nil => rfl
  | cons a r =>
    simp only [cur, List.headD_cons] at h
    simp [List.takeWhile_cons, h]

theorem cur_append_stop (v rest : List Nat) (hrest : rest = [] ∨ cur rest = 59) :
    cur (v ++ rest) = cur v ∨ (v = [] ∧ (cur (v ++ rest) = 0 ∨ cur (v ++ rest) = 59)) := by
  cases v with
  | cons a r => exact Or.inl rfl
  | nil =>
    right
    rcases hrest with h | h
    · subst h
      exact ⟨rfl, Or.inl rfl⟩
    · exact ⟨rfl, Or.inr (by simpa using h)⟩

theorem clamp64_neg_le (m : Nat) : clamp64 true m ≤ 0 := by
  unfold clamp64
  simp only [if_true]
  split_ifs <;> omega

theorem strtoll10_stop (rest : List Nat) (hrest : rest = [] ∨ cur rest = 59) :
    strtoll10 rest = 0 := by
  cases rest with
  | nil => decide
  | cons a r =>
    rcases hrest with h | h
    · cases h
    · simp only [cur, List.headD_cons] at h
      subst h
      simp +decide [strtoll10, List.dropWhile_cons, isspace, cur, List.takeWhile_cons, isdigit,
        clamp64, decval]

theorem strtoll10_cons (a : Nat) (s : List Nat) (ha : isspace a = false) :
    strtoll10 (a :: s) =
      clamp64 (a == 45) (decval ((if a = 45 ∨ a = 43 then s else a :: s).takeWhile isdigit)) := by
  unfold strtoll10
  simp only [List.dropWhile_cons, ha, Bool.false_eq_true, if_false, cur, List.headD_cons,
    Bool.or_eq_true, beq_iff_eq, List.tail_cons]

theorem max_age_number_decimal (v : List Nat) (h : is_decimal v) :
    max_age_number v = decimal_number v := by
  unfold max_age_number
  rw [if_pos h]

theorem max_age_number_not (v : List Nat) (h : not_a_number v) : max_age_number v = 0 := by
  unfold max_age_number
  rw [if_neg]
  intro hd
  unfold not_a_number at h
  unfold is_decimal at hd
  generalize (if cur v = 45 ∨ cur v = 43 then v.tail else v) = ds at h hd
  cases ds with
  | nil => exact hd.1 rfl
  | cons b t =>
    have := hd.2 b (List.mem_cons_self _ _)
    simp only [cur, List.headD_cons] at h
    rw [h] at this
    cases this

theorem clamp64_zero (sign : Bool) : clamp64 sign 0 = 0 := by
  cases sign <;> decide

/-- The number `atol` reads at the value of a cookie attribute gives the
life `max_age now N` of the claim. -/
theorem atol_max_age (now : Int) (v rest : List Nat) (hnow : 0 ≤ now)
    (hv : ∀ x ∈ v, cookie_av_octet x = true) (hrest : rest = [] ∨ cur rest = 59)
    (hread : readable_max_age now v) :
    (if atol (v ++ rest) > 0 then now + atol (v ++ rest) else 0) =
      max_age now (max_age_number v) := by
  unfold atol
  cases v with
  | nil =>
    have e : max_age_number [] = 0 := by decide
    rw [List.nil_append, strtoll10_stop rest hrest, e]
    simp [max_age]
  | cons a r =>
    have hoct := hv a (List.mem_cons_self _ _)
    simp only [cookie_av_octet, Bool.and_eq_true, decide_eq_true_eq, bne_iff_ne, ne_eq] at hoct
    have hs : isspace a = false := by
      simp only [isspace, Bool.or_eq_false_iff, beq_eq_false_iff_ne, Bool.and_eq_false_iff,
        decide_eq_false_iff_not]
      omega
    rw [List.cons_append, strtoll10_cons a (r ++ rest) hs]
    rcases hread with ⟨hdec, hb⟩ | hnot
    · rw [max_age_number_decimal _ hdec]
      unfold is_decimal at hdec
      unfold decimal_number at hb ⊢
      simp only [cur, List.headD_cons, List.tail_cons] at hdec hb ⊢
      by_cases h45 : a = 45
      · subst h45
        simp only [true_or, if_true] at hdec hb ⊢
        have hle := clamp64_neg_le (decval ((r ++ rest).takeWhile isdigit))
        have e1 : ((45 : Nat) == 45) = true := rfl
        rw [e1]
        unfold max_age
        rw [if_neg (by omega), if_neg (by omega)]
      · by_cases h43 : a = 43
        · subst h43
          simp only [or_true, if_true, h45, if_false] at hdec hb ⊢
          rw [takeWhile_isdigit_digits r rest hdec.2 hrest]
          have e1 : ((43 : Nat) == 45) = false := rfl
          have hlt : decval r < 2 ^ 63 := by omega
          rw [e1]
          unfold clamp64
          simp only [Bool.false_eq_true, if_false, hlt, if_true]
          rfl
        · simp only [h45, h43, or_self, if_false] at hdec hb ⊢
          have ht := takeWhile_isdigit_digits (a :: r) rest hdec.2 hrest
          rw [List.cons_append] at ht
          rw [ht]
          have e1 : (a == 45) = false := beq_eq_false_iff_ne.mpr h45
          have hlt : decval (a :: r) < 2 ^ 63 := by omega
          rw [e1]
          unfold clamp64
          simp only [Bool.false_eq_true, if_false, hlt, if_true]
          rfl
    · rw [max_age_number_not _ hnot]
      unfold not_a_number at hnot
      simp only [cur, List.headD_cons, List.tail_cons] at hnot
      have ht : (if a = 45 ∨ a = 43 then r ++ rest else a :: (r ++ rest)).takeWhile isdigit =
          [] := by
        apply takeWhile_isdigit_start
        by_cases hsgn : a = 45 ∨ a = 43
        · rw [if_pos hsgn] at hnot ⊢
          rcases cur_append_stop r rest hrest with h | ⟨_, h | h⟩
          · rw [h]
            exact hnot
          · rw [h]
            rfl
          · rw [h]
            rfl
        · rw [if_neg hsgn] at hnot ⊢
          exact hnot
      rw [ht]
      have e0 : decval [] = 0 := rfl
      rw [e0, clamp64_zero]
      simp [max_age]

/-- The attribute `Max-Age` changes `maxage` and no other field. -/
theorem cookie_av_value_max_age (now : Int) (c : MGET_COOKIE) (name p v : List Nat)
    (hn : is_token_run name) (hm : name.map tolower = bytes "max-age") :
    cookie_av_value now c name p v =
      { c with maxage := if atol p > 0 then now + atol p else 0 } := by
  have e1 := strcaseeq_token_run name (bytes "expires") hn (by decide)
  have e2 := strcaseeq_token_run name (bytes "max-age") hn (by decide)
  unfold cookie_av_value
  rw [e1, e2, hm]
  simp +decide

/-- One round of the loop over the cookie attributes on `Max-Age=N`: `maxage`
becomes `max_age now N`, and every other field of the cookie, `expires`
included, is left as it is. -/
theorem cookie_avs_round_max_age (fuel : Nat) (now : Int) (c : MGET_COOKIE) (b : Nat)
    (name v rest : List Nat) (hnow : 0 ≤ now) (hn : is_token_run name)
    (hm : name.map tolower = bytes "max-age")
    (hv : ∀ x ∈ v, 33 ≤ x ∧ x ≤ 126 ∧ x ≠ 59) (hrest : rest = [] ∨ cur rest = 59)
    (hread : readable_max_age now v) :
    cookie_avs (fuel + 1) now c (59 :: (List.replicate b 32 ++ (name ++ 61 :: (v ++ rest)))) =
      cookie_avs fuel now { c with maxage := max_age now (max_age_number v) } rest := by
  rw [cookie_avs_round_value fuel now c b name v rest hn (cookie_octets_av v hv) hrest,
    cookie_av_value_max_age now c name _ v hn hm,
    atol_max_age now v rest hnow (cookie_octets_av v hv) hrest hread]

theorem cookie_attribute_age_of_not (now : Int) (c : MGET_COOKIE) (av : CookieAv)
    (h : ¬ is_max_age av) : cookie_attribute_age now c av = cookie_attribute c av := by
  unfold cookie_attribute_age
  rw [if_neg h]

/-- The loop over the cookie attributes on the text of a sequence of
attributes without `Expires`: the cookie is the one the attributes give in
turn, the last `Max-Age` deciding `maxage`. -/
theorem cookie_avs_max_age (now : Int) (hnow : 0 ≤ now) (avs : List CookieAv) :
    ∀ (fuel : Nat) (c : MGET_COOKIE), avs.length ≤ fuel →
      (∀ av ∈ avs, is_cookie_av av ∧ ¬ is_expires av ∧
        (is_max_age av → readable_max_age now (av.value.getD []))) →
      cookie_avs fuel now c (cookie_avs_text avs) =
        (avs.foldl (cookie_attribute_age now) c, []) := by
  induction avs with
  | nil =>
    intro fuel c _ _
    simp only [cookie_avs_text, cookie_avs_nil, List.foldl_nil]
  | cons av avs ih =>
    intro fuel c hf hav
    obtain ⟨n, rfl⟩ : ∃ n, fuel = n + 1 := ⟨fuel - 1, by simp at hf; omega⟩
    obtain ⟨hav1, hne, hma⟩ := hav av (List.mem_cons_self _ _)
    have havs : ∀ a ∈ avs, is_cookie_av a ∧ ¬ is_expires a ∧
        (is_max_age a → readable_max_age now (a.value.getD [])) :=
      fun a ha => hav a (List.mem_cons_of_mem _ ha)
    have hlen : avs.length ≤ n := by simp at hf; omega
    obtain ⟨b, name, value⟩ := av
    have hn : is_token_run name := hav1.1
    simp only [cookie_avs_text, cookie_av_text, List.foldl_cons, List.cons_append,
      List.append_assoc]
    cases value with
    | none =>
      simp only [cookie_av_value_text, List.nil_append]
      rw [cookie_avs_round_flag n now c b name _ hn (cookie_avs_text_start avs),
        cookie_av_flag_attribute c b name hn,
        cookie_attribute_age_of_not now c _ (fun h => h.1 rfl)]
      exact ih n _ hlen havs
    | some v =>
      simp only [cookie_av_value_text, List.cons_append]
      by_cases hm : is_max_age ⟨b, name, some v⟩
      · rw [cookie_avs_round_max_age n now c b name v _ hnow hn hm.2 hav1.2
          (cookie_avs_text_start avs) (hma hm)]
        have e : cookie_attribute_age now c ⟨b, name, some v⟩ =
            { c with maxage := max_age now (max_age_number v) } := by
          unfold cookie_attribute_age
          rw [if_pos hm]
          rfl
        rw [e]
        exact ih n _ hlen havs
      · have hv := cookie_octets_av v hav1.2
        rw [cookie_avs_round_value n now c b name v _ hn hv (cookie_avs_text_start avs)]
        have hns : ¬ sets_time ⟨b, name, some v⟩ := by
          rintro ⟨h1, h2 | h2⟩
          · exact hne ⟨h1, h2⟩
          · exact hm ⟨h1, h2⟩
        rw [(cookie_av_value_attribute now c b name (v ++ cookie_avs_text avs) v hn).2 hns,
          cookie_attribute_age_of_not now c _ hm]
        exact ih n _ hlen havs

/-- The function `http_parse_setcookie` on `NAME=VALUE` followed by a sequence
of attributes: the loop over the attributes starts at the first `;` with the
cookie that has the name and the value. -/
theorem http_parse_setcookie_avs (now : Int) (name value : List Nat)
    (avs : List CookieAv) (hn : is_token_run name) (hne : name ≠ [])
    (hv : ∀ c ∈ value, is_cookie_octet c) :
    (http_parse_setcookie now (name ++ 61 :: (value ++ cookie_avs_text avs))).2 =
      (cookie_avs ((cookie_avs_text avs).length + 1) now
        { name := some name, value := some value } (cookie_avs_text avs)).1 := by
  have hoct : ∀ c ∈ value, cookie_octet c = true := by
    intro c hc
    rw [cookie_octet_iff]
    exact decide_eq_true (hv c hc)
  have hstart : value ++ cookie_avs_text avs = [] ∨
      (isspace (cur (value ++ cookie_avs_text avs)) = false ∧
        cur (value ++ cookie_avs_text avs) ≠ 34) := by
    cases value with
    | cons a r =>
      right
      have := hv a (List.mem_cons_self _ _)
      unfold is_cookie_octet at this
      simp only [List.cons_append, cur, List.headD_cons, isspace, Bool.or_eq_false_iff,
        beq_eq_false_iff_ne, Bool.and_eq_false_iff, decide_eq_false_iff_not]
      omega
    | nil =>
      rcases cookie_avs_text_start avs with h | h
      · left
        simp [h]
      · right
        simp only [List.nil_append, h]
        decide
  have hsp : (value ++ cookie_avs_text avs).dropWhile isspace = value ++ cookie_avs_text avs := by
    rcases hstart with h | h
    · rw [h]
      rfl
    · cases hl : value ++ cookie_avs_text avs with
      | nil => rfl
      | cons a r =>
        rw [hl] at h
        simp only [cur, List.headD_cons] at h
        simp [List.dropWhile_cons, h.1]
  have hq : ¬ (cur (value ++ cookie_avs_text avs) = 34) := by
    rcases hstart with h | h
    · rw [h]
      decide
    · exact h.2
  have htw : (value ++ cookie_avs_text avs).takeWhile cookie_octet = value := by
    rw [takeWhile_append_of_all _ _ hoct,
      takeWhile_stop_start _ 59 (by decide) (cookie_avs_text_start avs), List.append_nil]
  have hdw : (value ++ cookie_avs_text avs).dropWhile cookie_octet = cookie_avs_text avs := by
    rw [dropWhile_append_of_all _ _ hoct,
      dropWhile_stop_start _ 59 (by decide) (cookie_avs_text_start avs)]
  have h61 : (61 :: (value ++ cookie_avs_text avs)).dropWhile isspace =
      61 :: (value ++ cookie_avs_text avs) := by
    simp [List.dropWhile_cons, isspace]
  have hcur : cur (61 :: (value ++ cookie_avs_text avs)) = 61 := rfl
  unfold http_parse_setcookie
  simp only [dropWhile_isspace_token name _ hn hne, http_parse_token_name name _ hn, h61, hcur,
    hne, ne_eq, not_false_eq_true, and_self, if_true, List.tail_cons, hsp, hq, if_false, htw, hdw]

/-- The attributes of `cookie_attribute` leave the two times of the cookie as
they are. -/
theorem cookie_attribute_times (c : MGET_COOKIE) (av : CookieAv) :
    (cookie_attribute c av).expires = c.expires ∧ (cookie_attribute c av).maxage = c.maxage := by
  obtain ⟨b, name, value⟩ := av
  unfold cookie_attribute
  cases value with
  | none => simp only; split_ifs <;> exact ⟨rfl, rfl⟩
  | some v => simp only; split_ifs <;> exact ⟨rfl, rfl⟩

/-- No attribute of `cookie_attribute_age` changes `expires`. -/
theorem cookie_attribute_age_expires (now : Int) (avs : List CookieAv) :
    ∀ c : MGET_COOKIE, (avs.foldl (cookie_attribute_age now) c).expires = c.expires := by
  induction avs with
  | nil => intro c; rfl
  | cons av avs ih =>
    intro c
    rw [List.foldl_cons, ih]
    unfold cookie_attribute_age
    split_ifs
    · rfl
    · exact (cookie_attribute_times c av).1

/-- C31: in `http_parse_setcookie` an attribute `Max-Age=N` (the name in any
letter case) sets `maxage` to `now + N` when `N > 0` and to 0 when `N` is
zero, negative or not a number, and changes no other field of the cookie,
`expires` included: one round of the attribute loop on `; Max-Age=N` gives the
cookie with that `maxage` and the loop goes on after the value; and the cookie
parsed from `NAME=VALUE` followed by attributes other than `Expires` is the
one the attributes give in turn, with `expires` still 0.  `N` is an optional
sign and digits with `now + N` below 2^63, or a value that does not start
with a number. -/
theorem C31_max_age (now : Int) (name value : List Nat) (avs : List CookieAv)
    (fuel b : Nat) (c : MGET_COOKIE) (aname v rest : List Nat)
    (hnow : 0 ≤ now) (hn : is_token_run name) (hne : name ≠ [])
    (hv : ∀ x ∈ value, is_cookie_octet x)
    (havs : ∀ av ∈ avs, is_cookie_av av ∧ ¬ is_expires av ∧
      (is_max_age av → readable_max_age now (av.value.getD [])))
    (han : is_token_run aname) (hm : aname.map tolower = bytes "max-age")
    (hvv : ∀ x ∈ v, 33 ≤ x ∧ x ≤ 126 ∧ x ≠ 59) (hrest : rest = [] ∨ cur rest = 59)
    (hread : readable_max_age now v) :
    cookie_avs (fuel + 1) now c (59 :: (List.replicate b 32 ++ (aname ++ 61 :: (v ++ rest)))) =
        cookie_avs fuel now { c with maxage := max_age now (max_age_number v) } rest ∧
      (http_parse_setcookie now (name ++ 61 :: (value ++ cookie_avs_text avs))).2 =
        avs.foldl (cookie_attribute_age now) { name := some name, value := some value } ∧
      (http_parse_setcookie now (name ++ 61 :: (value ++ cookie_avs_text avs))).2.expires = 0 := by
  have h2 : (http_parse_setcookie now (name ++ 61 :: (value ++ cookie_avs_text avs))).2 =
      avs.foldl (cookie_attribute_age now) { name := some name, value := some value } := by
    rw [http_parse_setcookie_avs now name value avs hn hne hv,
      cookie_avs_max_age now hnow avs _ _ (by have := cookie_avs_text_length avs; omega) havs]
  refine ⟨cookie_avs_round_max_age fuel now c b aname v rest hnow han hm hvv hrest hread, h2, ?_⟩
  rw [h2, cookie_attribute_age_expires]

/-- C31 at the cookie
`sid=abc; Max-Age=-5; Path=/; max-age=+60; Secure; MAX-AGE=3600; HttpOnly`
parsed at the time 1000, and at the attribute `; Max-Age=60` met with a
cookie whose `expires` is 777. -/
theorem C31_max_age_witness :
    (0 : Int) ≤ 1000 ∧ is_token_run (bytes "sid") ∧ bytes "sid" ≠ [] ∧
      (∀ x ∈ bytes "abc", is_cookie_octet x) ∧
      (∀ av ∈ sample_max_age_avs, is_cookie_av av ∧ ¬ is_expires av ∧
        (is_max_age av → readable_max_age 1000 (av.value.getD []))) ∧
      is_token_run (bytes "Max-Age") ∧ (bytes "Max-Age").map tolower = bytes "max-age" ∧
      (∀ x ∈ bytes "60", 33 ≤ x ∧ x ≤ 126 ∧ x ≠ 59) ∧
      (bytes "; Secure" = [] ∨ cur (bytes "; Secure") = 59) ∧
      readable_max_age 1000 (bytes "60") ∧
      (cookie_avs (5 + 1) 1000 { expires := 777 }
            (59 :: (List.replicate 1 32 ++ (bytes "Max-Age" ++ 61 :: (bytes "60" ++ bytes "; Secure")))) =
          cookie_avs 5 1000
            { ({ expires := 777 } : MGET_COOKIE) with maxage := max_age 1000 (max_age_number (bytes "60")) }
            (bytes "; Secure") ∧
        (http_parse_setcookie 1000
            (bytes "sid" ++ 61 :: (bytes "abc" ++ cookie_avs_text sample_max_age_avs))).2 =
          sample_max_age_avs.foldl (cookie_attribute_age 1000)
            { name := some (bytes "sid"), value := some (bytes "abc") } ∧
        (http_parse_setcookie 1000
            (bytes "sid" ++ 61 :: (bytes "abc" ++ cookie_avs_text sample_max_age_avs))).2.expires = 0) :=
  ⟨by decide, by decide, by decide, by decide, by decide, by decide, by decide, by decide,
    by decide, by decide,
    C31_max_age 1000 (bytes "sid") (bytes "abc") sample_max_age_avs 5 1 { expires := 777 }
      (bytes "Max-Age") (bytes "60") (bytes "; Secure") (by decide) (by decide) (by decide)
      (by decide) (by decide) (by decide) (by decide) (by decide) (by decide) (by decide)⟩

/-- The cookies of the `Max-Age` rule, parsed at the time 1000: a positive
number, zero, a negative number, text that is not a number, and a `Max-Age`
after an `Expires`, which keeps the time `Expires` has set. -/
theorem http_parse_setcookie_max_age_examples :
    (http_parse_setcookie 1000 (bytes "sid=abc; Max-Age=60")).2.maxage = 1060 ∧
    (http_parse_setcookie 1000 (bytes "sid=abc; Max-Age=0")).2.maxage = 0 ∧
    (http_parse_setcookie 1000 (bytes "sid=abc; Max-Age=-60")).2.maxage = 0 ∧
    (http_parse_setcookie 1000 (bytes "sid=abc; Max-Age=soon")).2.maxage = 0 ∧
    (http_parse_setcookie 1000 (bytes "sid=abc; Max-Age=")).2.maxage = 0 ∧
    (http_parse_setcookie 1000 (bytes "sid=abc; Max-Age=60")).2.expires = 0 ∧
    (http_parse_setcookie 1000
        (bytes "sid=abc; Expires=Wed, 09 Jun 2021 10:18:14 GMT; Max-Age=60")).2.expires =
      1623233894 ∧
    (http_parse_setcookie 1000
        (bytes "sid=abc; Expires=Wed, 09 Jun 2021 10:18:14 GMT; Max-Age=60")).2.maxage = 1060 ∧
    sample_max_age_avs.foldl (cookie_attribute_age 1000)
        { name := some (bytes "sid"), value := some (bytes "abc") } =
      { name := some (bytes "sid"), value := some (bytes "abc"), path := some (bytes "/"),
        maxage := 4600, secure_only := true, http_only := true } := by
  decide

/-! ## The options table -/

/-- C34: the table `options` is in strictly ascending `strcmp` order of
`long_name`, so no two entries have the same name, and the binary search
`bsearch(name, options, ..., opt_compare)` that `set_long_option` uses returns,
for the long name of every entry, that entry. -/
theorem C34_options_ascending_and_found :
    List.Pairwise (fun a b : option => strcmp a.long_name b.long_name < 0) options ∧
    (∀ o ∈ options, bsearch o.long_name options = some o) ∧
    options.length = 74 := by
  decide

/-- What the table says about the name of each of its boolean options: it is
a C string of at least three bytes without `=` that does not start with
`no-`, the option takes no argument and has a variable. -/
theorem options_bool_facts :
    ∀ o ∈ options, o.parser = ParseFn.parse_bool →
      cstr o.long_name = o.long_name ∧ 3 ≤ o.long_name.length ∧
      o.long_name.take 3 ≠ bytes "no-" ∧ strchr o.long_name 61 = none ∧
      (∀ x ∈ o.long_name, x ≠ 0 ∧ x ≠ 61) ∧ o.args = 0 ∧ o.var ≠ none ∧
      bsearch o.long_name options = some o ∧
      (o.short_name ≠ 0 → isalnum o.short_name = true ∧ shortcut_to_option o.short_name ≠ 0 ∧
        options.get? (shortcut_to_option o.short_name - 1) = some o) := by
  decide

/-! ## Boolean options -/

theorem Config.set_set (c : Config) (v : Var) (x y : Value) :
    (c.set v x).set v y = c.set v y := by
  funext w
  unfold Config.set
  split_ifs <;> rfl

theorem options_bool_no_prefix :
    ∀ o ∈ options, o.parser = ParseFn.parse_bool →
      strcmp (o.long_name.take 3) (bytes "no-") ≠ 0 := by
  decide

theorem parse_bool_true (c : Config) (o : option) (val : List Nat) (h : val ∈ true_words) :
    parse_bool c o (some val) = store c o.var (Value.num 1) := by
  simp only [true_words, List.mem_cons, List.mem_singleton, List.not_mem_nil, or_false] at h
  rcases h with h | h | h | h <;> subst h <;> rfl

theorem parse_bool_false (c : Config) (o : option) (val : List Nat) (h : val ∈ false_words) :
    parse_bool c o (some val) = store c o.var (Value.num 0) := by
  simp only [false_words, List.mem_cons, List.mem_singleton, List.not_mem_nil, or_false] at h
  rcases h with h | h | h | h <;> subst h <;> rfl

theorem words_no_nul (val : List Nat) (h : val ∈ true_words ∨ val ∈ false_words) :
    cstr val = val := by
  simp only [true_words, false_words, List.mem_cons, List.mem_singleton, List.not_mem_nil,
    or_false] at h
  rcases h with (h | h | h | h) | (h | h | h | h) <;> subst h <;> rfl

/-- The call `set_long_option(name, value)` for the name of a boolean option:
the variable becomes 1 and no following argument is used, whatever `value`
is. -/
theorem set_long_option_bool (c : Config) (o : option) (v : Var) (value : Option (List Nat))
    (ho : o ∈ options) (hp : o.parser = ParseFn.parse_bool) (hv : o.var = some v) :
    set_long_option c o.long_name value = Run.done (c.set v (Value.num 1), 0) := by
  obtain ⟨f1, f2, -, f4, -, f6, -, f8, -⟩ := options_bool_facts o ho hp
  have f3 := options_bool_no_prefix o ho hp
  have hinv : ¬ (strncmp o.long_name (bytes "no-") 3 = 0) := by
    unfold strncmp
    rw [f1]
    exact f3
  unfold set_long_option
  simp only [hinv, if_false, f1, f4, Option.map_none', Option.getD_none, f8, hp, and_self,
    if_true, decide_False, Bool.false_eq_true, false_and, and_false, f6, ne_eq,
    not_true_eq_false, call_parse_function, parse_bool, store, hv, Run.bind, Run.map,
    reduceCtorEq, not_false_eq_true]

/-- The call `set_long_option("no-" name, value)` for a boolean option: the
variable becomes 0. -/
theorem set_long_option_bool_no (c : Config) (o : option) (v : Var) (value : Option (List Nat))
    (ho : o ∈ options) (hp : o.parser = ParseFn.parse_bool) (hv : o.var = some v) :
    set_long_option c (bytes "no-" ++ o.long_name) value = Run.done (c.set v (Value.num 0), 0) := by
  obtain ⟨f1, f2, -, f4, -, f6, -, f8, -⟩ := options_bool_facts o ho hp
  have hc : cstr (bytes "no-" ++ o.long_name) = bytes "no-" ++ o.long_name := by
    rw [cstr_append_of_no_nul _ _ (by decide), f1]
  have hinv : strncmp (bytes "no-" ++ o.long_name) (bytes "no-") 3 = 0 := by
    unfold strncmp
    rw [hc]
    rfl
  have hd : (bytes "no-" ++ o.long_name).drop 3 = o.long_name := rfl
  unfold set_long_option
  simp only [hinv, if_true, hc, hd, f4, Option.map_none', Option.getD_none, f8, hp, and_self,
    decide_True, f6, ne_eq, not_true_eq_false, call_parse_function, parse_bool, store, hv,
    Run.bind, Run.map, reduceCtorEq, not_false_eq_true, false_and, and_false, if_false,
    invert_bool]
  rw [Config.set_set]
  simp [Config.set]

/-- The call `set_long_option(name "=" val, value)` for a boolean option:
the variable becomes what `val` says. -/
theorem set_long_option_bool_value (c : Config) (o : option) (v : Var) (value : Option (List Nat))
    (val : List Nat) (b : Int)
    (ho : o ∈ options) (hp : o.parser = ParseFn.parse_bool) (hv : o.var = some v)
    (hval : (val ∈ true_words ∧ b = 1) ∨ (val ∈ false_words ∧ b = 0)) :
    set_long_option c (o.long_name ++ 61 :: val) value = Run.done (c.set v (Value.num b), 0) := by
  obtain ⟨f1, f2, -, f4, f5, f6, -, f8, -⟩ := options_bool_facts o ho hp
  have f3 := options_bool_no_prefix o ho hp
  have hw : cstr val = val := words_no_nul val (hval.imp (fun h => h.1) (fun h => h.1))
  have hc : cstr (o.long_name ++ 61 :: val) = o.long_name ++ 61 :: val := by
    rw [cstr_append_of_no_nul _ _ (fun x hx => (f5 x hx).1)]
    simp [cstr, List.takeWhile_cons] at hw ⊢
    exact hw
  have ht : (o.long_name ++ 61 :: val).take 3 = o.long_name.take 3 := by
    rw [List.take_append_of_le_length f2]
  have hinv : ¬ (strncmp (o.long_name ++ 61 :: val) (bytes "no-") 3 = 0) := by
    unfold strncmp
    rw [hc, ht]
    exact f3
  have hs : strchr (o.long_name ++ 61 :: val) 61 = some (61 :: val) :=
    strchr_skip o.long_name val 61 (fun x hx => ⟨(f5 x hx).2, (f5 x hx).1⟩)
  have hl : strlcpy (o.long_name ++ 61 :: val)
      ((o.long_name ++ 61 :: val).length - (61 :: val).length + 1) = o.long_name := by
    unfold strlcpy
    rw [hc]
    simp
  have hpb : parse_bool c o (some val) = Run.done (c.set v (Value.num b)) := by
    rcases hval with ⟨h, rfl⟩ | ⟨h, rfl⟩
    · rw [parse_bool_true c o val h, hv]
      rfl
    · rw [parse_bool_false c o val h, hv]
      rfl
  unfold set_long_option
  simp only [hinv, if_false, hc, hs, Option.map_some', Option.getD_some, hl, f8, hp,
    List.tail_cons, reduceCtorEq, false_and, and_false, f6, ne_eq, not_true_eq_false,
    not_false_eq_true, and_true, call_parse_function, hpb, Run.bind, Run.map, decide_False,
    Bool.false_eq_true, if_true]

/-- One round of the loop of `parse_command_line` on a long option. -/
theorem parse_arguments_long (argc : Nat) (argv : List (List Nat)) (fuel n : Nat) (c : Config)
    (name : List Nat) (r : Config × Nat) (hn : n < argc)
    (harg : argv.get? n = some (45 :: 45 :: name)) (hc : cstr name = name) (hne : name ≠ [])
    (hset : set_long_option c name (if n + 1 < argc then argv.get? (n + 1) else none) =
      Run.done r) :
    parse_arguments argc argv (fuel + 1) n c = parse_arguments argc argv fuel (n + r.2 + 1) r.1 := by
  have hget : argv.getD n [] = 45 :: 45 :: name := by
    rw [List.getD_eq_getElem?_getD, ← List.get?_eq_getElem?, harg]
    rfl
  have hcs : cstr (45 :: 45 :: name) = 45 :: 45 :: name := by
    simp [cstr, List.takeWhile_cons] at hc ⊢
    exact hc
  have h0 : cur name ≠ 0 := by
    cases name with
    | nil => exact absurd rfl hne
    | cons a t =>
      intro h
      simp only [cur, List.headD_cons] at h
      subst h
      simp [cstr, List.takeWhile_cons] at hc
  rw [parse_arguments]
  simp only [hn, if_true, hget, hcs, cur, List.headD_cons, List.tail_cons, List.drop_succ_cons,
    List.drop_zero, ne_eq, not_true_eq_false, if_false]
  simp only [cur] at h0
  simp only [h0, if_false, hset, Run.bind]

/-- One round of the loop of `parse_command_line` on a short option without
argument that stands alone. -/
theorem parse_arguments_short (argc : Nat) (argv : List (List Nat)) (fuel n : Nat) (c c1 : Config)
    (o : option) (hn : n < argc) (hs : o.short_name ≠ 0 ∧ isalnum o.short_name = true)
    (harg : argv.get? n = some [45, o.short_name])
    (hidx : shortcut_to_option o.short_name ≠ 0 ∧
      options.get? (shortcut_to_option o.short_name - 1) = some o)
    (hargs : o.args = 0) (hcall : call_parse_function c o none = Run.done c1) :
    parse_arguments argc argv (fuel + 1) n c = parse_arguments argc argv fuel (n + 1) c1 := by
  have hget : argv.getD n [] = [45, o.short_name] := by
    rw [List.getD_eq_getElem?_getD, ← List.get?_eq_getElem?, harg]
    rfl
  have h45 : o.short_name ≠ 45 := by
    intro h
    rw [h] at hs
    exact absurd hs.2 (by decide)
  have hcs : cstr [45, o.short_name] = [45, o.short_name] := by
    simp [cstr, List.takeWhile_cons, hs.1]
  rw [parse_arguments]
  simp only [hn, if_true, hget, hcs, cur, List.headD_cons, List.tail_cons, ne_eq,
    not_true_eq_false, if_false, h45, hs.1, not_false_eq_true]
  simp only [short_options, hs.1, if_false, hs.2, hidx.1, ne_eq, not_false_eq_true, and_self,
    if_true, hidx.2, hargs, not_true_eq_false, hcall, Run.bind]

/-- For every boolean option of the table, one round of the loop of
`parse_command_line` on `--name`, on `--name=v` with `v` one of `1`, `y`,
`yes`, `on`, and on the short form `-c` of an option that has one sets the
variable to 1; on `--no-name` and on `--name=v` with `v` one of `0`, `n`, `no`,
`off` it sets the variable to 0; in every case the loop goes on with the
argument that follows, whatever it is, so that argument is not used as the
value. -/
theorem parse_arguments_bool (o : option) (v : Var) (argc : Nat) (argv : List (List Nat))
    (fuel n : Nat) (c : Config) (val : List Nat) (b : Int)
    (ho : o ∈ options) (hp : o.parser = ParseFn.parse_bool) (hv : o.var = some v)
    (hn : n < argc)
    (hval : (val ∈ true_words ∧ b = 1) ∨ (val ∈ false_words ∧ b = 0)) :
    (argv.get? n = some (bytes "--" ++ o.long_name) →
      parse_arguments argc argv (fuel + 1) n c =
        parse_arguments argc argv fuel (n + 1) (c.set v (Value.num 1))) ∧
    (argv.get? n = some (bytes "--no-" ++ o.long_name) →
      parse_arguments argc argv (fuel + 1) n c =
        parse_arguments argc argv fuel (n + 1) (c.set v (Value.num 0))) ∧
    (argv.get? n = some (bytes "--" ++ (o.long_name ++ 61 :: val)) →
      parse_arguments argc argv (fuel + 1) n c =
        parse_arguments argc argv fuel (n + 1) (c.set v (Value.num b))) ∧
    (o.short_name ≠ 0 → argv.get? n = some [45, o.short_name] →
      parse_arguments argc argv (fuel + 1) n c =
        parse_arguments argc argv fuel (n + 1) (c.set v (Value.num 1))) := by
  obtain ⟨f1, f2, -, f4, f5, f6, -, f8, f9⟩ := options_bool_facts o ho hp
  have hne : o.long_name ≠ [] := by
    intro h
    rw [h] at f2
    simp at f2
  refine ⟨fun h => ?_, fun h => ?_, fun h => ?_, fun hs h => ?_⟩
  · exact parse_arguments_long argc argv fuel n c o.long_name (c.set v (Value.num 1), 0) hn h f1
      hne (set_long_option_bool c o v _ ho hp hv)
  · exact parse_arguments_long argc argv fuel n c (bytes "no-" ++ o.long_name)
      (c.set v (Value.num 0), 0) hn h
      (by rw [cstr_append_of_no_nul _ _ (by decide), f1]) (by simp [bytes])
      (set_long_option_bool_no c o v _ ho hp hv)
  · have hw : cstr val = val := words_no_nul val (hval.imp (fun h => h.1) (fun h => h.1))
    exact parse_arguments_long argc argv fuel n c (o.long_name ++ 61 :: val)
      (c.set v (Value.num b), 0) hn h
      (by
        rw [cstr_append_of_no_nul _ _ (fun x hx => (f5 x hx).1)]
        simp [cstr, List.takeWhile_cons] at hw ⊢
        exact hw)
      (by simp) (set_long_option_bool_value c o v _ val b ho hp hv hval)
  · obtain ⟨g1, g2, g3⟩ := f9 hs
    exact parse_arguments_short argc argv fuel n c (c.set v (Value.num 1)) o hn ⟨hs, g1⟩ h
      ⟨g2, g3⟩ f6 (by simp [call_parse_function, hp, parse_bool, store, hv])

/-! ## Boolean options: the command line with the option taken out -/

theorem Run.bind_map {α β γ : Type} (x : Run α) (f : α → Run β) (g : β → γ) :
    (x.bind f).map g = x.bind (fun a => (f a).map g) := by
  cases x <;> rfl

theorem Run.map_bind {α β γ : Type} (x : Run α) (f : α → β) (g : β → Run γ) :
    (x.map f).bind g = x.bind (fun a => g (f a)) := by
  cases x <;> rfl

theorem Run.map_map {α β γ : Type} (x : Run α) (f : α → β) (g : β → γ) :
    (x.map f).map g = x.map (fun a => g (f a)) := by
  cases x <;> rfl

theorem get?_shift (p a : List Nat) (rest : List (List Nat)) (n : Nat) (hn : 1 ≤ n) :
    (p :: a :: rest).get? (n + 1) = (p :: rest).get? n := by
  cases n with
  | zero => omega
  | succ k => rfl

theorem getD_shift (p a : List Nat) (rest : List (List Nat)) (n : Nat) (hn : 1 ≤ n) :
    (p :: a :: rest).getD (n + 1) [] = (p :: rest).getD n [] := by
  cases n with
  | zero => omega
  | succ k => rfl

/-- The loop over the short options of one argument does the same on a
command line with one more argument in front, one index further. -/
theorem short_options_shift (argc : Nat) (p a : List Nat) (rest : List (List Nat)) :
    ∀ (s : List Nat) (n : Nat) (c : Config), 1 ≤ n →
      short_options (argc + 1) (p :: a :: rest) s (n + 1) c =
        (short_options argc (p :: rest) s n c).map (fun r => (r.1, r.2 + 1)) := by
  intro s
  induction s with
  | nil => intro n c _; rfl
  | cons ch s ih =>
    intro n c hn
    have hget := get?_shift p a rest (n + 1) (by omega)
    rw [short_options, short_options]
    by_cases h0 : ch = 0
    · simp only [h0, if_true]
      rfl
    · simp only [h0, if_false]
      by_cases h1 : (isalnum ch = true ∧ shortcut_to_option ch ≠ 0)
      · rw [if_pos h1, if_pos h1]
        cases hopt : options.get? (shortcut_to_option ch - 1) with
        | none => rfl
        | some opt =>
          simp only
          by_cases ha : opt.args ≠ 0
          · rw [if_pos ha, if_pos ha, hget]
            have hle : (argc + 1 ≤ n + 1 + opt.args) ↔ (argc ≤ n + opt.args) := by omega
            simp only [hle]
            by_cases h2 : cur s = 0 ∧ argc ≤ n + opt.args
            · rw [if_pos h2, if_pos h2]
              rfl
            · rw [if_neg h2, if_neg h2]
              by_cases h3 : cur s ≠ 0
              · rw [if_pos h3, if_pos h3, Run.map_map]
              · rw [if_neg h3, if_neg h3, Run.map_map]
          · rw [if_neg ha, if_neg ha, Run.bind_map]
            congr 1
            funext c1
            exact ih n c1 hn
      · rw [if_neg h1, if_neg h1]
        rfl

/-- The loop of `parse_command_line` does the same on a command line with one
more argument in front, one index further. -/
theorem parse_arguments_shift (argc : Nat) (p a : List Nat) (rest : List (List Nat)) :
    ∀ (fuel n : Nat) (c : Config), 1 ≤ n →
      parse_arguments (argc + 1) (p :: a :: rest) fuel (n + 1) c =
        (parse_arguments argc (p :: rest) fuel n c).map (fun r => (r.1, r.2 + 1)) := by
  intro fuel
  induction fuel with
  | zero => intro n c _; rfl
  | succ fuel ih =>
    intro n c hn
    rw [parse_arguments, parse_arguments]
    have hlt : (n + 1 < argc + 1) ↔ (n < argc) := by omega
    have hlt2 : (n + 1 + 1 < argc + 1) ↔ (n + 1 < argc) := by omega
    simp only [hlt, hlt2, getD_shift p a rest n hn, get?_shift p a rest (n + 1) (by omega)]
    by_cases h1 : n < argc
    · rw [if_pos h1, if_pos h1]
      by_cases h2 : cur (cstr ((p :: rest).getD n [])) ≠ 45
      · rw [if_pos h2, if_pos h2]
        rfl
      · rw [if_neg h2, if_neg h2]
        by_cases h3 : cur (cstr ((p :: rest).getD n [])).tail = 45
        · rw [if_pos h3, if_pos h3]
          by_cases h4 : cur ((cstr ((p :: rest).getD n [])).drop 2) = 0
          · rw [if_pos h4, if_pos h4]
            rfl
          · rw [if_neg h4, if_neg h4, Run.bind_map]
            congr 1
            funext r
            have : n + 1 + r.2 + 1 = (n + r.2 + 1) + 1 := by omega
            rw [this]
            exact ih (n + r.2 + 1) r.1 (by omega)
        · rw [if_neg h3, if_neg h3]
          by_cases h5 : cur (cstr ((p :: rest).getD n [])).tail ≠ 0
          · rw [if_pos h5, if_pos h5, short_options_shift argc p a rest _ n c hn, Run.map_bind,
              Run.bind_map]
            congr 1
            funext r
            exact ih (r.2 + 1) r.1 (by omega)
          · rw [if_neg h5, if_neg h5]
            exact ih (n + 1) c (by omega)
    · rw [if_neg h1, if_neg h1]
      rfl

/-- One round of the loop of `parse_command_line` on a boolean option, in any
of the ways to give it: the variable is set and the loop goes on with the
argument that follows. -/
theorem parse_arguments_bool_argument (o : option) (v : Var) (argc : Nat)
    (argv : List (List Nat)) (fuel n : Nat) (c : Config) (arg : List Nat) (b : Int)
    (ho : o ∈ options) (hp : o.parser = ParseFn.parse_bool) (hv : o.var = some v)
    (hn : n < argc) (harg : (arg, b) ∈ bool_arguments o) (hget : argv.get? n = some arg) :
    parse_arguments argc argv (fuel + 1) n c =
      parse_arguments argc argv fuel (n + 1) (c.set v (Value.num b)) := by
  simp only [bool_arguments, List.mem_append, List.mem_cons, List.mem_singleton,
    List.not_mem_nil, or_false, List.mem_map, Prod.mk.injEq] at harg
  rcases harg with ((((⟨rfl, rfl⟩ | ⟨rfl, rfl⟩) | ⟨w, hw, rfl, rfl⟩) | ⟨w, hw, rfl, rfl⟩) | hs)
  · exact (parse_arguments_bool o v argc argv fuel n c (bytes "1") 1 ho hp hv hn
      (Or.inl ⟨by decide, rfl⟩)).1 hget
  · exact (parse_arguments_bool o v argc argv fuel n c (bytes "1") 1 ho hp hv hn
      (Or.inl ⟨by decide, rfl⟩)).2.1 hget
  · exact (parse_arguments_bool o v argc argv fuel n c w 1 ho hp hv hn
      (Or.inl ⟨hw, rfl⟩)).2.2.1 hget
  · exact (parse_arguments_bool o v argc argv fuel n c w 0 ho hp hv hn
      (Or.inr ⟨hw, rfl⟩)).2.2.1 hget
  · by_cases h0 : o.short_name ≠ 0
    · rw [if_pos h0] at hs
      simp only [List.mem_singleton, Prod.mk.injEq] at hs
      obtain ⟨rfl, rfl⟩ := hs
      exact (parse_arguments_bool o v argc argv fuel n c (bytes "1") 1 ho hp hv hn
        (Or.inl ⟨by decide, rfl⟩)).2.2.2 h0 hget
    · rw [if_neg h0] at hs
      simp at hs

/-- The call `parse_command_line` on a command line whose first argument is a
boolean option, in any of the ways to give it: the variable is set and the
rest of the command line is read as it would be without the option, every
index one higher; so when no option follows, the `config` with the variable
set is returned together with the index 2. -/
theorem parse_command_line_bool (o : option) (v : Var) (argc : Nat) (prog arg : List Nat)
    (rest : List (List Nat)) (c : Config) (b : Int)
    (ho : o ∈ options) (hp : o.parser = ParseFn.parse_bool) (hv : o.var = some v)
    (hargc : 1 ≤ argc) (harg : (arg, b) ∈ bool_arguments o) :
    parse_command_line (argc + 1) (prog :: arg :: rest) c =
        (parse_command_line argc (prog :: rest) (c.set v (Value.num b))).map
          (fun r => (r.1, r.2 + 1)) ∧
      (argc = 1 ∨ cur (cstr (rest.headD [])) ≠ 45 →
        parse_command_line (argc + 1) (prog :: arg :: rest) c =
          Run.done (c.set v (Value.num b), 2)) := by
  have h1 : parse_command_line (argc + 1) (prog :: arg :: rest) c =
      (parse_command_line argc (prog :: rest) (c.set v (Value.num b))).map
        (fun r => (r.1, r.2 + 1)) := by
    unfold parse_command_line
    rw [parse_arguments_bool_argument o v (argc + 1) (prog :: arg :: rest) argc 1 c arg b ho hp hv
      (by omega) harg rfl]
    exact parse_arguments_shift argc prog arg rest argc 1 (c.set v (Value.num b)) (le_refl 1)
  refine ⟨h1, fun h => ?_⟩
  rw [h1]
  unfold parse_command_line
  obtain ⟨k, rfl⟩ : ∃ k, argc = k + 1 := ⟨argc - 1, by omega⟩
  rw [parse_arguments]
  by_cases h2 : 1 < k + 1
  · rw [if_pos h2]
    have h3 : cur (cstr (rest.headD [])) ≠ 45 := by
      rcases h with h | h
      · omega
      · exact h
    have h4 : (prog :: rest).getD 1 [] = rest.headD [] := by
      cases rest <;> rfl
    simp only [h4]
    rw [if_pos h3]
    rfl
  · rw [if_neg h2]
    rfl

/-- C32: for every boolean option of the table and every way
to give it (`--name`, `--name=v` with `v` one of `1`, `y`, `yes`, `on`, and the
short form `-c` for the value 1; `--no-name` and `--name=v` with `v` one of
`0`, `n`, `no`, `off` for the value 0), `parse_command_line` on a command line
that starts with the option sets the variable to that value and reads the
arguments that follow, whatever they are, as it reads them on the command
line without the option (every index one higher): the argument that follows is
not used as the value.  When no option follows, the call returns the `config`
with the variable set and the index 2 of the first argument that is no
option. -/
theorem C32_boolean_options (o : option) (v : Var) (argc : Nat) (prog arg : List Nat)
    (rest : List (List Nat)) (c : Config) (b : Int)
    (ho : o ∈ options) (hp : o.parser = ParseFn.parse_bool) (hv : o.var = some v)
    (hargc : 1 ≤ argc) (harg : (arg, b) ∈ bool_arguments o) :
    parse_command_line (argc + 1) (prog :: arg :: rest) c =
        (parse_command_line argc (prog :: rest) (c.set v (Value.num b))).map
          (fun r => (r.1, r.2 + 1)) ∧
      (argc = 1 ∨ cur (cstr (rest.headD [])) ≠ 45 →
        parse_command_line (argc + 1) (prog :: arg :: rest) c =
          Run.done (c.set v (Value.num b), 2)) :=
  parse_command_line_bool o v argc prog arg rest c b ho hp hv hargc harg

/-- C32 at the option `recursive`, with the initial `config`: the command
lines `mget --recursive=off x`, `mget --recursive off`, `mget --no-recursive on`,
`mget -r 0`, `mget --recursive=yes` and `mget --recursive --no-recursive x`. -/
theorem C32_boolean_options_witness :
    recursive_option ∈ options ∧ recursive_option.parser = ParseFn.parse_bool ∧
    recursive_option.var = some Var.recursive ∧
    bool_arguments recursive_option =
      [(bytes "--recursive", 1), (bytes "--no-recursive", 0), (bytes "--recursive=1", 1),
       (bytes "--recursive=y", 1), (bytes "--recursive=yes", 1), (bytes "--recursive=on", 1),
       (bytes "--recursive=0", 0), (bytes "--recursive=n", 0), (bytes "--recursive=no", 0),
       (bytes "--recursive=off", 0), (bytes "-r", 1)] ∧
    parse_command_line 3 [bytes "mget", bytes "--recursive=off", bytes "x"] (config []) =
      Run.done ((config []).set Var.recursive (Value.num 0), 2) ∧
    parse_command_line 3 [bytes "mget", bytes "--recursive", bytes "off"] (config []) =
      Run.done ((config []).set Var.recursive (Value.num 1), 2) ∧
    parse_command_line 3 [bytes "mget", bytes "--no-recursive", bytes "on"] (config []) =
      Run.done ((config []).set Var.recursive (Value.num 0), 2) ∧
    parse_command_line 3 [bytes "mget", bytes "-r", bytes "0"] (config []) =
      Run.done ((config []).set Var.recursive (Value.num 1), 2) ∧
    parse_command_line 2 [bytes "mget", bytes "--recursive=yes"] (config []) =
      Run.done ((config []).set Var.recursive (Value.num 1), 2) ∧
    parse_command_line 4 [bytes "mget", bytes "--recursive", bytes "--no-recursive", bytes "x"]
        (config []) =
      (parse_command_line 3 [bytes "mget", bytes "--no-recursive", bytes "x"]
        ((config []).set Var.recursive (Value.num 1))).map (fun r => (r.1, r.2 + 1)) :=
  ⟨by decide, by decide, by decide, by decide,
    (C32_boolean_options recursive_option Var.recursive 2 (bytes "mget") (bytes "--recursive=off")
      [bytes "x"] (config []) 0 (by decide) (by decide) (by decide) (by decide) (by decide)).2
      (Or.inr (by decide)),
    (C32_boolean_options recursive_option Var.recursive 2 (bytes "mget") (bytes "--recursive")
      [bytes "off"] (config []) 1 (by decide) (by decide) (by decide) (by decide) (by decide)).2
      (Or.inr (by decide)),
    (C32_boolean_options recursive_option Var.recursive 2 (bytes "mget") (bytes "--no-recursive")
      [bytes "on"] (config []) 0 (by decide) (by decide) (by decide) (by decide) (by decide)).2
      (Or.inr (by decide)),
    (C32_boolean_options recursive_option Var.recursive 2 (bytes "mget") (bytes "-r")
      [bytes "0"] (config []) 1 (by decide) (by decide) (by decide) (by decide) (by decide)).2
      (Or.inr (by decide)),
    (C32_boolean_options recursive_option Var.recursive 1 (bytes "mget") (bytes "--recursive=yes")
      [] (config []) 1 (by decide) (by decide) (by decide) (by decide) (by decide)).2
      (Or.inl rfl),
    (C32_boolean_options recursive_option Var.recursive 3 (bytes "mget") (bytes "--recursive")
      [bytes "--no-recursive", bytes "x"] (config []) 1 (by decide) (by decide) (by decide)
      (by decide) (by decide)).1⟩

/-- The boolean option `recursive` on the command line, as the self test has
it (`config.recursive` is 2 before the call) and with an argument after the
option: the variable and the index of the first argument that is not an
option. -/
theorem parse_command_line_recursive :
    (∀ arg ∈ [bytes "--recursive", bytes "--recursive=y", bytes "--recursive=1",
        bytes "--recursive=yes", bytes "--recursive=on", bytes "-r"],
      ∀ next ∈ [[], bytes "off", bytes "0", bytes "no"],
        (parse_command_line 3 [[], arg, next] ((config []).set Var.recursive (Value.num 2))).map
            (fun r => (r.1 Var.recursive, r.2)) = Run.done (Value.num 1, 2) ∧
        (parse_command_line 2 [[], arg, next] ((config []).set Var.recursive (Value.num 2))).map
            (fun r => (r.1 Var.recursive, r.2)) = Run.done (Value.num 1, 2)) ∧
    (∀ arg ∈ [bytes "--no-recursive", bytes "--recursive=n", bytes "--recursive=0",
        bytes "--recursive=no", bytes "--recursive=off"],
      ∀ next ∈ [[], bytes "on", bytes "1", bytes "yes"],
        (parse_command_line 3 [[], arg, next] ((config []).set Var.recursive (Value.num 2))).map
            (fun r => (r.1 Var.recursive, r.2)) = Run.done (Value.num 0, 2) ∧
        (parse_command_line 2 [[], arg, next] ((config []).set Var.recursive (Value.num 2))).map
            (fun r => (r.1 Var.recursive, r.2)) = Run.done (Value.num 0, 2)) ∧
    (parse_command_line 3 [[], bytes "-r", bytes "-"]
        ((config []).set Var.recursive (Value.num 2))).map
      (fun r => (r.1 Var.recursive, r.2)) = Run.done (Value.num 1, 3) := by
  decide

/-! ## The option `timeout` -/

theorem options_timeout_facts :
    bsearch (bytes "timeout") options = some timeout_option ∧
    shortcut_to_option 84 = 68 ∧ options.get? 67 = some timeout_option := by
  decide

/-- The four ways of giving the option `timeout` its value `v`: each of them
is the call `parse_timeout(opt, ..., v)`, after which the loop of
`parse_command_line` goes on behind the value. -/
theorem parse_arguments_timeout (argc : Nat) (argv : List (List Nat)) (fuel n : Nat) (c : Config)
    (v : List Nat) (hn : n < argc) (hv : ∀ x ∈ v, x ≠ 0) :
    (argv.get? n = some (bytes "-T") → n + 1 < argc → argv.get? (n + 1) = some v →
      parse_arguments argc argv (fuel + 1) n c =
        (parse_timeout c timeout_option (some v)).bind
          (fun c1 => parse_arguments argc argv fuel (n + 2) c1)) ∧
    (v ≠ [] → argv.get? n = some (bytes "-T" ++ v) →
      parse_arguments argc argv (fuel + 1) n c =
        (parse_timeout c timeout_option (some v)).bind
          (fun c1 => parse_arguments argc argv fuel (n + 1) c1)) ∧
    (argv.get? n = some (bytes "--timeout") → n + 1 < argc → argv.get? (n + 1) = some v →
      parse_arguments argc argv (fuel + 1) n c =
        (parse_timeout c timeout_option (some v)).bind
          (fun c1 => parse_arguments argc argv fuel (n + 2) c1)) ∧
    (argv.get? n = some (bytes "--timeout=" ++ v) →
      parse_arguments argc argv (fuel + 1) n c =
        (parse_timeout c timeout_option (some v)).bind
          (fun c1 => parse_arguments argc argv fuel (n + 1) c1)) := by
  obtain ⟨t1, t2, t3⟩ := options_timeout_facts
  have hcv : cstr v = v := cstr_of_no_nul v hv
  have getD_of : ∀ a : List Nat, argv.get? n = some a → argv.getD n [] = a := by
    intro a h
    rw [List.getD_eq_getElem?_getD, ← List.get?_eq_getElem?, h]
    rfl
  have bindmap : ∀ (r : Run Config) (k : Nat) (m : Nat),
      ((r.map (fun c => (c, k))).bind
        (fun r => parse_arguments argc argv fuel (m + r.2 + 1) r.1)) =
      r.bind (fun c1 => parse_arguments argc argv fuel (m + k + 1) c1) := by
    intro r k m
    cases r <;> rfl
  have bindmap2 : ∀ (r : Run Config) (k : Nat),
      ((r.map (fun c => (c, k))).bind
        (fun r => parse_arguments argc argv fuel (r.2 + 1) r.1)) =
      r.bind (fun c1 => parse_arguments argc argv fuel (k + 1) c1) := by
    intro r k
    cases r <;> rfl
  refine ⟨fun h h1 h2 => ?_, fun hne h => ?_, fun h h1 h2 => ?_, fun h => ?_⟩
  · rw [parse_arguments]
    have e : cstr (bytes "-T") = [45, 84] := by decide
    have e2 : ¬ (argc ≤ n + 1) := by omega
    simp only [hn, if_true, getD_of _ h, e, cur, List.headD_cons, List.tail_cons, ne_eq,
      not_true_eq_false, if_false, show ¬ ((84 : Nat) = 45) by decide,
      show ¬ ((84 : Nat) = 0) by decide, not_false_eq_true]
    simp only [short_options, show ¬ ((84 : Nat) = 0) by decide, if_false,
      show isalnum 84 = true by decide, t2, ne_eq, show ¬ ((68 : Nat) = 0) by decide,
      not_false_eq_true, and_self, if_true, show (68 : Nat) - 1 = 67 by decide, t3, timeout_option,
      cur, List.headD_nil, true_and, e2, not_true_eq_false, h2, call_parse_function,
      show ¬ ((1 : Nat) = 0) by decide]
    exact bindmap2 _ _
  · rw [parse_arguments]
    have e : cstr (bytes "-T" ++ v) = 45 :: 84 :: v := by
      rw [cstr_append_of_no_nul _ _ (by decide), hcv]
      rfl
    have h0 : v.headD 0 ≠ 0 := by
      cases v with
      | nil => exact absurd rfl hne
      | cons a t => exact hv a (List.mem_cons_self _ _)
    simp only [hn, if_true, getD_of _ h, e, cur, List.headD_cons, List.tail_cons, ne_eq,
      not_true_eq_false, if_false, show ¬ ((84 : Nat) = 45) by decide,
      show ¬ ((84 : Nat) = 0) by decide, not_false_eq_true]
    simp only [short_options, show ¬ ((84 : Nat) = 0) by decide, if_false,
      show isalnum 84 = true by decide, t2, ne_eq, show ¬ ((68 : Nat) = 0) by decide,
      not_false_eq_true, and_self, if_true, show (68 : Nat) - 1 = 67 by decide, t3, timeout_option,
      cur, h0, false_and, call_parse_function, show ¬ ((1 : Nat) = 0) by decide]
    exact bindmap2 _ _
  · rw [parse_arguments]
    have e : cstr (bytes "--timeout") = 45 :: 45 :: bytes "timeout" := by decide
    have e3 : List.drop 2 (45 :: 45 :: bytes "timeout") = bytes "timeout" := rfl
    have e4 : (bytes "timeout").headD 0 ≠ 0 := by decide
    have hs : set_long_option c (bytes "timeout") (some v) =
        (parse_timeout c timeout_option (some v)).map (fun c => (c, 1)) := by
      have i1 : ¬ (strncmp (bytes "timeout") (bytes "no-") 3 = 0) := by decide
      have i2 : cstr (bytes "timeout") = bytes "timeout" := by decide
      have i3 : strchr (bytes "timeout") 61 = none := by decide
      unfold set_long_option
      simp only [i1, if_false, i2, i3, Option.map_none', Option.getD_none, t1, timeout_option,
        reduceCtorEq, and_false, false_and, ne_eq, not_false_eq_true,
        show ¬ ((1 : Nat) = 0) by decide, not_true_eq_false, and_true, if_true, true_and,
        call_parse_function]
    simp only [hn, if_true, getD_of _ h, e, cur, List.headD_cons, List.tail_cons, ne_eq,
      not_true_eq_false, if_false, e3, e4, h1, h2, hs]
    exact bindmap _ _ _
  · rw [parse_arguments]
    have e : cstr (bytes "--timeout=" ++ v) = 45 :: 45 :: (bytes "timeout" ++ 61 :: v) := by
      rw [cstr_append_of_no_nul _ _ (by decide), hcv]
      rfl
    have e3 : List.drop 2 (45 :: 45 :: (bytes "timeout" ++ 61 :: v)) =
        bytes "timeout" ++ 61 :: v := rfl
    have e4 : (bytes "timeout" ++ 61 :: v).headD 0 ≠ 0 := by
      show (116 : Nat) ≠ 0
      decide
    have hs : ∀ value, set_long_option c (bytes "timeout" ++ 61 :: v) value =
        (parse_timeout c timeout_option (some v)).map (fun c => (c, 0)) := by
      intro value
      have i2 : cstr (bytes "timeout" ++ 61 :: v) = bytes "timeout" ++ 61 :: v := by
        rw [cstr_append_of_no_nul _ _ (by decide)]
        simp [cstr, List.takeWhile_cons] at hcv ⊢
        exact hcv
      have i1 : ¬ (strncmp (bytes "timeout" ++ 61 :: v) (bytes "no-") 3 = 0) := by
        have i0 : List.take 3 (bytes "timeout" ++ 61 :: v) = [116, 105, 109] := rfl
        unfold strncmp
        rw [i2, i0]
        decide
      have i3 : strchr (bytes "timeout" ++ 61 :: v) 61 = some (61 :: v) :=
        strchr_skip (bytes "timeout") v 61 (by decide)
      have i4 : strlcpy (bytes "timeout" ++ 61 :: v)
          ((bytes "timeout" ++ 61 :: v).length - (61 :: v).length + 1) = bytes "timeout" := by
        unfold strlcpy
        rw [i2]
        simp
      unfold set_long_option
      simp only [i1, if_false, i2, i3, Option.map_some', Option.getD_some, i4, t1, timeout_option,
        reduceCtorEq, and_false, false_and, ne_eq, not_false_eq_true,
        show ¬ ((1 : Nat) = 0) by decide, not_true_eq_false, and_true, if_true, true_and,
        call_parse_function, List.tail_cons]
    simp only [hn, if_true, getD_of _ h, e, cur, List.headD_cons, List.tail_cons, ne_eq,
      not_true_eq_false, if_false, e3, e4, hs]
    exact bindmap _ _ _

/-- The value `parse_timeout` stores is -1 for `inf` and `infinity` in any
letter case. -/
theorem timeout_value_inf (val : List Nat)
    (h : (cstr val).map tolower = bytes "inf" ∨ (cstr val).map tolower = bytes "infinity") :
    (timeout_value val).to_signed 32 = some (-1) := by
  have hs : (strcaseeq val (bytes "INF") || strcaseeq val (bytes "INFINITY")) = true := by
    unfold strcaseeq
    rcases h with h | h <;> rw [h] <;> decide
  unfold timeout_value
  rw [hs]
  rfl

/-- C33 (code defect): with the value `32.3` the option `timeout`, in each of
its four forms, sets the three timeouts to 32299 milliseconds, not to
32.3 * 1000 = 32300: `atof("32.3")` is the `double` just below 32.3, its
product with 1000 is rounded to the `double` just below 32300, and the
conversion to `int` drops the fraction.  Likewise `64.6` gives 64599 and
`1.001` gives 1000.  The values of the self test give what the claim says. -/
theorem C33_timeout_truncates_fraction :
    (∀ argv ∈ [[[], bytes "-T", bytes "32.3"], [[], bytes "-T32.3", []],
        [[], bytes "--timeout", bytes "32.3"], [[], bytes "--timeout=32.3", []]],
      (parse_command_line 3 argv (config [])).map (fun r => timeouts r.1) =
        Run.done (Value.num 32299, Value.num 32299, Value.num 32299)) ∧
    timeout_value (bytes "32.3") = Double.finite false 8878556394291199 (-38) ∧
    (8878556394291199 : Int) < 32300 * 2 ^ 38 ∧
    (parse_command_line 3 [[], bytes "-T", bytes "64.6"] (config [])).map
      (fun r => timeouts r.1) = Run.done (Value.num 64599, Value.num 64599, Value.num 64599) ∧
    (parse_command_line 3 [[], bytes "-T", bytes "1.001"] (config [])).map
      (fun r => timeouts r.1) = Run.done (Value.num 1000, Value.num 1000, Value.num 1000) ∧
    (∀ t ∈ [(bytes "123", 123000), (bytes "+123", 123000), (bytes "60.2", 60200),
        (bytes "0", -1), (bytes "-1", -1), (bytes "inf", -1), (bytes "infinity", -1),
        (bytes "INF", -1), (bytes "Infinity", -1)],
      ∀ argv ∈ [[[], bytes "-T", t.1], [[], bytes "-T" ++ t.1, []],
          [[], bytes "--timeout", t.1], [[], bytes "--timeout=" ++ t.1, []]],
        (parse_command_line 3 argv (config [])).map (fun r => timeouts r.1) =
          Run.done (Value.num t.2, Value.num t.2, Value.num t.2)) := by
  decide

/-! ## Whole numbers in `double` -/

theorem size_half (n : Nat) (hn : n ≠ 0) : Nat.size n = Nat.size (n / 2) + 1 := by
  apply le_antisymm
  · rw [Nat.size_le]
    have := Nat.lt_size_self (n / 2)
    rw [pow_succ]
    omega
  · rw [Nat.succ_le, Nat.lt_size]
    by_cases h : n / 2 = 0
    · rw [h]
      simp only [Nat.size_zero, pow_zero]
      omega
    · have h1 : Nat.size (n / 2) - 1 < Nat.size (n / 2) := by
        have := Nat.size_pos.mpr (Nat.pos_of_ne_zero h)
        omega
      rw [Nat.lt_size] at h1
      have h2 : 2 ^ Nat.size (n / 2) = 2 * 2 ^ (Nat.size (n / 2) - 1) := by
        have := Nat.size_pos.mpr (Nat.pos_of_ne_zero h)
        rw [← pow_succ']
        congr 1
        omega
      omega

theorem bit_length_loop_size : ∀ (fuel n acc : Nat), n ≤ fuel →
    bit_length_loop fuel n acc = acc + Nat.size n := by
  intro fuel
  induction fuel with
  | zero =>
    intro n acc h
    have : n = 0 := by omega
    subst this
    simp [bit_length_loop]
  | succ k ih =>
    intro n acc h
    rw [bit_length_loop]
    by_cases hn : n = 0
    · subst hn
      simp
    · rw [if_neg hn, ih (n / 2) (acc + 1) (by omega), size_half n hn]
      omega

theorem bit_length_size (n : Nat) : bit_length n = Nat.size n := by
  unfold bit_length
  rw [bit_length_loop_size n n 0 (le_refl _)]
  simp

theorem size_mul_pow (v j : Nat) (hv : v ≠ 0) : Nat.size (v * 2 ^ j) = Nat.size v + j := by
  induction j with
  | zero => simp
  | succ k ih =>
    have hne : v * 2 ^ (k + 1) ≠ 0 := by positivity
    rw [size_half _ hne]
    have : v * 2 ^ (k + 1) / 2 = v * 2 ^ k := by
      rw [pow_succ, ← mul_assoc]
      exact Nat.mul_div_cancel _ (by decide)
    rw [this, ih]
    omega

/-- The rounding of a whole number below `2 ^ 53`, given as the ratio of
`v * 2 ^ j` and `2 ^ j`, is exact. -/
theorem round_ratio_whole (neg : Bool) (v j : Nat) (hv : v ≠ 0) (hlt : v < 2 ^ 53) :
    ∃ k : Nat, round_ratio neg (v * 2 ^ j) (2 ^ j) = Double.finite neg (v * 2 ^ k) (-(k : Int)) := by
  have hs1 : 1 ≤ Nat.size v := Nat.size_pos.mpr (Nat.pos_of_ne_zero hv)
  have hs2 : Nat.size v ≤ 53 := Nat.size_le.mpr hlt
  have hlow : 2 ^ (Nat.size v - 1) ≤ v := by
    have h1 : Nat.size v - 1 < Nat.size v := by omega
    exact Nat.lt_size.mp h1
  have hup : v < 2 ^ Nat.size v := Nat.lt_size_self v
  refine ⟨53 - Nat.size v, ?_⟩
  have hnum : v * 2 ^ j ≠ 0 := by positivity
  have b1 : bit_length (v * 2 ^ j) = Nat.size v + j := by
    rw [bit_length_size, size_mul_pow v j hv]
  have b2 : bit_length (2 ^ j) = j + 1 := by
    rw [bit_length_size, Nat.size_pow]
  have hk : ((Nat.size v + j : Nat) : Int) - ((j + 1 : Nat) : Int) - 53 = (Nat.size v : Int) - 54 := by
    push_cast
    ring
  have he1 : max ((Nat.size v : Int) - 54) (-1074) = (Nat.size v : Int) - 54 := by
    apply max_eq_left
    omega
  have hneg1 : ¬ (0 ≤ (Nat.size v : Int) - 54) := by omega
  have ht1 : (-((Nat.size v : Int) - 54)).toNat = 54 - Nat.size v := by omega
  have hq1 : v * 2 ^ j * 2 ^ (54 - Nat.size v) / 2 ^ j = v * 2 ^ (54 - Nat.size v) := by
    rw [mul_assoc, mul_comm (2 ^ j), ← mul_assoc]
    exact Nat.mul_div_cancel _ (by positivity)
  have hbig : 2 ^ 53 ≤ v * 2 ^ (54 - Nat.size v) := by
    calc 2 ^ 53 = 2 ^ (Nat.size v - 1) * 2 ^ (54 - Nat.size v) := by
          rw [← pow_add]
          congr 1
          omega
      _ ≤ v * 2 ^ (54 - Nat.size v) := Nat.mul_le_mul_right _ hlow
  unfold round_ratio
  simp only [hnum, if_false, b1, b2, hk, he1, hneg1, ht1, hq1, hbig, if_true]
  have he : (Nat.size v : Int) - 54 + 1 = -((53 - Nat.size v : Nat) : Int) := by omega
  rw [he]
  by_cases h53 : Nat.size v = 53
  · have e0 : (53 - Nat.size v : Nat) = 0 := by omega
    rw [e0]
    simp only [Nat.cast_zero, neg_zero, le_refl, if_true, Int.toNat_zero, pow_zero, mul_one]
    have hq : v * 2 ^ j / 2 ^ j = v := Nat.mul_div_cancel _ (by positivity)
    have hr : v * 2 ^ j % 2 ^ j = 0 := Nat.mul_mod_left _ _
    have hpos : 0 < 2 ^ j := by positivity
    have hm : v ≠ 2 ^ 53 := by omega
    simp only [hq, hr, mul_zero, Nat.not_lt_zero, false_or, hm, and_false, or_false, if_false]
    have : ¬ ((0 : Nat) = 2 ^ j ∧ v % 2 = 1) := by
      intro h
      omega
    simp only [this, if_false]
    norm_num
  · have hlt0 : ¬ (0 ≤ -((53 - Nat.size v : Nat) : Int)) := by omega
    have ht : (- -((53 - Nat.size v : Nat) : Int)).toNat = 53 - Nat.size v := by omega
    simp only [hlt0, if_false, ht]
    have hq : v * 2 ^ j * 2 ^ (53 - Nat.size v) / 2 ^ j = v * 2 ^ (53 - Nat.size v) := by
      rw [mul_assoc, mul_comm (2 ^ j), ← mul_assoc]
      exact Nat.mul_div_cancel _ (by positivity)
    have hr : v * 2 ^ j * 2 ^ (53 - Nat.size v) % 2 ^ j = 0 := by
      rw [mul_assoc, mul_comm (2 ^ j), ← mul_assoc]
      exact Nat.mul_mod_left _ _
    have hpos : 0 < 2 ^ j := by positivity
    simp only [hq, hr, mul_zero, Nat.not_lt_zero, false_or]
    have h1 : ¬ ((0 : Nat) = 2 ^ j ∧ v * 2 ^ (53 - Nat.size v) % 2 = 1) := by
      intro h
      omega
    have h2 : ¬ (971 < -((53 - Nat.size v : Nat) : Int) ∨
        (-((53 - Nat.size v : Nat) : Int) = 971 ∧ v * 2 ^ (53 - Nat.size v) = 2 ^ 53)) := by
      omega
    simp only [h1, if_false, h2]

theorem tolower_digit (a : Nat) (h : isdigit a = true) : tolower a = a ∧ a ≠ 0 ∧ 48 ≤ a ∧ a ≤ 57 := by
  simp only [isdigit, Bool.and_eq_true, decide_eq_true_eq] at h
  unfold tolower
  refine ⟨?_, by omega, h.1, h.2⟩
  rw [if_neg (by omega)]

/-- The function `strtod` on a whole number in decimal digits with an
optional sign: the nearest `double`, and the end of the text. -/
theorem strtod_whole (sign ds : List Nat) (hs : sign = [] ∨ sign = [43] ∨ sign = [45])
    (hne : ds ≠ []) (hd : ∀ c ∈ ds, isdigit c = true) :
    strtod (sign ++ ds) = (round_ratio (decide (sign = [45])) (decval ds * 2 ^ 0) (2 ^ 0), []) := by
  obtain ⟨a, r, rfl⟩ : ∃ a r, ds = a :: r := by
    cases ds with
    | nil => exact absurd rfl hne
    | cons a r => exact ⟨a, r, rfl⟩
  obtain ⟨ha1, ha2, ha3, ha4⟩ := tolower_digit a (hd a (List.mem_cons_self _ _))
  have hnn : ∀ c ∈ a :: r, c ≠ 0 := fun c hc => (tolower_digit c (hd c hc)).2.1
  have hsp : isspace a = false := by
    simp only [isspace, Bool.or_eq_false_iff, beq_eq_false_iff_ne, Bool.and_eq_false_iff,
      decide_eq_false_iff_not]
    omega
  have hcs : cstr (a :: r) = a :: r := cstr_of_no_nul _ hnn
  have htw : (a :: r).takeWhile isdigit = a :: r := by
    have := takeWhile_append_of_all (a :: r) [] hd
    simpa using this
  have hmain : ∀ (neg : Bool) (t0 : List Nat), cstr t0 = t0 → t0.dropWhile isspace = t0 →
      (cur t0 == 45) = neg → (if (neg || cur t0 == 43) = true then t0.tail else t0) = a :: r →
      strtod t0 = (round_ratio neg (decval (a :: r) * 2 ^ 0) (2 ^ 0), []) := by
    intro neg t0 h1 h2 h3 h4
    have i1 : ¬ (((a :: r).take 3).map tolower = [105, 110, 102]) := by
      simp only [List.take_succ_cons, List.map_cons, ha1]
      intro h
      have := (List.cons.inj h).1
      omega
    have i2 : ¬ (((a :: r).take 3).map tolower = [110, 97, 110]) := by
      simp only [List.take_succ_cons, List.map_cons, ha1]
      intro h
      have := (List.cons.inj h).1
      omega
    have i3 : ¬ (cur (a :: r) = 48 ∧
        (cur (a :: r).tail = 120 ∨ cur (a :: r).tail = 88) ∧
          (isxdigit (cur (List.drop 2 (a :: r))) = true ∨
            cur (List.drop 2 (a :: r)) = 46 ∧
              isxdigit (cur (List.drop 3 (a :: r))) = true)) := by
      rintro ⟨-, h, -⟩
      cases r with
      | nil => simp [cur] at h
      | cons b t =>
        have := tolower_digit b (hd b (List.mem_cons_of_mem _ (List.mem_cons_self _ _)))
        simp only [List.tail_cons, List.headD_cons, cur] at h
        omega
    unfold strtod
    simp only [h1, h2, h3, h4]
    rw [if_neg i1, if_neg i2, if_neg i3]
    simp only [htw, List.drop_length, List.headD_nil, show ¬ ((0 : Nat) = 46) by decide,
      if_false, reduceCtorEq, false_and, and_false, List.append_nil, List.tail_nil,
      show ¬ ((0 : Nat) = 45 ∨ (0 : Nat) = 43) by decide, List.takeWhile_nil, ne_eq,
      not_true_eq_false, show ¬ ((0 : Nat) = 101 ∨ (0 : Nat) = 69) by decide, List.length_nil,
      Nat.cast_zero, sub_zero, le_refl, if_true, Int.toNat_zero, pow_zero, cur]
    simp
  rcases hs with h | h | h
  · subst h
    have hneg : (cur (a :: r) == 45) = false := by
      simp only [cur, List.headD_cons, beq_eq_false_iff_ne]
      omega
    have h43 : (cur (a :: r) == 43) = false := by
      simp only [cur, List.headD_cons, beq_eq_false_iff_ne]
      omega
    have := hmain false (a :: r) hcs (by simp [List.dropWhile_cons, hsp]) hneg
      (by simp [h43])
    simpa using this
  · subst h
    have := hmain false (43 :: a :: r) (by simp [cstr, List.takeWhile_cons] at hcs ⊢; exact hcs)
      (by simp [List.dropWhile_cons, isspace]) rfl (by simp [cur])
    simpa using this
  · subst h
    have := hmain true (45 :: a :: r) (by simp [cstr, List.takeWhile_cons] at hcs ⊢; exact hcs)
      (by simp [List.dropWhile_cons, isspace]) rfl (by simp [cur])
    simpa using this

theorem mul_1000_whole (neg : Bool) (v k : Nat) :
    (Double.finite neg (v * 2 ^ k) (-(k : Int))).mul (Double.ofInt 1000) =
      round_ratio neg (v * 1000 * 2 ^ k) (2 ^ k) := by
  have e : Double.ofInt 1000 = Double.finite false 1000 0 := by decide
  rw [e, Double.mul]
  have hn : (neg != false) = neg := by cases neg <;> rfl
  rw [hn, add_zero]
  unfold round_dyadic
  have hm : v * 2 ^ k * 1000 = v * 1000 * 2 ^ k := by ring
  by_cases hk : k = 0
  · subst hk
    simp
  · have h1 : ¬ (0 ≤ -(k : Int)) := by omega
    have h2 : (- -(k : Int)).toNat = k := by omega
    rw [if_neg h1, h2, hm]

theorem to_signed_whole (neg : Bool) (v k : Nat) (h : v < 2 ^ 31) :
    (Double.finite neg (v * 2 ^ k) (-(k : Int))).to_signed 32 =
      some (if neg then -(v : Int) else (v : Int)) := by
  unfold Double.to_signed
  have ht : (if 0 ≤ -(k : Int) then v * 2 ^ k * 2 ^ (-(k : Int)).toNat
      else v * 2 ^ k / 2 ^ (- -(k : Int)).toNat) = v := by
    by_cases hk : k = 0
    · subst hk
      simp
    · have h1 : ¬ (0 ≤ -(k : Int)) := by omega
      have h2 : (- -(k : Int)).toNat = k := by omega
      rw [if_neg h1, h2]
      exact Nat.mul_div_cancel _ (by positivity)
  simp only [ht]
  have hr : -(2 : Int) ^ (32 - 1) ≤ (if neg = true then -(v : Int) else (v : Int)) ∧
      (if neg = true then -(v : Int) else (v : Int)) < (2 : Int) ^ (32 - 1) := by
    have h' : (v : Int) < 2 ^ 31 := by exact_mod_cast h
    cases neg
    · simp only [Bool.false_eq_true, if_false]
      constructor
      · have : (0 : Int) ≤ v := Int.natCast_nonneg v
        norm_num
        omega
      · norm_num at h' ⊢
        exact h'
    · simp only [if_true]
      norm_num at h' ⊢
      omega
  rw [if_pos hr]

theorem strcaseeq_whole (sign ds w : List Nat) (hs : sign = [] ∨ sign = [43] ∨ sign = [45])
    (hne : ds ≠ []) (hd : ∀ c ∈ ds, isdigit c = true)
    (hw : ∃ t, (cstr w).map tolower = 105 :: t) :
    strcaseeq (sign ++ ds) w = false := by
  obtain ⟨t, ht⟩ := hw
  obtain ⟨a, r, rfl⟩ : ∃ a r, ds = a :: r := by
    cases ds with
    | nil => exact absurd rfl hne
    | cons a r => exact ⟨a, r, rfl⟩
  obtain ⟨ha1, ha2, ha3, ha4⟩ := tolower_digit a (hd a (List.mem_cons_self _ _))
  unfold strcaseeq
  rw [ht]
  rcases hs with h | h | h <;> subst h
  · have : cstr ([] ++ a :: r) = a :: cstr r := by
      simp [cstr, List.takeWhile_cons, ha2]
    rw [this, List.map_cons, ha1]
    apply beq_eq_false_iff_ne.mpr
    intro h
    have := (List.cons.inj h).1
    omega
  · have : cstr ([43] ++ a :: r) = 43 :: cstr (a :: r) := by
      simp [cstr, List.takeWhile_cons]
    rw [this, List.map_cons]
    apply beq_eq_false_iff_ne.mpr
    intro h
    have := (List.cons.inj h).1
    revert this
    decide
  · have : cstr ([45] ++ a :: r) = 45 :: cstr (a :: r) := by
      simp [cstr, List.takeWhile_cons]
    rw [this, List.map_cons]
    apply beq_eq_false_iff_ne.mpr
    intro h
    have := (List.cons.inj h).1
    revert this
    decide

/-- For a whole number of seconds in decimal digits with an optional sign,
whose product with 1000 is an `int`, `parse_timeout` stores the number of
milliseconds, and -1 for zero and for a negative number. -/
theorem timeout_value_whole (sign ds : List Nat) (hs : sign = [] ∨ sign = [43] ∨ sign = [45])
    (hne : ds ≠ []) (hd : ∀ c ∈ ds, isdigit c = true) (hlt : decval ds * 1000 < 2 ^ 31) :
    (timeout_value (sign ++ ds)).to_signed 32 =
      some (if sign = [45] ∨ decval ds = 0 then -1 else (decval ds : Int) * 1000) := by
  have c1 : strcaseeq (sign ++ ds) (bytes "INF") = false :=
    strcaseeq_whole sign ds _ hs hne hd ⟨_, rfl⟩
  have c2 : strcaseeq (sign ++ ds) (bytes "INFINITY") = false :=
    strcaseeq_whole sign ds _ hs hne hd ⟨_, rfl⟩
  unfold timeout_value atof
  rw [c1, c2, strtod_whole sign ds hs hne hd]
  simp only [Bool.or_self, Bool.false_eq_true, if_false]
  by_cases h0 : decval ds = 0
  · rw [h0]
    simp only [or_true, if_true]
    have e : round_ratio (decide (sign = [45])) (0 * 2 ^ 0) (2 ^ 0) =
        Double.finite (decide (sign = [45])) 0 0 := by
      simp [round_ratio]
    rw [e]
    have e2 : (Double.finite (decide (sign = [45])) 0 0).mul (Double.ofInt 1000) =
        Double.finite (decide (sign = [45])) 0 0 := by
      have := mul_1000_whole (decide (sign = [45])) 0 0
      simp only [zero_mul, pow_zero, Nat.cast_zero, neg_zero] at this
      rw [this]
      simp [round_ratio]
    rw [e2]
    rfl
  · have hv : decval ds < 2 ^ 53 := by omega
    obtain ⟨k, hk⟩ := round_ratio_whole (decide (sign = [45])) (decval ds) 0 h0 hv
    rw [hk, mul_1000_whole]
    have hv2 : decval ds * 1000 ≠ 0 := by omega
    have hv3 : decval ds * 1000 < 2 ^ 53 := by omega
    obtain ⟨k2, hk2⟩ := round_ratio_whole (decide (sign = [45])) (decval ds * 1000) k hv2 hv3
    rw [hk2]
    have hm : decval ds * 1000 * 2 ^ k2 ≠ 0 := by positivity
    by_cases hneg : sign = [45]
    · simp only [hneg, decide_True, Double.is_zero, beq_iff_eq, hm, if_false, Double.is_negative,
        Bool.true_and, bne_iff_ne, ne_eq, not_false_eq_true, decide_True, if_true, true_or]
      rfl
    · simp only [hneg, decide_False, Double.is_zero, beq_iff_eq, hm, if_false, Double.is_negative,
        Bool.false_and, Bool.false_eq_true, false_or, h0]
      rw [to_signed_whole false (decval ds * 1000) k2 hlt]
      simp

/-- The call of `parse_timeout` for the option `timeout` with a whole number
of seconds: the three timeouts become the number of milliseconds, or -1. -/
theorem parse_timeout_whole (c : Config) (sign ds : List Nat)
    (hs : sign = [] ∨ sign = [43] ∨ sign = [45])
    (hne : ds ≠ []) (hd : ∀ c ∈ ds, isdigit c = true) (hlt : decval ds * 1000 < 2 ^ 31) :
    (parse_timeout c timeout_option (some (sign ++ ds))).map timeouts =
      Run.done
        (Value.num (if sign = [45] ∨ decval ds = 0 then -1 else (decval ds : Int) * 1000),
          Value.num (if sign = [45] ∨ decval ds = 0 then -1 else (decval ds : Int) * 1000),
          Value.num (if sign = [45] ∨ decval ds = 0 then -1 else (decval ds : Int) * 1000)) := by
  unfold parse_timeout
  simp only [timeout_value_whole sign ds hs hne hd hlt, timeout_option]
  rfl

/-! ## Quoted values in the configuration file -/

/-- C35 (code defect): for a value in quotes on a single line `_read_config`
passes the text after `=` to `set_long_option` as it stands, quotes and
backslashes included, because `linelen` is 0 there and the test
`vallen >= 2` fails; the same value assembled from continuation lines has its
quotes and backslashes removed.  With a blank after `=` the quotes stay in
both cases, and the blank is part of the value. -/
theorem C35_single_line_keeps_quotes :
    (read_config no_include [bytes "user-agent=\"Agent 1\"\n"] (config [])).map
      (fun c => c Var.user_agent) = Run.done (Value.str (some (bytes "\"Agent 1\""))) ∧
    (read_config no_include [bytes "user-agent=\"Agent \\\n", bytes "1\"\n"] (config [])).map
      (fun c => c Var.user_agent) = Run.done (Value.str (some (bytes "Agent 1"))) ∧
    (read_config no_include [bytes "user-agent='a\\'b'\n"] (config [])).map
      (fun c => c Var.user_agent) = Run.done (Value.str (some (bytes "'a\\'b'"))) ∧
    (read_config no_include [bytes "user-agent='a\\\n", bytes "\\'b'\n"] (config [])).map
      (fun c => c Var.user_agent) = Run.done (Value.str (some (bytes "a'b"))) ∧
    (read_config no_include [bytes "user-agent = \"Agent 1\"\n"] (config [])).map
      (fun c => c Var.user_agent) = Run.done (Value.str (some (bytes " \"Agent 1\""))) ∧
    (read_config no_include [bytes "user-agent = \"Agent \\\n", bytes "1\"\n"] (config [])).map
      (fun c => c Var.user_agent) = Run.done (Value.str (some (bytes " \"Agent 1\""))) ∧
    (read_config no_include [bytes "user-agent=Agent\n"] (config [])).map
      (fun c => c Var.user_agent) = Run.done (Value.str (some (bytes "Agent"))) := by
  decide

theorem trim_end_of_last (s : List Nat) (l : Nat) (h : s.getLast? = some l)
    (hl : isspace l = false) : trim_end s = s := by
  unfold trim_end
  have hr : s.reverse.head? = some l := by
    rw [List.head?_reverse]
    exact h
  cases hrev : s.reverse with
  | nil =>
    rw [hrev] at hr
    cases hr
  | cons a t =>
    rw [hrev] at hr
    simp only [List.head?_cons, Option.some.injEq] at hr
    subst hr
    rw [List.dropWhile_cons, hl]
    simp only [Bool.false_eq_true, if_false]
    rw [← hrev, List.reverse_reverse]

/-- A single line `name=val` read in the initial state of the line loop: the
text after `=` is passed to `set_long_option` as it stands, whether it is in
quotes or not. -/
theorem read_config_line_single (incl : List Nat → Config → Run Config) (c : Config)
    (name val : List Nat) (l : Nat)
    (hne : name ≠ []) (hlen : name.length ≤ 63)
    (hname : ∀ x ∈ name, (isalpha x || isdigit x || x == 45) = true)
    (hval : ∀ x ∈ val, x ≠ 0)
    (hlast : (61 :: val).getLast? = some l ∧ isspace l = false ∧ l ≠ 92) :
    read_config_line incl {} c (name ++ 61 :: val) =
      (set_long_option c name (some val)).map (fun r => ({}, r.1)) := by
  have hcls : ∀ x ∈ name, x ≠ 0 ∧ isspace x = false ∧ x ≠ 35 ∧ x ≠ 13 ∧ x ≠ 10 ∧ x ≠ 61 := by
    intro x hx
    have := hname x hx
    simp only [isalpha, isdigit, Bool.or_eq_true, Bool.and_eq_true, decide_eq_true_eq,
      beq_iff_eq] at this
    simp only [isspace, Bool.or_eq_false_iff, beq_eq_false_iff_ne, Bool.and_eq_false_iff,
      decide_eq_false_iff_not]
    omega
  obtain ⟨a, r, rfl⟩ : ∃ a r, name = a :: r := by
    cases name with
    | nil => exact absurd rfl hne
    | cons a r => exact ⟨a, r, rfl⟩
  obtain ⟨a0, asp, a35, a13, a10, a61⟩ := hcls a (List.mem_cons_self _ _)
  have hnn : ∀ x ∈ (a :: r) ++ 61 :: val, x ≠ 0 := by
    intro x hx
    rcases List.mem_append.mp hx with h | h
    · exact (hcls x h).1
    · rcases List.mem_cons.mp h with h | h
      · rw [h]
        decide
      · exact hval x h
  have hcs : cstr ((a :: r) ++ 61 :: val) = (a :: r) ++ 61 :: val := cstr_of_no_nul _ hnn
  have hlast2 : ((a :: r) ++ 61 :: val).getLast? = some l := by
    rw [List.getLast?_append_of_ne_nil _ (by simp)]
    exact hlast.1
  have htrim : trim_end ((a :: r) ++ 61 :: val) = (a :: r) ++ 61 :: val :=
    trim_end_of_last _ l hlast2 hlast.2.1
  have hdw : ((a :: r) ++ 61 :: val).dropWhile isspace = (a :: r) ++ 61 :: val := by
    simp [List.dropWhile_cons, asp]
  have hscan : scan_name ((a :: r) ++ 61 :: val) = some (a :: r, (a :: r).length) := by
    unfold scan_name scan_ws scan_set
    rw [hcs, hdw, hcs]
    have htw : ((a :: r) ++ 61 :: val).takeWhile (fun c => isalpha c || isdigit c || c == 45) =
        a :: r := by
      rw [takeWhile_append_of_all _ _ hname]
      simp [List.takeWhile_cons, isalpha, isdigit]
    rw [htw, List.take_of_length_le hlen]
    simp only [reduceCtorEq, if_false, List.drop_left']
    have : (61 :: val).dropWhile isspace = 61 :: val := by
      simp [List.dropWhile_cons, isspace]
    rw [this]
    simp
    omega
  have hvl : to_int (((0 : Nat) : Int) - (((a :: r).length + 1 : Nat) : Int)) < 2 := by
    unfold to_int
    have : (a :: r).length ≤ 63 := hlen
    omega
  unfold read_config_line
  simp only [hcs]
  have hl0 : ¬ (((a :: r) ++ 61 :: val).length = 0 ∨ cur ((a :: r) ++ 61 :: val) = 13 ∨
      cur ((a :: r) ++ 61 :: val) = 10) := by
    simp [cur, a13, a10]
  rw [if_neg hl0]
  simp only [Bool.false_eq_true, if_false, hdw]
  have h35 : ¬ (cur ((a :: r) ++ 61 :: val) = 35) := by
    simp [cur, a35]
  rw [if_neg h35]
  simp only [htrim, and_false, if_false, hlast2, Option.some.injEq, hlast.2.2, hscan]
  have hd1 : cur (List.drop (a :: r).length ((a :: r) ++ 61 :: val)) = 61 := by
    rw [List.drop_left']
    rfl
    rfl
  have hd2 : List.drop ((a :: r).length + 1) ((a :: r) ++ 61 :: val) = val := by
    rw [← List.drop_drop, List.drop_left']
    rfl
    rfl
  simp only [hd1, if_true, hd2]
  have hnot : ¬ (2 ≤ to_int (((0 : Nat) : Int) - (((a :: r).length + 1 : Nat) : Int)) ∧
      (cur val = 34 ∨ cur val = 39)) := by
    intro h
    omega
  simp only [hnot, if_false]
  cases set_long_option c (a :: r) (some val) <;> rfl

/-! ## The response is returned -/

/-- For a header block made of a status line and header lines on which the
content-type parser returns, and that declares a `Content-Type` whenever it
declares the content coding gzip, `http_parse_response` returns a response; it
carries the sequences and the location the header loop has built. -/
theorem http_parse_response_returns (now : Int) (a b c reason : List Nat)
    (lines : List (List Nat))
    (ha : is_number a) (hb : is_number b) (hc : is_number c) (hr : is_reason reason)
    (hl : ∀ l ∈ lines, is_header_line l)
    (hret : ∀ l ∈ lines, is_named "Content-Type" l = true →
      (http_parse_content_type (header_value l)).isSome = true)
    (hct : encoding_of lines = ContentEncoding.mget_content_encoding_gzip →
      (content_type_of lines).isSome = true) :
    ∃ r : MGET_HTTP_RESPONSE,
      http_parse_response now (header_block (status_line a b c reason) lines) =
        ParseResult.resp r ∧
      r.cookies = cookies_of now lines ∧ r.digests = digests_of lines ∧
      r.challenges = challenges_of lines ∧
      r.links = (if 300 ≤ decval c ∧ decval c ≤ 399 then links_of lines else []) ∧
      r.location = (if 300 ≤ decval c ∧ decval c ≤ 399 then location_of lines else none) := by
  have hex : ∃ r : MGET_HTTP_RESPONSE,
      http_parse_response now (header_block (status_line a b c reason) lines) =
        ParseResult.resp r := by
    rw [http_parse_response_lines now a b c reason lines ha hb hc hr hl]
    obtain ⟨r0, hf⟩ := foldlM_returns now lines (status_response a b c reason) hret
    obtain ⟨f1, f2⟩ := foldlM_encoding now lines _ r0 hf
    have g1 : r0.content_encoding = encoding_of lines := by
      rw [f1]; rfl
    have g2 : r0.content_type = content_type_of lines := by
      rw [f2]; simp [status_response, content_type_of]
    simp only [hf]
    unfold gzip_workaround
    by_cases hg : encoding_of lines = ContentEncoding.mget_content_encoding_gzip
    · obtain ⟨ct, hct1⟩ := Option.isSome_iff_exists.mp (hct hg)
      rw [hct1] at g2
      simp only [g1, hg, if_true, g2, true_and]
      by_cases hx : strcaseeq ct (bytes "application/x-gzip") = true
      · simp only [hx, if_true]
        exact ⟨_, rfl⟩
      · simp only [hx, Bool.false_eq_true, if_false]
        exact ⟨_, rfl⟩
    · simp only [g1, hg, if_false, false_and]
      exact ⟨_, rfl⟩
  obtain ⟨r, h⟩ := hex
  obtain ⟨g1, g2, g3, g4, g5⟩ :=
    (http_parse_response_lines_result now a b c reason lines ha hb hc hr hl).2 r h
  have hiff : cdiv (decval c : Int) 100 = 3 ↔ (300 ≤ decval c ∧ decval c ≤ 399) := by
    rw [cdiv_100_eq_three_iff]
    omega
  refine ⟨r, h, g1, g2, g3, ?_, ?_⟩
  · rw [g4]
    by_cases h3 : 300 ≤ decval c ∧ decval c ≤ 399
    · rw [if_pos h3, if_pos (hiff.mpr h3)]
    · rw [if_neg h3, if_neg (fun h4 => h3 (hiff.mp h4))]
  · rw [g5]
    by_cases h3 : 300 ≤ decval c ∧ decval c ≤ 399
    · rw [if_pos h3, if_pos (hiff.mpr h3)]
    · rw [if_neg h3, if_neg (fun h4 => h3 (hiff.mp h4))]

/-- The location parser returns the first blank-free run of the value. -/
theorem http_parse_location_run (blanks run tail : List Nat)
    (hblanks : ∀ x ∈ blanks, isblank x = true) (hne : run ≠ [])
    (hrun : ∀ x ∈ run, x ≠ 0 ∧ isblank x = false)
    (htail : isblank (cur tail) = true ∨ cur tail = 0) :
    (http_parse_location (blanks ++ run ++ tail)).2 = run := by
  have hstop : (fun c => c != 0 && !isblank c) (cur tail) = false := by
    rcases htail with h | h
    · simp [h]
    · simp [h]
  have hrunp : ∀ x ∈ run, (fun c => c != 0 && !isblank c) x = true := by
    intro x hx
    have := hrun x hx
    simp [this.1, this.2]
  have hdw : (blanks ++ run ++ tail).dropWhile isblank = run ++ tail := by
    cases run with
    | nil => exact absurd rfl hne
    | cons x run =>
      rw [List.append_assoc, List.cons_append]
      exact dropWhile_append_stop blanks _ x hblanks (hrun x (List.mem_cons_self _ _)).2
  unfold http_parse_location
  simp only [hdw]
  cases tail with
  | nil =>
    rw [List.append_nil]
    exact List.takeWhile_eq_self_iff.mpr hrunp
  | cons t tail =>
    simp only [cur, List.headD_cons] at hstop
    exact takeWhile_append_stop run tail t hrunp hstop

/-- C10: for a header block made of a status line and well-formed header lines
(on which the content-type parser returns, and with a `Content-Type` whenever
the content coding gzip is declared), `http_parse_response` returns a response,
and that response holds in `cookies`, `digests` and `challenges` (and in
`links` on a 3xx response) exactly one entry per `Set-Cookie`, `Digest`,
`WWW-Authenticate` (`Link`) line: the parse of the value of that line, in the
order of the lines. -/
theorem C10_repeated_headers_in_order (now : Int) (a b c reason : List Nat)
    (lines : List (List Nat))
    (ha : is_number a) (hb : is_number b) (hc : is_number c) (hr : is_reason reason)
    (hl : ∀ l ∈ lines, is_header_line l)
    (hret : ∀ l ∈ lines, is_named "Content-Type" l = true →
      (http_parse_content_type (header_value l)).isSome = true)
    (hct : encoding_of lines = ContentEncoding.mget_content_encoding_gzip →
      (content_type_of lines).isSome = true) :
    ∃ r : MGET_HTTP_RESPONSE,
      http_parse_response now (header_block (status_line a b c reason) lines) =
        ParseResult.resp r ∧
      r.cookies =
        (lines.filter (is_named "Set-Cookie")).map
          (fun l => (http_parse_setcookie now (header_value l)).2) ∧
      r.digests =
        (lines.filter (is_named "Digest")).map (fun l => (http_parse_digest (header_value l)).2) ∧
      r.challenges =
        (lines.filter (is_named "WWW-Authenticate")).map
          (fun l => (http_parse_challenge (header_value l)).2) ∧
      (300 ≤ decval c ∧ decval c ≤ 399 →
        r.links =
          (lines.filter (is_named "Link")).map (fun l => (http_parse_link (header_value l)).2)) ∧
      r.cookies.length = (lines.filter (is_named "Set-Cookie")).length ∧
      r.digests.length = (lines.filter (is_named "Digest")).length ∧
      r.challenges.length = (lines.filter (is_named "WWW-Authenticate")).length ∧
      (300 ≤ decval c ∧ decval c ≤ 399 →
        r.links.length = (lines.filter (is_named "Link")).length) := by
  obtain ⟨r, h, g1, g2, g3, g4, _⟩ :=
    http_parse_response_returns now a b c reason lines ha hb hc hr hl hret hct
  refine ⟨r, h, g1, g2, g3, ?_, ?_, ?_, ?_, ?_⟩
  · intro h3
    rw [g4, if_pos h3]
    rfl
  · rw [g1]
    simp [cookies_of]
  · rw [g2]
    simp [digests_of]
  · rw [g3]
    simp [challenges_of]
  · intro h3
    rw [g4, if_pos h3]
    simp [links_of]

set_option maxRecDepth 4000 in
/-- C10 at a 302 response with two cookies, a digest, a link and two
challenges among its header lines: the response that is returned. -/
theorem C10_repeated_headers_in_order_witness :
    (∃ r : MGET_HTTP_RESPONSE,
      http_parse_response 0
          (header_block (status_line (bytes "1") (bytes "1") (bytes "302") (bytes "Found"))
            sample_lines) = ParseResult.resp r ∧
      r.cookies =
        (sample_lines.filter (is_named "Set-Cookie")).map
          (fun l => (http_parse_setcookie 0 (header_value l)).2) ∧
      r.digests =
        (sample_lines.filter (is_named "Digest")).map
          (fun l => (http_parse_digest (header_value l)).2) ∧
      r.challenges =
        (sample_lines.filter (is_named "WWW-Authenticate")).map
          (fun l => (http_parse_challenge (header_value l)).2) ∧
      (300 ≤ decval (bytes "302") ∧ decval (bytes "302") ≤ 399 →
        r.links =
          (sample_lines.filter (is_named "Link")).map
            (fun l => (http_parse_link (header_value l)).2)) ∧
      r.cookies.length = (sample_lines.filter (is_named "Set-Cookie")).length ∧
      r.digests.length = (sample_lines.filter (is_named "Digest")).length ∧
      r.challenges.length = (sample_lines.filter (is_named "WWW-Authenticate")).length ∧
      (300 ≤ decval (bytes "302") ∧ decval (bytes "302") ≤ 399 →
        r.links.length = (sample_lines.filter (is_named "Link")).length)) ∧
    (300 ≤ decval (bytes "302") ∧ decval (bytes "302") ≤ 399) ∧
    http_parse_response 0
        (header_block (status_line (bytes "1") (bytes "1") (bytes "302") (bytes "Found"))
          sample_lines) =
      ParseResult.resp
        { major := 1, minor := 1, code := 302, reason := bytes "Found",
          cookies := [{ name := some (bytes "a"), value := some (bytes "1") },
                      { name := some (bytes "b"), value := some (bytes "2") }],
          digests := [{ algorithm := some (bytes "md5"), encoded_digest := some (bytes "abc") }],
          links := [{ uri := some (bytes "http://a/b"), pri := 2,
                      rel := LinkRel.link_rel_duplicate }],
          challenges :=
            [{ auth_scheme := some (bytes "Basic"),
               params := some [(bytes "realm", some (bytes "x"))] },
             { auth_scheme := some (bytes "Digest"),
               params := some [(bytes "realm", some (bytes "y"))] }],
          content_length := 5, content_length_valid := true } :=
  ⟨C10_repeated_headers_in_order 0 (bytes "1") (bytes "1") (bytes "302") (bytes "Found")
      sample_lines (by decide) (by decide) (by decide) (by decide) (by decide) (by decide)
      (by decide),
    by decide, by decide⟩

/-- C9, amended: `http_parse_response` hands a `Location` line to the location
parser and a `Link` line to the link parser only when the status code is 3xx.
For a header block made of a status line and well-formed header lines (on
which the content-type parser returns, and with a `Content-Type` whenever the
content coding gzip is declared) it returns a response; when the status code
is 3xx, `location` is the location of the last `Location` line and `links`
holds one entry per `Link` line, in order; for any other status code
`location` stays unset and `links` stays empty.  The location parser returns
the first blank-free run of the value. -/
theorem C9_location_and_link_on_3xx (now : Int) (a b c reason : List Nat)
    (lines : List (List Nat)) (blanks run tail : List Nat)
    (ha : is_number a) (hb : is_number b) (hc : is_number c) (hr : is_reason reason)
    (hl : ∀ l ∈ lines, is_header_line l)
    (hret : ∀ l ∈ lines, is_named "Content-Type" l = true →
      (http_parse_content_type (header_value l)).isSome = true)
    (hct : encoding_of lines = ContentEncoding.mget_content_encoding_gzip →
      (content_type_of lines).isSome = true)
    (hblanks : ∀ x ∈ blanks, isblank x = true) (hne : run ≠ [])
    (hrun : ∀ x ∈ run, x ≠ 0 ∧ isblank x = false)
    (htail : isblank (cur tail) = true ∨ cur tail = 0) :
    (∃ r : MGET_HTTP_RESPONSE,
      http_parse_response now (header_block (status_line a b c reason) lines) =
        ParseResult.resp r ∧
      r.location =
        (if 300 ≤ decval c ∧ decval c ≤ 399 then
          ((lines.filter (is_named "Location")).map
            (fun l => (http_parse_location (header_value l)).2)).getLast?
        else none) ∧
      r.links =
        (if 300 ≤ decval c ∧ decval c ≤ 399 then
          (lines.filter (is_named "Link")).map (fun l => (http_parse_link (header_value l)).2)
        else [])) ∧
    (http_parse_location (blanks ++ run ++ tail)).2 = run := by
  obtain ⟨r, h, _, _, _, g4, g5⟩ :=
    http_parse_response_returns now a b c reason lines ha hb hc hr hl hret hct
  exact ⟨⟨r, h, g5, g4⟩, http_parse_location_run blanks run tail hblanks hne hrun htail⟩

set_option maxRecDepth 4000 in
/-- C9 at scenario 3 of the specification (a 302 response with a `Location`
and a `Link` line), at the same lines after the status code 200, and at the
value ` /next x`. -/
theorem C9_location_and_link_on_3xx_witness :
    ((∃ r : MGET_HTTP_RESPONSE,
      http_parse_response 0
          (header_block (status_line (bytes "1") (bytes "1") (bytes "302") (bytes "Found"))
            redirect_lines) = ParseResult.resp r ∧
      r.location =
        (if 300 ≤ decval (bytes "302") ∧ decval (bytes "302") ≤ 399 then
          ((redirect_lines.filter (is_named "Location")).map
            (fun l => (http_parse_location (header_value l)).2)).getLast?
        else none) ∧
      r.links =
        (if 300 ≤ decval (bytes "302") ∧ decval (bytes "302") ≤ 399 then
          (redirect_lines.filter (is_named "Link")).map
            (fun l => (http_parse_link (header_value l)).2)
        else [])) ∧
    (http_parse_location (bytes " " ++ bytes "/next" ++ bytes " x")).2 = bytes "/next") ∧
    http_parse_response 0
        (header_block (status_line (bytes "1") (bytes "1") (bytes "302") (bytes "Found"))
          redirect_lines) =
      ParseResult.resp
        { major := 1, minor := 1, code := 302, reason := bytes "Found",
          location := some (bytes "/next"),
          links := [{ uri := some (bytes "http://a/b"), pri := 2,
                      rel := LinkRel.link_rel_duplicate }] } ∧
    http_parse_response 0
        (header_block (status_line (bytes "1") (bytes "1") (bytes "200") (bytes "OK"))
          redirect_lines) =
      ParseResult.resp { major := 1, minor := 1, code := 200, reason := bytes "OK" } :=
  ⟨C9_location_and_link_on_3xx 0 (bytes "1") (bytes "1") (bytes "302") (bytes "Found")
      redirect_lines (bytes " ") (bytes "/next") (bytes " x")
      (by decide) (by decide) (by decide) (by decide) (by decide) (by decide) (by decide)
      (by decide) (by decide) (by decide) (by decide),
    by decide, by decide⟩

end Mget
